import Mathlib

/-!
# BansheeEngine GUI manager: event routing and mesh batching

A shallow embedding of `GUIManager` (Source/BansheeEngine/Source/BsGUIManager.cpp).

Conventions of the embedding:

* C++ pointers (`GUIElement*`, `GUIWidget*`, `RenderWindow*`) are natural numbers, `0` is
  `nullptr`. Two pointers are the same object exactly when the numbers are equal.
* Everything the manager reads through a pointer (virtual getters of elements and widgets,
  platform queries, the handlers of the elements) is a field of `World`. A `World` is fixed
  for the duration of one manager call: handlers answer "consumed" or not, they do not call
  back into the manager.
* `UINT32` depths are only compared, so they are plain natural numbers.
* The events really delivered to element handlers are recorded, oldest first, in the ghost
  field `GUIManager.sent`.
* `GUIManager::update` is the one place where elements change while the manager runs:
  command handlers and destructors may ask for the destruction of elements. The destroyed
  flags set since the `World` was observed and the destruction queue are part of
  `FrameState`.
* The map `mCachedGUIData` is the list of its entries in order of insertion, and loops over
  it follow that order. A mesh is a handle handed out by the model of the mesh heap.
* Handlers and destructors do not call `setFocus`, `registerWidget` or `unregisterWidget`;
  these arrive as calls of their own (`ManagerCall`).
* The maps `mInputBridge` and `mPerCameraData` are the lists of their entries; a loop without
  bound (`getBridgeWindow`) is run for a given number of passes and answers `none` when it
  has not returned by then.
-/

namespace BansheeEngine

/-! ## Geometry -/

/-- Integer 2D vector (`Vector2I`). -/
structure Vector2I where
  x : Int := 0
  y : Int := 0
deriving DecidableEq, Repr

/-- Modelled from the spec: `Vector2I::manhattanDist` (BsVector2I.h is not part of the sources
at hand). The Manhattan distance between two positions. -/
def Vector2I.manhattanDist (a other : Vector2I) : Nat :=
  (other.x - a.x).natAbs + (other.y - a.y).natAbs

/-- Modelled from the spec: `operator-` of `Vector2I` (BsVector2I.h is not part of the sources
at hand), the componentwise difference. -/
def Vector2I.sub (a b : Vector2I) : Vector2I := { x := a.x - b.x, y := a.y - b.y }

/-- Modelled from the spec: `Rect2I` (BsRect2I.h is not part of the sources at hand). An
axis-aligned screen-space rectangle with integer origin and non-negative extent. -/
structure Rect2I where
  x : Int := 0
  y : Int := 0
  width : Nat := 0
  height : Nat := 0
deriving DecidableEq, Repr

/-- Modelled from the spec: `Rect2I::overlaps`, true when the two rectangles share interior
area. -/
def Rect2I.overlaps (r other : Rect2I) : Bool :=
  let otherRight := other.x + other.width
  let myRight := r.x + r.width
  let otherBottom := other.y + other.height
  let myBottom := r.y + r.height
  decide (r.x < otherRight) && decide (myRight > other.x) &&
    decide (r.y < otherBottom) && decide (myBottom > other.y)

/-- Modelled from the spec: `Rect2I::encapsulate`, the bounding box of the union of the two
rectangles. -/
def Rect2I.encapsulate (r other : Rect2I) : Rect2I :=
  let myRight := r.x + r.width
  let myBottom := r.y + r.height
  let otherRight := other.x + other.width
  let otherBottom := other.y + other.height
  let nx := if other.x < r.x then other.x else r.x
  let ny := if other.y < r.y then other.y else r.y
  { x := nx
    y := ny
    width := if otherRight > myRight then (otherRight - nx).toNat else (myRight - nx).toNat
    height := if otherBottom > myBottom then (otherBottom - ny).toNat else (myBottom - ny).toNat }

/-! ## Materials and events -/

/-- Key of a sprite material (`SpriteMaterialInfo`); two infos are the same material when all
fields agree. -/
structure SpriteMaterialInfo where
  type : Nat := 0
  texture : Nat := 0
  tint : Nat := 0
deriving DecidableEq, Repr

/-- Mouse buttons known to the GUI (`GUIMouseButton`). -/
inductive GUIMouseButton where
  | Left
  | Middle
  | Right
deriving DecidableEq, Repr

/-- Buttons of a platform pointer event (`PointerEventButton`); `Other` stands for every
enumerator value the GUI does not support. -/
inductive PointerEventButton where
  | Left
  | Middle
  | Right
  | Other (raw : Nat)
deriving DecidableEq, Repr

/-- Cursor glyphs (`CursorType`); `Other` stands for every glyph the manager does not name. -/
inductive CursorType where
  | Arrow
  | ArrowDrag
  | Deny
  | Other (raw : Nat)
deriving DecidableEq, Repr

/-- `GUIManager::DragState`. -/
inductive DragState where
  | NoDrag
  | HeldWithoutDrag
  | Dragging
deriving DecidableEq, Repr

/-- Payload of a `GUIMouseEvent`, one constructor per `set...Data` call of the manager. The
wheel amount is a float in the source and a rational here. -/
inductive GUIMouseEventData where
  | None
  | MouseOver (pos : Vector2I)
  | MouseOut (pos : Vector2I)
  | MouseMove (pos : Vector2I)
  | MouseWheelScroll (amount : Rat)
  | MouseDown (pos : Vector2I) (button : GUIMouseButton)
  | MouseUp (pos : Vector2I) (button : GUIMouseButton)
  | MouseDoubleClick (pos : Vector2I) (button : GUIMouseButton)
  | MouseDrag (pos : Vector2I) (dragAmount : Vector2I)
  | MouseDragStart (pos : Vector2I) (dragStartPos : Vector2I)
  | MouseDragEnd (pos : Vector2I)
  | DragAndDropDragged (pos : Vector2I)
  | DragAndDropDropped (pos : Vector2I)
  | DragAndDropLeft (pos : Vector2I)
deriving DecidableEq, Repr

/-- A `GUIMouseEvent`: the modifier snapshot given to the constructor plus the payload set
afterwards. -/
structure GUIMouseEvent where
  buttonStates : Bool × Bool × Bool := (false, false, false)
  shift : Bool := false
  control : Bool := false
  alt : Bool := false
  data : GUIMouseEventData := GUIMouseEventData.None
deriving DecidableEq, Repr

/-- `GUICommandEventType`, restricted to the values the manager itself produces. -/
inductive GUICommandEventType where
  | Redraw
  | FocusLost
  | FocusGained
  | Input (code : Nat)
deriving DecidableEq, Repr

/-- One delivered event: what an element handler was invoked with. -/
inductive GUIEvent where
  | mouse (ev : GUIMouseEvent)
  | command (type : GUICommandEventType)
  | textInput (char : Nat)
  | virtualButton (button : Nat)
deriving DecidableEq, Repr

/-- A platform pointer event (`PointerEvent`). `used` is the mutable "handled" mark. -/
structure PointerEvent where
  screenPos : Vector2I := {}
  button : PointerEventButton := PointerEventButton.Left
  buttonStates : Bool × Bool × Bool := (false, false, false)
  shift : Bool := false
  control : Bool := false
  alt : Bool := false
  mouseWheelScrollAmount : Rat := 0
  used : Bool := false
deriving DecidableEq, Repr

/-! ## The world the manager looks at -/

/-- Everything the manager obtains by calling through element, widget and platform
interfaces. Elements and widgets are identified by their address. -/
structure World where
  /-- The call `GUIWidget::getElements`. -/
  widgetElements : Nat → List Nat := fun _ => []
  /-- The call `GUIWidget::inBounds`. -/
  widgetInBounds : Nat → Vector2I → Bool := fun _ _ => false
  /-- The call `GUIElement::_isVisible`. -/
  isVisible : Nat → Bool := fun _ => true
  /-- The call `GUIElement::_isDestroyed`. -/
  isDestroyed : Nat → Bool := fun _ => false
  /-- The call `GUIElement::_isInBounds`. -/
  isInBounds : Nat → Vector2I → Bool := fun _ _ => false
  /-- The call `GUIElement::_getDepth`. -/
  depth : Nat → Nat := fun _ => 0
  /-- The call `GUIElement::_getParentWidget`. -/
  parentWidget : Nat → Nat := fun _ => 0
  /-- The call `GUIElement::_getNumRenderElements`. -/
  numRenderElements : Nat → Nat := fun _ => 1
  /-- The call `GUIElement::_getRenderElementDepth`. -/
  renderElementDepth : Nat → Nat → Nat := fun _ _ => 0
  /-- The call `GUIElement::_getMaterial`. -/
  material : Nat → Nat → SpriteMaterialInfo := fun _ _ => {}
  /-- The call `GUIElement::_getNumQuads`. -/
  numQuads : Nat → Nat → Nat := fun _ _ => 0
  /-- The call `GUIElement::_getClippedBounds`. -/
  clippedBounds : Nat → Rect2I := fun _ => {}
  /-- The call `Rect2I::transform` with the world transform of the given widget. -/
  rectTransform : Nat → Rect2I → Rect2I := fun _ r => r
  /-- The handler `GUIElement::_mouseEvent`; the result is "consumed". -/
  mouseEvent : Nat → GUIMouseEvent → Bool := fun _ _ => false
  /-- The handler `GUIElement::_commandEvent`. -/
  commandEvent : Nat → GUICommandEventType → Bool := fun _ _ => false
  /-- The handler `GUIElement::_textInputEvent`, given the character of the event. -/
  textInputEvent : Nat → Nat → Bool := fun _ _ => false
  /-- The handler `GUIElement::_virtualButtonEvent`, given the button of the event. -/
  virtualButtonEvent : Nat → Nat → Bool := fun _ _ => false
  /-- The result of `GUIManager::getWidgetWindow` for a widget, `0` when it has no window. -/
  getWidgetWindow : Nat → Nat := fun _ => 0
  /-- The call `Platform::isPointOverWindow`. -/
  isPointOverWindow : Nat → Vector2I → Bool := fun _ _ => false
  /-- The call `RenderWindow::screenToWindowPos`. -/
  screenToWindowPos : Nat → Vector2I → Vector2I := fun _ p => p
  /-- The result of `GUIManager::windowToBridgedCoords` for the render target of a widget. -/
  windowToBridgedCoords : Nat → Vector2I → Vector2I := fun _ p => p
  /-- Inverse world transform of a widget applied to a position, rounded to integers. -/
  worldToLocal : Nat → Vector2I → Vector2I := fun _ p => p
  /-- The call `DragAndDropManager::isDragInProgress`. -/
  isDragInProgress : Bool := false
  /-- The call `DragAndDropManager::needsValidDropTarget`. -/
  needsValidDropTarget : Bool := false
  /-- The call `GUIElement::_acceptDragAndDrop` for the active drag type. -/
  acceptDragAndDrop : Nat → Vector2I → Bool := fun _ _ => false
  /-- The call `GUIElement::_hasCustomCursor`; `none` when the element declares no cursor. -/
  hasCustomCursor : Nat → Vector2I → Option CursorType := fun _ _ => none
  /-- True when `GUIElement::_getContextMenu` returns a menu. -/
  hasContextMenu : Nat → Bool := fun _ => false
  /-- The elements the handler `GUIElement::_commandEvent` of an element asks to destroy
  while it handles an event of the given type, in order. -/
  commandDestroys : Nat → GUICommandEventType → List Nat := fun _ _ => []
  /-- The elements the destructor of an element asks to destroy, in order. -/
  destructorDestroys : Nat → List Nat := fun _ => []
  /-- The call `GUIWidget::getTarget`: the viewport the widget renders to, `0` when it has
  none. -/
  getTarget : Nat → Nat := fun _ => 0
  /-- The call `GUIWidget::getCamera`, `0` when the widget has no camera. -/
  widgetCamera : Nat → Nat := fun _ => 0
  /-- The call `isLoaded` on a texture handle. -/
  textureLoaded : Nat → Bool := fun _ => true
  /-- The memory address of the material group stored at a position of `materialGroups`. -/
  groupAddress : Nat → Nat := fun i => i
  /-- The call `Viewport::getTarget`: the render target of a viewport, `0` when it has none. -/
  viewportTarget : Nat → Nat := fun _ => 0
  /-- The call `getProperties().isWindow()` on a render target. -/
  isWindow : Nat → Bool := fun _ => false

/-! ## Mesh batching (`GUIManager::updateMeshes`) -/

/-- One render element of a GUI element (`GUIGroupElement`). -/
structure GUIGroupElement where
  element : Nat
  renderElement : Nat
deriving DecidableEq, Repr

/-- A batch under construction (`GUIMaterialGroup`). -/
structure GUIMaterialGroup where
  matInfo : SpriteMaterialInfo
  numQuads : Nat
  depth : Nat
  minDepth : Nat
  bounds : Rect2I
  elements : List GUIGroupElement
deriving DecidableEq, Repr

/-- Depth of a render element, `_getRenderElementDepth`. -/
def elemDepth (w : World) (e : GUIGroupElement) : Nat :=
  w.renderElementDepth e.element e.renderElement

/-- The comparator `elemComp`: farthest first, then by element address and render element
index, both descending. -/
def elemComp (w : World) (a b : GUIGroupElement) : Bool :=
  let aDepth := elemDepth w a
  let bDepth := elemDepth w b
  decide (aDepth > bDepth) ||
    (decide (aDepth = bDepth) && decide (a.element > b.element)) ||
    (decide (aDepth = bDepth) && decide (a.element = b.element) &&
      decide (a.renderElement > b.renderElement))

/-- Insertion into an ordered set with unique keys (`std::set::insert`), the set kept as the
list of its members in iteration order. A member equivalent to `x` blocks the insertion. -/
def setInsert {α : Type} (comp : α → α → Bool) (x : α) : List α → List α
  | [] => [x]
  | y :: ys =>
    if comp x y then x :: y :: ys
    else if comp y x then y :: setInsert comp x ys
    else y :: ys

/-- The render elements visited by the three nested collection loops, in visiting order:
every render element index of every visible element of every widget. -/
def visibleRenderElements (w : World) (widgets : List Nat) : List GUIGroupElement :=
  widgets.flatMap fun widget =>
    ((w.widgetElements widget).filter fun element => w.isVisible element).flatMap fun element =>
      (List.range (w.numRenderElements element)).map fun i =>
        { element := element, renderElement := i }

/-- The set `allElements` after the collection loops. -/
def allElements (w : World) (widgets : List Nat) : List GUIGroupElement :=
  (visibleRenderElements w widgets).foldl (fun s x => setInsert (elemComp w) x s) []

/-- Bounds of an element moved by the world transform of its parent widget. -/
def tfrmedBounds (w : World) (guiElem : Nat) : Rect2I :=
  w.rectTransform (w.parentWidget guiElem) (w.clippedBounds guiElem)

/-- The depth window test of the overlap scan. -/
def depthInWindow (matGroup : GUIMaterialGroup) (startDepth endDepth : Nat) : Bool :=
  (decide (matGroup.minDepth ≥ startDepth) && decide (matGroup.minDepth ≤ endDepth)) ||
    (decide (matGroup.depth ≥ startDepth) && decide (matGroup.depth ≤ endDepth))

/-- The scan over all groups of all materials that sets `foundOverlap`. `materialGroups` is
kept as the list of all groups in creation order, so a group is identified by its position;
`gi` is the position of the candidate group, which the scan skips. -/
def foundOverlap (groups : List GUIMaterialGroup) (gi startDepth endDepth : Nat)
    (potentialGroupBounds : Rect2I) : Bool :=
  groups.enum.any fun jg =>
    decide (jg.1 ≠ gi) && depthInWindow jg.2 startDepth endDepth &&
      jg.2.bounds.overlaps potentialGroupBounds

/-- The widget filter applied when meshes are separated by widget: a non-empty group whose
first element has another parent widget is skipped. -/
def otherWidget (w : World) (separateMeshesByWidget : Bool) (group : GUIMaterialGroup)
    (guiElem : Nat) : Bool :=
  separateMeshesByWidget &&
    match group.elements.head? with
    | some otherElem => decide (w.parentWidget otherElem.element ≠ w.parentWidget guiElem)
    | none => false

/-- Body of the candidate loop for one group: is the group at position `gi` taken for the
render element `elem`? -/
def groupFits (w : World) (separateMeshesByWidget : Bool) (groups : List GUIMaterialGroup)
    (elem : GUIGroupElement) (gi : Nat) (group : GUIMaterialGroup) : Bool :=
  if otherWidget w separateMeshesByWidget group elem.element then false
  else if group.depth = elemDepth w elem then true
  else !foundOverlap groups gi (elemDepth w elem) group.depth
      (group.bounds.encapsulate (tfrmedBounds w elem.element))

/-- The candidate loop: the groups of the material of `elem` are tried from the newest to the
oldest and the position of the first one that fits is returned. -/
def findGroup (w : World) (separateMeshesByWidget : Bool) (groups : List GUIMaterialGroup)
    (elem : GUIGroupElement) : Option Nat :=
  ((groups.enum.reverse.filter fun jg =>
      decide (jg.2.matInfo = w.material elem.element elem.renderElement)).find? fun jg =>
      groupFits w separateMeshesByWidget groups elem jg.1 jg.2).map Prod.fst

/-- A fresh group holding only `elem`. -/
def newGroup (w : World) (elem : GUIGroupElement) : GUIMaterialGroup :=
  { matInfo := w.material elem.element elem.renderElement
    numQuads := w.numQuads elem.element elem.renderElement
    depth := elemDepth w elem
    minDepth := elemDepth w elem
    bounds := tfrmedBounds w elem.element
    elements := [elem] }

/-- The group `group` after `elem` joined it. -/
def addToGroup (w : World) (elem : GUIGroupElement) (group : GUIMaterialGroup) :
    GUIMaterialGroup :=
  { group with
    bounds := group.bounds.encapsulate (tfrmedBounds w elem.element)
    elements := group.elements ++ [elem]
    minDepth := min group.minDepth (elemDepth w elem)
    numQuads := group.numQuads + w.numQuads elem.element elem.renderElement }

/-- One pass of the grouping loop: `elem` joins the group found for it or opens a new one. -/
def insertElement (w : World) (separateMeshesByWidget : Bool) (groups : List GUIMaterialGroup)
    (elem : GUIGroupElement) : List GUIMaterialGroup :=
  match findGroup w separateMeshesByWidget groups elem with
  | none => groups ++ [newGroup w elem]
  | some gi => List.modify (addToGroup w elem) gi groups

/-- All groups after the grouping loop, in creation order. -/
def materialGroups (w : World) (separateMeshesByWidget : Bool) (widgets : List Nat) :
    List GUIMaterialGroup :=
  (allElements w widgets).foldl (insertElement w separateMeshesByWidget) []

/-- The comparator `groupComp` on groups tagged with their position; `addr` gives the memory
address of the group stored at a position. -/
def groupComp (addr : Nat → Nat) (a b : Nat × GUIMaterialGroup) : Bool :=
  decide (a.2.depth > b.2.depth) ||
    (decide (a.2.depth = b.2.depth) && decide (addr a.1 > addr b.1))

/-- The set `sortedGroups`: the final draw order, each group with its position in creation
order. -/
def sortedGroups (addr : Nat → Nat) (groups : List GUIMaterialGroup) :
    List (Nat × GUIMaterialGroup) :=
  groups.enum.foldl (fun s x => setInsert (groupComp addr) x s) []

/-- The draw order computed by `updateMeshes` for the widgets of one dirty render target. -/
def drawOrder (w : World) (separateMeshesByWidget : Bool) (addr : Nat → Nat)
    (widgets : List Nat) : List (Nat × GUIMaterialGroup) :=
  sortedGroups addr (materialGroups w separateMeshesByWidget widgets)

/-! ## Pointer routing state -/

/-- An element with the widget it was found in (`ElementInfo`). -/
structure ElementInfo where
  element : Nat
  widget : Nat
deriving DecidableEq, Repr

/-- A focused element (`ElementFocusInfo`); `usesFocus` records that its focus-gained handler
consumed the event. -/
structure ElementFocusInfo where
  element : Nat
  widget : Nat
  usesFocus : Bool
deriving DecidableEq, Repr

/-- An element under the pointer (`ElementInfoUnderPointer`); the three flags start cleared. -/
structure ElementInfoUnderPointer where
  element : Nat
  widget : Nat
  usesMouseOver : Bool := false
  receivedMouseOver : Bool := false
  isHovering : Bool := false
deriving DecidableEq, Repr

/-- A delivered event together with the element whose handler received it. -/
structure SentEvent where
  element : Nat
  event : GUIEvent
deriving DecidableEq, Repr

/-- The members of `GUIManager` read or written by event routing. The scratch vectors
`mNew...` are cleared before every use and are local values here; `sent` is the ghost record
of delivered events, oldest first. -/
structure GUIManager where
  widgets : List Nat := []
  elementsUnderPointer : List ElementInfoUnderPointer := []
  activeElements : List ElementInfo := []
  elementsInFocus : List ElementFocusInfo := []
  activeMouseButton : GUIMouseButton := GUIMouseButton.Left
  dragState : DragState := DragState.NoDrag
  lastPointerScreenPos : Vector2I := {}
  lastPointerClickPos : Vector2I := {}
  dragStartPos : Vector2I := {}
  mouseEvent : GUIMouseEvent := {}
  activeCursor : CursorType := CursorType.Arrow
  showTooltip : Bool := false
  separateMeshesByWidget : Bool := true
  sent : List SentEvent := []

/-- The constant `GUIManager::DRAG_DISTANCE`. -/
def DRAG_DISTANCE : Nat := 3

/-- `GUIManager::buttonToGUIButton`; an unsupported button raises the invalid-parameters
exception. -/
def buttonToGUIButton (pointerButton : PointerEventButton) : Except String GUIMouseButton :=
  match pointerButton with
  | PointerEventButton.Left => Except.ok GUIMouseButton.Left
  | PointerEventButton.Middle => Except.ok GUIMouseButton.Middle
  | PointerEventButton.Right => Except.ok GUIMouseButton.Right
  | PointerEventButton.Other _ =>
    Except.error "Provided button is not a GUI supported mouse button."

/-- `GUIManager::sendMouseEvent`: a destroyed element gets nothing and the answer is false,
otherwise the handler of the element is invoked. -/
def sendMouseEvent (w : World) (s : GUIManager) (element : Nat) (event : GUIMouseEvent) :
    GUIManager × Bool :=
  if w.isDestroyed element then (s, false)
  else ({ s with sent := s.sent ++ [{ element := element, event := GUIEvent.mouse event }] },
    w.mouseEvent element event)

/-- `GUIManager::sendCommandEvent`. -/
def sendCommandEvent (w : World) (s : GUIManager) (element : Nat)
    (type : GUICommandEventType) : GUIManager × Bool :=
  if w.isDestroyed element then (s, false)
  else ({ s with sent := s.sent ++ [{ element := element, event := GUIEvent.command type }] },
    w.commandEvent element type)

/-- `GUIManager::sendTextInputEvent`; the event carries the typed character. -/
def sendTextInputEvent (w : World) (s : GUIManager) (element : Nat) (char : Nat) :
    GUIManager × Bool :=
  if w.isDestroyed element then (s, false)
  else ({ s with sent := s.sent ++ [{ element := element, event := GUIEvent.textInput char }] },
    w.textInputEvent element char)

/-- `GUIManager::sendVirtualButtonEvent`; the event carries the virtual button. -/
def sendVirtualButtonEvent (w : World) (s : GUIManager) (element : Nat) (button : Nat) :
    GUIManager × Bool :=
  if w.isDestroyed element then (s, false)
  else
    ({ s with
        sent := s.sent ++ [{ element := element, event := GUIEvent.virtualButton button }] },
      w.virtualButtonEvent element button)

/-- `GUIManager::getWidgetRelativePos`. The affine inverse transform and the rounding are
left to `World.worldToLocal`. -/
def getWidgetRelativePos (w : World) (widget : Nat) (screenPos : Vector2I) : Vector2I :=
  if widget = 0 then screenPos
  else
    let window := w.getWidgetWindow widget
    if window = 0 then {}
    else
      let windowPos := w.screenToWindowPos window screenPos
      w.worldToLocal widget (w.windowToBridgedCoords widget windowPos)

/-- A loop that sets the payload of `mMouseEvent` and sends it to every listed element,
without stopping; the flag tells whether some handler consumed it. -/
def sendAll (w : World) : List (Nat × GUIMouseEventData) → GUIManager → GUIManager × Bool
  | [], s => (s, false)
  | (element, data) :: rest, s =>
    let s1 := { s with mouseEvent := { s.mouseEvent with data := data } }
    let r := sendMouseEvent w s1 element s1.mouseEvent
    let t := sendAll w rest r.1
    (t.1, r.2 || t.2)

/-- A loop that sets the payload of `mMouseEvent` and sends it to the listed elements in turn
until one handler consumes it (`break`). -/
def sendFirst (w : World) : List (Nat × GUIMouseEventData) → GUIManager → GUIManager × Bool
  | [], s => (s, false)
  | (element, data) :: rest, s =>
    let s1 := { s with mouseEvent := { s.mouseEvent with data := data } }
    let r := sendMouseEvent w s1 element s1.mouseEvent
    if r.2 then (r.1, true) else sendFirst w rest r.1

/-! ## Hit test (`GUIManager::findElementUnderPointer`) -/

/-- The window found by the scan over the distinct non-null windows of the registered
widgets, `0` when the pointer is over none of them. The hash set `uniqueWindows` is iterated
in order of first insertion. -/
def windowUnderPointer (w : World) (widgets : List Nat) (pointerScreenPos : Vector2I) : Nat :=
  let widgetWindows := widgets.map w.getWidgetWindow
  let uniqueWindows := (widgetWindows.filter fun window => window != 0).eraseDups
  match uniqueWindows.find? fun window => w.isPointOverWindow window pointerScreenPos with
  | some window => window
  | none => 0

/-- A fresh under-pointer record for `element`; the mouse-over flags are taken over from the
record of the same element in the previous under-pointer list, when there is one. -/
def carryOver (old : List ElementInfoUnderPointer) (element widget : Nat) :
    ElementInfoUnderPointer :=
  match old.find? fun x => x.element == element with
  | some found =>
    { element := element, widget := widget, usesMouseOver := found.usesMouseOver,
      receivedMouseOver := found.receivedMouseOver }
  | none => { element := element, widget := widget }

/-- The vector `mNewElementsUnderPointer` after the collection loop, before it is sorted. -/
def hitElements (w : World) (s : GUIManager) (pointerScreenPos : Vector2I) :
    List ElementInfoUnderPointer :=
  let window := windowUnderPointer w s.widgets pointerScreenPos
  if window = 0 then []
  else
    let windowPos := w.screenToWindowPos window pointerScreenPos
    s.widgets.flatMap fun widget =>
      if w.getWidgetWindow widget = 0 then []
      else if w.getWidgetWindow widget = window ∧
          w.widgetInBounds widget (w.windowToBridgedCoords widget windowPos) = true then
        let localPos := getWidgetRelativePos w widget pointerScreenPos
        ((w.widgetElements widget).filter fun element =>
          w.isVisible element && w.isInBounds element localPos).map fun element =>
            carryOver s.elementsUnderPointer element widget
      else []

/-- The call of `std::sort` by element depth, front-most first. Elements of equal depth keep
their relative order. -/
def sortByDepth (w : World) (l : List ElementInfoUnderPointer) : List ElementInfoUnderPointer :=
  l.insertionSort fun a b => w.depth a.element ≤ w.depth b.element

/-- True when `element` is in the active set or the active set is empty. -/
def activeOrNoneActive (s : GUIManager) (element : Nat) : Bool :=
  s.activeElements.isEmpty || s.activeElements.any fun x => x.element == element

/-- The mouse-over loop over the new under-pointer list. `fresh` is the event made from the
current modifier state. Result: the list with updated flags, the manager and the
`eventProcessed` flag. -/
def mouseOverLoop (w : World) (pointerScreenPos : Vector2I) (fresh : GUIMouseEvent) :
    List ElementInfoUnderPointer → GUIManager → List ElementInfoUnderPointer × GUIManager × Bool
  | [], s => ([], s, false)
  | info :: rest, s =>
    if info.receivedMouseOver then
      if info.usesMouseOver then ({ info with isHovering := true } :: rest, s, false)
      else
        let t := mouseOverLoop w pointerScreenPos fresh rest s
        ({ info with isHovering := true } :: t.1, t.2.1, t.2.2)
    else if activeOrNoneActive s info.element then
      let localPos := getWidgetRelativePos w info.widget pointerScreenPos
      let s1 := { s with mouseEvent := { fresh with data := GUIMouseEventData.MouseOver localPos } }
      let r := sendMouseEvent w s1 info.element s1.mouseEvent
      if r.2 then
        ({ info with receivedMouseOver := true, isHovering := true, usesMouseOver := true } :: rest,
          r.1, true)
      else
        let t := mouseOverLoop w pointerScreenPos fresh rest r.1
        ({ info with receivedMouseOver := true, isHovering := true } :: t.1, t.2.1, t.2.2)
    else
      let t := mouseOverLoop w pointerScreenPos fresh rest s
      (info :: t.1, t.2.1, t.2.2)

/-- The old under-pointer records that get a drag-and-drop-left event: those whose element is
not in the new list. -/
def dragAndDropLeftTargets (w : World) (pointerScreenPos : Vector2I)
    (old new : List ElementInfoUnderPointer) : List (Nat × GUIMouseEventData) :=
  (old.filter fun info => !new.any fun x => x.element == info.element).map fun info =>
    (info.element,
      GUIMouseEventData.DragAndDropLeft (getWidgetRelativePos w info.widget pointerScreenPos))

/-- The old under-pointer records that get a mouse-out event: they received mouse-over, are
absent from the new list or no longer hovering there, and the active set is empty or holds
them. -/
def mouseOutTargets (w : World) (s : GUIManager) (pointerScreenPos : Vector2I)
    (old new : List ElementInfoUnderPointer) : List (Nat × GUIMouseEventData) :=
  (old.filter fun info =>
      info.receivedMouseOver &&
      (match new.find? fun x => x.element == info.element with
        | some found => !found.isHovering
        | none => true) &&
      activeOrNoneActive s info.element).map fun info =>
    (info.element,
      GUIMouseEventData.MouseOut (getWidgetRelativePos w info.widget pointerScreenPos))

/-- `GUIManager::findElementUnderPointer`; the flag is the returned `eventProcessed`. The
debug-only window check and the tooltip timer are left out. -/
def findElementUnderPointer (w : World) (s : GUIManager) (pointerScreenPos : Vector2I)
    (buttonStates : Bool × Bool × Bool) (shift control alt : Bool) : GUIManager × Bool :=
  let sorted := sortByDepth w (hitElements w s pointerScreenPos)
  let fresh : GUIMouseEvent :=
    { buttonStates := buttonStates, shift := shift, control := control, alt := alt }
  let over := mouseOverLoop w pointerScreenPos fresh sorted s
  let newElementsUnderPointer := over.1
  let s1 := over.2.1
  let left :=
    if w.isDragInProgress then
      sendFirst w
        (dragAndDropLeftTargets w pointerScreenPos s1.elementsUnderPointer newElementsUnderPointer)
        s1
    else (s1, false)
  let out :=
    sendFirst w
      (mouseOutTargets w left.1 pointerScreenPos left.1.elementsUnderPointer
        newElementsUnderPointer)
      left.1
  ({ out.1 with
      elementsUnderPointer := newElementsUnderPointer
      showTooltip := !newElementsUnderPointer.isEmpty },
    over.2.2 || left.2 || out.2)

/-! ## Pointer move (`GUIManager::onPointerMoved`) -/

/-- A pointer move in state `HeldWithoutDrag` beyond the drag distance: the move that starts
the drag. -/
def startsDrag (s : GUIManager) (event : PointerEvent) : Prop :=
  s.dragState = DragState.HeldWithoutDrag ∧
    s.lastPointerClickPos.manhattanDist event.screenPos > DRAG_DISTANCE

instance (s : GUIManager) (event : PointerEvent) : Decidable (startsDrag s event) :=
  inferInstanceAs (Decidable (_ ∧ _))

/-- The drag-start events a move addresses to the active elements. -/
def dragStartTargets (w : World) (s : GUIManager) (event : PointerEvent) :
    List (Nat × GUIMouseEventData) :=
  s.activeElements.map fun activeElement =>
    (activeElement.element,
      GUIMouseEventData.MouseDragStart
        (getWidgetRelativePos w activeElement.widget event.screenPos)
        (getWidgetRelativePos w activeElement.widget s.lastPointerClickPos))

/-- The block of `onPointerMoved` for the state `HeldWithoutDrag`: beyond the drag distance
every active element gets drag-start and the state becomes `Dragging`. -/
def dragStartStep (w : World) (s : GUIManager) (event : PointerEvent) : GUIManager × Bool :=
  if startsDrag s event then
    let r := sendAll w (dragStartTargets w s event) s
    ({ r.1 with dragState := DragState.Dragging, dragStartPos := event.screenPos }, r.2)
  else (s, false)

/-- The drag-and-drop loop over the hovered elements while dragging. Result: the manager, the
final value of `acceptDrop` and whether a handler consumed the event. -/
def dragAndDropLoop (w : World) (screenPos : Vector2I) :
    List ElementInfoUnderPointer → GUIManager → Bool → GUIManager × Bool × Bool
  | [], s, acceptDrop => (s, acceptDrop, false)
  | info :: rest, s, _ =>
    let localPos := getWidgetRelativePos w info.widget screenPos
    let acceptDrop :=
      if w.needsValidDropTarget then w.acceptDragAndDrop info.element localPos else true
    if acceptDrop then
      let s1 :=
        { s with mouseEvent := { s.mouseEvent with
            data := GUIMouseEventData.DragAndDropDragged localPos } }
      let r := sendMouseEvent w s1 info.element s1.mouseEvent
      if r.2 then (r.1, acceptDrop, true)
      else dragAndDropLoop w screenPos rest r.1 acceptDrop
    else dragAndDropLoop w screenPos rest s acceptDrop

/-- The branch of `onPointerMoved` taken while `Dragging`. -/
def draggingStep (w : World) (s : GUIManager) (event : PointerEvent) : GUIManager × Bool :=
  let drag :=
    if s.lastPointerScreenPos ≠ event.screenPos then
      sendAll w
        (s.activeElements.map fun activeElement =>
          (activeElement.element,
            GUIMouseEventData.MouseDrag
              (getWidgetRelativePos w activeElement.widget event.screenPos)
              (event.screenPos.sub s.dragStartPos))) s
    else (s, false)
  let s1 := { drag.1 with lastPointerScreenPos := event.screenPos }
  if w.isDragInProgress then
    let dnd := dragAndDropLoop w event.screenPos s1.elementsUnderPointer s1 true
    ({ dnd.1 with
        activeCursor := if dnd.2.1 then CursorType.ArrowDrag else CursorType.Deny },
      drag.2 || dnd.2.2)
  else (s1, drag.2)

/-- The mouse-move loop over the hovered elements. The loop is left as soon as a handler
consumes the move, so `moveProcessed` is false at the head of every pass. Result: the
manager, `hasCustomCursor` and whether a handler consumed the move. -/
def mouseMoveLoop (w : World) (screenPos : Vector2I) :
    List ElementInfoUnderPointer → GUIManager → Bool → GUIManager × Bool × Bool
  | [], s, hasCustomCursor => (s, hasCustomCursor, false)
  | info :: rest, s, hasCustomCursor =>
    let localPos := getWidgetRelativePos w info.widget screenPos
    let s1 :=
      { s with mouseEvent := { s.mouseEvent with data := GUIMouseEventData.MouseMove localPos } }
    let r := sendMouseEvent w s1 info.element s1.mouseEvent
    let c : GUIManager × Bool :=
      if r.1.dragState = DragState.NoDrag then
        match w.hasCustomCursor info.element localPos with
        | some newCursor => ({ r.1 with activeCursor := newCursor }, true)
        | none => (r.1, hasCustomCursor)
      else (r.1, hasCustomCursor)
    if r.2 then (c.1, c.2, true) else mouseMoveLoop w screenPos rest c.1 c.2

/-- The test `Math::abs(amount) > 0.00001f` on the wheel amount; the amount is the rational
`num / den`, so the test reads `|num| * 100000 > den`. -/
def wheelMoved (amount : Rat) : Bool :=
  decide (amount.num.natAbs * 100000 > amount.den)

/-- The branch of `onPointerMoved` taken while not `Dragging`: mouse-move, cursor and wheel. -/
def hoverStep (w : World) (s : GUIManager) (event : PointerEvent) : GUIManager × Bool :=
  let move : GUIManager × Bool :=
    if s.lastPointerScreenPos ≠ event.screenPos then
      let m := mouseMoveLoop w event.screenPos s.elementsUnderPointer s false
      if m.1.dragState = DragState.NoDrag ∧ m.2.1 = false then
        ({ m.1 with activeCursor := CursorType.Arrow }, m.2.2)
      else (m.1, m.2.2)
    else (s, false)
  let s1 := { move.1 with lastPointerScreenPos := event.screenPos }
  if wheelMoved event.mouseWheelScrollAmount then
    let wheel := sendFirst w
      (s1.elementsUnderPointer.map fun info =>
        (info.element, GUIMouseEventData.MouseWheelScroll event.mouseWheelScrollAmount)) s1
    (wheel.1, move.2 || wheel.2)
  else (s1, move.2)

/-- `GUIManager::onPointerMoved`; the flag is `event.isUsed()` on return. -/
def onPointerMoved (w : World) (s : GUIManager) (event : PointerEvent) : GUIManager × Bool :=
  if event.used then (s, true)
  else
    let hit := findElementUnderPointer w s event.screenPos event.buttonStates event.shift
      event.control event.alt
    let start := dragStartStep w hit.1 event
    let rest :=
      if start.1.dragState = DragState.Dragging then draggingStep w start.1 event
      else hoverStep w start.1 event
    (rest.1, hit.2 || start.2 || rest.2)

/-! ## Pointer release (`GUIManager::onPointerReleased`) -/

/-- The hovered elements that get mouse-up: those that are in the active set. -/
def mouseUpTargets (w : World) (s : GUIManager) (screenPos : Vector2I)
    (guiButton : GUIMouseButton) : List (Nat × GUIMouseEventData) :=
  (s.elementsUnderPointer.filter fun info =>
      s.activeElements.any fun x => x.element == info.element).map fun info =>
    (info.element,
      GUIMouseEventData.MouseUp (getWidgetRelativePos w info.widget screenPos) guiButton)

/-- The drag-end events a release addresses to the active elements. -/
def dragEndTargets (w : World) (s : GUIManager) (event : PointerEvent) :
    List (Nat × GUIMouseEventData) :=
  s.activeElements.map fun activeElement =>
    (activeElement.element,
      GUIMouseEventData.MouseDragEnd
        (getWidgetRelativePos w activeElement.widget event.screenPos))

/-- The condition `acceptEndDrag`: the release of `guiButton` ends the drag session. -/
def endsDrag (s : GUIManager) (guiButton : GUIMouseButton) : Prop :=
  (s.dragState = DragState.Dragging ∨ s.dragState = DragState.HeldWithoutDrag) ∧
    s.activeMouseButton = guiButton ∧ guiButton = GUIMouseButton.Left

instance (s : GUIManager) (guiButton : GUIMouseButton) : Decidable (endsDrag s guiButton) :=
  inferInstanceAs (Decidable (_ ∧ _))

/-- The drag-end block of `onPointerReleased`. -/
def dragEndStep (w : World) (s : GUIManager) (event : PointerEvent)
    (guiButton : GUIMouseButton) : GUIManager × Bool :=
  if endsDrag s guiButton then
    let r :=
      if s.dragState = DragState.Dragging then sendAll w (dragEndTargets w s event) s
      else (s, false)
    ({ r.1 with dragState := DragState.NoDrag }, r.2)
  else (s, false)

/-- `GUIManager::onPointerReleased`; the flag is `event.isUsed()` on return. -/
def onPointerReleased (w : World) (s : GUIManager) (event : PointerEvent) :
    Except String (GUIManager × Bool) :=
  if event.used then Except.ok (s, true)
  else
    let hit := findElementUnderPointer w s event.screenPos event.buttonStates event.shift
      event.control event.alt
    let s1 : GUIManager :=
      { hit.1 with mouseEvent :=
          { buttonStates := event.buttonStates, shift := event.shift, control := event.control,
            alt := event.alt } }
    match buttonToGUIButton event.button with
    | Except.error e => Except.error e
    | Except.ok guiButton =>
      let up :=
        if s1.activeMouseButton = guiButton then
          sendFirst w (mouseUpTargets w s1 event.screenPos guiButton) s1
        else (s1, false)
      let dragEnd := dragEndStep w up.1 event guiButton
      let s3 : GUIManager :=
        if dragEnd.1.activeMouseButton = guiButton then
          { dragEnd.1 with activeElements := [], activeMouseButton := GUIMouseButton.Left }
        else dragEnd.1
      Except.ok ({ s3 with activeCursor := CursorType.Arrow }, hit.2 || up.2 || dragEnd.2)

/-! ## Pointer press (`GUIManager::onPointerPressed`) -/

/-- One pass of the mouse-down loop for the hovered record `info`: the event is sent, a left
press arms the drag state, and the pressed button becomes the active button. The flag is
`processed`. -/
def mouseDownVisit (w : World) (event : PointerEvent) (guiButton : GUIMouseButton)
    (info : ElementInfoUnderPointer) (s : GUIManager) : GUIManager × Bool :=
  let localPos := getWidgetRelativePos w info.widget event.screenPos
  let s1 :=
    { s with mouseEvent := { s.mouseEvent with
        data := GUIMouseEventData.MouseDown localPos guiButton } }
  let r := sendMouseEvent w s1 info.element s1.mouseEvent
  let s2 : GUIManager :=
    if guiButton = GUIMouseButton.Left then
      { r.1 with dragState := DragState.HeldWithoutDrag, lastPointerClickPos := event.screenPos }
    else r.1
  ({ s2 with activeMouseButton := guiButton }, r.2)

/-- The mouse-down loop over the hovered elements; `newActive` is `mNewActiveElements`.
Result: the manager, `mNewActiveElements` and whether a handler consumed the press. -/
def mouseDownLoop (w : World) (event : PointerEvent) (guiButton : GUIMouseButton) :
    List ElementInfoUnderPointer → GUIManager → List ElementInfo →
      GUIManager × List ElementInfo × Bool
  | [], s, newActive => (s, newActive, false)
  | info :: rest, s, newActive =>
    let v := mouseDownVisit w event guiButton info s
    let newActive1 := newActive ++ [{ element := info.element, widget := info.widget }]
    if v.2 then (v.1, newActive1, true)
    else mouseDownLoop w event guiButton rest v.1 newActive1

/-- The focus-gained loop over the hovered elements; `newFocus` is `mNewElementsInFocus`. -/
def focusGainedLoop (w : World) :
    List ElementInfoUnderPointer → GUIManager → List ElementFocusInfo →
      GUIManager × List ElementFocusInfo
  | [], s, newFocus => (s, newFocus)
  | info :: rest, s, newFocus =>
    match s.elementsInFocus.find? fun x => x.element == info.element with
    | none =>
      let r := sendCommandEvent w s info.element GUICommandEventType.FocusGained
      let newFocus1 :=
        newFocus ++ [{ element := info.element, widget := info.widget, usesFocus := r.2 }]
      if r.2 then (r.1, newFocus1) else focusGainedLoop w rest r.1 newFocus1
    | some found =>
      if found.usesFocus then (s, newFocus ++ [found])
      else focusGainedLoop w rest s (newFocus ++ [found])

/-- The focus-lost loop: every old focus record whose element is not in `newFocus` is sent
focus-lost. -/
def focusLostLoop (w : World) (newFocus : List ElementFocusInfo) :
    List ElementFocusInfo → GUIManager → GUIManager
  | [], s => s
  | info :: rest, s =>
    if newFocus.any fun x => x.element == info.element then focusLostLoop w newFocus rest s
    else
      focusLostLoop w newFocus rest
        (sendCommandEvent w s info.element GUICommandEventType.FocusLost).1

/-- The context-menu loop: true when a hovered element with a context menu, a widget and a
window is found (its menu is opened and the event marked used). -/
def contextMenuOpened (w : World) (s : GUIManager) : Bool :=
  s.elementsUnderPointer.any fun info =>
    w.hasContextMenu info.element && info.widget != 0 && w.getWidgetWindow info.widget != 0

/-- `GUIManager::onPointerPressed`; the flag is `event.isUsed()` on return. -/
def onPointerPressed (w : World) (s : GUIManager) (event : PointerEvent) :
    Except String (GUIManager × Bool) :=
  if event.used then Except.ok (s, true)
  else
    let hit := findElementUnderPointer w s event.screenPos event.buttonStates event.shift
      event.control event.alt
    let s1 : GUIManager :=
      { hit.1 with mouseEvent :=
          { buttonStates := event.buttonStates, shift := event.shift, control := event.control,
            alt := event.alt } }
    match buttonToGUIButton event.button with
    | Except.error e => Except.error e
    | Except.ok guiButton =>
      let down : GUIManager × Bool :=
        if s1.activeElements.isEmpty then
          let d := mouseDownLoop w event guiButton s1.elementsUnderPointer s1 []
          ({ d.1 with activeElements := d.2.1 }, d.2.2)
        else (s1, false)
      let gained := focusGainedLoop w down.1.elementsUnderPointer down.1 []
      let lost := focusLostLoop w gained.2 gained.1.elementsInFocus gained.1
      let s4 := { lost with elementsInFocus := gained.2 }
      let menu := event.buttonStates.2.2 && contextMenuOpened w s4
      Except.ok (s4, hit.2 || down.2 || !s4.elementsUnderPointer.isEmpty || menu)

/-! ## Double click (`GUIManager::onPointerDoubleClick`) -/

/-- `GUIManager::onPointerDoubleClick`; the flag is `event.isUsed()` on return. -/
def onPointerDoubleClick (w : World) (s : GUIManager) (event : PointerEvent) :
    Except String (GUIManager × Bool) :=
  if event.used then Except.ok (s, true)
  else
    let hit := findElementUnderPointer w s event.screenPos event.buttonStates event.shift
      event.control event.alt
    let s1 : GUIManager :=
      { hit.1 with mouseEvent :=
          { buttonStates := event.buttonStates, shift := event.shift, control := event.control,
            alt := event.alt } }
    match buttonToGUIButton event.button with
    | Except.error e => Except.error e
    | Except.ok guiButton =>
      let click := sendFirst w
        (s1.elementsUnderPointer.map fun info =>
          (info.element,
            GUIMouseEventData.MouseDoubleClick
              (getWidgetRelativePos w info.widget event.screenPos) guiButton)) s1
      Except.ok (click.1, hit.2 || click.2)

/-! ## End of a payload drag (`GUIManager::onMouseDragEnded`) -/

/-- The loop of `onMouseDragEnded` over the hovered elements. A record without widget keeps
the default position. Result: the manager, `dragInfo.processed`, and the elements whose
`_acceptDragAndDrop` was called, in order. -/
def dropLoop (w : World) (screenPos : Vector2I) :
    List ElementInfoUnderPointer → GUIManager → GUIManager × Bool × List Nat
  | [], s => (s, false, [])
  | info :: rest, s =>
    let localPos : Vector2I :=
      if info.widget ≠ 0 then getWidgetRelativePos w info.widget screenPos else {}
    let acceptDrop :=
      if w.needsValidDropTarget then w.acceptDragAndDrop info.element localPos else true
    let queried : List Nat := if w.needsValidDropTarget then [info.element] else []
    if acceptDrop then
      let s1 :=
        { s with mouseEvent := { s.mouseEvent with
            data := GUIMouseEventData.DragAndDropDropped localPos } }
      let r := sendMouseEvent w s1 info.element s1.mouseEvent
      if r.2 then (r.1, true, queried)
      else
        let t := dropLoop w screenPos rest r.1
        (t.1, t.2.1, queried ++ t.2.2)
    else
      let t := dropLoop w screenPos rest s
      (t.1, t.2.1, queried ++ t.2.2)

/-- `GUIManager::onMouseDragEnded`. Result: the manager, `dragInfo.processed` on return, and
the elements asked whether they accept the drop. -/
def onMouseDragEnded (w : World) (s : GUIManager) (event : PointerEvent) :
    Except String (GUIManager × Bool × List Nat) :=
  match buttonToGUIButton event.button with
  | Except.error e => Except.error e
  | Except.ok guiButton =>
    if w.isDragInProgress ∧ guiButton = GUIMouseButton.Left then
      Except.ok (dropLoop w event.screenPos s.elementsUnderPointer s)
    else Except.ok (s, false, [])

/-! ## Sequences of pointer events -/

/-- A pointer event together with the handler the input system invokes for it. -/
inductive PointerInput where
  | moved (event : PointerEvent)
  | pressed (event : PointerEvent)
  | released (event : PointerEvent)
  | doubleClicked (event : PointerEvent)
deriving DecidableEq, Repr

/-- The event of an input. -/
def PointerInput.event : PointerInput → PointerEvent
  | PointerInput.moved event => event
  | PointerInput.pressed event => event
  | PointerInput.released event => event
  | PointerInput.doubleClicked event => event

/-- True for a press. -/
def PointerInput.isPress : PointerInput → Bool
  | PointerInput.pressed _ => true
  | _ => false

/-- The manager after the handler of one input returned; an exception of the handler ends
the run. -/
def handleInput (w : World) (s : GUIManager) : PointerInput → Except String GUIManager
  | PointerInput.moved event => Except.ok (onPointerMoved w s event).1
  | PointerInput.pressed event => (onPointerPressed w s event).map Prod.fst
  | PointerInput.released event => (onPointerReleased w s event).map Prod.fst
  | PointerInput.doubleClicked event => (onPointerDoubleClick w s event).map Prod.fst

/-- The manager after the handlers of a sequence of inputs ran one after the other. -/
def handleInputs (w : World) : GUIManager → List PointerInput → Except String GUIManager
  | s, [] => Except.ok s
  | s, input :: rest =>
    match handleInput w s input with
    | Except.error e => Except.error e
    | Except.ok s' => handleInputs w s' rest

/-! ## The per-frame update (`GUIManager::update`) -/

/-- A queued focus request (`ElementForcedFocusInfo`). -/
structure ElementForcedFocusInfo where
  element : Nat
  focus : Bool
deriving DecidableEq, Repr

/-! ### Render data and meshes -/

/-- The render data cached for one render target (`GUIRenderData`), with the members the
manager uses. A fresh value has no widgets and no cached meshes; its dirty flag is set by
`registerWidget` before anything reads it. -/
structure GUIRenderData where
  widgets : List Nat := []
  isDirty : Bool := true
  cachedMeshes : List Nat := []
  cachedMaterials : List SpriteMaterialInfo := []
  cachedWidgetsPerMesh : List Nat := []
deriving DecidableEq, Repr

/-- One pass of the fill loop of a group: the call of `_fillBuffer` for a render element with
the quad offset and the quad capacity given to it, and the index range and vertex offset of
the shift that follows. -/
structure FillRecord where
  element : Nat
  renderElement : Nat
  quadOffset : Nat
  maxNumQuads : Nat
  indexStart : Nat
  indexEnd : Nat
  vertOffset : Nat
deriving DecidableEq, Repr

/-- The mesh data built for one group: the sizes given to the `MeshData` constructor and the
record of the fill loop. -/
structure MeshData where
  numVertices : Nat
  numIndices : Nat
  fills : List FillRecord
deriving DecidableEq, Repr

/-- Modelled from the spec: `MeshHeap` (BsMeshHeap.h is not part of the sources at hand), the
pool the cached meshes are allocated from and released to. A mesh is a handle; `0` is the
null handle and is never handed out. `released` is the ghost record of the handles given
back, oldest first. -/
structure MeshHeap where
  nextHandle : Nat := 1
  live : List (Nat × MeshData) := []
  released : List Nat := []
deriving DecidableEq, Repr

/-- Modelled from the spec: `MeshHeap::alloc`, a fresh mesh holding the data. -/
def MeshHeap.alloc (heap : MeshHeap) (meshData : MeshData) : MeshHeap × Nat :=
  ({ heap with
      nextHandle := heap.nextHandle + 1
      live := heap.live ++ [(heap.nextHandle, meshData)] },
    heap.nextHandle)

/-- Modelled from the spec: `MeshHeap::dealloc`, the mesh goes back to the pool. -/
def MeshHeap.dealloc (heap : MeshHeap) (mesh : Nat) : MeshHeap :=
  { heap with
    live := heap.live.filter fun p => p.1 != mesh
    released := heap.released ++ [mesh] }

/-- One entry of the snapshot handed to the core thread (`GUICoreRenderData`); the world
transform is that of `widget`. -/
structure GUICoreRenderData where
  materialType : Nat
  texture : Nat
  tint : Nat
  mesh : Nat
  widget : Nat
deriving DecidableEq, Repr

/-! ### The state of the manager -/

/-- The manager during `update`: the routing state `gui`, the members only `update` works
with, and the destroyed flags of the elements set since the world was observed. The stack
`mScheduledForDestruction` is a list with its top first. `destroyedByHandler` (the flagged
elements whose flag was set by a command handler) and `deleted` (the elements handed to
`bs_delete`, oldest first) are ghost records. -/
structure FrameState where
  gui : GUIManager := {}
  forcedFocusElements : List ElementForcedFocusInfo := []
  scheduledForDestruction : List Nat := []
  isCaretOn : Bool := false
  destroyed : List Nat := []
  destroyedByHandler : List Nat := []
  deleted : List Nat := []
  /-- The map `mCachedGUIData`: render target and its render data, in order of insertion. -/
  cachedGUIData : List (Nat × GUIRenderData) := []
  /-- The flag `mCoreDirty`. -/
  coreDirty : Bool := false
  /-- The heap `mMeshHeap`. -/
  meshHeap : MeshHeap := {}
  /-- The widgets whose dirty flag is set. -/
  dirtyWidgets : List Nat := []
  /-- Ghost record of the snapshots handed to the core thread, oldest first. -/
  coreData : List (List (Nat × List GUICoreRenderData)) := []

/-- The call `GUIElement::_isDestroyed` at the present moment: the flag was set when the
world was observed or has been set since. -/
def FrameState.isDestroyed (w : World) (st : FrameState) (element : Nat) : Bool :=
  w.isDestroyed element || decide (element ∈ st.destroyed)

/-- The world as the manager sees it at the present moment. -/
def FrameState.world (w : World) (st : FrameState) : World :=
  { w with isDestroyed := st.isDestroyed w }

/-- `GUIManager::queueForDestroy`. -/
def queueForDestroy (element : Nat) (st : FrameState) : FrameState :=
  { st with scheduledForDestruction := element :: st.scheduledForDestruction }

/-- `GUIManager::setFocus`: the request is queued. -/
def setFocus (element : Nat) (focus : Bool) (st : FrameState) : FrameState :=
  { st with
    forcedFocusElements := st.forcedFocusElements ++ [{ element := element, focus := focus }] }

/-- Modelled from the spec: `GUIElement::destroy` (BsGUIElement.cpp is not part of the
sources at hand). The destroyed flag of the element is set and the element is queued for
deferred destruction; an element whose flag is set already is left alone. `byHandler` tells
the ghost record whether a command handler made the call. -/
def destroyElement (w : World) (byHandler : Bool) (element : Nat) (st : FrameState) :
    FrameState :=
  if st.isDestroyed w element then st
  else
    queueForDestroy element
      { st with
        destroyed := element :: st.destroyed
        destroyedByHandler :=
          if byHandler then element :: st.destroyedByHandler else st.destroyedByHandler }

/-- `GUIManager::sendCommandEvent` during `update`: when the handler is invoked it may ask
for the destruction of elements. -/
def frameSendCommandEvent (w : World) (st : FrameState) (element : Nat)
    (type : GUICommandEventType) : FrameState × Bool :=
  let r := sendCommandEvent (st.world w) st.gui element type
  let st1 := { st with gui := r.1 }
  if st.isDestroyed w element then (st1, r.2)
  else ((w.commandDestroys element type).foldl (fun acc x => destroyElement w true x acc) st1,
    r.2)

/-- The three filter passes at the head of the destroy loop: records of destroyed elements
leave the under-pointer, active and focus sets. -/
def purgeDestroyed (w : World) (st : FrameState) : FrameState :=
  { st with
    gui :=
      { st.gui with
        elementsUnderPointer :=
          st.gui.elementsUnderPointer.filter fun info => !st.isDestroyed w info.element
        activeElements :=
          st.gui.activeElements.filter fun info => !st.isDestroyed w info.element
        elementsInFocus :=
          st.gui.elementsInFocus.filter fun info => !st.isDestroyed w info.element } }

/-- The loop of a request to drop focus: every focus record of `element` is sent focus-lost
and left out of `newFocus` (`mNewElementsInFocus`), the other records are kept. -/
def forcedFocusLostLoop (w : World) (element : Nat) :
    List ElementFocusInfo → FrameState → List ElementFocusInfo →
      FrameState × List ElementFocusInfo
  | [], st, newFocus => (st, newFocus)
  | info :: rest, st, newFocus =>
    if info.element = element then
      forcedFocusLostLoop w element rest
        (frameSendCommandEvent w st info.element GUICommandEventType.FocusLost).1 newFocus
    else forcedFocusLostLoop w element rest st (newFocus ++ [info])

/-- One pass of the loop over `mForcedFocusElements`. -/
def applyForcedFocus (w : World) (st : FrameState) (request : ElementForcedFocusInfo) :
    FrameState :=
  if st.isDestroyed w request.element then st
  else if request.focus then
    if st.gui.elementsInFocus.any fun x => x.element == request.element then st
    else
      let st1 : FrameState :=
        { st with
          gui :=
            { st.gui with
              elementsInFocus := st.gui.elementsInFocus ++
                [{ element := request.element, widget := w.parentWidget request.element,
                   usesFocus := false }] } }
      (frameSendCommandEvent w st1 request.element GUICommandEventType.FocusGained).1
  else
    let r := forcedFocusLostLoop w request.element st.gui.elementsInFocus st []
    { r.1 with gui := { r.1.gui with elementsInFocus := r.2 } }

/-- The loop over `mForcedFocusElements` followed by `mForcedFocusElements.clear()`. -/
def forcedFocusPass (w : World) (st : FrameState) : FrameState :=
  { st.forcedFocusElements.foldl (applyForcedFocus w) st with forcedFocusElements := [] }

/-- The call `bs_delete` on an element: its destructor runs and may ask for the destruction
of further elements. -/
def bsDelete (w : World) (st : FrameState) (element : Nat) : FrameState :=
  (w.destructorDestroys element).foldl (fun acc x => destroyElement w false x acc)
    { st with deleted := st.deleted ++ [element] }

/-- `GUIManager::processDestroyQueue`: the queue is taken over and emptied, every element
taken over is deleted from the top of the stack down, and the answer tells whether the
queue has members again. -/
def processDestroyQueue (w : World) (st : FrameState) : FrameState × Bool :=
  let toDestroy := st.scheduledForDestruction
  let st1 := toDestroy.foldl (bsDelete w) { st with scheduledForDestruction := [] }
  (st1, !st1.scheduledForDestruction.isEmpty)

/-- One pass through the body of the loop `do ... while (processDestroyQueue())` together
with the loop condition. -/
def destroyLoopBody (w : World) (st : FrameState) : FrameState × Bool :=
  processDestroyQueue w (forcedFocusPass w (purgeDestroyed w st))

/-- The loop `do ... while (processDestroyQueue())` of `update`, run for at most `fuel`
passes. The result is the state after the loop and the number of calls of
`processDestroyQueue`; `none` when the loop has not ended after `fuel` passes. -/
def destroyLoop (w : World) : Nat → FrameState → Option (FrameState × Nat)
  | 0, _ => none
  | fuel + 1, st =>
    let r := destroyLoopBody w st
    if r.2 then (destroyLoop w fuel r.1).map fun p => (p.1, p.2 + 1)
    else some (r.1, 1)

/-- The loop of the caret blink: every focus record is sent a redraw command. -/
def redrawLoop (w : World) : List ElementFocusInfo → FrameState → FrameState
  | [], st => st
  | info :: rest, st =>
    redrawLoop w rest (frameSendCommandEvent w st info.element GUICommandEventType.Redraw).1

/-! ### Mesh update (`GUIManager::updateMeshes`, second half) -/

/-- The call `resize` of a vector: cut to `n` entries or filled up with the default value. -/
def resize {α : Type} (l : List α) (n : Nat) (default : α) : List α :=
  l.take n ++ List.replicate (n - l.length) default

/-- The fill loop of a group with capacity `maxNumQuads`, from the quad offset given: every
member fills its quads at the running offset, its indices are shifted by four times the
offset, and the offset moves on by the quad count of the member. Result: the record of the
passes and the final offset. -/
def fillLoop (w : World) (maxNumQuads : Nat) :
    List GUIGroupElement → Nat → List FillRecord × Nat
  | [], quadOffset => ([], quadOffset)
  | matElement :: rest, quadOffset =>
    let numQuads := w.numQuads matElement.element matElement.renderElement
    let indexStart := quadOffset * 6
    let indexEnd := indexStart + numQuads * 6
    let vertOffset := quadOffset * 4
    let record : FillRecord :=
      { element := matElement.element, renderElement := matElement.renderElement,
        quadOffset := quadOffset, maxNumQuads := maxNumQuads, indexStart := indexStart,
        indexEnd := indexEnd, vertOffset := vertOffset }
    let t := fillLoop w maxNumQuads rest (quadOffset + numQuads)
    (record :: t.1, t.2)

/-- The mesh data of a group: four vertices and six indices for each of its `numQuads` quads,
filled by the fill loop from offset zero. -/
def groupMeshData (w : World) (group : GUIMaterialGroup) : MeshData :=
  { numVertices := group.numQuads * 4
    numIndices := group.numQuads * 6
    fills := (fillLoop w group.numQuads group.elements 0).1 }

/-- One pass of the loop over `sortedGroups`: material and widget of the group are stored at
`groupIdx`, its mesh data is built, and the mesh allocated for it replaces the cached mesh at
`groupIdx` (which is released) or is appended. -/
def storeGroup (w : World) (separateMeshesByWidget : Bool) (groupIdx : Nat)
    (group : GUIMaterialGroup) (renderData : GUIRenderData) (heap : MeshHeap) :
    GUIRenderData × MeshHeap :=
  let cachedMaterials := renderData.cachedMaterials.set groupIdx group.matInfo
  let cachedWidgetsPerMesh :=
    if separateMeshesByWidget then
      renderData.cachedWidgetsPerMesh.set groupIdx
        (match group.elements.head? with
          | none => 0
          | some elem => w.parentWidget elem.element)
    else renderData.cachedWidgetsPerMesh
  let meshData := groupMeshData w group
  match renderData.cachedMeshes[groupIdx]? with
  | some old =>
    let a := (heap.dealloc old).alloc meshData
    ({ renderData with
        cachedMaterials := cachedMaterials
        cachedWidgetsPerMesh := cachedWidgetsPerMesh
        cachedMeshes := renderData.cachedMeshes.set groupIdx a.2 },
      a.1)
  | none =>
    let a := heap.alloc meshData
    ({ renderData with
        cachedMaterials := cachedMaterials
        cachedWidgetsPerMesh := cachedWidgetsPerMesh
        cachedMeshes := renderData.cachedMeshes ++ [a.2] },
      a.1)

/-- The loop over `sortedGroups` with the running `groupIdx`. -/
def storeGroups (w : World) (separateMeshesByWidget : Bool) :
    List (Nat × GUIMaterialGroup) → Nat → GUIRenderData → MeshHeap → GUIRenderData × MeshHeap
  | [], _, renderData, heap => (renderData, heap)
  | group :: rest, groupIdx, renderData, heap =>
    let r := storeGroup w separateMeshesByWidget groupIdx group.2 renderData heap
    storeGroups w separateMeshesByWidget rest (groupIdx + 1) r.1 r.2

/-- The rebuild of the meshes of one dirty render target: the groups are computed and put in
draw order, surplus cached meshes are released, the three cache vectors are resized, and
every group is stored. -/
def rebuildMeshes (w : World) (separateMeshesByWidget : Bool) (renderData : GUIRenderData)
    (heap : MeshHeap) : GUIRenderData × MeshHeap :=
  let sorted := drawOrder w separateMeshesByWidget w.groupAddress renderData.widgets
  let numMeshes := sorted.length
  let oldNumMeshes := renderData.cachedMeshes.length
  let shrunk : List Nat × MeshHeap :=
    if numMeshes < oldNumMeshes then
      (renderData.cachedMeshes.take numMeshes,
        (renderData.cachedMeshes.drop numMeshes).foldl MeshHeap.dealloc heap)
    else (renderData.cachedMeshes, heap)
  let renderData1 : GUIRenderData :=
    { renderData with
      cachedMeshes := shrunk.1
      cachedMaterials := resize renderData.cachedMaterials numMeshes {}
      cachedWidgetsPerMesh :=
        if separateMeshesByWidget then resize renderData.cachedWidgetsPerMesh numMeshes 0
        else renderData.cachedWidgetsPerMesh }
  storeGroups w separateMeshesByWidget sorted 0 renderData1 shrunk.2

/-- Modelled from the spec: `GUIWidget::isDirty(true)` (BsGUIWidget.cpp is not part of the
sources at hand) for the widgets of a render target one after the other: the answer tells
whether one of them was dirty, and the dirty flag of each is cleared. -/
def cleanWidgets (widgets dirtyWidgets : List Nat) : Bool × List Nat :=
  (widgets.any fun widget => decide (widget ∈ dirtyWidgets),
    dirtyWidgets.filter fun widget => decide (widget ∉ widgets))

/-- One pass of the loop of `updateMeshes` over `mCachedGUIData`: the dirty flags are read
and cleared, and a dirty render target gets its meshes rebuilt. Result: the manager and the
render data of the target. -/
def updateRenderData (w : World) (st : FrameState) (renderData : GUIRenderData) :
    FrameState × GUIRenderData :=
  let clean := cleanWidgets renderData.widgets st.dirtyWidgets
  let isDirty := renderData.isDirty || clean.1
  let renderData1 := { renderData with isDirty := false }
  let st1 := { st with dirtyWidgets := clean.2 }
  if isDirty then
    let r := rebuildMeshes w st.gui.separateMeshesByWidget renderData1 st1.meshHeap
    ({ st1 with coreDirty := true, meshHeap := r.2 }, r.1)
  else (st1, renderData1)

/-- The loop of `updateMeshes` over the entries of `mCachedGUIData`; `done` holds the entries
already visited. -/
def updateMeshesLoop (w : World) :
    List (Nat × GUIRenderData) → FrameState → List (Nat × GUIRenderData) →
      FrameState × List (Nat × GUIRenderData)
  | [], st, done => (st, done)
  | entry :: rest, st, done =>
    let r := updateRenderData w st entry.2
    updateMeshesLoop w rest r.1 (done ++ [(entry.1, r.2)])

/-- `GUIManager::updateMeshes`. -/
def updateMeshes (w : World) (st : FrameState) : FrameState :=
  let r := updateMeshesLoop w st.cachedGUIData st []
  { r.1 with cachedGUIData := r.2 }

/-! ### Snapshot for the core thread -/

/-- The camera found by the loop over the widgets of a render target: the first camera that
is not null, `0` when there is none. -/
def cameraOfWidgets (w : World) (widgets : List Nat) : Nat :=
  match (widgets.map w.widgetCamera).find? fun camera => camera != 0 with
  | some camera => camera
  | none => 0

/-- The loop over the cached meshes of one render target, from mesh index `meshIdx` on: a
mesh with a loaded texture that is not null yields an entry. The result is `none` when a
read of `cachedMaterials` or `cachedWidgetsPerMesh` is out of range. -/
def meshEntries (w : World) (renderData : GUIRenderData) :
    List Nat → Nat → Option (List GUICoreRenderData)
  | [], _ => some []
  | mesh :: rest, meshIdx =>
    match renderData.cachedMaterials[meshIdx]?, renderData.cachedWidgetsPerMesh[meshIdx]? with
    | some materialInfo, some widget =>
      match meshEntries w renderData rest (meshIdx + 1) with
      | none => none
      | some entries =>
        if materialInfo.texture = 0 ∨ w.textureLoaded materialInfo.texture = false then
          some entries
        else if mesh = 0 then some entries
        else
          some
            ({ materialType := materialInfo.type, texture := materialInfo.texture,
               tint := materialInfo.tint, mesh := mesh, widget := widget } :: entries)
    | _, _ => none

/-- Insertion of entries for a camera into `corePerCameraData`: they are appended to the
entries the camera has already. -/
def addCameraData (camera : Nat) (entries : List GUICoreRenderData) :
    List (Nat × List GUICoreRenderData) → List (Nat × List GUICoreRenderData)
  | [] => [(camera, entries)]
  | p :: rest =>
    if p.1 = camera then (p.1, p.2 ++ entries) :: rest
    else p :: addCameraData camera entries rest

/-- The map `corePerCameraData` built from the cached render data; a render target without
camera is left out. -/
def coreSnapshot (w : World) :
    List (Nat × GUIRenderData) → List (Nat × List GUICoreRenderData) →
      Option (List (Nat × List GUICoreRenderData))
  | [], acc => some acc
  | entry :: rest, acc =>
    let camera := cameraOfWidgets w entry.2.widgets
    if camera = 0 then coreSnapshot w rest acc
    else
      match meshEntries w entry.2 entry.2.cachedMeshes 0 with
      | none => none
      | some entries => coreSnapshot w rest (addCameraData camera entries acc)

/-! ### The update -/

/-- The first part of `GUIManager::update`, up to the call of `updateMeshes`: tooltip, destroy
loop and caret blink. The two timer tests are inputs: `tooltipDue` says that the tooltip
condition holds and `caretDue` that the caret blink interval has passed. The drag-and-drop
update and the layout pass before the destroy loop are left out. The result is `none` when
the destroy loop has not ended after `fuel` passes. -/
def updateElements (w : World) (fuel : Nat) (tooltipDue caretDue : Bool) (st : FrameState) :
    Option FrameState :=
  let st0 : FrameState :=
    if st.gui.showTooltip && tooltipDue then { st with gui := { st.gui with showTooltip := false } }
    else st
  match destroyLoop w fuel st0 with
  | none => none
  | some (st1, _) =>
    some
      (if caretDue then
        redrawLoop w st1.gui.elementsInFocus { st1 with isCaretOn := !st1.isCaretOn }
      else st1)

/-- The last part of `GUIManager::update`: when `mCoreDirty` is set the snapshot is built and
handed to the core thread, and the flag is cleared. The result is `none` when the snapshot
reads a cache vector out of range. -/
def sendCoreData (w : World) (st : FrameState) : Option FrameState :=
  if st.coreDirty then
    match coreSnapshot w st.cachedGUIData [] with
    | none => none
    | some data => some { st with coreData := st.coreData ++ [data], coreDirty := false }
  else some st

/-- `GUIManager::update`: the first part, `updateMeshes`, and the snapshot for the core
thread. -/
def update (w : World) (fuel : Nat) (tooltipDue caretDue : Bool) (st : FrameState) :
    Option FrameState :=
  match updateElements w fuel tooltipDue caretDue st with
  | none => none
  | some st2 => sendCoreData w (updateMeshes w st2)

/-! ### Registration of widgets -/

/-- The render data stored for a render target, if any (`mCachedGUIData.find`). -/
def cacheFind (cache : List (Nat × GUIRenderData)) (renderTarget : Nat) :
    Option GUIRenderData :=
  (cache.find? fun p => p.1 == renderTarget).map Prod.snd

/-- The cache with the render data of `renderTarget` replaced. -/
def cacheSet (cache : List (Nat × GUIRenderData)) (renderTarget : Nat)
    (renderData : GUIRenderData) : List (Nat × GUIRenderData) :=
  cache.map fun p => if p.1 = renderTarget then (p.1, renderData) else p

/-- The cache without the entry of `renderTarget` (`mCachedGUIData.erase`). -/
def cacheErase (cache : List (Nat × GUIRenderData)) (renderTarget : Nat) :
    List (Nat × GUIRenderData) :=
  cache.filter fun p => p.1 != renderTarget

/-- The render data `mCachedGUIData[renderTarget]` refers to: the entry of the render target,
a default-constructed one when there is none. -/
def entryOrFresh (cache : List (Nat × GUIRenderData)) (renderTarget : Nat) : GUIRenderData :=
  match cacheFind cache renderTarget with
  | some found => found
  | none => {}

/-- `GUIManager::registerWidget`. -/
def registerWidget (w : World) (widget : Nat) (st : FrameState) : FrameState :=
  let renderTarget := w.getTarget widget
  if renderTarget = 0 then st
  else
    let windowData := entryOrFresh st.cachedGUIData renderTarget
    let windowData1 : GUIRenderData :=
      { windowData with widgets := windowData.widgets ++ [widget], isDirty := true }
    { st with
      gui := { st.gui with widgets := st.gui.widgets ++ [widget] }
      cachedGUIData :=
        match cacheFind st.cachedGUIData renderTarget with
        | some _ => cacheSet st.cachedGUIData renderTarget windowData1
        | none => st.cachedGUIData ++ [(renderTarget, windowData1)] }

/-- `GUIManager::unregisterWidget`. The records of the widget in the focus, under-pointer and
active sets lose their widget; the render data of the target loses the widget and, once it
has no widget left, is erased with its meshes released. -/
def unregisterWidget (w : World) (widget : Nat) (st : FrameState) : FrameState :=
  let gui : GUIManager :=
    { st.gui with
      widgets := st.gui.widgets.erase widget
      elementsInFocus := st.gui.elementsInFocus.map fun entry =>
        if entry.widget = widget then { entry with widget := 0 } else entry
      elementsUnderPointer := st.gui.elementsUnderPointer.map fun entry =>
        if entry.widget = widget then { entry with widget := 0 } else entry
      activeElements := st.gui.activeElements.map fun entry =>
        if entry.widget = widget then { entry with widget := 0 } else entry }
  let renderTarget := w.getTarget widget
  let renderData := entryOrFresh st.cachedGUIData renderTarget
  let widgets := renderData.widgets.erase widget
  if widgets = [] then
    { st with
      gui := gui
      meshHeap :=
        (renderData.cachedMeshes.filter fun mesh => mesh != 0).foldl MeshHeap.dealloc
          st.meshHeap
      cachedGUIData := cacheErase st.cachedGUIData renderTarget
      coreDirty := true }
  else
    { st with
      gui := gui
      cachedGUIData :=
        cacheSet st.cachedGUIData renderTarget
          { renderData with widgets := widgets, isDirty := true } }

/-! ### Sequences of calls -/

/-- A call of the manager: registration, pointer input, or the per-frame update with the
state of its two timers. -/
inductive ManagerCall where
  | registerWidget (widget : Nat)
  | unregisterWidget (widget : Nat)
  | pointer (input : PointerInput)
  | update (tooltipDue caretDue : Bool)
deriving DecidableEq, Repr

/-- The manager after one call; `none` when the call ends with an exception or `update` does
not return within `fuel` passes of its destroy loop. -/
def applyCall (w : World) (fuel : Nat) (st : FrameState) : ManagerCall → Option FrameState
  | ManagerCall.registerWidget widget => some (registerWidget w widget st)
  | ManagerCall.unregisterWidget widget => some (unregisterWidget w widget st)
  | ManagerCall.pointer input =>
    match handleInput (st.world w) st.gui input with
    | Except.ok gui => some { st with gui := gui }
    | Except.error _ => none
  | ManagerCall.update tooltipDue caretDue => update w fuel tooltipDue caretDue st

/-- The manager after a sequence of calls. -/
def applyCalls (w : World) (fuel : Nat) : FrameState → List ManagerCall → Option FrameState
  | st, [] => some st
  | st, call :: rest =>
    match applyCall w fuel st call with
    | none => none
    | some st' => applyCalls w fuel st' rest

/-! ## Input bridge (`GUIManager::getBridgeWindow`) -/

/-- The lookup `mInputBridge.find`: the bridge element registered for a render texture. The
map is the list of its entries. -/
def bridgeFind (inputBridge : List (Nat × Nat)) (target : Nat) : Option Nat :=
  (inputBridge.find? fun p => p.1 == target).map Prod.snd

/-- One pass through the body of the loop `while (true)` of `getBridgeWindow` for the render
texture `target`: `some r` when the pass leaves with `return r`, `none` when it reaches the
end of the body. A parent widget without viewport is dereferenced by the source; the pass
then ends with an error. -/
def bridgeWindowPass (w : World) (inputBridge : List (Nat × Nat)) (target : Nat) :
    Option (Except String Nat) :=
  match bridgeFind inputBridge target with
  | none => some (Except.ok 0)
  | some element =>
    let parentWidget := w.parentWidget element
    if parentWidget = 0 then some (Except.ok 0)
    else if w.getTarget parentWidget = 0 then some (Except.error "null viewport dereferenced")
    else
      let curTarget := w.viewportTarget (w.getTarget parentWidget)
      if curTarget = 0 then some (Except.ok 0)
      else if curTarget = target then some (Except.ok 0)
      else if w.isWindow curTarget then some (Except.ok curTarget)
      else none

/-- The loop `while (true)` of `getBridgeWindow`, run for at most `fuel` passes; `target` is
not assigned in the body, so every pass works on the same render texture. The result is
`none` when the loop has not been left after `fuel` passes. -/
def bridgeWindowLoop (w : World) (inputBridge : List (Nat × Nat)) (target : Nat) :
    Nat → Option (Except String Nat)
  | 0 => none
  | fuel + 1 =>
    match bridgeWindowPass w inputBridge target with
    | some r => some r
    | none => bridgeWindowLoop w inputBridge target fuel

/-- `GUIManager::getBridgeWindow`, the loop run for at most `fuel` passes; the window found
is returned, `0` for `nullptr`. -/
def getBridgeWindow (w : World) (inputBridge : List (Nat × Nat)) (fuel : Nat) (target : Nat) :
    Option (Except String Nat) :=
  if target = 0 then some (Except.ok 0) else bridgeWindowLoop w inputBridge target fuel

/-! ## Render-side data (`GUIManagerCore`) -/

/-- The members of `GUIManagerCore` used by `updateData`: the map `mPerCameraData` as the
list of its entries, and the ghost records of the cameras handed to
`registerRenderCallback` and `unregisterRenderCallback`, oldest first. -/
structure GUIManagerCore where
  perCameraData : List (Nat × List GUICoreRenderData) := []
  registered : List Nat := []
  unregistered : List Nat := []
deriving DecidableEq, Repr

/-- The entry list stored for a camera, if any. -/
def cameraFind (data : List (Nat × List GUICoreRenderData)) (camera : Nat) :
    Option (List GUICoreRenderData) :=
  (data.find? fun p => p.1 == camera).map Prod.snd

/-- The assignment `*renderData = ...` to the first entry of `camera`. -/
def cameraSet (camera : Nat) (entries : List GUICoreRenderData) :
    List (Nat × List GUICoreRenderData) → List (Nat × List GUICoreRenderData)
  | [] => []
  | p :: rest =>
    if p.1 = camera then (p.1, entries) :: rest else p :: cameraSet camera entries rest

/-- The first loop of `updateData` over `newPerCameraData`: a camera found in
`mPerCameraData` gets the new entry list; a camera not found is inserted with the new entry
list and gets a render callback. `validCameras` collects the cameras visited. -/
def updateDataLoop :
    List (Nat × List GUICoreRenderData) → GUIManagerCore → List Nat → GUIManagerCore × List Nat
  | [], core, validCameras => (core, validCameras)
  | newCameraData :: rest, core, validCameras =>
    if core.perCameraData.any fun oldCameraData => oldCameraData.1 == newCameraData.1 then
      updateDataLoop rest
        { core with
          perCameraData := cameraSet newCameraData.1 newCameraData.2 core.perCameraData }
        (validCameras ++ [newCameraData.1])
    else
      updateDataLoop rest
        { core with
          perCameraData := core.perCameraData ++ [(newCameraData.1, newCameraData.2)]
          registered := core.registered ++ [newCameraData.1] }
        (validCameras ++ [newCameraData.1])

/-- The last loop of `updateData`: every camera to remove loses its render callback and its
entry. -/
def removeCameras : List Nat → GUIManagerCore → GUIManagerCore
  | [], core => core
  | camera :: rest, core =>
    removeCameras rest
      { core with
        unregistered := core.unregistered ++ [camera]
        perCameraData := core.perCameraData.filter fun p => p.1 != camera }

/-- `GUIManagerCore::updateData`. -/
def updateData (newPerCameraData : List (Nat × List GUICoreRenderData))
    (core : GUIManagerCore) : GUIManagerCore :=
  let r := updateDataLoop newPerCameraData core []
  let cameraToRemove :=
    (r.1.perCameraData.filter fun cameraData => decide (cameraData.1 ∉ r.2)).map Prod.fst
  removeCameras cameraToRemove r.1

/-! ## Auxiliary notions used in the statements -/

/-- Rectangle `a` lies inside rectangle `b`. -/
def Rect2I.Within (a b : Rect2I) : Prop :=
  b.x ≤ a.x ∧ a.x + a.width ≤ b.x + b.width ∧ b.y ≤ a.y ∧ a.y + a.height ≤ b.y + b.height

/-- Paint order of two render elements with respect to a list of groups: either one group
holds both with `p` before `q`, or the group of `p` is strictly deeper (drawn earlier) than
the group of `q`. -/
def PaintOrdered (groups : List GUIMaterialGroup) (p q : GUIGroupElement) : Prop :=
  (∃ (k : Nat) (g : GUIMaterialGroup) (a b : Nat), groups[k]? = some g ∧ a < b ∧ g.elements[a]? = some p ∧
      g.elements[b]? = some q) ∨
  (∃ (kp kq : Nat) (gp gq : GUIMaterialGroup), groups[kp]? = some gp ∧ groups[kq]? = some gq ∧ p ∈ gp.elements ∧
      q ∈ gq.elements ∧ gq.depth < gp.depth)

/-- Invariant of the grouping loop after the render elements `done` have been processed. -/
structure GroupingInv (w : World) (groups : List GUIMaterialGroup)
    (done : List GUIGroupElement) : Prop where
  placed : ∀ p ∈ done, ∃ (k : Nat) (g : GUIMaterialGroup), groups[k]? = some g ∧ p ∈ g.elements ∧
    (tfrmedBounds w p.element).Within g.bounds ∧ elemDepth w p ≤ g.depth
  minSeen : ∀ g ∈ groups, ∃ e ∈ done, elemDepth w e ≤ g.minDepth
  minLeDepth : ∀ g ∈ groups, g.minDepth ≤ g.depth
  ordered : ∀ p ∈ done, ∀ q ∈ done,
    (tfrmedBounds w p.element).overlaps (tfrmedBounds w q.element) = true →
    elemDepth w q < elemDepth w p → PaintOrdered groups p q

/-! ## Auxiliary notions for the batches -/

/-- All render elements held by a list of groups, group after group. -/
def groupedElements (groups : List GUIMaterialGroup) : List GUIGroupElement :=
  groups.flatMap fun g => g.elements

/-- The groups after the first `n` passes of the grouping loop. -/
def groupsAfter (w : World) (separateMeshesByWidget : Bool) (widgets : List Nat) (n : Nat) :
    List GUIMaterialGroup :=
  ((allElements w widgets).take n).foldl (insertElement w separateMeshesByWidget) []

/-- The summary fields of a group agree with its members: every member has the material of
the group, `depth` is the greatest and `minDepth` the least member depth, and `numQuads` is
the sum of the quad counts of the members. -/
structure MaterialGroupInv (w : World) (g : GUIMaterialGroup) : Prop where
  material_eq : ∀ e ∈ g.elements, w.material e.element e.renderElement = g.matInfo
  depth_ge : ∀ e ∈ g.elements, elemDepth w e ≤ g.depth
  depth_attained : ∃ e ∈ g.elements, elemDepth w e = g.depth
  minDepth_le : ∀ e ∈ g.elements, g.minDepth ≤ elemDepth w e
  minDepth_attained : ∃ e ∈ g.elements, elemDepth w e = g.minDepth
  numQuads_eq :
    g.numQuads = (g.elements.map fun e => w.numQuads e.element e.renderElement).sum

/-- The depth test of the overlap scan with both ends of the window left out. -/
def depthStrictlyInWindow (matGroup : GUIMaterialGroup) (startDepth endDepth : Nat) : Bool :=
  (decide (matGroup.minDepth > startDepth) && decide (matGroup.minDepth < endDepth)) ||
    (decide (matGroup.depth > startDepth) && decide (matGroup.depth < endDepth))

/-- Eligibility of the candidate group at position `gi` when only groups at a depth strictly
between the depth of the element and the depth of the candidate count: no other such group
has bounds overlapping the union of the bounds of the candidate and of the element. -/
def eligibleStrictlyBetween (w : World) (groups : List GUIMaterialGroup)
    (elem : GUIGroupElement) (gi : Nat) (group : GUIMaterialGroup) : Bool :=
  !groups.enum.any fun jg =>
    decide (jg.1 ≠ gi) &&
      depthStrictlyInWindow jg.2 (min (elemDepth w elem) group.depth)
        (max (elemDepth w elem) group.depth) &&
      jg.2.bounds.overlaps (group.bounds.encapsulate (tfrmedBounds w elem.element))

/-- The render element `p` is drawn before `q` by the sequence of groups `G`: one group
holds both with `p` first, or the group of `p` comes before the group of `q`. -/
def DrawnBefore (G : List (List GUIGroupElement)) (p q : GUIGroupElement) : Prop :=
  (∃ g ∈ G, ∃ a b : Nat, a < b ∧ g[a]? = some p ∧ g[b]? = some q) ∨
  (∃ (i j : Nat) (gp gq : List GUIGroupElement), i < j ∧ G[i]? = some gp ∧ G[j]? = some gq ∧
    p ∈ gp ∧ q ∈ gq)

/-- A grouping of the visible render elements of the widgets, given as the sequence of its
groups in draw order: the groups hold every render element once, a group holds elements of
one material only, and of two overlapping render elements the farther one is drawn first. -/
structure ValidGrouping (w : World) (widgets : List Nat) (G : List (List GUIGroupElement)) :
    Prop where
  partition : G.flatten.Perm (allElements w widgets)
  sameMaterial : ∀ g ∈ G, ∀ p ∈ g, ∀ q ∈ g,
    w.material p.element p.renderElement = w.material q.element q.renderElement
  backToFront : ∀ p ∈ allElements w widgets, ∀ q ∈ allElements w widgets,
    (tfrmedBounds w p.element).overlaps (tfrmedBounds w q.element) = true →
    elemDepth w q < elemDepth w p → DrawnBefore G p q

/-- The element lists of the groups in the draw order computed by `updateMeshes`. -/
def drawnGroups (w : World) (separateMeshesByWidget : Bool) (addr : Nat → Nat)
    (widgets : List Nat) : List (List GUIGroupElement) :=
  (drawOrder w separateMeshesByWidget addr widgets).map fun g => g.2.elements

/-! ## Auxiliary notions for the router -/

/-- Element and widget of an under-pointer record. -/
def ElementInfoUnderPointer.key (info : ElementInfoUnderPointer) : Nat × Nat :=
  (info.element, info.widget)

/-- Kind of a delivered event. -/
inductive EventTag where
  | none
  | mouseOver
  | mouseOut
  | mouseMove
  | mouseWheelScroll
  | mouseDown
  | mouseUp
  | mouseDoubleClick
  | mouseDrag
  | mouseDragStart
  | mouseDragEnd
  | dragAndDropDragged
  | dragAndDropDropped
  | dragAndDropLeft
  | redraw
  | focusLost
  | focusGained
  | input
  | textInput
  | virtualButton
deriving DecidableEq, Repr

/-- Kind of a mouse event payload. -/
def GUIMouseEventData.tag : GUIMouseEventData → EventTag
  | GUIMouseEventData.None => EventTag.none
  | GUIMouseEventData.MouseOver _ => EventTag.mouseOver
  | GUIMouseEventData.MouseOut _ => EventTag.mouseOut
  | GUIMouseEventData.MouseMove _ => EventTag.mouseMove
  | GUIMouseEventData.MouseWheelScroll _ => EventTag.mouseWheelScroll
  | GUIMouseEventData.MouseDown _ _ => EventTag.mouseDown
  | GUIMouseEventData.MouseUp _ _ => EventTag.mouseUp
  | GUIMouseEventData.MouseDoubleClick _ _ => EventTag.mouseDoubleClick
  | GUIMouseEventData.MouseDrag _ _ => EventTag.mouseDrag
  | GUIMouseEventData.MouseDragStart _ _ => EventTag.mouseDragStart
  | GUIMouseEventData.MouseDragEnd _ => EventTag.mouseDragEnd
  | GUIMouseEventData.DragAndDropDragged _ => EventTag.dragAndDropDragged
  | GUIMouseEventData.DragAndDropDropped _ => EventTag.dragAndDropDropped
  | GUIMouseEventData.DragAndDropLeft _ => EventTag.dragAndDropLeft

/-- Kind of an event. -/
def GUIEvent.tag : GUIEvent → EventTag
  | GUIEvent.mouse ev => ev.data.tag
  | GUIEvent.command GUICommandEventType.Redraw => EventTag.redraw
  | GUIEvent.command GUICommandEventType.FocusLost => EventTag.focusLost
  | GUIEvent.command GUICommandEventType.FocusGained => EventTag.focusGained
  | GUIEvent.command (GUICommandEventType.Input _) => EventTag.input
  | GUIEvent.textInput _ => EventTag.textInput
  | GUIEvent.virtualButton _ => EventTag.virtualButton

/-- Receiver and kind of a delivered event. -/
def SentEvent.sig (e : SentEvent) : Nat × EventTag := (e.element, e.event.tag)

/-- The elements that received an event of kind `t`, in order of delivery. -/
def receivers (t : EventTag) (log : List SentEvent) : List Nat :=
  (log.filter fun e => decide (e.event.tag = t)).map fun e => e.element

/-- The events delivered between the manager state `s` and the later state `s'`. -/
def sentSince (s s' : GUIManager) : List SentEvent := s'.sent.drop s.sent.length

/-- The state `s'` arises from `s` by delivering the events `extra`; apart from the record
of delivered events only the scratch event `mMouseEvent` may differ. -/
def Delivers (s s' : GUIManager) (extra : List SentEvent) : Prop :=
  ∃ m : GUIMouseEvent, s' = { s with mouseEvent := m, sent := s.sent ++ extra }

/-- The front part of a list up to and including the first member satisfying `p` (the whole
list when there is none): the members a loop visits that leaves with `break` at `p`. -/
def takeThrough {α : Type} (p : α → Bool) : List α → List α
  | [] => []
  | x :: xs => if p x then [x] else x :: takeThrough p xs

/-- Receiver and kind of the events a loop over `evs` delivers when it visits every entry. -/
def deliveredSigs (w : World) (evs : List (Nat × GUIMouseEventData)) : List (Nat × EventTag) :=
  (evs.filter fun p => !w.isDestroyed p.1).map fun p => (p.1, p.2.tag)

/-- The active-set record made from an under-pointer record. -/
def ElementInfoUnderPointer.toElementInfo (info : ElementInfoUnderPointer) : ElementInfo :=
  { element := info.element, widget := info.widget }

/-- The mouse-down event the press `event` produces for the hovered record `info`, `base`
being the event made from the modifier state. -/
def mouseDownEvent (w : World) (base : GUIMouseEvent) (event : PointerEvent)
    (guiButton : GUIMouseButton) (info : ElementInfoUnderPointer) : GUIMouseEvent :=
  { base with
    data := GUIMouseEventData.MouseDown (getWidgetRelativePos w info.widget event.screenPos)
      guiButton }

/-- The hovered element of `info` is alive and its handler consumes the mouse-down event. -/
def consumesMouseDown (w : World) (base : GUIMouseEvent) (event : PointerEvent)
    (guiButton : GUIMouseButton) (info : ElementInfoUnderPointer) : Bool :=
  !w.isDestroyed info.element &&
    w.mouseEvent info.element (mouseDownEvent w base event guiButton info)

/-- The manager after the mouse-down loop visited at least one hovered element: `extra` was
delivered, a left press armed the drag state, the pressed button is the active button. -/
def afterMouseDown (s : GUIManager) (event : PointerEvent) (guiButton : GUIMouseButton)
    (m : GUIMouseEvent) (extra : List SentEvent) : GUIManager :=
  { s with
    mouseEvent := m
    sent := s.sent ++ extra
    dragState :=
      if guiButton = GUIMouseButton.Left then DragState.HeldWithoutDrag else s.dragState
    lastPointerClickPos :=
      if guiButton = GUIMouseButton.Left then event.screenPos else s.lastPointerClickPos
    activeMouseButton := guiButton }

/-- The focus record the focus-gained loop appends for the hovered record `info`: the old
record when the element has focus already, a fresh one otherwise. -/
def focusRecord (w : World) (oldFocus : List ElementFocusInfo)
    (info : ElementInfoUnderPointer) : ElementFocusInfo :=
  match oldFocus.find? fun x => x.element == info.element with
  | none =>
    { element := info.element, widget := info.widget,
      usesFocus := !w.isDestroyed info.element &&
        w.commandEvent info.element GUICommandEventType.FocusGained }
  | some found => found

/-- The hovered element of `info` gets a focus-gained event: it has no focus yet and is not
destroyed. -/
def getsFocusGained (w : World) (oldFocus : List ElementFocusInfo)
    (info : ElementInfoUnderPointer) : Bool :=
  (oldFocus.find? fun x => x.element == info.element).isNone && !w.isDestroyed info.element

/-- The manager after the hit test that opens every pointer handler. -/
def afterHitTest (w : World) (s : GUIManager) (event : PointerEvent) : GUIManager :=
  (findElementUnderPointer w s event.screenPos event.buttonStates event.shift event.control
    event.alt).1

/-- The hovered list (front to back) a pointer handler works with: the under-pointer list
after its hit test. -/
def hoveredList (w : World) (s : GUIManager) (event : PointerEvent) :
    List ElementInfoUnderPointer :=
  (afterHitTest w s event).elementsUnderPointer

/-- The mouse event made from the modifier state of a pointer event. -/
def baseEvent (event : PointerEvent) : GUIMouseEvent :=
  { buttonStates := event.buttonStates, shift := event.shift, control := event.control,
    alt := event.alt }

/-- The hovered records the mouse-down loop of a press visits. -/
def pressVisited (w : World) (s : GUIManager) (event : PointerEvent)
    (guiButton : GUIMouseButton) : List ElementInfoUnderPointer :=
  takeThrough (consumesMouseDown w (baseEvent event) event guiButton) (hoveredList w s event)

/-- The elements that are sent focus-lost when the focus set `oldFocus` is replaced by
`newFocus`, in order of delivery: the old records whose element is not in `newFocus` and is
not destroyed. -/
def focusLostTargets (w : World) (oldFocus newFocus : List ElementFocusInfo) : List Nat :=
  (oldFocus.filter fun info =>
      !(newFocus.any fun x => x.element == info.element) && !w.isDestroyed info.element).map
    fun info => info.element

/-- The hovered records the focus-gained loop of a press visits. -/
def focusVisited (w : World) (s : GUIManager) (event : PointerEvent) :
    List ElementInfoUnderPointer :=
  takeThrough (fun info => (focusRecord w s.elementsInFocus info).usesFocus)
    (hoveredList w s event)

/-- What a press with the button `guiButton` leaves behind, `s'` being the manager after
`onPointerPressed` and `s` the manager before. -/
structure PressOutcome (w : World) (s : GUIManager) (event : PointerEvent)
    (guiButton : GUIMouseButton) (s' : GUIManager) : Prop where
  hovered_eq : s'.elementsUnderPointer = hoveredList w s event
  focus_eq : s'.elementsInFocus =
    (focusVisited w s event).map (focusRecord w s.elementsInFocus)
  active_eq : s'.activeElements =
    if s.activeElements = [] then
      (pressVisited w s event guiButton).map ElementInfoUnderPointer.toElementInfo
    else s.activeElements
  dragState_eq : s'.dragState =
    if s.activeElements = [] ∧ hoveredList w s event ≠ [] ∧ guiButton = GUIMouseButton.Left then
      DragState.HeldWithoutDrag
    else s.dragState
  clickPos_eq : s'.lastPointerClickPos =
    if s.activeElements = [] ∧ hoveredList w s event ≠ [] ∧ guiButton = GUIMouseButton.Left then
      event.screenPos
    else s.lastPointerClickPos
  button_eq : s'.activeMouseButton =
    if s.activeElements = [] ∧ hoveredList w s event ≠ [] then guiButton
    else s.activeMouseButton
  screenPos_eq : s'.lastPointerScreenPos = s.lastPointerScreenPos
  widgets_eq : s'.widgets = s.widgets
  sent_eq : ∃ eHit eDown eGain eLost : List SentEvent,
    s'.sent = s.sent ++ (eHit ++ eDown ++ eGain ++ eLost) ∧
    (∀ e ∈ eHit, e.event.tag = EventTag.mouseOver ∨ e.event.tag = EventTag.dragAndDropLeft ∨
      e.event.tag = EventTag.mouseOut) ∧
    eDown.map SentEvent.sig =
      (if s.activeElements = [] then
        ((pressVisited w s event guiButton).filter fun info => !w.isDestroyed info.element).map
          (fun info => (info.element, EventTag.mouseDown))
      else []) ∧
    eGain.map SentEvent.sig =
      ((focusVisited w s event).filter (getsFocusGained w s.elementsInFocus)).map
        (fun info => (info.element, EventTag.focusGained)) ∧
    ∀ e ∈ eLost, e.event.tag = EventTag.focusLost
  lost_eq : receivers EventTag.focusLost (sentSince s s') =
    focusLostTargets w s.elementsInFocus s'.elementsInFocus
  dragStartPos_eq : s'.dragStartPos = s.dragStartPos

/-- The state `s'` arises from `s` by delivering the events `extra`; apart from the record
of delivered events only the scratch event, the cursor and the last pointer position may
differ. -/
def Routes (s s' : GUIManager) (extra : List SentEvent) : Prop :=
  ∃ (m : GUIMouseEvent) (c : CursorType) (p : Vector2I),
    s' = { s with mouseEvent := m, activeCursor := c, lastPointerScreenPos := p,
                  sent := s.sent ++ extra }

/-- What a pointer move leaves behind, `s'` being the manager after `onPointerMoved` and `s`
the manager before. -/
structure MoveOutcome (w : World) (s : GUIManager) (event : PointerEvent)
    (s' : GUIManager) : Prop where
  hovered_eq : s'.elementsUnderPointer = hoveredList w s event
  focus_eq : s'.elementsInFocus = s.elementsInFocus
  active_eq : s'.activeElements = s.activeElements
  button_eq : s'.activeMouseButton = s.activeMouseButton
  clickPos_eq : s'.lastPointerClickPos = s.lastPointerClickPos
  widgets_eq : s'.widgets = s.widgets
  dragState_eq : s'.dragState =
    if startsDrag s event then DragState.Dragging else s.dragState
  dragStartPos_eq : s'.dragStartPos =
    if startsDrag s event then event.screenPos else s.dragStartPos
  sent_eq : ∃ eHit eStart eRest : List SentEvent,
    s'.sent = s.sent ++ (eHit ++ eStart ++ eRest) ∧
    (∀ e ∈ eHit, e.event.tag = EventTag.mouseOver ∨ e.event.tag = EventTag.dragAndDropLeft ∨
      e.event.tag = EventTag.mouseOut) ∧
    eStart.map SentEvent.sig =
      (if startsDrag s event then deliveredSigs w (dragStartTargets w s event) else []) ∧
    ∀ e ∈ eRest, e.event.tag = EventTag.mouseDrag ∨ e.event.tag = EventTag.dragAndDropDragged ∨
      e.event.tag = EventTag.mouseMove ∨ e.event.tag = EventTag.mouseWheelScroll

/-- What a release of the button `guiButton` leaves behind, `s'` being the manager after
`onPointerReleased` and `s` the manager before. -/
structure ReleaseOutcome (w : World) (s : GUIManager) (event : PointerEvent)
    (guiButton : GUIMouseButton) (s' : GUIManager) : Prop where
  hovered_eq : s'.elementsUnderPointer = hoveredList w s event
  focus_eq : s'.elementsInFocus = s.elementsInFocus
  active_eq : s'.activeElements =
    if s.activeMouseButton = guiButton then [] else s.activeElements
  button_eq : s'.activeMouseButton =
    if s.activeMouseButton = guiButton then GUIMouseButton.Left else s.activeMouseButton
  clickPos_eq : s'.lastPointerClickPos = s.lastPointerClickPos
  widgets_eq : s'.widgets = s.widgets
  dragState_eq : s'.dragState = if endsDrag s guiButton then DragState.NoDrag else s.dragState
  sent_eq : ∃ eHit eUp eEnd : List SentEvent,
    s'.sent = s.sent ++ (eHit ++ eUp ++ eEnd) ∧
    (∀ e ∈ eHit, e.event.tag = EventTag.mouseOver ∨ e.event.tag = EventTag.dragAndDropLeft ∨
      e.event.tag = EventTag.mouseOut) ∧
    (∀ e ∈ eUp, e.event.tag = EventTag.mouseUp ∧ s.activeMouseButton = guiButton) ∧
    eEnd.map SentEvent.sig =
      (if s.dragState = DragState.Dragging ∧ endsDrag s guiButton then
        deliveredSigs w (dragEndTargets w s event)
      else [])
  dragStartPos_eq : s'.dragStartPos = s.dragStartPos

/-- The button of the input is one the GUI supports. -/
def PointerInput.supported (input : PointerInput) : Prop :=
  ∀ raw : Nat, input.event.button ≠ PointerEventButton.Other raw

/-- The element of the entry `p` of a sending loop is alive and its handler consumes the
mouse event `base` with the payload of `p`. -/
def consumesData (w : World) (base : GUIMouseEvent) (p : Nat × GUIMouseEventData) : Bool :=
  !w.isDestroyed p.1 && w.mouseEvent p.1 { base with data := p.2 }

/-- The position `dropLoop` hands to the hovered record `info`. -/
def dropPos (w : World) (screenPos : Vector2I) (info : ElementInfoUnderPointer) : Vector2I :=
  if info.widget ≠ 0 then getWidgetRelativePos w info.widget screenPos else {}

/-- The hovered element of `info` accepts the drop: it is asked only when the drag needs a
valid drop target. -/
def acceptsDrop (w : World) (screenPos : Vector2I) (info : ElementInfoUnderPointer) : Bool :=
  if w.needsValidDropTarget then w.acceptDragAndDrop info.element (dropPos w screenPos info)
  else true

/-- The hovered element of `info` ends the scan of `dropLoop`: it accepts the drop, is alive
and its handler consumes the drop event. -/
def consumesDrop (w : World) (base : GUIMouseEvent) (screenPos : Vector2I)
    (info : ElementInfoUnderPointer) : Bool :=
  acceptsDrop w screenPos info &&
    consumesData w base
      (info.element, GUIMouseEventData.DragAndDropDropped (dropPos w screenPos info))

/-! ## Auxiliary notions for the per-frame update -/

/-- The elements of the under-pointer, active and focus sets. -/
def trackedElements (g : GUIManager) : List Nat :=
  g.elementsUnderPointer.map (fun x => x.element) ++ g.activeElements.map (fun x => x.element) ++
    g.elementsInFocus.map (fun x => x.element)

/-- The two states agree in everything but the render cache, the mesh heap, the dirty flags
and the record of snapshots. -/
def SameElements (st st' : FrameState) : Prop :=
  st'.gui = st.gui ∧ st'.forcedFocusElements = st.forcedFocusElements ∧
  st'.scheduledForDestruction = st.scheduledForDestruction ∧ st'.isCaretOn = st.isCaretOn ∧
  st'.destroyed = st.destroyed ∧ st'.destroyedByHandler = st.destroyedByHandler ∧
  st'.deleted = st.deleted

/-! ## Auxiliary notions for sequences of calls -/

/-- Every element belongs to one widget: the element list of a widget has no repetition and
lists only elements whose parent widget it is. -/
def OwnsElements (w : World) : Prop :=
  (∀ widget, (w.widgetElements widget).Nodup) ∧
  ∀ widget, ∀ e ∈ w.widgetElements widget, w.parentWidget e = widget

/-- The two states agree in the render cache, the mesh heap, the dirty flags and the record
of snapshots. -/
def SameCache (st st' : FrameState) : Prop :=
  st'.cachedGUIData = st.cachedGUIData ∧ st'.coreDirty = st.coreDirty ∧
  st'.meshHeap = st.meshHeap ∧ st'.dirtyWidgets = st.dirtyWidgets ∧
  st'.coreData = st.coreData

/-- From `st` to `st'` the render cache and the registered widgets stayed, the under-pointer
and active sets lost records at most, the request queue stayed or was cleared, and the focus
set lost records at most when no request was queued. -/
structure ElementsStep (st st' : FrameState) : Prop where
  cache : SameCache st st'
  widgets : st'.gui.widgets = st.gui.widgets
  under : st'.gui.elementsUnderPointer.Sublist st.gui.elementsUnderPointer
  active : st'.gui.activeElements.Sublist st.gui.activeElements
  requests : st'.forcedFocusElements = st.forcedFocusElements ∨ st'.forcedFocusElements = []
  focus : st.forcedFocusElements = [] →
    st'.gui.elementsInFocus.Sublist st.gui.elementsInFocus

/-- From `st` to `st'` the cache, the request queue, the registered widgets and the
under-pointer and active sets stayed. -/
def FocusStep (st st' : FrameState) : Prop :=
  SameCache st st' ∧ st'.forcedFocusElements = st.forcedFocusElements ∧
  st'.gui.widgets = st.gui.widgets ∧
  st'.gui.elementsUnderPointer = st.gui.elementsUnderPointer ∧
  st'.gui.activeElements = st.gui.activeElements

/-- Nothing of the render cache is dirty: the core-dirty flag is clear, and every render
target has its dirty flag clear and no dirty widget. -/
def CleanCache (st : FrameState) : Prop :=
  st.coreDirty = false ∧
  ∀ p ∈ st.cachedGUIData, p.2.isDirty = false ∧ ∀ widget ∈ p.2.widgets, widget ∉ st.dirtyWidgets

/-- The widgets registered and not yet unregistered after a sequence of calls that starts
with the widgets `init` registered: a registration adds the widget, an unregistration takes
one registration of the widget away. -/
def registeredWidgets : List Nat → List ManagerCall → List Nat
  | init, [] => init
  | init, ManagerCall.registerWidget widget :: rest => registeredWidgets (init ++ [widget]) rest
  | init, ManagerCall.unregisterWidget widget :: rest => registeredWidgets (init.erase widget) rest
  | init, _ :: rest => registeredWidgets init rest

/-- The render cache mirrors the registered widgets: the entry of a render target lists the
registered widgets bound to the target, in order of registration, and is not empty; a
render target without entry has no registered widget. -/
def CacheInv (w : World) (st : FrameState) : Prop :=
  (∀ t rd, cacheFind st.cachedGUIData t = some rd →
    rd.widgets = st.gui.widgets.filter (fun x => decide (w.getTarget x = t)) ∧
    rd.widgets ≠ []) ∧
  ∀ t, cacheFind st.cachedGUIData t = none → ∀ x ∈ st.gui.widgets, w.getTarget x ≠ t

/-- No record of the under-pointer, active and focus sets has `widget` as its widget. -/
def NoRecordOf (widget : Nat) (g : GUIManager) : Prop :=
  (∀ r ∈ g.elementsUnderPointer, r.widget ≠ widget) ∧
  (∀ r ∈ g.activeElements, r.widget ≠ widget) ∧
  ∀ r ∈ g.elementsInFocus, r.widget ≠ widget

/-- The registered widgets are pairwise distinct and no element occurs twice in the
under-pointer set. -/
def HoverInv (st : FrameState) : Prop :=
  st.gui.widgets.Nodup ∧ (st.gui.elementsUnderPointer.map fun info => info.element).Nodup

/-! ## Auxiliary notions for drags, hover events, meshes and the input bridge -/

/-- The payload of a delivered mouse event; `none` for the other kinds of event. -/
def SentEvent.mouseData (e : SentEvent) : Option GUIMouseEventData :=
  match e.event with
  | GUIEvent.mouse ev => some ev.data
  | _ => none

/-- The hovered element of `info` accepts the dragged payload: it is asked only when the drag
needs a valid drop target. -/
def acceptsDragged (w : World) (screenPos : Vector2I) (info : ElementInfoUnderPointer) : Bool :=
  if w.needsValidDropTarget then
    w.acceptDragAndDrop info.element (getWidgetRelativePos w info.widget screenPos)
  else true

/-- The hovered element of `info` ends the drag-and-drop loop of a move: it accepts the
payload, is alive and its handler consumes the dragged event. -/
def consumesDragged (w : World) (base : GUIMouseEvent) (screenPos : Vector2I)
    (info : ElementInfoUnderPointer) : Bool :=
  acceptsDragged w screenPos info &&
    consumesData w base
      (info.element,
        GUIMouseEventData.DragAndDropDragged (getWidgetRelativePos w info.widget screenPos))

/-- The value of `acceptDrop` after the drag-and-drop loop of a move over the hovered records
`l`: the answer of the last record the loop visited, true when it visited none. -/
def lastAccepts (w : World) (base : GUIMouseEvent) (screenPos : Vector2I)
    (l : List ElementInfoUnderPointer) : Bool :=
  match (takeThrough (consumesDragged w base screenPos) l).getLast? with
  | none => true
  | some info => acceptsDragged w screenPos info

/-- The drag events of a move to `screenPos` with drag start `dragStartPos`: one for every
record of the active set whose element is not destroyed. -/
def dragEvents (w : World) (base : GUIMouseEvent) (active : List ElementInfo)
    (screenPos dragStartPos : Vector2I) : List SentEvent :=
  (active.filter fun a => !w.isDestroyed a.element).map fun a =>
    { element := a.element
      event := GUIEvent.mouse
        { base with
          data := GUIMouseEventData.MouseDrag (getWidgetRelativePos w a.widget screenPos)
            (screenPos.sub dragStartPos) } }

/-- The input is the move on which `Dragging` is entered from the state `s`: an unused move
beyond the drag distance while the state is `HeldWithoutDrag`. -/
def PointerInput.entersDrag (s : GUIManager) (input : PointerInput) : Prop :=
  ∃ event, input = PointerInput.moved event ∧ event.used = false ∧ startsDrag s event

/-- While the left button is held or a drag goes on, the active set is not empty and the
active button is the left button. -/
def DragInv (s : GUIManager) : Prop :=
  (s.dragState = DragState.HeldWithoutDrag ∨ s.dragState = DragState.Dragging) →
    s.activeElements ≠ [] ∧ s.activeMouseButton = GUIMouseButton.Left

/-- The manager after a sequence of hit tests, one for each pointer event of the list. -/
def hitTests (w : World) : GUIManager → List PointerEvent → GUIManager
  | s, [] => s
  | s, event :: rest => hitTests w (afterHitTest w s event) rest

/-- The kinds of the mouse-over and mouse-out events delivered to `element`, in order of
delivery. -/
def overOutTags (element : Nat) (log : List SentEvent) : List EventTag :=
  ((log.map SentEvent.sig).filter fun p =>
    p.1 == element && (p.2 == EventTag.mouseOver || p.2 == EventTag.mouseOut)).map Prod.snd

/-- True when the kinds alternate strictly between mouse-over and mouse-out; `expectOver`
tells whether the first one has to be a mouse-over. -/
def alternatesFrom : Bool → List EventTag → Bool
  | _, [] => true
  | true, t :: rest => t == EventTag.mouseOver && alternatesFrom false rest
  | false, t :: rest => t == EventTag.mouseOut && alternatesFrom true rest

/-- No handler consumes a mouse-over or a mouse-out event. -/
def QuietHover (w : World) : Prop :=
  ∀ (element : Nat) (ev : GUIMouseEvent),
    ev.data.tag = EventTag.mouseOver ∨ ev.data.tag = EventTag.mouseOut →
      w.mouseEvent element ev = false

/-- The kind expected next after the kinds of the list, when they alternate. -/
def expectsAfter : Bool → List EventTag → Option Bool
  | b, [] => some b
  | true, t :: rest => if t = EventTag.mouseOver then expectsAfter false rest else none
  | false, t :: rest => if t = EventTag.mouseOut then expectsAfter true rest else none

/-- Invariant of a run of hit tests with an empty active set in a world whose handlers
consume no mouse-over and no mouse-out event: every under-pointer record has received its
mouse-over, no element is recorded twice, and the mouse-over and mouse-out events of every
element alternate, the last one being a mouse-over exactly for the live elements under the
pointer. -/
structure HoverTrace (w : World) (s : GUIManager) : Prop where
  active : s.activeElements = []
  widgets : s.widgets.Nodup
  flags : ∀ r ∈ s.elementsUnderPointer, r.receivedMouseOver = true ∧ r.usesMouseOver = false
  nodup : (s.elementsUnderPointer.map fun r => r.element).Nodup
  tags : ∀ element, expectsAfter true (overOutTags element s.sent) =
    some (!(decide (element ∈ s.elementsUnderPointer.map fun r => r.element) &&
      !w.isDestroyed element))

/-- The mesh data held by the heap for a mesh, if the mesh is live. -/
def MeshHeap.meshData (heap : MeshHeap) (mesh : Nat) : Option MeshData :=
  (heap.live.find? fun p => p.1 == mesh).map Prod.snd

/-- The widget `updateMeshes` stores for a group when meshes are separated by widget: the
parent widget of the first member. -/
def groupWidget (w : World) (group : GUIMaterialGroup) : Nat :=
  match group.elements.head? with
  | none => 0
  | some elem => w.parentWidget elem.element

/-- Every live mesh of the heap was handed out by the heap. -/
def MeshHeap.WellFormed (heap : MeshHeap) : Prop :=
  ∀ p ∈ heap.live, p.1 < heap.nextHandle

/-- The quad count of a member of a group. -/
def memberQuads (w : World) (e : GUIGroupElement) : Nat :=
  w.numQuads e.element e.renderElement

/-- The lookup loop of `getBridgeWindow` cannot leave for the render texture `target`: the
texture is bridged, and the viewport of the parent widget of the bridge element has a render
target that is neither null nor `target` nor a window. -/
def BridgeStuck (w : World) (inputBridge : List (Nat × Nat)) (target : Nat) : Prop :=
  target ≠ 0 ∧
  ∃ element, bridgeFind inputBridge target = some element ∧
    w.parentWidget element ≠ 0 ∧ w.getTarget (w.parentWidget element) ≠ 0 ∧
    w.viewportTarget (w.getTarget (w.parentWidget element)) ≠ 0 ∧
    w.viewportTarget (w.getTarget (w.parentWidget element)) ≠ target ∧
    w.isWindow (w.viewportTarget (w.getTarget (w.parentWidget element))) = false

/-- The registered widgets are pairwise distinct and no element is recorded twice in the
active set. -/
def ActiveInv (s : GUIManager) : Prop :=
  s.widgets.Nodup ∧ (s.activeElements.map fun a => a.element).Nodup

/-! ## Concrete inputs -/

/-- A render target with two widgets. Widget 1 holds three elements of one material: element
1 at depth 9 and elements 2 and 3 at depth 5, with pairwise disjoint bounds. Widget 2 holds
element 4 of another material at depth 7. The bounds of element 4 meet the bounding box of
the three but not the bounding box of elements 1 and 3. -/
def exampleBatchWorld : World :=
  { widgetElements := fun wd => if wd = 1 then [1, 2, 3] else if wd = 2 then [4] else []
    parentWidget := fun e => if e = 4 then 2 else 1
    renderElementDepth := fun e _ => if e = 1 then 9 else if e = 4 then 7 else 5
    material := fun e _ => if e = 4 then { type := 2 } else { type := 1 }
    numQuads := fun _ _ => 1
    clippedBounds := fun e =>
      if e = 1 then { x := 0, y := 0, width := 10, height := 10 }
      else if e = 3 then { x := 20, y := 0, width := 10, height := 10 }
      else if e = 2 then { x := 0, y := 40, width := 10, height := 10 }
      else { x := 0, y := 20, width := 10, height := 10 } }

/-- The world `exampleBatchWorld` with element 4 moved onto element 1. -/
def exampleBatchWorldNear : World :=
  { exampleBatchWorld with
    clippedBounds := fun e =>
      if e = 1 then { x := 0, y := 0, width := 10, height := 10 }
      else if e = 3 then { x := 20, y := 0, width := 10, height := 10 }
      else if e = 2 then { x := 0, y := 40, width := 10, height := 10 }
      else { x := 5, y := 5, width := 10, height := 10 } }

/-- One widget with three elements. Elements 1 and 3 share a material and lie apart at
depths 9 and 5; element 2 has another material, lies at depth 9 and overlaps element 1 but
not element 3. -/
def exampleEligibilityWorld : World :=
  { widgetElements := fun wd => if wd = 1 then [1, 2, 3] else []
    parentWidget := fun _ => 1
    renderElementDepth := fun e _ => if e = 3 then 5 else 9
    material := fun e _ => if e = 2 then { type := 2 } else { type := 1 }
    numQuads := fun _ _ => 1
    clippedBounds := fun e =>
      if e = 1 then { x := 0, y := 0, width := 10, height := 10 }
      else if e = 2 then { x := 5, y := 5, width := 10, height := 10 }
      else { x := 20, y := 20, width := 10, height := 10 } }

/-- One widget (address 1) in window 1 with the elements 1, 2, 3 at depths 1, 2, 3; the
pointer is always over the window, the widget and the three elements. Element 2 consumes
every mouse and command event, the others consume nothing. -/
def exampleWorld : World :=
  { widgetElements := fun wd => if wd = 1 then [1, 2, 3] else []
    widgetInBounds := fun _ _ => true
    isInBounds := fun _ _ => true
    depth := fun e => e
    parentWidget := fun _ => 1
    getWidgetWindow := fun wd => if wd = 1 then 1 else 0
    isPointOverWindow := fun _ _ => true
    mouseEvent := fun e _ => decide (e = 2)
    commandEvent := fun e _ => decide (e = 2) }

/-- The world `exampleWorld` with element 1 flagged as destroyed. -/
def exampleWorldDestroyed : World :=
  { exampleWorld with isDestroyed := fun e => decide (e = 1) }

/-- A manager with widget 1 registered and nothing else going on. -/
def exampleManager : GUIManager := { widgets := [1] }

/-- An unused press or release of the left button at the given screen position. -/
def leftButtonAt (x y : Int) : PointerEvent :=
  { screenPos := { x := x, y := y }, button := PointerEventButton.Left,
    buttonStates := (true, false, false) }

/-- An unused pointer move to the given screen position. -/
def moveTo (x y : Int) : PointerEvent :=
  { screenPos := { x := x, y := y } }

/-- The manager `exampleManager` in the middle of a left-button session on the elements 1
and 2: pressed at (0,0), not dragging yet. -/
def exampleHeldManager : GUIManager :=
  { exampleManager with
    dragState := DragState.HeldWithoutDrag
    activeElements := [{ element := 1, widget := 1 }, { element := 2, widget := 1 }] }

/-- The manager `exampleHeldManager` once the drag has started. -/
def exampleDraggingManager : GUIManager :=
  { exampleHeldManager with dragState := DragState.Dragging }

/-- The world `exampleWorld` with handlers that consume nothing. -/
def exampleWorldQuiet : World :=
  { exampleWorld with
    mouseEvent := fun _ _ => false
    commandEvent := fun _ _ => false }

/-- The manager `exampleManager` with focus on the elements 3 and 1. -/
def exampleFocusManager : GUIManager :=
  { exampleManager with
    elementsInFocus :=
      [{ element := 3, widget := 1, usesFocus := false },
       { element := 1, widget := 1, usesFocus := false }] }

/-- An unused press or release of the right button at the given screen position. -/
def rightButtonAt (x y : Int) : PointerEvent :=
  { screenPos := { x := x, y := y }, button := PointerEventButton.Right,
    buttonStates := (false, false, true) }

/-- A world with a destruction chain of three elements: the destructor of element 1 asks
for the destruction of element 2, that of element 2 for element 3. -/
def exampleChainWorld : World :=
  { destructorDestroys := fun e => if e = 1 then [2] else if e = 2 then [3] else [] }

/-- A manager with element 1 flagged and queued for destruction. -/
def exampleChainState : FrameState :=
  { scheduledForDestruction := [1], destroyed := [1] }

/-- The world `exampleWorld` with the window under the pointer only left of x = 100 and
with handlers that consume nothing but the mouse-out events sent to element 1. -/
def exampleMouseOutWorld : World :=
  { exampleWorld with
    isPointOverWindow := fun _ p => decide (p.x < 100)
    mouseEvent := fun e ev => decide (e = 1 ∧ ev.data.tag = EventTag.mouseOut)
    commandEvent := fun _ _ => false }

/-- A manager in which widget 1 is registered twice. -/
def exampleDoubleManager : GUIManager := { widgets := [1, 1] }

/-- The world `exampleWorldQuiet` during a payload drag that needs a valid drop target;
every element accepts the drop. -/
def exampleDropWorld : World :=
  { exampleWorldQuiet with
    isDragInProgress := true
    needsValidDropTarget := true
    acceptDragAndDrop := fun _ _ => true }

/-- The manager `exampleManager` with the elements 1, 2, 3 under the pointer. -/
def exampleHoverManager : GUIManager :=
  { exampleManager with
    elementsUnderPointer :=
      [{ element := 1, widget := 1 }, { element := 2, widget := 1 },
       { element := 3, widget := 1 }] }

/-- The manager `exampleManager` after a pointer move to (0,0) in `exampleMouseOutWorld`:
the elements 1, 2, 3 are under the pointer and have received mouse-over. -/
def exampleMouseOutManager : GUIManager :=
  (onPointerMoved exampleMouseOutWorld exampleManager (moveTo 0 0)).1

/-- A screen position off the window of `exampleMouseOutWorld`. -/
def exampleOffWindow : Vector2I := { x := 200, y := 0 }

/-- A manager with focus on element 1 and nothing queued, nothing registered and nothing
dirty. -/
def exampleCaretState : FrameState :=
  { gui := { elementsInFocus := [{ element := 1, widget := 1, usesFocus := false }] } }

/-- World in which widget `n` renders to the viewport `n + 10`. -/
def exampleTargetWorld : World := { getTarget := fun widget => widget + 10 }

/-- The world `exampleWorldQuiet` with every widget rendering to the viewport 1. -/
def exampleRegisterWorld : World :=
  { exampleWorldQuiet with getTarget := fun _ => 1 }

/-- The world `exampleDropWorld` with element 1 as the only element that accepts the
payload. -/
def exampleDragCursorWorld : World :=
  { exampleDropWorld with acceptDragAndDrop := fun e _ => decide (e = 1) }

/-- The world `exampleDropWorld` with no element accepting the payload and the pointer over
no window. -/
def exampleDragOffWorld : World :=
  { exampleDropWorld with
    acceptDragAndDrop := fun _ _ => false
    isPointOverWindow := fun _ _ => false }

/-- The world `exampleWorld` with element 1 in bounds only left of x = 50 and with handlers
that consume nothing but the mouse-over events sent to element 1. -/
def exampleMouseOverWorld : World :=
  { exampleWorld with
    isInBounds := fun e p => decide (e ≠ 1 ∨ p.x < 50)
    mouseEvent := fun e ev => decide (e = 1 ∧ ev.data.tag = EventTag.mouseOver)
    commandEvent := fun _ _ => false }

/-- The world `exampleMouseOutWorld` with handlers that consume nothing: the window is under
the pointer only left of x = 100. -/
def exampleLeaveWorld : World :=
  { exampleMouseOutWorld with mouseEvent := fun _ _ => false }

/-- A core that holds entries for the cameras 1 and 2. -/
def exampleCore : GUIManagerCore :=
  { perCameraData := [(1, []), (2, [])] }

/-- A snapshot with entries for the cameras 2 and 3. -/
def exampleSnapshot : List (Nat × List GUICoreRenderData) :=
  [(2, [{ materialType := 0, texture := 7, tint := 0, mesh := 4, widget := 1 }]), (3, [])]

/-- A world in which the parent widget of every element renders to the render texture 2,
which is not a window. -/
def exampleBridgeWorld : World :=
  { parentWidget := fun _ => 1
    getTarget := fun _ => 1
    viewportTarget := fun _ => 2 }

/-! ## Lemmas on rectangles, ordered sets and the grouping loop -/

theorem Rect2I.within_refl (a : Rect2I) : a.Within a := by
  simp [Rect2I.Within]

theorem Rect2I.within_trans {a b c : Rect2I} (h1 : a.Within b) (h2 : b.Within c) :
    a.Within c := by
  unfold Rect2I.Within at *
  omega

theorem Rect2I.within_encapsulate_left (r o : Rect2I) : r.Within (r.encapsulate o) := by
  unfold Rect2I.Within Rect2I.encapsulate
  simp only
  split_ifs <;> omega

theorem Rect2I.within_encapsulate_right (r o : Rect2I) : o.Within (r.encapsulate o) := by
  unfold Rect2I.Within Rect2I.encapsulate
  simp only
  split_ifs <;> omega

theorem Rect2I.overlaps_mono {a a' b b' : Rect2I} (ha : a.Within a') (hb : b.Within b')
    (h : a.overlaps b = true) : a'.overlaps b' = true := by
  unfold Rect2I.Within at ha hb
  simp only [Rect2I.overlaps, Bool.and_eq_true, decide_eq_true_eq] at h ⊢
  omega

section SetInsert
variable {α : Type} (comp : α → α → Bool)

theorem mem_of_mem_setInsert {x y : α} {l : List α} (h : y ∈ setInsert comp x l) :
    y = x ∨ y ∈ l := by
  induction l with
  | nil => simpa [setInsert] using h
  | cons z zs ih =>
    unfold setInsert at h
    split_ifs at h with h1 h2
    · rcases List.mem_cons.1 h with h | h
      · exact Or.inl h
      · exact Or.inr h
    · rcases List.mem_cons.1 h with h | h
      · exact Or.inr (h ▸ List.mem_cons_self _ _)
      · rcases ih h with h | h
        · exact Or.inl h
        · exact Or.inr (List.mem_cons_of_mem _ h)
    · exact Or.inr h

theorem mem_setInsert_of_mem {x y : α} {l : List α} (h : y ∈ l) : y ∈ setInsert comp x l := by
  induction l with
  | nil => cases h
  | cons z zs ih =>
    unfold setInsert
    split_ifs with h1 h2
    · exact List.mem_cons_of_mem _ h
    · rcases List.mem_cons.1 h with h | h
      · exact h ▸ List.mem_cons_self _ _
      · exact List.mem_cons_of_mem _ (ih h)
    · exact h

theorem self_mem_setInsert {x : α} {l : List α}
    (huniq : ∀ y ∈ l, comp x y = false → comp y x = false → y = x) :
    x ∈ setInsert comp x l := by
  induction l with
  | nil => simp [setInsert]
  | cons z zs ih =>
    unfold setInsert
    split_ifs with h1 h2
    · exact List.mem_cons_self _ _
    · exact List.mem_cons_of_mem _ (ih fun y hy => huniq y (List.mem_cons_of_mem _ hy))
    · have := huniq z (List.mem_cons_self _ _) (by simpa using h1) (by simpa using h2)
      exact this ▸ List.mem_cons_self _ _

theorem pairwise_setInsert (d : α → Nat) (hlt : ∀ a b, comp a b = true → d b ≤ d a)
    (hge : ∀ a b, comp a b = false → d a ≤ d b) {x : α} {l : List α}
    (h : l.Pairwise fun a b => d b ≤ d a) :
    (setInsert comp x l).Pairwise fun a b => d b ≤ d a := by
  induction l with
  | nil => simp [setInsert]
  | cons z zs ih =>
    have hz := List.pairwise_cons.1 h
    unfold setInsert
    split_ifs with h1 h2
    · refine List.pairwise_cons.2 ⟨?_, h⟩
      intro b hb
      rcases List.mem_cons.1 hb with hb | hb
      · exact hb ▸ hlt _ _ h1
      · exact le_trans (hz.1 b hb) (hlt _ _ h1)
    · refine List.pairwise_cons.2 ⟨?_, ih hz.2⟩
      intro b hb
      rcases mem_of_mem_setInsert comp hb with hb | hb
      · exact hb ▸ hge _ _ (by simpa using h1)
      · exact hz.1 b hb
    · exact h

theorem pairwise_foldl_setInsert (d : α → Nat) (hlt : ∀ a b, comp a b = true → d b ≤ d a)
    (hge : ∀ a b, comp a b = false → d a ≤ d b) (l : List α) :
    ∀ acc : List α, (acc.Pairwise fun a b => d b ≤ d a) →
      (l.foldl (fun s x => setInsert comp x s) acc).Pairwise fun a b => d b ≤ d a := by
  induction l with
  | nil => intro acc h; simpa using h
  | cons x xs ih =>
    intro acc h
    exact ih _ (pairwise_setInsert comp d hlt hge h)

theorem mem_foldl_setInsert_of_mem_acc (l : List α) :
    ∀ (acc : List α) (y : α), y ∈ acc → y ∈ l.foldl (fun s x => setInsert comp x s) acc := by
  induction l with
  | nil => intro acc y h; simpa using h
  | cons x xs ih =>
    intro acc y h
    exact ih _ y (mem_setInsert_of_mem comp h)

theorem mem_of_mem_foldl_setInsert (l : List α) :
    ∀ (acc : List α) (y : α), y ∈ l.foldl (fun s x => setInsert comp x s) acc →
      y ∈ acc ∨ y ∈ l := by
  induction l with
  | nil => intro acc y h; exact Or.inl (by simpa using h)
  | cons x xs ih =>
    intro acc y h
    rcases ih _ y h with h | h
    · rcases mem_of_mem_setInsert comp h with h | h
      · exact Or.inr (h ▸ List.mem_cons_self _ _)
      · exact Or.inl h
    · exact Or.inr (List.mem_cons_of_mem _ h)

theorem mem_foldl_setInsert (l : List α) :
    ∀ (acc : List α) (y : α), y ∈ l →
      (∀ a, a ∈ acc ∨ a ∈ l → ∀ b, b ∈ acc ∨ b ∈ l →
        comp a b = false → comp b a = false → b = a) →
      y ∈ l.foldl (fun s x => setInsert comp x s) acc := by
  induction l with
  | nil => intro acc y h; cases h
  | cons x xs ih =>
    intro acc y h huniq
    rcases List.mem_cons.1 h with h | h
    · subst h
      rw [List.foldl_cons]
      apply mem_foldl_setInsert_of_mem_acc
      apply self_mem_setInsert
      intro z hz h1 h2
      exact huniq y (Or.inr (List.mem_cons_self _ _)) z (Or.inl hz) h1 h2
    · apply ih _ y h
      intro a ha b hb
      have conv : ∀ c, c ∈ setInsert comp x acc ∨ c ∈ xs → c ∈ acc ∨ c ∈ x :: xs := by
        intro c hc
        rcases hc with hc | hc
        · rcases mem_of_mem_setInsert comp hc with hc | hc
          · exact Or.inr (hc ▸ List.mem_cons_self _ _)
          · exact Or.inl hc
        · exact Or.inr (List.mem_cons_of_mem _ hc)
      exact huniq a (conv a ha) b (conv b hb)

end SetInsert

theorem foundOverlap_false {groups : List GUIMaterialGroup} {gi s e : Nat} {pot : Rect2I}
    (h : foundOverlap groups gi s e pot = false) {j : Nat} {g : GUIMaterialGroup}
    (hj : groups[j]? = some g) (hne : j ≠ gi) (hov : g.bounds.overlaps pot = true) :
    depthInWindow g s e = false := by
  unfold foundOverlap at h
  rw [List.any_eq_false] at h
  have := h (j, g) (List.mk_mem_enum_iff_getElem?.2 hj)
  simpa [hne, hov] using this

theorem findGroup_some {w : World} {sep : Bool} {groups : List GUIMaterialGroup}
    {elem : GUIGroupElement} {gi : Nat} (h : findGroup w sep groups elem = some gi) :
    ∃ g, groups[gi]? = some g ∧ g.matInfo = w.material elem.element elem.renderElement ∧
      groupFits w sep groups elem gi g = true := by
  unfold findGroup at h
  rw [Option.map_eq_some'] at h
  obtain ⟨⟨j, g⟩, hfind, hj⟩ := h
  simp only at hj
  subst hj
  have hfit := List.find?_some hfind
  have hmem := List.mem_of_find?_eq_some hfind
  rw [List.mem_filter, List.mem_reverse] at hmem
  exact ⟨g, List.mk_mem_enum_iff_getElem?.1 hmem.1, by simpa using hmem.2, hfit⟩

theorem insertElement_cases (w : World) (sep : Bool) (groups : List GUIMaterialGroup)
    (x : GUIGroupElement) :
    insertElement w sep groups x = groups ++ [newGroup w x] ∨
    ∃ gi g, groups[gi]? = some g ∧ g.matInfo = w.material x.element x.renderElement ∧
      groupFits w sep groups x gi g = true ∧
      insertElement w sep groups x = List.modify (addToGroup w x) gi groups := by
  unfold insertElement
  cases h : findGroup w sep groups x with
  | none => exact Or.inl rfl
  | some gi =>
    obtain ⟨g, h1, h2, h3⟩ := findGroup_some h
    exact Or.inr ⟨gi, g, h1, h2, h3, rfl⟩

/-- What one pass of the grouping loop does to a group that exists already: depth and material
stay, elements are only appended, bounds only grow. -/
theorem insertElement_old (w : World) (sep : Bool) (groups : List GUIMaterialGroup)
    (x : GUIGroupElement) {k : Nat} {g : GUIMaterialGroup} (hk : groups[k]? = some g) :
    ∃ g', (insertElement w sep groups x)[k]? = some g' ∧ g'.depth = g.depth ∧
      g'.matInfo = g.matInfo ∧ (g'.elements = g.elements ∨ g'.elements = g.elements ++ [x]) ∧
      g.bounds.Within g'.bounds ∧
      (g'.minDepth = g.minDepth ∨ g'.minDepth = min g.minDepth (elemDepth w x)) := by
  have hlen : k < groups.length := by
    rcases Nat.lt_or_ge k groups.length with h | h
    · exact h
    · rw [List.getElem?_eq_none h] at hk; cases hk
  rcases insertElement_cases w sep groups x with h | ⟨gi, g0, hgi, -, -, h⟩
  · refine ⟨g, ?_, rfl, rfl, Or.inl rfl, Rect2I.within_refl _, Or.inl rfl⟩
    rw [h, List.getElem?_append_left hlen, hk]
  · rw [h, List.getElem?_modify, hk]
    by_cases hkg : gi = k
    · refine ⟨addToGroup w x g, by simp [hkg], rfl, rfl, Or.inr rfl,
        Rect2I.within_encapsulate_left _ _, Or.inr rfl⟩
    · exact ⟨g, by simp [hkg], rfl, rfl, Or.inl rfl, Rect2I.within_refl _, Or.inl rfl⟩

theorem paintOrdered_insertElement (w : World) (sep : Bool) (groups : List GUIMaterialGroup)
    (x p q : GUIGroupElement) (h : PaintOrdered groups p q) :
    PaintOrdered (insertElement w sep groups x) p q := by
  rcases h with ⟨k, g, a, b, hk, hab, ha, hb⟩ | ⟨kp, kq, gp, gq, hkp, hkq, hp, hq, hlt⟩
  · obtain ⟨g', hg', -, -, hel, -, -⟩ := insertElement_old w sep groups x hk
    refine Or.inl ⟨k, g', a, b, hg', hab, ?_, ?_⟩
    · rcases hel with hel | hel
      · rw [hel]; exact ha
      · rw [hel, List.getElem?_append_left (List.getElem?_eq_some.1 ha).1]; exact ha
    · rcases hel with hel | hel
      · rw [hel]; exact hb
      · rw [hel, List.getElem?_append_left (List.getElem?_eq_some.1 hb).1]; exact hb
  · obtain ⟨gp', hgp', hdp, -, help, -, -⟩ := insertElement_old w sep groups x hkp
    obtain ⟨gq', hgq', hdq, -, helq, -, -⟩ := insertElement_old w sep groups x hkq
    refine Or.inr ⟨kp, kq, gp', gq', hgp', hgq', ?_, ?_, by omega⟩
    · rcases help with hel | hel <;> rw [hel] <;> simp [hp]
    · rcases helq with hel | hel <;> rw [hel] <;> simp [hq]

theorem groupingInv_nil (w : World) : GroupingInv w [] [] :=
  { placed := by intro p hp; cases hp
    minSeen := by intro g hg; cases hg
    minLeDepth := by intro g hg; cases hg
    ordered := by intro p hp; cases hp }

theorem groupingInv_step (w : World) (sep : Bool) (groups : List GUIMaterialGroup)
    (done : List GUIGroupElement) (x : GUIGroupElement) (inv : GroupingInv w groups done)
    (hx : ∀ e ∈ done, elemDepth w x ≤ elemDepth w e) :
    GroupingInv w (insertElement w sep groups x) (done ++ [x]) := by
  -- where the new element goes
  have hnew : ∃ (k : Nat) (g : GUIMaterialGroup), (insertElement w sep groups x)[k]? = some g ∧ x ∈ g.elements ∧
      (tfrmedBounds w x.element).Within g.bounds ∧ elemDepth w x ≤ g.depth ∧
      ∀ p ∈ done, (tfrmedBounds w p.element).overlaps (tfrmedBounds w x.element) = true →
        elemDepth w x < elemDepth w p → PaintOrdered (insertElement w sep groups x) p x := by
    rcases insertElement_cases w sep groups x with h | ⟨gi, g, hgi, -, hfit, h⟩
    · refine ⟨groups.length, newGroup w x, ?_, by simp [newGroup], Rect2I.within_refl _,
        le_refl _, ?_⟩
      · rw [h]; simp
      · intro p hp _ hlt
        obtain ⟨kp, gp, hkp, hpin, -, hdp⟩ := inv.placed p hp
        obtain ⟨gp', hgp', hdp', -, help, -, -⟩ := insertElement_old w sep groups x hkp
        refine Or.inr ⟨kp, groups.length, gp', newGroup w x, hgp', by rw [h]; simp, ?_,
          by simp [newGroup], ?_⟩
        · rcases help with hel | hel <;> (rw [hel]; simp [hpin])
        · show elemDepth w x < gp'.depth
          omega
    · have hlen : gi < groups.length := (List.getElem?_eq_some.1 hgi).1
      have hget : (insertElement w sep groups x)[gi]? = some (addToGroup w x g) := by
        rw [h, List.getElem?_modify, hgi]; simp
      have hgmem : g ∈ groups := List.getElem?_mem hgi
      have hgmin : elemDepth w x ≤ g.minDepth := by
        obtain ⟨e, he, hle⟩ := inv.minSeen g hgmem
        exact le_trans (hx e he) hle
      have hgd := inv.minLeDepth g hgmem
      refine ⟨gi, addToGroup w x g, hget, by simp [addToGroup],
        Rect2I.within_encapsulate_right _ _, by show elemDepth w x ≤ g.depth; omega, ?_⟩
      intro p hp hov hlt
      obtain ⟨kp, gp, hkp, hpin, hpb, hdp⟩ := inv.placed p hp
      by_cases hsame : kp = gi
      · subst hsame
        have hgp : gp = g := by rw [hkp] at hgi; exact Option.some.inj hgi
        subst hgp
        obtain ⟨a, ha, hpa⟩ := List.mem_iff_getElem.1 hpin
        refine Or.inl ⟨kp, addToGroup w x gp, a, gp.elements.length, hget, ha, ?_, ?_⟩
        · show (gp.elements ++ [x])[a]? = some p
          rw [List.getElem?_append_left ha, List.getElem?_eq_getElem ha, hpa]
        · show (gp.elements ++ [x])[gp.elements.length]? = some x
          simp
      · obtain ⟨gp', hgp', hdp', -, help, -, -⟩ := insertElement_old w sep groups x hkp
        refine Or.inr ⟨kp, gi, gp', addToGroup w x g, hgp', hget, ?_, by simp [addToGroup], ?_⟩
        · rcases help with hel | hel <;> (rw [hel]; simp [hpin])
        · show g.depth < gp'.depth
          rw [hdp']
          unfold groupFits at hfit
          split_ifs at hfit with h1 h2
          · omega
          · have hfo : foundOverlap groups gi (elemDepth w x) g.depth
                (g.bounds.encapsulate (tfrmedBounds w x.element)) = false := by
              simpa using hfit
            have hwin := foundOverlap_false hfo hkp hsame
              (Rect2I.overlaps_mono hpb (Rect2I.within_encapsulate_right _ _) hov)
            have hpmem : gp ∈ groups := List.getElem?_mem hkp
            obtain ⟨e, he, hle⟩ := inv.minSeen gp hpmem
            have h3 := hx e he
            have h4 := inv.minLeDepth gp hpmem
            simp only [depthInWindow, Bool.or_eq_false_iff, Bool.and_eq_false_iff,
              decide_eq_false_iff_not] at hwin
            omega
  obtain ⟨kx, gx, hkx, hxin, hxb, hxd, hxord⟩ := hnew
  refine
    { placed := ?_
      minSeen := ?_
      minLeDepth := ?_
      ordered := ?_ }
  · intro p hp
    rcases List.mem_append.1 hp with hp | hp
    · obtain ⟨kp, gp, hkp, hpin, hpb, hdp⟩ := inv.placed p hp
      obtain ⟨gp', hgp', hdp', -, help, hbb, -⟩ := insertElement_old w sep groups x hkp
      refine ⟨kp, gp', hgp', ?_, Rect2I.within_trans hpb hbb, by omega⟩
      rcases help with hel | hel <;> (rw [hel]; simp [hpin])
    · have : p = x := by simpa using hp
      subst this
      exact ⟨kx, gx, hkx, hxin, hxb, hxd⟩
  · intro g' hg'
    obtain ⟨k, hk, hgk⟩ := List.mem_iff_getElem.1 hg'
    rcases insertElement_cases w sep groups x with h | ⟨gi, g, hgi, -, -, h⟩
    · have hk2 : k < (groups ++ [newGroup w x]).length := by rw [← h]; exact hk
      have hgk2 : (groups ++ [newGroup w x])[k] = g' := by
        rw [← hgk]; congr 1; simp [h]
      by_cases hlt : k < groups.length
      · rw [List.getElem_append_left hlt] at hgk2
        obtain ⟨e, he, hle⟩ := inv.minSeen g' (hgk2 ▸ List.getElem_mem _)
        exact ⟨e, List.mem_append_left _ he, hle⟩
      · have : g' = newGroup w x := by
          rw [List.getElem_append_right (by omega)] at hgk2
          simpa using hgk2.symm
        exact ⟨x, by simp, by rw [this]; exact le_refl _⟩
    · have hk2 : k < groups.length := by
        have := hk; rw [h, List.length_modify] at this; exact this
      obtain ⟨g'', hg'', -, -, -, -, hmin⟩ :=
        insertElement_old w sep groups x (List.getElem?_eq_getElem hk2)
      have : g'' = g' := by
        rw [List.getElem?_eq_getElem hk] at hg''
        rw [← hgk]; exact (Option.some.inj hg'').symm
      subst this
      obtain ⟨e, he, hle⟩ := inv.minSeen groups[k] (List.getElem_mem _)
      rcases hmin with hmin | hmin
      · exact ⟨e, List.mem_append_left _ he, by omega⟩
      · by_cases hc : groups[k].minDepth ≤ elemDepth w x
        · exact ⟨e, List.mem_append_left _ he, by rw [hmin]; omega⟩
        · exact ⟨x, by simp, by rw [hmin]; omega⟩
  · intro g' hg'
    obtain ⟨k, hk, hgk⟩ := List.mem_iff_getElem.1 hg'
    rcases insertElement_cases w sep groups x with h | ⟨gi, g, hgi, -, -, h⟩
    · have hk2 : k < (groups ++ [newGroup w x]).length := by rw [← h]; exact hk
      have hgk2 : (groups ++ [newGroup w x])[k] = g' := by
        rw [← hgk]; congr 1; simp [h]
      by_cases hlt : k < groups.length
      · rw [List.getElem_append_left hlt] at hgk2
        exact inv.minLeDepth g' (hgk2 ▸ List.getElem_mem _)
      · have : g' = newGroup w x := by
          rw [List.getElem_append_right (by omega)] at hgk2
          simpa using hgk2.symm
        rw [this]; exact le_refl _
    · have hk2 : k < groups.length := by
        have := hk; rw [h, List.length_modify] at this; exact this
      obtain ⟨g'', hg'', hd, -, -, -, hmin⟩ :=
        insertElement_old w sep groups x (List.getElem?_eq_getElem hk2)
      have : g'' = g' := by
        rw [List.getElem?_eq_getElem hk] at hg''
        rw [← hgk]; exact (Option.some.inj hg'').symm
      subst this
      have := inv.minLeDepth groups[k] (List.getElem_mem _)
      rcases hmin with hmin | hmin <;> rw [hmin, hd] <;> omega
  · intro p hp q hq hov hlt
    rcases List.mem_append.1 hq with hq1 | hq1
    · rcases List.mem_append.1 hp with hp1 | hp1
      · exact paintOrdered_insertElement w sep groups x p q (inv.ordered p hp1 q hq1 hov hlt)
      · have hpx : p = x := by simpa using hp1
        have := hx q hq1
        rw [hpx] at hlt
        omega
    · have hqx : q = x := by simpa using hq1
      rcases List.mem_append.1 hp with hp1 | hp1
      · rw [hqx] at hov hlt ⊢
        exact hxord p hp1 hov hlt
      · have hpx : p = x := by simpa using hp1
        rw [hpx, hqx] at hlt
        omega

theorem groupingInv_foldl (w : World) (sep : Bool) (rest : List GUIGroupElement) :
    ∀ (groups : List GUIMaterialGroup) (done : List GUIGroupElement),
      GroupingInv w groups done →
      (done ++ rest).Pairwise (fun a b => elemDepth w b ≤ elemDepth w a) →
      GroupingInv w (rest.foldl (insertElement w sep) groups) (done ++ rest) := by
  induction rest with
  | nil => intro groups done inv _; simpa using inv
  | cons x xs ih =>
    intro groups done inv hs
    have hx : ∀ e ∈ done, elemDepth w x ≤ elemDepth w e := by
      intro e he
      have := List.pairwise_append.1 hs
      exact this.2.2 e he x (List.mem_cons_self _ _)
    have := ih (insertElement w sep groups x) (done ++ [x])
      (groupingInv_step w sep groups done x inv hx) (by simpa using hs)
    simpa using this

theorem elemComp_true_depth (w : World) (a b : GUIGroupElement) (h : elemComp w a b = true) :
    elemDepth w b ≤ elemDepth w a := by
  simp only [elemComp, Bool.or_eq_true, Bool.and_eq_true, decide_eq_true_eq] at h
  omega

theorem elemComp_false_depth (w : World) (a b : GUIGroupElement) (h : elemComp w a b = false) :
    elemDepth w a ≤ elemDepth w b := by
  simp only [elemComp, Bool.or_eq_false_iff, Bool.and_eq_false_iff,
    decide_eq_false_iff_not] at h
  omega

theorem elemComp_uniq (w : World) (a b : GUIGroupElement) (h1 : elemComp w a b = false)
    (h2 : elemComp w b a = false) : b = a := by
  simp only [elemComp, Bool.or_eq_false_iff, Bool.and_eq_false_iff,
    decide_eq_false_iff_not] at h1 h2
  cases a with
  | mk ae ar =>
    cases b with
    | mk be br =>
      simp only [GUIGroupElement.mk.injEq]
      simp only at h1 h2
      omega

theorem allElements_sorted (w : World) (widgets : List Nat) :
    (allElements w widgets).Pairwise fun a b => elemDepth w b ≤ elemDepth w a :=
  pairwise_foldl_setInsert (elemComp w) (elemDepth w) (elemComp_true_depth w)
    (elemComp_false_depth w) _ [] List.Pairwise.nil

theorem mem_allElements (w : World) (widgets : List Nat) (p : GUIGroupElement)
    (hp : p ∈ visibleRenderElements w widgets) : p ∈ allElements w widgets :=
  mem_foldl_setInsert (elemComp w) _ [] p hp fun a _ b _ => elemComp_uniq w a b

theorem groupingInv_materialGroups (w : World) (sep : Bool) (widgets : List Nat) :
    GroupingInv w (materialGroups w sep widgets) (allElements w widgets) := by
  have := groupingInv_foldl w sep (allElements w widgets) [] [] (groupingInv_nil w)
    (by simpa using allElements_sorted w widgets)
  simpa [materialGroups] using this

theorem sortedGroups_sorted (addr : Nat → Nat) (groups : List GUIMaterialGroup) :
    (sortedGroups addr groups).Pairwise fun a b => b.2.depth ≤ a.2.depth := by
  refine pairwise_foldl_setInsert (groupComp addr) (fun a => a.2.depth) ?_ ?_ _ []
    List.Pairwise.nil
  · intro a b h
    simp only [groupComp, Bool.or_eq_true, Bool.and_eq_true, decide_eq_true_eq] at h
    show b.2.depth ≤ a.2.depth
    omega
  · intro a b h
    simp only [groupComp, Bool.or_eq_false_iff, Bool.and_eq_false_iff,
      decide_eq_false_iff_not] at h
    show a.2.depth ≤ b.2.depth
    omega

theorem mem_sortedGroups (addr : Nat → Nat) (haddr : Function.Injective addr)
    (groups : List GUIMaterialGroup) {k : Nat} {g : GUIMaterialGroup}
    (hk : groups[k]? = some g) : (k, g) ∈ sortedGroups addr groups := by
  refine mem_foldl_setInsert (groupComp addr) _ [] (k, g)
    (List.mk_mem_enum_iff_getElem?.2 hk) ?_
  intro a ha b hb h1 h2
  have ha : a ∈ groups.enum := by simpa using ha
  have hb : b ∈ groups.enum := by simpa using hb
  simp only [groupComp, Bool.or_eq_false_iff, Bool.and_eq_false_iff,
    decide_eq_false_iff_not] at h1 h2
  have hidx : a.1 = b.1 := by
    apply haddr
    omega
  have h3 := List.mem_enum_iff_getElem?.1 ha
  have h4 := List.mem_enum_iff_getElem?.1 hb
  rw [hidx, h4] at h3
  exact Prod.ext hidx.symm (Option.some.inj h3)

theorem index_lt_of_pairwise_depth {l : List (Nat × GUIMaterialGroup)}
    (hs : l.Pairwise fun a b => b.2.depth ≤ a.2.depth) {x y : Nat × GUIMaterialGroup}
    (hx : x ∈ l) (hy : y ∈ l) (hlt : y.2.depth < x.2.depth) :
    ∃ i j : Nat, i < j ∧ l[i]? = some x ∧ l[j]? = some y := by
  obtain ⟨i, hi, hxi⟩ := List.mem_iff_getElem.1 hx
  obtain ⟨j, hj, hyj⟩ := List.mem_iff_getElem.1 hy
  refine ⟨i, j, ?_, by rw [List.getElem?_eq_getElem hi, hxi],
    by rw [List.getElem?_eq_getElem hj, hyj]⟩
  rcases Nat.lt_trichotomy i j with h | h | h
  · exact h
  · subst h
    rw [hxi] at hyj
    subst hyj
    omega
  · have := List.pairwise_iff_getElem.1 hs j i hj hi h
    rw [hxi, hyj] at this
    omega

theorem pairwise_comp_setInsert {α : Type} (comp : α → α → Bool)
    (htrans : ∀ a b c, comp a b = true → comp b c = true → comp a c = true) {x : α}
    {l : List α} (h : l.Pairwise fun a b => comp a b = true) :
    (setInsert comp x l).Pairwise fun a b => comp a b = true := by
  induction l with
  | nil => simp [setInsert]
  | cons z zs ih =>
    have hz := List.pairwise_cons.1 h
    unfold setInsert
    split_ifs with h1 h2
    · refine List.pairwise_cons.2 ⟨?_, h⟩
      intro b hb
      rcases List.mem_cons.1 hb with hb | hb
      · exact hb ▸ h1
      · exact htrans _ _ _ h1 (hz.1 b hb)
    · refine List.pairwise_cons.2 ⟨?_, ih hz.2⟩
      intro b hb
      rcases mem_of_mem_setInsert comp hb with hb | hb
      · exact hb ▸ h2
      · exact hz.1 b hb
    · exact h

theorem pairwise_comp_foldl_setInsert {α : Type} (comp : α → α → Bool)
    (htrans : ∀ a b c, comp a b = true → comp b c = true → comp a c = true) (l : List α) :
    ∀ acc : List α, (acc.Pairwise fun a b => comp a b = true) →
      (l.foldl (fun s x => setInsert comp x s) acc).Pairwise fun a b => comp a b = true := by
  induction l with
  | nil => intro acc h; simpa using h
  | cons x xs ih =>
    intro acc h
    exact ih _ (pairwise_comp_setInsert comp htrans h)

theorem elemComp_trans (w : World) (a b c : GUIGroupElement) (h1 : elemComp w a b = true)
    (h2 : elemComp w b c = true) : elemComp w a c = true := by
  simp only [elemComp, Bool.or_eq_true, Bool.and_eq_true, decide_eq_true_eq] at h1 h2 ⊢
  omega

theorem elemComp_irrefl (w : World) (a : GUIGroupElement) : elemComp w a a = false := by
  simp [elemComp]

theorem allElements_strict (w : World) (widgets : List Nat) :
    (allElements w widgets).Pairwise fun a b => elemComp w a b = true :=
  pairwise_comp_foldl_setInsert (elemComp w) (elemComp_trans w) _ [] List.Pairwise.nil

theorem mem_allElements_iff (w : World) (widgets : List Nat) (p : GUIGroupElement) :
    p ∈ allElements w widgets ↔ p ∈ visibleRenderElements w widgets := by
  constructor
  · intro h
    rcases mem_of_mem_foldl_setInsert (elemComp w) _ [] p h with h | h
    · cases h
    · exact h
  · exact mem_allElements w widgets p

theorem nodup_of_pairwise_elemComp (w : World) {l : List GUIGroupElement}
    (h : l.Pairwise fun a b => elemComp w a b = true) : l.Nodup := by
  refine List.Pairwise.imp ?_ h
  intro a b hab heq
  subst heq
  rw [elemComp_irrefl] at hab
  cases hab

/-- The set `allElements` is the one list that is strictly ordered by `elemComp` and has the
collected render elements as members. -/
theorem allElements_eq (w : World) (widgets : List Nat) (l : List GUIGroupElement)
    (hs : l.Pairwise fun a b => elemComp w a b = true)
    (hm : ∀ x, x ∈ visibleRenderElements w widgets ↔ x ∈ l) : allElements w widgets = l := by
  haveI : IsAntisymm GUIGroupElement (fun a b => elemComp w a b = true) :=
    ⟨fun a b h1 h2 => by
      have := elemComp_trans w a b a h1 h2
      rw [elemComp_irrefl] at this
      cases this⟩
  refine List.eq_of_perm_of_sorted ?_ (allElements_strict w widgets) hs
  refine (List.perm_ext_iff_of_nodup (nodup_of_pairwise_elemComp w (allElements_strict w widgets))
    (nodup_of_pairwise_elemComp w hs)).2 ?_
  intro x
  rw [mem_allElements_iff, hm]

theorem insertElement_nil (w : World) (sep : Bool) (x : GUIGroupElement) :
    insertElement w sep [] x = [newGroup w x] := by
  simp [insertElement, findGroup]

theorem foundOverlap_singleton (g : GUIMaterialGroup) (s e : Nat) (pot : Rect2I) :
    foundOverlap [g] 0 s e pot = false := by
  simp [foundOverlap, List.enum, List.enumFrom]

theorem insertElement_singleton (w : World) (sep : Bool) (g : GUIMaterialGroup)
    (x : GUIGroupElement) (hm : g.matInfo = w.material x.element x.renderElement)
    (hw : otherWidget w sep g x.element = false) :
    insertElement w sep [g] x = [addToGroup w x g] := by
  have hfit : groupFits w sep [g] x 0 g = true := by
    unfold groupFits
    rw [hw, foundOverlap_singleton]
    simp
  have : findGroup w sep [g] x = some 0 := by
    simp [findGroup, List.enum, List.enumFrom, hm, hfit]
  simp [insertElement, this, List.modify]

theorem otherWidget_same (w : World) (sep : Bool) (g : GUIMaterialGroup) (y : GUIGroupElement)
    (t : List GUIGroupElement) (x : Nat) (hg : g.elements = y :: t)
    (h : w.parentWidget y.element = w.parentWidget x) : otherWidget w sep g x = false := by
  simp [otherWidget, hg, h]

/-! ## The groups partition the render elements -/

theorem groupedElements_modify (w : World) (x : GUIGroupElement) :
    ∀ (groups : List GUIMaterialGroup) (gi : Nat), gi < groups.length →
      (groupedElements (List.modify (addToGroup w x) gi groups)).Perm
        (groupedElements groups ++ [x]) := by
  intro groups
  induction groups with
  | nil => intro gi h; simp at h
  | cons g gs ih =>
    intro gi h
    cases gi with
    | zero =>
      simp only [List.modify_zero_cons, groupedElements, List.flatMap_cons, addToGroup]
      rw [List.append_assoc, List.append_assoc]
      exact List.Perm.append_left _ List.perm_append_comm
    | succ j =>
      simp only [List.modify_succ_cons, groupedElements, List.flatMap_cons]
      rw [List.append_assoc]
      exact List.Perm.append_left _ (ih j (by simpa using h))

theorem groupedElements_insertElement (w : World) (sep : Bool) (groups : List GUIMaterialGroup)
    (x : GUIGroupElement) :
    (groupedElements (insertElement w sep groups x)).Perm (groupedElements groups ++ [x]) := by
  rcases insertElement_cases w sep groups x with h | ⟨gi, g, hg, -, -, h⟩
  · rw [h]
    simp [groupedElements, newGroup]
  · rw [h]
    apply groupedElements_modify
    by_contra hlen
    rw [List.getElem?_eq_none (by omega)] at hg
    cases hg

theorem groupedElements_foldl (w : World) (sep : Bool) (l : List GUIGroupElement) :
    ∀ groups : List GUIMaterialGroup,
      (groupedElements (l.foldl (insertElement w sep) groups)).Perm
        (groupedElements groups ++ l) := by
  induction l with
  | nil => intro groups; simp
  | cons x xs ih =>
    intro groups
    rw [List.foldl_cons]
    refine (ih _).trans ?_
    have := (groupedElements_insertElement w sep groups x).append_right xs
    simpa using this

theorem groupedElements_materialGroups (w : World) (sep : Bool) (widgets : List Nat) :
    (groupedElements (materialGroups w sep widgets)).Perm (allElements w widgets) := by
  simpa [materialGroups, groupedElements] using
    groupedElements_foldl w sep (allElements w widgets) []

theorem isVisible_of_mem_visibleRenderElements (w : World) (widgets : List Nat)
    (p : GUIGroupElement) (h : p ∈ visibleRenderElements w widgets) :
    w.isVisible p.element = true ∧ p.renderElement < w.numRenderElements p.element ∧
      ∃ widget ∈ widgets, p.element ∈ w.widgetElements widget := by
  simp only [visibleRenderElements, List.mem_flatMap, List.mem_filter, List.mem_map,
    List.mem_range] at h
  obtain ⟨widget, hw, element, ⟨hel, hvis⟩, i, hi, rfl⟩ := h
  exact ⟨hvis, hi, widget, hw, hel⟩

theorem unique_group_of_nodup {groups : List GUIMaterialGroup}
    (hnd : (groupedElements groups).Nodup) {p : GUIGroupElement} {j k : Nat}
    {gj gk : GUIMaterialGroup} (hj : groups[j]? = some gj) (hk : groups[k]? = some gk)
    (hpj : p ∈ gj.elements) (hpk : p ∈ gk.elements) : j = k := by
  have hpw := (List.nodup_flatMap.1 hnd).2
  rw [List.pairwise_iff_getElem] at hpw
  obtain ⟨hjl, hje⟩ := List.getElem?_eq_some.1 hj
  obtain ⟨hkl, hke⟩ := List.getElem?_eq_some.1 hk
  rcases Nat.lt_trichotomy j k with h | h | h
  · have := hpw j k hjl hkl h
    rw [hje, hke] at this
    exact absurd hpk (this hpj)
  · exact h
  · have := hpw k j hkl hjl h
    rw [hje, hke] at this
    exact absurd hpj (this hpk)

/-! ## The summary fields of a group -/

theorem materialGroupInv_newGroup (w : World) (x : GUIGroupElement) :
    MaterialGroupInv w (newGroup w x) :=
  { material_eq := by intro e he; simp only [newGroup, List.mem_singleton] at he; subst he; rfl
    depth_ge := by
      intro e he; simp only [newGroup, List.mem_singleton] at he; subst he; exact le_refl _
    depth_attained := ⟨x, by simp [newGroup], rfl⟩
    minDepth_le := by
      intro e he; simp only [newGroup, List.mem_singleton] at he; subst he; exact le_refl _
    minDepth_attained := ⟨x, by simp [newGroup], rfl⟩
    numQuads_eq := by simp [newGroup] }

theorem materialGroupInv_addToGroup (w : World) (x : GUIGroupElement) (g : GUIMaterialGroup)
    (inv : MaterialGroupInv w g)
    (hm : g.matInfo = w.material x.element x.renderElement)
    (hd : elemDepth w x ≤ g.depth) : MaterialGroupInv w (addToGroup w x g) :=
  { material_eq := by
      intro e he
      simp only [addToGroup, List.mem_append, List.mem_singleton] at he ⊢
      rcases he with he | he
      · exact inv.material_eq e he
      · rw [he, hm]
    depth_ge := by
      intro e he
      simp only [addToGroup, List.mem_append, List.mem_singleton] at he ⊢
      rcases he with he | he
      · exact inv.depth_ge e he
      · rw [he]; exact hd
    depth_attained := by
      obtain ⟨e, he, hde⟩ := inv.depth_attained
      exact ⟨e, by simp [addToGroup, he], hde⟩
    minDepth_le := by
      intro e he
      simp only [addToGroup, List.mem_append, List.mem_singleton] at he ⊢
      rcases he with he | he
      · exact le_trans (Nat.min_le_left _ _) (inv.minDepth_le e he)
      · rw [he]; exact Nat.min_le_right _ _
    minDepth_attained := by
      obtain ⟨e, he, hde⟩ := inv.minDepth_attained
      by_cases hle : g.minDepth ≤ elemDepth w x
      · exact ⟨e, by simp [addToGroup, he], by simp [addToGroup, hde, Nat.min_eq_left hle]⟩
      · exact ⟨x, by simp [addToGroup],
          by simp only [addToGroup]; rw [Nat.min_eq_right (by omega)]⟩
    numQuads_eq := by
      simp only [addToGroup, List.map_append, List.sum_append, List.map_cons, List.map_nil,
        List.sum_cons, List.sum_nil, Nat.add_zero]
      rw [inv.numQuads_eq] }

theorem mem_modify {α : Type} (f : α → α) (n : Nat) (l : List α) {y : α}
    (h : y ∈ List.modify f n l) : y ∈ l ∨ ∃ a, l[n]? = some a ∧ y = f a := by
  obtain ⟨m, hm⟩ := List.getElem?_of_mem h
  rw [List.getElem?_modify] at hm
  cases ha : l[m]? with
  | none => rw [ha] at hm; cases hm
  | some a =>
    rw [ha] at hm
    simp only [Option.map_eq_map, Option.map_some', Option.some.injEq] at hm
    by_cases hnm : n = m
    · rw [if_pos hnm] at hm
      exact Or.inr ⟨a, by rw [hnm]; exact ha, hm.symm⟩
    · rw [if_neg hnm] at hm
      rw [← hm]
      exact Or.inl (List.getElem?_mem ha)

theorem materialGroupInv_step (w : World) (sep : Bool) (groups : List GUIMaterialGroup)
    (done : List GUIGroupElement) (x : GUIGroupElement)
    (inv : ∀ g ∈ groups, MaterialGroupInv w g ∧ ∀ e ∈ g.elements, e ∈ done)
    (hx : ∀ e ∈ done, elemDepth w x ≤ elemDepth w e) :
    ∀ g ∈ insertElement w sep groups x,
      MaterialGroupInv w g ∧ ∀ e ∈ g.elements, e ∈ done ++ [x] := by
  intro g' hg'
  have hold : ∀ g ∈ groups, MaterialGroupInv w g ∧ ∀ e ∈ g.elements, e ∈ done ++ [x] :=
    fun g hg => ⟨(inv g hg).1, fun e he => List.mem_append_left _ ((inv g hg).2 e he)⟩
  rcases insertElement_cases w sep groups x with h | ⟨gi, g, hg, hmat, -, h⟩
  · rw [h] at hg'
    rcases List.mem_append.1 hg' with hmem | hmem
    · exact hold g' hmem
    · simp only [List.mem_singleton] at hmem
      subst hmem
      exact ⟨materialGroupInv_newGroup w x, by simp [newGroup]⟩
  · rw [h] at hg'
    rcases mem_modify _ _ _ hg' with hmem | ⟨a, ha, rfl⟩
    · exact hold g' hmem
    · rw [hg] at ha
      cases ha
      have hgm := List.getElem?_mem hg
      obtain ⟨ginv, gdone⟩ := inv g hgm
      obtain ⟨e, he, hde⟩ := ginv.depth_attained
      refine ⟨materialGroupInv_addToGroup w x g ginv hmat ?_, ?_⟩
      · rw [← hde]
        exact hx e (gdone e he)
      · intro e' he'
        simp only [addToGroup, List.mem_append, List.mem_singleton] at he'
        rcases he' with he' | he'
        · exact List.mem_append_left _ (gdone e' he')
        · rw [he']; simp

theorem materialGroupInv_foldl (w : World) (sep : Bool) (rest : List GUIGroupElement) :
    ∀ (groups : List GUIMaterialGroup) (done : List GUIGroupElement),
      (∀ g ∈ groups, MaterialGroupInv w g ∧ ∀ e ∈ g.elements, e ∈ done) →
      (done ++ rest).Pairwise (fun a b => elemDepth w b ≤ elemDepth w a) →
      ∀ g ∈ rest.foldl (insertElement w sep) groups,
        MaterialGroupInv w g ∧ ∀ e ∈ g.elements, e ∈ done ++ rest := by
  induction rest with
  | nil => intro groups done inv _; simpa using inv
  | cons x xs ih =>
    intro groups done inv hs
    have hx : ∀ e ∈ done, elemDepth w x ≤ elemDepth w e := by
      intro e he
      have := List.pairwise_append.1 hs
      exact this.2.2 e he x (List.mem_cons_self _ _)
    have := ih (insertElement w sep groups x) (done ++ [x])
      (materialGroupInv_step w sep groups done x inv hx) (by simpa using hs)
    simpa using this

theorem materialGroupInv_groupsAfter (w : World) (sep : Bool) (widgets : List Nat) (n : Nat) :
    ∀ g ∈ groupsAfter w sep widgets n,
      MaterialGroupInv w g ∧ ∀ e ∈ g.elements, e ∈ (allElements w widgets).take n := by
  have := materialGroupInv_foldl w sep ((allElements w widgets).take n) [] []
    (by intro g hg; cases hg)
    (by
      rw [List.nil_append]
      exact (allElements_sorted w widgets).sublist (List.take_sublist _ _))
  simpa [groupsAfter] using this

theorem groupsAfter_length (w : World) (sep : Bool) (widgets : List Nat) :
    groupsAfter w sep widgets (allElements w widgets).length = materialGroups w sep widgets := by
  simp [groupsAfter, materialGroups]

theorem groupsAfter_succ (w : World) (sep : Bool) (widgets : List Nat) (n : Nat)
    (x : GUIGroupElement) (hx : (allElements w widgets)[n]? = some x) :
    groupsAfter w sep widgets (n + 1) = insertElement w sep (groupsAfter w sep widgets n) x := by
  unfold groupsAfter
  obtain ⟨hn, hxe⟩ := List.getElem?_eq_some.1 hx
  rw [List.take_succ, hx, List.foldl_append]
  rfl

/-! ## Eligibility of a candidate group -/

theorem foundOverlap_eq_false_iff (groups : List GUIMaterialGroup) (gi s e : Nat)
    (pot : Rect2I) :
    foundOverlap groups gi s e pot = false ↔
      ∀ (j : Nat) (other : GUIMaterialGroup), groups[j]? = some other → j ≠ gi →
        ((s ≤ other.minDepth ∧ other.minDepth ≤ e) ∨ (s ≤ other.depth ∧ other.depth ≤ e)) →
        other.bounds.overlaps pot = false := by
  unfold foundOverlap
  rw [List.any_eq_false]
  constructor
  · intro h j other hj hne hwin
    have := h (j, other) (List.mk_mem_enum_iff_getElem?.2 hj)
    simp only [depthInWindow, hne, ne_eq, not_false_eq_true, decide_True, Bool.true_and,
      Bool.and_eq_true, Bool.or_eq_true, decide_eq_true_eq, not_and, Bool.not_eq_true] at this
    exact this (by simpa [ge_iff_le] using hwin)
  · rintro h ⟨j, other⟩ hmem
    have hj := List.mk_mem_enum_iff_getElem?.1 hmem
    simp only [depthInWindow, ne_eq, Bool.and_eq_true, Bool.or_eq_true, decide_eq_true_eq,
      not_and, Bool.not_eq_true, decide_not, Bool.not_eq_true', decide_eq_false_iff_not]
    rintro ⟨hne, hwin⟩
    exact h j other hj hne (by simpa [ge_iff_le] using hwin)

theorem groupFits_iff (w : World) (sep : Bool) (groups : List GUIMaterialGroup)
    (elem : GUIGroupElement) (gi : Nat) (group : GUIMaterialGroup)
    (hwidget : otherWidget w sep group elem.element = false)
    (hdepth : group.depth ≠ elemDepth w elem) :
    groupFits w sep groups elem gi group = true ↔
      ∀ (j : Nat) (other : GUIMaterialGroup), groups[j]? = some other → j ≠ gi →
        ((elemDepth w elem ≤ other.minDepth ∧ other.minDepth ≤ group.depth) ∨
          (elemDepth w elem ≤ other.depth ∧ other.depth ≤ group.depth)) →
        other.bounds.overlaps (group.bounds.encapsulate (tfrmedBounds w elem.element)) =
          false := by
  unfold groupFits
  rw [hwidget, if_neg (by simp), if_neg hdepth, ← foundOverlap_eq_false_iff]
  simp

theorem enum_reverse_filter_pairwise {α : Type} (l : List α) (p : Nat × α → Bool) :
    (l.enum.reverse.filter p).Pairwise fun a b => b.1 < a.1 := by
  apply List.Pairwise.filter
  rw [List.pairwise_reverse]
  have h := List.pairwise_lt_range l.length
  rw [← List.enum_map_fst l, List.pairwise_map] at h
  exact h

theorem findGroup_eq_some_iff (w : World) (sep : Bool) (groups : List GUIMaterialGroup)
    (elem : GUIGroupElement) (gi : Nat) (group : GUIMaterialGroup)
    (hgi : groups[gi]? = some group) :
    findGroup w sep groups elem = some gi ↔
      group.matInfo = w.material elem.element elem.renderElement ∧
      groupFits w sep groups elem gi group = true ∧
      ∀ (j : Nat) (other : GUIMaterialGroup), groups[j]? = some other → gi < j →
        other.matInfo = w.material elem.element elem.renderElement →
        groupFits w sep groups elem j other = false := by
  have hpw := enum_reverse_filter_pairwise groups
    (fun jg => decide (jg.2.matInfo = w.material elem.element elem.renderElement))
  have hmem : ∀ jg : Nat × GUIMaterialGroup,
      jg ∈ groups.enum.reverse.filter
        (fun jg => decide (jg.2.matInfo = w.material elem.element elem.renderElement)) ↔
      groups[jg.1]? = some jg.2 ∧
        jg.2.matInfo = w.material elem.element elem.renderElement := by
    rintro ⟨j, g⟩
    simp [List.mem_filter, List.mk_mem_enum_iff_getElem?]
  unfold findGroup
  constructor
  · intro h
    rw [Option.map_eq_some'] at h
    obtain ⟨⟨j, g⟩, hfind, hj⟩ := h
    simp only at hj
    subst hj
    obtain ⟨hfit, as, bs, hsplit, hnot⟩ := List.find?_eq_some.1 hfind
    have hin : (j, g) ∈ groups.enum.reverse.filter
        (fun jg => decide (jg.2.matInfo = w.material elem.element elem.renderElement)) := by
      rw [hsplit]; simp
    obtain ⟨hjg, hmat⟩ := (hmem (j, g)).1 hin
    simp only at hjg hmat
    rw [hgi] at hjg
    cases hjg
    refine ⟨hmat, hfit, ?_⟩
    intro k other hk hlt hmo
    have hko : (k, other) ∈ groups.enum.reverse.filter
        (fun jg => decide (jg.2.matInfo = w.material elem.element elem.renderElement)) :=
      (hmem (k, other)).2 ⟨hk, hmo⟩
    rw [hsplit] at hko hpw
    rcases List.mem_append.1 hko with hka | hkb
    · simpa using hnot (k, other) hka
    · rcases List.mem_cons.1 hkb with heq | hkb
      · have : k = j := congrArg Prod.fst heq
        omega
      · have := (List.pairwise_cons.1 (List.pairwise_append.1 hpw).2.1).1 (k, other) hkb
        simp only at this
        omega
  · rintro ⟨hmat, hfit, hlater⟩
    rw [Option.map_eq_some']
    refine ⟨(gi, group), ?_, rfl⟩
    have hin : (gi, group) ∈ groups.enum.reverse.filter
        (fun jg => decide (jg.2.matInfo = w.material elem.element elem.renderElement)) :=
      (hmem (gi, group)).2 ⟨hgi, hmat⟩
    obtain ⟨as, bs, hsplit⟩ := List.append_of_mem hin
    rw [List.find?_eq_some]
    refine ⟨hfit, as, bs, hsplit, ?_⟩
    rintro ⟨k, other⟩ hka
    have hko : (k, other) ∈ groups.enum.reverse.filter
        (fun jg => decide (jg.2.matInfo = w.material elem.element elem.renderElement)) := by
      rw [hsplit]; exact List.mem_append_left _ hka
    obtain ⟨hk, hmo⟩ := (hmem (k, other)).1 hko
    rw [hsplit] at hpw
    have hlt := (List.pairwise_append.1 hpw).2.2 (k, other) hka (gi, group)
      (List.mem_cons_self _ _)
    simp only at hlt hk hmo
    simp [hlater k other hk hlt hmo]

/-! ## The draw order as a grouping -/

theorem setInsert_perm {α : Type} (comp : α → α → Bool) (x : α) (l : List α)
    (h : ∀ y ∈ l, comp x y = true ∨ comp y x = true) : (setInsert comp x l).Perm (x :: l) := by
  induction l with
  | nil => simp [setInsert]
  | cons y ys ih =>
    unfold setInsert
    split_ifs with h1 h2
    · exact List.Perm.refl _
    · exact ((ih fun z hz => h z (List.mem_cons_of_mem _ hz)).cons y).trans (List.Perm.swap _ _ _)
    · rcases h y (List.mem_cons_self _ _) with h3 | h3
      · exact absurd h3 h1
      · exact absurd h3 h2

theorem foldl_setInsert_perm {α : Type} (comp : α → α → Bool) (l : List α) :
    ∀ acc : List α,
      (acc ++ l).Pairwise (fun a b => comp a b = true ∨ comp b a = true) →
      (l.foldl (fun s x => setInsert comp x s) acc).Perm (acc ++ l) := by
  induction l with
  | nil => intro acc _; simp
  | cons x xs ih =>
    intro acc hpw
    rw [List.foldl_cons]
    have hx : ∀ y ∈ acc, comp x y = true ∨ comp y x = true := by
      intro y hy
      exact ((List.pairwise_append.1 hpw).2.2 y hy x (List.mem_cons_self _ _)).symm
    have hperm : (setInsert comp x acc ++ xs).Perm (acc ++ x :: xs) :=
      ((setInsert_perm comp x acc hx).append_right xs).trans List.perm_middle.symm
    have hsymm : ∀ {a b : α}, (comp a b = true ∨ comp b a = true) →
        (comp b a = true ∨ comp a b = true) := fun h => h.symm
    exact (ih _ ((hperm.pairwise_iff hsymm).2 hpw)).trans hperm

theorem sortedGroups_perm (addr : Nat → Nat) (haddr : Function.Injective addr)
    (groups : List GUIMaterialGroup) : (sortedGroups addr groups).Perm groups.enum := by
  have := foldl_setInsert_perm (groupComp addr) groups.enum [] (by
    rw [List.nil_append]
    have h := List.pairwise_lt_range groups.length
    rw [← List.enum_map_fst groups, List.pairwise_map] at h
    refine h.imp ?_
    intro a b hab
    have hne : addr a.1 ≠ addr b.1 := fun he => by
      have := haddr he
      omega
    simp only [groupComp, Bool.or_eq_true, Bool.and_eq_true, decide_eq_true_eq]
    omega)
  simpa [sortedGroups] using this

theorem mem_sortedGroups_iff (addr : Nat → Nat) (haddr : Function.Injective addr)
    (groups : List GUIMaterialGroup) (k : Nat) (g : GUIMaterialGroup) :
    (k, g) ∈ sortedGroups addr groups ↔ groups[k]? = some g := by
  rw [(sortedGroups_perm addr haddr groups).mem_iff, List.mk_mem_enum_iff_getElem?]

theorem drawnGroups_perm (w : World) (sep : Bool) (addr : Nat → Nat)
    (haddr : Function.Injective addr) (widgets : List Nat) :
    (drawnGroups w sep addr widgets).flatten.Perm (allElements w widgets) := by
  have h1 : (drawnGroups w sep addr widgets).flatten =
      (sortedGroups addr (materialGroups w sep widgets)).flatMap fun g => g.2.elements := by
    simp [drawnGroups, drawOrder, List.flatMap]
  have h2 : ((materialGroups w sep widgets).enum.flatMap fun g => g.2.elements) =
      groupedElements (materialGroups w sep widgets) := by
    have hmap : ((materialGroups w sep widgets).enum.map fun g => g.2.elements) =
        (materialGroups w sep widgets).map fun g => g.elements := by
      have := congrArg (List.map fun g : GUIMaterialGroup => g.elements)
        (List.enum_map_snd (materialGroups w sep widgets))
      rw [List.map_map] at this
      exact this
    unfold groupedElements List.flatMap
    rw [hmap]
  rw [h1]
  refine ((sortedGroups_perm addr haddr _).flatMap_right _).trans ?_
  rw [h2]
  exact groupedElements_materialGroups w sep widgets

theorem length_le_groupedElements (groups : List GUIMaterialGroup)
    (h : ∀ g ∈ groups, g.elements ≠ []) : groups.length ≤ (groupedElements groups).length := by
  induction groups with
  | nil => simp
  | cons g gs ih =>
    have hg : 0 < g.elements.length := List.length_pos.2 (h g (List.mem_cons_self _ _))
    have := ih fun x hx => h x (List.mem_cons_of_mem _ hx)
    simp only [groupedElements, List.flatMap_cons, List.length_append, List.length_cons] at this ⊢
    omega

theorem materialGroupInv_materialGroups (w : World) (sep : Bool) (widgets : List Nat) :
    ∀ g ∈ materialGroups w sep widgets, MaterialGroupInv w g := by
  intro g hg
  rw [← groupsAfter_length] at hg
  exact (materialGroupInv_groupsAfter w sep widgets _ g hg).1

theorem drawnGroups_drawnBefore (w : World) (sep : Bool) (addr : Nat → Nat)
    (haddr : Function.Injective addr) (widgets : List Nat) (p q : GUIGroupElement)
    (hp : p ∈ allElements w widgets) (hq : q ∈ allElements w widgets)
    (hov : (tfrmedBounds w p.element).overlaps (tfrmedBounds w q.element) = true)
    (hdepth : elemDepth w q < elemDepth w p) :
    DrawnBefore (drawnGroups w sep addr widgets) p q := by
  have inv := groupingInv_materialGroups w sep widgets
  rcases inv.ordered p hp q hq hov hdepth with
    ⟨k, g, a, b, hk, hab, ha, hb⟩ | ⟨kp, kq, gp, gq, hkp, hkq, hpin, hqin, hlt⟩
  · refine Or.inl ⟨g.elements, ?_, a, b, hab, ha, hb⟩
    exact List.mem_map.2 ⟨(k, g), mem_sortedGroups addr haddr _ hk, rfl⟩
  · obtain ⟨i, j, hij, hi, hj⟩ :=
      index_lt_of_pairwise_depth (sortedGroups_sorted addr _)
        (mem_sortedGroups addr haddr _ hkp) (mem_sortedGroups addr haddr _ hkq) hlt
    refine Or.inr ⟨i, j, gp.elements, gq.elements, hij, ?_, ?_, hpin, hqin⟩
    · simp [drawnGroups, drawOrder, hi]
    · simp [drawnGroups, drawOrder, hj]

/-! ## Lemmas on the hit test -/

theorem mouseOverLoop_keys (w : World) (pos : Vector2I) (fresh : GUIMouseEvent)
    (l : List ElementInfoUnderPointer) :
    ∀ s : GUIManager, (mouseOverLoop w pos fresh l s).1.map ElementInfoUnderPointer.key =
      l.map ElementInfoUnderPointer.key := by
  induction l with
  | nil => intro s; rfl
  | cons info rest ih =>
    intro s
    unfold mouseOverLoop
    simp only
    split_ifs <;> simp [ih, ElementInfoUnderPointer.key]

theorem carryOver_key (old : List ElementInfoUnderPointer) (element widget : Nat) :
    (carryOver old element widget).key = (element, widget) := by
  unfold carryOver
  split <;> rfl

theorem mem_hitElements_keys (w : World) (s : GUIManager) (pos : Vector2I)
    (element widget : Nat) :
    (element, widget) ∈ (hitElements w s pos).map ElementInfoUnderPointer.key ↔
      (widget ∈ s.widgets ∧ windowUnderPointer w s.widgets pos ≠ 0 ∧
        w.getWidgetWindow widget = windowUnderPointer w s.widgets pos ∧
        w.widgetInBounds widget (w.windowToBridgedCoords widget
          (w.screenToWindowPos (windowUnderPointer w s.widgets pos) pos)) = true ∧
        element ∈ w.widgetElements widget ∧ w.isVisible element = true ∧
        w.isInBounds element (getWidgetRelativePos w widget pos) = true) := by
  unfold hitElements
  simp only
  by_cases h0 : windowUnderPointer w s.widgets pos = 0
  · simp [h0]
  · rw [if_neg h0]
    simp only [List.mem_map, List.mem_flatMap]
    constructor
    · rintro ⟨info, ⟨wd, hwd, hinfo⟩, hkey⟩
      split_ifs at hinfo with h1 h2
      · cases hinfo
      · simp only [List.mem_map, List.mem_filter, Bool.and_eq_true] at hinfo
        obtain ⟨e, ⟨he, hv, hb⟩, rfl⟩ := hinfo
        rw [carryOver_key] at hkey
        cases hkey
        exact ⟨hwd, h0, h2.1, h2.2, he, hv, hb⟩
      · cases hinfo
    · rintro ⟨hwd, -, hwin, hin, he, hv, hb⟩
      refine ⟨carryOver s.elementsUnderPointer element widget, ⟨widget, hwd, ?_⟩,
        carryOver_key _ _ _⟩
      have h1 : ¬ w.getWidgetWindow widget = 0 := by rw [hwin]; exact h0
      rw [if_neg h1, if_pos ⟨hwin, hin⟩]
      simp only [List.mem_map, List.mem_filter, Bool.and_eq_true]
      exact ⟨element, ⟨he, hv, hb⟩, rfl⟩

theorem sortByDepth_perm (w : World) (l : List ElementInfoUnderPointer) :
    (sortByDepth w l).Perm l :=
  List.perm_insertionSort _ l

theorem sortByDepth_sorted (w : World) (l : List ElementInfoUnderPointer) :
    (sortByDepth w l).Pairwise fun a b => w.depth a.element ≤ w.depth b.element := by
  haveI : IsTotal ElementInfoUnderPointer (fun a b => w.depth a.element ≤ w.depth b.element) :=
    ⟨fun a b => Nat.le_total _ _⟩
  haveI : IsTrans ElementInfoUnderPointer (fun a b => w.depth a.element ≤ w.depth b.element) :=
    ⟨fun a b c h1 h2 => Nat.le_trans h1 h2⟩
  exact List.sorted_insertionSort _ l

theorem findElementUnderPointer_list (w : World) (s : GUIManager) (pos : Vector2I)
    (bs : Bool × Bool × Bool) (sh c a : Bool) :
    (findElementUnderPointer w s pos bs sh c a).1.elementsUnderPointer =
      (mouseOverLoop w pos { buttonStates := bs, shift := sh, control := c, alt := a }
        (sortByDepth w (hitElements w s pos)) s).1 := rfl

/-! ## Lemmas on delivery -/

theorem Delivers.refl (s : GUIManager) : Delivers s s [] :=
  ⟨s.mouseEvent, by simp⟩

theorem Delivers.trans {s s' s'' : GUIManager} {e1 e2 : List SentEvent}
    (h1 : Delivers s s' e1) (h2 : Delivers s' s'' e2) : Delivers s s'' (e1 ++ e2) := by
  obtain ⟨m1, rfl⟩ := h1
  obtain ⟨m2, rfl⟩ := h2
  exact ⟨m2, by simp [List.append_assoc]⟩

theorem Delivers.setMouseEvent {s s' : GUIManager} {e : List SentEvent} (m : GUIMouseEvent)
    (h : Delivers { s with mouseEvent := m } s' e) : Delivers s s' e := by
  obtain ⟨m1, rfl⟩ := h
  exact ⟨m1, rfl⟩

theorem Delivers.sent {s s' : GUIManager} {e : List SentEvent} (h : Delivers s s' e) :
    s'.sent = s.sent ++ e := by
  obtain ⟨m, rfl⟩ := h; rfl

theorem Delivers.sentSince {s s' : GUIManager} {e : List SentEvent} (h : Delivers s s' e) :
    sentSince s s' = e := by
  simp [BansheeEngine.sentSince, h.sent]

theorem Delivers.dragState {s s' : GUIManager} {e : List SentEvent} (h : Delivers s s' e) :
    s'.dragState = s.dragState := by
  obtain ⟨m, rfl⟩ := h; rfl

theorem Delivers.activeElements {s s' : GUIManager} {e : List SentEvent}
    (h : Delivers s s' e) : s'.activeElements = s.activeElements := by
  obtain ⟨m, rfl⟩ := h; rfl

theorem Delivers.activeMouseButton {s s' : GUIManager} {e : List SentEvent}
    (h : Delivers s s' e) : s'.activeMouseButton = s.activeMouseButton := by
  obtain ⟨m, rfl⟩ := h; rfl

theorem Delivers.elementsUnderPointer {s s' : GUIManager} {e : List SentEvent}
    (h : Delivers s s' e) : s'.elementsUnderPointer = s.elementsUnderPointer := by
  obtain ⟨m, rfl⟩ := h; rfl

theorem Delivers.elementsInFocus {s s' : GUIManager} {e : List SentEvent}
    (h : Delivers s s' e) : s'.elementsInFocus = s.elementsInFocus := by
  obtain ⟨m, rfl⟩ := h; rfl

theorem Delivers.lastPointerClickPos {s s' : GUIManager} {e : List SentEvent}
    (h : Delivers s s' e) : s'.lastPointerClickPos = s.lastPointerClickPos := by
  obtain ⟨m, rfl⟩ := h; rfl

theorem Delivers.lastPointerScreenPos {s s' : GUIManager} {e : List SentEvent}
    (h : Delivers s s' e) : s'.lastPointerScreenPos = s.lastPointerScreenPos := by
  obtain ⟨m, rfl⟩ := h; rfl

theorem Delivers.dragStartPos {s s' : GUIManager} {e : List SentEvent}
    (h : Delivers s s' e) : s'.dragStartPos = s.dragStartPos := by
  obtain ⟨m, rfl⟩ := h; rfl

theorem sendMouseEvent_delivers (w : World) (s : GUIManager) (element : Nat)
    (event : GUIMouseEvent) :
    Delivers s (sendMouseEvent w s element event).1
      (if w.isDestroyed element then []
        else [{ element := element, event := GUIEvent.mouse event }]) := by
  unfold sendMouseEvent
  split_ifs
  · exact Delivers.refl s
  · exact ⟨s.mouseEvent, rfl⟩

theorem sendMouseEvent_consumed (w : World) (s : GUIManager) (element : Nat)
    (event : GUIMouseEvent) :
    (sendMouseEvent w s element event).2 =
      (!w.isDestroyed element && w.mouseEvent element event) := by
  unfold sendMouseEvent
  split_ifs with h <;> simp [h]

theorem sendCommandEvent_delivers (w : World) (s : GUIManager) (element : Nat)
    (type : GUICommandEventType) :
    Delivers s (sendCommandEvent w s element type).1
      (if w.isDestroyed element then []
        else [{ element := element, event := GUIEvent.command type }]) := by
  unfold sendCommandEvent
  split_ifs
  · exact Delivers.refl s
  · exact ⟨s.mouseEvent, rfl⟩

theorem sendCommandEvent_consumed (w : World) (s : GUIManager) (element : Nat)
    (type : GUICommandEventType) :
    (sendCommandEvent w s element type).2 =
      (!w.isDestroyed element && w.commandEvent element type) := by
  unfold sendCommandEvent
  split_ifs with h <;> simp [h]

theorem sendAll_delivers (w : World) (evs : List (Nat × GUIMouseEventData)) :
    ∀ s : GUIManager, ∃ extra, Delivers s (sendAll w evs s).1 extra ∧
      extra.map SentEvent.sig = deliveredSigs w evs := by
  induction evs with
  | nil => intro s; exact ⟨[], Delivers.refl s, rfl⟩
  | cons p rest ih =>
    intro s
    obtain ⟨element, data⟩ := p
    unfold sendAll
    simp only
    have h1 := sendMouseEvent_delivers w
      { s with mouseEvent := { s.mouseEvent with data := data } } element
      { s.mouseEvent with data := data }
    obtain ⟨extra, h2, h3⟩ := ih (sendMouseEvent w
      { s with mouseEvent := { s.mouseEvent with data := data } } element
      { s.mouseEvent with data := data }).1
    refine ⟨_, Delivers.setMouseEvent _ (h1.trans h2), ?_⟩
    rw [List.map_append, h3]
    by_cases hd : w.isDestroyed element = true
    · simp [hd, deliveredSigs]
    · simp [hd, deliveredSigs, SentEvent.sig, GUIEvent.tag]

theorem sendFirst_delivers (w : World) (evs : List (Nat × GUIMouseEventData)) :
    ∀ s : GUIManager, ∃ extra, Delivers s (sendFirst w evs s).1 extra ∧
      ∀ e ∈ extra, ∃ p ∈ evs, e.sig = (p.1, p.2.tag) := by
  induction evs with
  | nil => intro s; exact ⟨[], Delivers.refl s, by simp⟩
  | cons p rest ih =>
    intro s
    obtain ⟨element, data⟩ := p
    unfold sendFirst
    simp only
    have h1 := sendMouseEvent_delivers w
      { s with mouseEvent := { s.mouseEvent with data := data } } element
      { s.mouseEvent with data := data }
    have hfirst : ∀ e ∈ (if w.isDestroyed element then []
        else [({ element := element, event := GUIEvent.mouse { s.mouseEvent with data := data } } :
          SentEvent)]), ∃ p ∈ (element, data) :: rest, e.sig = (p.1, p.2.tag) := by
      intro e he
      split_ifs at he
      · cases he
      · simp only [List.mem_singleton] at he
        subst he
        exact ⟨(element, data), List.mem_cons_self _ _, rfl⟩
    split_ifs with hc
    · exact ⟨_, Delivers.setMouseEvent _ h1, hfirst⟩
    · obtain ⟨extra, h2, h3⟩ := ih (sendMouseEvent w
        { s with mouseEvent := { s.mouseEvent with data := data } } element
        { s.mouseEvent with data := data }).1
      refine ⟨_, Delivers.setMouseEvent _ (h1.trans h2), ?_⟩
      intro e he
      rcases List.mem_append.1 he with he | he
      · exact hfirst e he
      · obtain ⟨p, hp, hsig⟩ := h3 e he
        exact ⟨p, List.mem_cons_of_mem _ hp, hsig⟩

theorem mouseOverLoop_delivers (w : World) (pos : Vector2I) (fresh : GUIMouseEvent)
    (l : List ElementInfoUnderPointer) :
    ∀ s : GUIManager, ∃ extra, Delivers s (mouseOverLoop w pos fresh l s).2.1 extra ∧
      ∀ e ∈ extra, e.event.tag = EventTag.mouseOver := by
  induction l with
  | nil => intro s; exact ⟨[], Delivers.refl s, by simp⟩
  | cons info rest ih =>
    intro s
    unfold mouseOverLoop
    simp only
    split_ifs with h1 h2 h3 h4
    · exact ⟨[], Delivers.refl s, by simp⟩
    · exact ih s
    · refine ⟨_, Delivers.setMouseEvent _ (sendMouseEvent_delivers w _ _ _), ?_⟩
      intro e he
      split_ifs at he
      · cases he
      · simp only [List.mem_singleton] at he
        subst he
        rfl
    · have hd := sendMouseEvent_delivers w
        { s with mouseEvent := { fresh with
            data := GUIMouseEventData.MouseOver (getWidgetRelativePos w info.widget pos) } }
        info.element
        { fresh with
            data := GUIMouseEventData.MouseOver (getWidgetRelativePos w info.widget pos) }
      obtain ⟨extra, h5, h6⟩ := ih (sendMouseEvent w
        { s with mouseEvent := { fresh with
            data := GUIMouseEventData.MouseOver (getWidgetRelativePos w info.widget pos) } }
        info.element
        { fresh with
            data := GUIMouseEventData.MouseOver (getWidgetRelativePos w info.widget pos) }).1
      refine ⟨_, Delivers.setMouseEvent _ (hd.trans h5), ?_⟩
      intro e he
      rcases List.mem_append.1 he with he | he
      · split_ifs at he
        · cases he
        · simp only [List.mem_singleton] at he
          subst he
          rfl
      · exact h6 e he
    · exact ih s

/-- The hit test changes the under-pointer list and the tooltip flag, and delivers only
mouse-over, drag-and-drop-left and mouse-out events. -/
theorem findElementUnderPointer_eq (w : World) (s : GUIManager) (pos : Vector2I)
    (bs : Bool × Bool × Bool) (sh c a : Bool) :
    ∃ (m : GUIMouseEvent) (extra : List SentEvent) (tip : Bool),
      (findElementUnderPointer w s pos bs sh c a).1 =
        { s with
          elementsUnderPointer := (findElementUnderPointer w s pos bs sh c a).1.elementsUnderPointer
          showTooltip := tip
          mouseEvent := m
          sent := s.sent ++ extra } ∧
      ∀ e ∈ extra, e.event.tag = EventTag.mouseOver ∨ e.event.tag = EventTag.dragAndDropLeft ∨
        e.event.tag = EventTag.mouseOut := by
  obtain ⟨e1, h1, t1⟩ := mouseOverLoop_delivers w pos
    { buttonStates := bs, shift := sh, control := c, alt := a }
    (sortByDepth w (hitElements w s pos)) s
  generalize hover : mouseOverLoop w pos
    { buttonStates := bs, shift := sh, control := c, alt := a }
    (sortByDepth w (hitElements w s pos)) s = over at h1
  -- drag-and-drop-left
  have hleft : ∃ e2, Delivers over.2.1
      (if w.isDragInProgress then
        sendFirst w (dragAndDropLeftTargets w pos over.2.1.elementsUnderPointer over.1) over.2.1
      else (over.2.1, false)).1 e2 ∧ ∀ e ∈ e2, e.event.tag = EventTag.dragAndDropLeft := by
    split_ifs
    · obtain ⟨e2, h2, t2⟩ := sendFirst_delivers w
        (dragAndDropLeftTargets w pos over.2.1.elementsUnderPointer over.1) over.2.1
      refine ⟨e2, h2, ?_⟩
      intro e he
      obtain ⟨p, hp, hsig⟩ := t2 e he
      simp only [dragAndDropLeftTargets, List.mem_map] at hp
      obtain ⟨info, -, rfl⟩ := hp
      exact (Prod.mk.inj hsig).2
    · exact ⟨[], Delivers.refl _, by simp⟩
  obtain ⟨e2, h2, t2⟩ := hleft
  generalize hl : (if w.isDragInProgress then
        sendFirst w (dragAndDropLeftTargets w pos over.2.1.elementsUnderPointer over.1) over.2.1
      else (over.2.1, false)) = left at h2
  obtain ⟨e3, h3, t3'⟩ := sendFirst_delivers w
    (mouseOutTargets w left.1 pos left.1.elementsUnderPointer over.1) left.1
  have t3 : ∀ e ∈ e3, e.event.tag = EventTag.mouseOut := by
    intro e he
    obtain ⟨p, hp, hsig⟩ := t3' e he
    simp only [mouseOutTargets, List.mem_map] at hp
    obtain ⟨info, -, rfl⟩ := hp
    exact (Prod.mk.inj hsig).2
  obtain ⟨m, hm⟩ := (h1.trans h2).trans h3
  refine ⟨m, (e1 ++ e2) ++ e3, !over.1.isEmpty, ?_, ?_⟩
  · unfold findElementUnderPointer
    simp only [hover, hl]
    rw [hm]
  · intro e he
    rcases List.mem_append.1 he with he | he
    · rcases List.mem_append.1 he with he | he
      · exact Or.inl (t1 e he)
      · exact Or.inr (Or.inl (t2 e he))
    · exact Or.inr (Or.inr (t3 e he))

/-! ## Lemmas on the press -/

theorem takeThrough_ne_nil {α : Type} (p : α → Bool) {l : List α} (h : l ≠ []) :
    takeThrough p l ≠ [] := by
  cases l with
  | nil => exact absurd rfl h
  | cons x xs =>
    unfold takeThrough
    split_ifs <;> simp

theorem takeThrough_append_first {α : Type} (p : α → Bool) (front : List α) (c : α)
    (back : List α) (hfront : ∀ x ∈ front, p x = false) (hc : p c = true) :
    takeThrough p (front ++ c :: back) = front ++ [c] := by
  induction front with
  | nil => simp [takeThrough, hc]
  | cons x xs ih =>
    have hx : p x = false := hfront x (List.mem_cons_self _ _)
    have ih1 := ih (fun y hy => hfront y (List.mem_cons_of_mem _ hy))
    show takeThrough p (x :: (xs ++ c :: back)) = x :: (xs ++ [c])
    unfold takeThrough
    rw [if_neg (by simp [hx]), ih1]

theorem takeThrough_eq_self {α : Type} (p : α → Bool) (l : List α)
    (h : ∀ x ∈ l, p x = false) : takeThrough p l = l := by
  induction l with
  | nil => rfl
  | cons x xs ih =>
    have hx : p x = false := h x (List.mem_cons_self _ _)
    simp only [takeThrough, hx, Bool.false_eq_true, if_false]
    rw [ih (fun y hy => h y (List.mem_cons_of_mem _ hy))]

theorem afterMouseDown_afterMouseDown (s : GUIManager) (event : PointerEvent)
    (guiButton : GUIMouseButton) (m1 m2 : GUIMouseEvent) (x1 x2 : List SentEvent) :
    afterMouseDown (afterMouseDown s event guiButton m1 x1) event guiButton m2 x2 =
      afterMouseDown s event guiButton m2 (x1 ++ x2) := by
  unfold afterMouseDown
  split_ifs <;> simp [List.append_assoc]

theorem afterMouseDown_mouseEvent (s : GUIManager) (event : PointerEvent)
    (guiButton : GUIMouseButton) (m : GUIMouseEvent) (x : List SentEvent) :
    (afterMouseDown s event guiButton m x).mouseEvent = m := rfl

theorem mouseDownVisit_spec (w : World) (event : PointerEvent) (guiButton : GUIMouseButton)
    (info : ElementInfoUnderPointer) (s : GUIManager) :
    (mouseDownVisit w event guiButton info s).2 =
      consumesMouseDown w s.mouseEvent event guiButton info ∧
    ∃ extra : List SentEvent,
      extra.map SentEvent.sig =
        ([info].filter fun i => !w.isDestroyed i.element).map
          (fun i => (i.element, EventTag.mouseDown)) ∧
      (mouseDownVisit w event guiButton info s).1 =
        afterMouseDown s event guiButton (mouseDownEvent w s.mouseEvent event guiButton info)
          extra := by
  constructor
  · unfold mouseDownVisit consumesMouseDown
    simp only [sendMouseEvent_consumed]
    rfl
  · by_cases hdes : w.isDestroyed info.element = true
    · refine ⟨[], by simp [hdes], ?_⟩
      unfold mouseDownVisit sendMouseEvent afterMouseDown mouseDownEvent
      simp only [hdes, if_true]
      split_ifs <;> simp
    · refine ⟨[{ element := info.element,
                 event := GUIEvent.mouse (mouseDownEvent w s.mouseEvent event guiButton info) }],
        by simp [hdes, SentEvent.sig, GUIEvent.tag, mouseDownEvent, GUIMouseEventData.tag], ?_⟩
      have hd : w.isDestroyed info.element = false := by simpa using hdes
      unfold mouseDownVisit sendMouseEvent afterMouseDown mouseDownEvent
      simp only [hd, Bool.false_eq_true, if_false]
      split_ifs <;> simp

theorem mouseDownLoop_spec (w : World) (event : PointerEvent) (guiButton : GUIMouseButton)
    (l : List ElementInfoUnderPointer) :
    ∀ (s : GUIManager) (acc : List ElementInfo),
      (mouseDownLoop w event guiButton l s acc).2.1 =
        acc ++ (takeThrough (consumesMouseDown w s.mouseEvent event guiButton) l).map
          ElementInfoUnderPointer.toElementInfo ∧
      ∃ (m : GUIMouseEvent) (extra : List SentEvent),
        extra.map SentEvent.sig =
          ((takeThrough (consumesMouseDown w s.mouseEvent event guiButton) l).filter
            fun info => !w.isDestroyed info.element).map
            (fun info => (info.element, EventTag.mouseDown)) ∧
        (mouseDownLoop w event guiButton l s acc).1 =
          if l = [] then s else afterMouseDown s event guiButton m extra := by
  induction l with
  | nil =>
    intro s acc
    exact ⟨by simp [mouseDownLoop, takeThrough], s.mouseEvent, [], rfl, by simp [mouseDownLoop]⟩
  | cons info rest ih =>
    intro s acc
    obtain ⟨hv2, x1, hx1, hv1⟩ := mouseDownVisit_spec w event guiButton info s
    unfold mouseDownLoop
    simp only [List.cons_ne_nil, if_false]
    rw [hv2]
    by_cases hcm : consumesMouseDown w s.mouseEvent event guiButton info = true
    · simp only [hcm, if_true, takeThrough]
      exact ⟨rfl, _, x1, hx1, hv1⟩
    · simp only [hcm, takeThrough]
      simp only [Bool.false_eq_true, if_false]
      obtain ⟨ih1, m2, x2, ih2, ih3⟩ := ih (mouseDownVisit w event guiButton info s).1
        (acc ++ [{ element := info.element, widget := info.widget }])
      have hbase : consumesMouseDown w (mouseDownVisit w event guiButton info s).1.mouseEvent
          event guiButton = consumesMouseDown w s.mouseEvent event guiButton := by
        rw [hv1, afterMouseDown_mouseEvent]
        rfl
      rw [hbase] at ih1 ih2
      refine ⟨?_, ?_⟩
      · rw [ih1]
        simp [ElementInfoUnderPointer.toElementInfo]
      · by_cases hr : rest = []
        · subst hr
          refine ⟨mouseDownEvent w s.mouseEvent event guiButton info, x1, ?_, ?_⟩
          · simpa [takeThrough] using hx1
          · rw [ih3, if_pos rfl, hv1]
        · refine ⟨m2, x1 ++ x2, ?_, ?_⟩
          · rw [List.map_append, hx1, ih2]
            simp only [List.filter_cons, List.filter_nil]
            split_ifs <;> simp
          · rw [ih3, if_neg hr, hv1, afterMouseDown_afterMouseDown]

theorem takeThrough_eq_take {α : Type} (p : α → Bool) (l : List α) :
    ∃ k, takeThrough p l = l.take k ∧
      ∀ (i : Nat) (x : α), l[i]? = some x → p x = true → k ≤ i + 1 := by
  induction l with
  | nil => exact ⟨0, rfl, by simp⟩
  | cons y ys ih =>
    unfold takeThrough
    by_cases hy : p y = true
    · refine ⟨1, by simp [hy], ?_⟩
      intro i x _ _
      omega
    · obtain ⟨k, hk, hle⟩ := ih
      refine ⟨k + 1, by simp [hy, hk], ?_⟩
      intro i x hi hx
      cases i with
      | zero =>
        simp only [List.getElem?_cons_zero, Option.some.injEq] at hi
        subst hi
        exact absurd hx hy
      | succ j =>
        simp only [List.getElem?_cons_succ] at hi
        have := hle j x hi hx
        omega

theorem focusGainedLoop_spec (w : World) (l : List ElementInfoUnderPointer) :
    ∀ (s : GUIManager) (acc : List ElementFocusInfo),
      (focusGainedLoop w l s acc).2 =
        acc ++ (takeThrough (fun info => (focusRecord w s.elementsInFocus info).usesFocus) l).map
          (focusRecord w s.elementsInFocus) ∧
      ∃ extra : List SentEvent, Delivers s (focusGainedLoop w l s acc).1 extra ∧
        extra.map SentEvent.sig =
          ((takeThrough (fun info => (focusRecord w s.elementsInFocus info).usesFocus) l).filter
            (getsFocusGained w s.elementsInFocus)).map
            (fun info => (info.element, EventTag.focusGained)) := by
  induction l with
  | nil =>
    intro s acc
    exact ⟨by simp [focusGainedLoop, takeThrough], [], Delivers.refl s, rfl⟩
  | cons info rest ih =>
    intro s acc
    unfold focusGainedLoop
    cases hfind : s.elementsInFocus.find? (fun x => x.element == info.element) with
    | none =>
      simp only
      have hd := sendCommandEvent_delivers w s info.element GUICommandEventType.FocusGained
      have hc := sendCommandEvent_consumed w s info.element GUICommandEventType.FocusGained
      have hrec : focusRecord w s.elementsInFocus info =
          { element := info.element, widget := info.widget,
            usesFocus := (sendCommandEvent w s info.element
              GUICommandEventType.FocusGained).2 } := by
        unfold focusRecord
        rw [hfind, hc]
      have hfirst : (if w.isDestroyed info.element then []
          else [({ element := info.element,
                   event := GUIEvent.command GUICommandEventType.FocusGained } : SentEvent)]).map
            SentEvent.sig =
          ([info].filter (getsFocusGained w s.elementsInFocus)).map
            (fun i => (i.element, EventTag.focusGained)) := by
        by_cases hdes : w.isDestroyed info.element = true
        · simp [hdes, getsFocusGained]
        · simp [hdes, getsFocusGained, hfind, SentEvent.sig, GUIEvent.tag]
      by_cases hcons : (sendCommandEvent w s info.element
          GUICommandEventType.FocusGained).2 = true
      · simp only [hcons, if_true]
        have hu : (focusRecord w s.elementsInFocus info).usesFocus = true := by
          rw [hrec]; exact hcons
        simp only [takeThrough, hu, if_true]
        refine ⟨by simp [hrec, hcons], _, hd, ?_⟩
        simpa using hfirst
      · have hu : (focusRecord w s.elementsInFocus info).usesFocus = false := by
          rw [hrec]; simpa using hcons
        simp only [hcons, takeThrough, hu]
        simp only [Bool.false_eq_true, if_false]
        have hfalse : (sendCommandEvent w s info.element
            GUICommandEventType.FocusGained).2 = false := by simpa using hcons
        obtain ⟨ih1, extra, ih2, ih3⟩ := ih
          (sendCommandEvent w s info.element GUICommandEventType.FocusGained).1
          (acc ++ [{ element := info.element, widget := info.widget, usesFocus := false }])
        rw [hd.elementsInFocus] at ih1 ih3
        refine ⟨?_, _, hd.trans ih2, ?_⟩
        · rw [ih1, List.map_cons, hrec, hfalse]
          simp
        · rw [List.map_append, ih3, hfirst]
          simp only [List.filter_cons, List.filter_nil]
          split_ifs <;> simp
    | some found =>
      simp only
      have hrec : focusRecord w s.elementsInFocus info = found := by
        unfold focusRecord
        rw [hfind]
      have hnot : getsFocusGained w s.elementsInFocus info = false := by
        simp [getsFocusGained, hfind]
      by_cases hu : found.usesFocus = true
      · simp only [hu, if_true, takeThrough, hrec]
        refine ⟨by simp [hrec], [], Delivers.refl s, ?_⟩
        simp [hnot]
      · simp only [hu, takeThrough, hrec]
        simp only [Bool.false_eq_true, if_false]
        obtain ⟨ih1, extra, ih2, ih3⟩ := ih s (acc ++ [found])
        refine ⟨?_, extra, ih2, ?_⟩
        · rw [ih1]; simp [hrec]
        · rw [ih3]
          simp [List.filter_cons, hnot]

theorem focusLostLoop_delivers (w : World) (newFocus : List ElementFocusInfo)
    (l : List ElementFocusInfo) :
    ∀ s : GUIManager, ∃ extra, Delivers s (focusLostLoop w newFocus l s) extra ∧
      ∀ e ∈ extra, e.event.tag = EventTag.focusLost := by
  induction l with
  | nil => intro s; exact ⟨[], Delivers.refl s, by simp⟩
  | cons info rest ih =>
    intro s
    unfold focusLostLoop
    split_ifs with h
    · exact ih s
    · have hd := sendCommandEvent_delivers w s info.element GUICommandEventType.FocusLost
      obtain ⟨extra, h1, h2⟩ := ih
        (sendCommandEvent w s info.element GUICommandEventType.FocusLost).1
      refine ⟨_, hd.trans h1, ?_⟩
      intro e he
      rcases List.mem_append.1 he with he | he
      · split_ifs at he
        · cases he
        · simp only [List.mem_singleton] at he
          subst he
          rfl
      · exact h2 e he

theorem receivers_append (t : EventTag) (a b : List SentEvent) :
    receivers t (a ++ b) = receivers t a ++ receivers t b := by
  simp [receivers]

theorem receivers_eq_nil (t : EventTag) (l : List SentEvent)
    (h : ∀ e ∈ l, e.event.tag ≠ t) : receivers t l = [] := by
  simp only [receivers, List.map_eq_nil_iff, List.filter_eq_nil_iff, decide_eq_true_eq]
  exact h

theorem receivers_eq_filter_sigs (t : EventTag) (l : List SentEvent) :
    receivers t l = ((l.map SentEvent.sig).filter fun p => decide (p.2 = t)).map Prod.fst := by
  induction l with
  | nil => rfl
  | cons e es ih =>
    simp only [receivers, List.filter_cons, List.map_cons] at ih ⊢
    by_cases h : e.event.tag = t
    · simp [h, SentEvent.sig, ih]
    · simp [h, SentEvent.sig, ih]

theorem receivers_of_sigs {α : Type} (t : EventTag) (l : List SentEvent) (xs : List α)
    (f : α → Nat) (h : l.map SentEvent.sig = xs.map fun x => (f x, t)) :
    receivers t l = xs.map f := by
  rw [receivers_eq_filter_sigs, h]
  clear h
  induction xs with
  | nil => rfl
  | cons x xs ih => simpa [List.filter_cons] using ih

theorem receivers_of_sigs_ne {α : Type} (t t' : EventTag) (l : List SentEvent) (xs : List α)
    (f : α → Nat) (h : l.map SentEvent.sig = xs.map fun x => (f x, t')) (hne : t' ≠ t) :
    receivers t l = [] := by
  rw [receivers_eq_filter_sigs, h]
  clear h
  induction xs with
  | nil => rfl
  | cons x xs ih => simp [List.filter_cons, hne]

theorem sentSince_of_sent {s s' : GUIManager} {extra : List SentEvent}
    (h : s'.sent = s.sent ++ extra) : sentSince s s' = extra := by
  simp [sentSince, h]

theorem hitTest_tags_ne (t : EventTag) (l : List SentEvent)
    (h : ∀ e ∈ l, e.event.tag = EventTag.mouseOver ∨ e.event.tag = EventTag.dragAndDropLeft ∨
      e.event.tag = EventTag.mouseOut)
    (h1 : t ≠ EventTag.mouseOver) (h2 : t ≠ EventTag.dragAndDropLeft)
    (h3 : t ≠ EventTag.mouseOut) : receivers t l = [] := by
  apply receivers_eq_nil
  intro e he heq
  rcases h e he with h | h | h <;> rw [h] at heq <;> simp_all

theorem focusLostLoop_spec (w : World) (newFocus : List ElementFocusInfo)
    (l : List ElementFocusInfo) :
    ∀ s : GUIManager, ∃ extra, Delivers s (focusLostLoop w newFocus l s) extra ∧
      (∀ e ∈ extra, e.event.tag = EventTag.focusLost) ∧
      extra.map SentEvent.sig =
        (l.filter fun info =>
          !(newFocus.any fun x => x.element == info.element) &&
            !w.isDestroyed info.element).map fun info => (info.element, EventTag.focusLost) := by
  induction l with
  | nil => intro s; exact ⟨[], Delivers.refl s, by simp, rfl⟩
  | cons info rest ih =>
    intro s
    unfold focusLostLoop
    split_ifs with h
    · obtain ⟨extra, h1, h2, h3⟩ := ih s
      refine ⟨extra, h1, h2, ?_⟩
      rw [h3, List.filter_cons]
      simp [h]
    · have hd := sendCommandEvent_delivers w s info.element GUICommandEventType.FocusLost
      obtain ⟨extra, h1, h2, h3⟩ := ih
        (sendCommandEvent w s info.element GUICommandEventType.FocusLost).1
      refine ⟨_, hd.trans h1, ?_, ?_⟩
      · intro e he
        rcases List.mem_append.1 he with he | he
        · split_ifs at he
          · cases he
          · simp only [List.mem_singleton] at he
            subst he
            rfl
        · exact h2 e he
      · rw [List.map_append, h3, List.filter_cons]
        by_cases hdes : w.isDestroyed info.element = true
        · simp [h, hdes]
        · simp [h, hdes, SentEvent.sig, GUIEvent.tag]

theorem afterHitTest_eq (w : World) (s : GUIManager) (event : PointerEvent) :
    ∃ (m : GUIMouseEvent) (extra : List SentEvent) (tip : Bool),
      afterHitTest w s event =
        { s with
          elementsUnderPointer := hoveredList w s event
          showTooltip := tip
          mouseEvent := m
          sent := s.sent ++ extra } ∧
      ∀ e ∈ extra, e.event.tag = EventTag.mouseOver ∨ e.event.tag = EventTag.dragAndDropLeft ∨
        e.event.tag = EventTag.mouseOut :=
  findElementUnderPointer_eq w s event.screenPos event.buttonStates event.shift event.control
    event.alt

theorem onPointerPressed_spec (w : World) (s : GUIManager) (event : PointerEvent)
    (guiButton : GUIMouseButton) (hu : event.used = false)
    (hb : buttonToGUIButton event.button = Except.ok guiButton) :
    ∃ (s' : GUIManager) (used : Bool), onPointerPressed w s event = Except.ok (s', used) ∧
      PressOutcome w s event guiButton s' := by
  obtain ⟨m0, eHit, tip, hH, tHit⟩ := afterHitTest_eq w s event
  -- the manager the loops start from
  obtain ⟨s1, hs1⟩ : ∃ s1 : GUIManager,
      s1 = { afterHitTest w s event with mouseEvent := baseEvent event } := ⟨_, rfl⟩
  have hs1' : s1 =
      { s with
        elementsUnderPointer := hoveredList w s event
        showTooltip := tip
        mouseEvent := baseEvent event
        sent := s.sent ++ eHit } := by
    rw [hs1, hH]
  -- mouse-down phase
  obtain ⟨hd1, m1, eDown0, hd2, hd3⟩ :=
    mouseDownLoop_spec w event guiButton (hoveredList w s event) s1 []
  have hbase : s1.mouseEvent = baseEvent event := by rw [hs1]
  rw [hbase] at hd1 hd2
  obtain ⟨down, hdown⟩ : ∃ down : GUIManager × Bool, down =
    (if s1.activeElements.isEmpty then
      ({ (mouseDownLoop w event guiButton s1.elementsUnderPointer s1 []).1 with
          activeElements := (mouseDownLoop w event guiButton s1.elementsUnderPointer s1 []).2.1 },
        (mouseDownLoop w event guiButton s1.elementsUnderPointer s1 []).2.2)
    else (s1, false)) := ⟨_, rfl⟩
  have hup : s1.elementsUnderPointer = hoveredList w s event := by rw [hs1']
  have hact : s1.activeElements = s.activeElements := by rw [hs1']
  -- description of the manager after the mouse-down phase
  have hD : ∃ (m : GUIMouseEvent) (eDown : List SentEvent),
      down.1 = { s with
        elementsUnderPointer := hoveredList w s event
        showTooltip := tip
        mouseEvent := m
        sent := s.sent ++ (eHit ++ eDown)
        activeElements :=
          if s.activeElements = [] then
            (pressVisited w s event guiButton).map ElementInfoUnderPointer.toElementInfo
          else s.activeElements
        dragState :=
          if s.activeElements = [] ∧ hoveredList w s event ≠ [] ∧
              guiButton = GUIMouseButton.Left then DragState.HeldWithoutDrag else s.dragState
        lastPointerClickPos :=
          if s.activeElements = [] ∧ hoveredList w s event ≠ [] ∧
              guiButton = GUIMouseButton.Left then event.screenPos else s.lastPointerClickPos
        activeMouseButton :=
          if s.activeElements = [] ∧ hoveredList w s event ≠ [] then guiButton
          else s.activeMouseButton } ∧
      eDown.map SentEvent.sig =
        (if s.activeElements = [] then
          ((pressVisited w s event guiButton).filter fun info => !w.isDestroyed info.element).map
            (fun info => (info.element, EventTag.mouseDown))
        else []) := by
    by_cases ha : s.activeElements = []
    · have hemp : s1.activeElements.isEmpty = true := by rw [hact, ha]; rfl
      rw [hdown, hemp, if_pos rfl, hup, hd1, hd3]
      by_cases hh : hoveredList w s event = []
      · refine ⟨baseEvent event, [], ?_, ?_⟩
        · simp only [hh, if_true, ha, pressVisited, takeThrough, hs1']
          simp
        · simp [ha, pressVisited, hh, takeThrough]
      · refine ⟨m1, eDown0, ?_, ?_⟩
        · simp only [hh, if_false, ha, pressVisited, hs1', afterMouseDown]
          simp [List.append_assoc, hh]
        · simp only [ha, if_true, pressVisited]
          exact hd2
    · have hemp : s1.activeElements.isEmpty = false := by
        rw [hact]
        cases hs : s.activeElements with
        | nil => exact absurd hs ha
        | cons x xs => rfl
      rw [hdown, hemp]
      refine ⟨baseEvent event, [], ?_, by simp [ha]⟩
      simp [ha, hs1']
  obtain ⟨m2, eDown, hD1, hD2⟩ := hD
  -- focus phases
  obtain ⟨hg1, eGain, hg2, hg3⟩ := focusGainedLoop_spec w down.1.elementsUnderPointer down.1 []
  have hDup : down.1.elementsUnderPointer = hoveredList w s event := by rw [hD1]
  have hDfoc : down.1.elementsInFocus = s.elementsInFocus := by rw [hD1]
  rw [hDup] at hg1 hg2 hg3
  rw [hDfoc] at hg1 hg3
  obtain ⟨eLost, hl1, hl2, hl3⟩ := focusLostLoop_spec w
    (focusGainedLoop w (hoveredList w s event) down.1 []).2
    (focusGainedLoop w (hoveredList w s event) down.1 []).1.elementsInFocus
    (focusGainedLoop w (hoveredList w s event) down.1 []).1
  obtain ⟨m3, hfinal⟩ := hg2.trans hl1
  have hpress : onPointerPressed w s event = Except.ok
      ({ focusLostLoop w (focusGainedLoop w down.1.elementsUnderPointer down.1 []).2
          (focusGainedLoop w down.1.elementsUnderPointer down.1 []).1.elementsInFocus
          (focusGainedLoop w down.1.elementsUnderPointer down.1 []).1 with
        elementsInFocus := (focusGainedLoop w down.1.elementsUnderPointer down.1 []).2 },
        ((findElementUnderPointer w s event.screenPos event.buttonStates event.shift
            event.control event.alt).2 || down.2 ||
          !(hoveredList w s event).isEmpty ||
          (event.buttonStates.2.2 && contextMenuOpened w
            { focusLostLoop w (focusGainedLoop w down.1.elementsUnderPointer down.1 []).2
                (focusGainedLoop w down.1.elementsUnderPointer down.1 []).1.elementsInFocus
                (focusGainedLoop w down.1.elementsUnderPointer down.1 []).1 with
              elementsInFocus :=
                (focusGainedLoop w down.1.elementsUnderPointer down.1 []).2 }))) := by
    have hkeep : (focusLostLoop w (focusGainedLoop w down.1.elementsUnderPointer down.1 []).2
        (focusGainedLoop w down.1.elementsUnderPointer down.1 []).1.elementsInFocus
        (focusGainedLoop w down.1.elementsUnderPointer down.1 []).1).elementsUnderPointer =
        hoveredList w s event := by
      rw [hDup, hfinal]
      exact hDup
    rw [← hkeep]
    subst hdown
    subst hs1
    unfold onPointerPressed
    rw [if_neg (by simp [hu])]
    simp only [hb]
    rfl
  refine ⟨_, _, hpress, ?_⟩
  · have hstate : ({ focusLostLoop w (focusGainedLoop w down.1.elementsUnderPointer down.1 []).2
          (focusGainedLoop w down.1.elementsUnderPointer down.1 []).1.elementsInFocus
          (focusGainedLoop w down.1.elementsUnderPointer down.1 []).1 with
        elementsInFocus := (focusGainedLoop w down.1.elementsUnderPointer down.1 []).2 } :
          GUIManager) =
        { down.1 with
          mouseEvent := m3
          sent := down.1.sent ++ (eGain ++ eLost)
          elementsInFocus :=
            (focusVisited w s event).map (focusRecord w s.elementsInFocus) } := by
      rw [hDup, hfinal, hg1]
      simp [focusVisited]
    show PressOutcome w s event guiButton
      { focusLostLoop w (focusGainedLoop w down.1.elementsUnderPointer down.1 []).2
          (focusGainedLoop w down.1.elementsUnderPointer down.1 []).1.elementsInFocus
          (focusGainedLoop w down.1.elementsUnderPointer down.1 []).1 with
        elementsInFocus := (focusGainedLoop w down.1.elementsUnderPointer down.1 []).2 }
    rw [hstate, hD1]
    exact
      { hovered_eq := rfl
        focus_eq := rfl
        active_eq := rfl
        dragState_eq := rfl
        clickPos_eq := rfl
        button_eq := rfl
        screenPos_eq := rfl
        widgets_eq := rfl
        sent_eq := ⟨eHit, eDown, eGain, eLost, by simp [List.append_assoc], tHit, hD2, hg3,
          hl2⟩
        lost_eq := by
          have hdn : receivers EventTag.focusLost eDown = [] := by
            split_ifs at hD2
            · exact receivers_of_sigs_ne _ _ _ _ _ hD2 (by decide)
            · have : eDown = [] := by simpa using hD2
              rw [this]; rfl
          rw [sentSince_of_sent
              (show _ = s.sent ++ (eHit ++ eDown ++ (eGain ++ eLost)) by
                simp [List.append_assoc]),
            receivers_append, receivers_append, receivers_append,
            hitTest_tags_ne _ _ tHit (by decide) (by decide) (by decide), hdn,
            receivers_of_sigs_ne _ _ _ _ _ hg3 (by decide),
            receivers_of_sigs _ _ _ _ hl3]
          simp only [List.nil_append]
          rw [hg2.elementsInFocus, hDfoc, hg1]
          simp [focusLostTargets, focusVisited]
        dragStartPos_eq := rfl }

/-- The mouse-down events of a press, in order of delivery. -/
theorem PressOutcome.mouseDown_receivers {w : World} {s s' : GUIManager}
    {event : PointerEvent} {guiButton : GUIMouseButton}
    (h : PressOutcome w s event guiButton s') :
    receivers EventTag.mouseDown (sentSince s s') =
      if s.activeElements = [] then
        ((pressVisited w s event guiButton).filter fun info => !w.isDestroyed info.element).map
          fun info => info.element
      else [] := by
  obtain ⟨eHit, eDown, eGain, eLost, hsent, tHit, hDown, hGain, tLost⟩ := h.sent_eq
  rw [sentSince_of_sent hsent, receivers_append, receivers_append, receivers_append,
    hitTest_tags_ne _ _ tHit (by decide) (by decide) (by decide),
    receivers_of_sigs_ne _ _ _ _ _ hGain (by decide),
    receivers_eq_nil _ eLost (fun e he => by rw [tLost e he]; decide)]
  simp only [List.nil_append, List.append_nil]
  split_ifs with ha
  · rw [if_pos ha] at hDown
    exact receivers_of_sigs _ _ _ _ hDown
  · rw [if_neg ha] at hDown
    apply receivers_eq_nil
    intro e he
    have : eDown = [] := by simpa using hDown
    rw [this] at he
    cases he

/-- The focus-gained events of a press, in order of delivery. -/
theorem PressOutcome.focusGained_receivers {w : World} {s s' : GUIManager}
    {event : PointerEvent} {guiButton : GUIMouseButton}
    (h : PressOutcome w s event guiButton s') :
    receivers EventTag.focusGained (sentSince s s') =
      ((focusVisited w s event).filter (getsFocusGained w s.elementsInFocus)).map
        fun info => info.element := by
  obtain ⟨eHit, eDown, eGain, eLost, hsent, tHit, hDown, hGain, tLost⟩ := h.sent_eq
  have hd : receivers EventTag.focusGained eDown = [] := by
    split_ifs at hDown
    · exact receivers_of_sigs_ne _ _ _ _ _ hDown (by decide)
    · have : eDown = [] := by simpa using hDown
      rw [this]; rfl
  rw [sentSince_of_sent hsent, receivers_append, receivers_append, receivers_append,
    hitTest_tags_ne _ _ tHit (by decide) (by decide) (by decide), hd,
    receivers_of_sigs _ _ _ _ hGain,
    receivers_eq_nil _ eLost (fun e he => by rw [tLost e he]; decide)]
  simp

theorem focusRecord_element (w : World) (oldFocus : List ElementFocusInfo)
    (info : ElementInfoUnderPointer) : (focusRecord w oldFocus info).element = info.element := by
  unfold focusRecord
  split
  · rfl
  · next found hfind =>
    have := List.find?_some hfind
    simpa using this

/-! ## Lemmas on the pointer move -/

/-- The test `wheelMoved` is the comparison of the absolute wheel amount with 0.00001. -/
theorem wheelMoved_iff (amount : Rat) : wheelMoved amount = true ↔ |amount| > 1 / 100000 := by
  unfold wheelMoved
  rw [decide_eq_true_eq, Rat.abs_def, Rat.divInt_eq_div, gt_iff_lt, gt_iff_lt,
    div_lt_div_iff₀ (by norm_num) (by exact_mod_cast amount.den_pos)]
  have hcast : (((amount.num.natAbs : Nat) : Int) : Rat) = ((amount.num.natAbs : Nat) : Rat) :=
    Int.cast_natCast _
  have hden : ((amount.den : Int) : Rat) = ((amount.den : Nat) : Rat) := Int.cast_natCast _
  rw [hcast, hden, one_mul]
  have h2 : ((amount.num.natAbs : Nat) : Rat) * 100000 =
      ((amount.num.natAbs * 100000 : Nat) : Rat) := by
    rw [Nat.cast_mul]
    rfl
  rw [h2, Nat.cast_lt]

theorem Routes.routes_rfl (s : GUIManager) : Routes s s [] :=
  ⟨s.mouseEvent, s.activeCursor, s.lastPointerScreenPos, by simp⟩

theorem Delivers.routes {s s' : GUIManager} {e : List SentEvent} (h : Delivers s s' e) :
    Routes s s' e := by
  obtain ⟨m, rfl⟩ := h
  exact ⟨m, s.activeCursor, s.lastPointerScreenPos, rfl⟩

theorem Routes.compose {s s' s'' : GUIManager} {e1 e2 : List SentEvent}
    (h1 : Routes s s' e1) (h2 : Routes s' s'' e2) : Routes s s'' (e1 ++ e2) := by
  obtain ⟨m1, c1, p1, rfl⟩ := h1
  obtain ⟨m2, c2, p2, rfl⟩ := h2
  exact ⟨m2, c2, p2, by simp [List.append_assoc]⟩

theorem Routes.setCursor {s s' : GUIManager} {e : List SentEvent} (c : CursorType)
    (h : Routes s s' e) : Routes s { s' with activeCursor := c } e := by
  obtain ⟨m1, c1, p1, rfl⟩ := h
  exact ⟨m1, c, p1, rfl⟩

theorem Routes.setScreenPos {s s' : GUIManager} {e : List SentEvent} (p : Vector2I)
    (h : Routes s s' e) : Routes s { s' with lastPointerScreenPos := p } e := by
  obtain ⟨m1, c1, p1, rfl⟩ := h
  exact ⟨m1, c1, p, rfl⟩

theorem Routes.routes_dragState {s s' : GUIManager} {e : List SentEvent} (h : Routes s s' e) :
    s'.dragState = s.dragState := by
  obtain ⟨m, c, p, rfl⟩ := h; rfl

theorem Routes.routes_elementsUnderPointer {s s' : GUIManager} {e : List SentEvent}
    (h : Routes s s' e) : s'.elementsUnderPointer = s.elementsUnderPointer := by
  obtain ⟨m, c, p, rfl⟩ := h; rfl

theorem dragAndDropLoop_delivers (w : World) (screenPos : Vector2I)
    (l : List ElementInfoUnderPointer) :
    ∀ (s : GUIManager) (acceptDrop : Bool),
      ∃ extra, Delivers s (dragAndDropLoop w screenPos l s acceptDrop).1 extra ∧
        ∀ e ∈ extra, e.event.tag = EventTag.dragAndDropDragged := by
  induction l with
  | nil => intro s a; exact ⟨[], Delivers.refl s, by simp⟩
  | cons info rest ih =>
    intro s a
    obtain ⟨acc, hacc⟩ : ∃ acc : Bool, acc =
        (if w.needsValidDropTarget then
          w.acceptDragAndDrop info.element (getWidgetRelativePos w info.widget screenPos)
        else true) := ⟨_, rfl⟩
    obtain ⟨r, hr⟩ : ∃ r : GUIManager × Bool, r = sendMouseEvent w
        { s with mouseEvent := { s.mouseEvent with
            data := GUIMouseEventData.DragAndDropDragged
              (getWidgetRelativePos w info.widget screenPos) } }
        info.element
        { s.mouseEvent with
            data := GUIMouseEventData.DragAndDropDragged
              (getWidgetRelativePos w info.widget screenPos) } := ⟨_, rfl⟩
    have hd : Delivers s r.1 (if w.isDestroyed info.element then []
        else [({ element := info.element,
                 event := GUIEvent.mouse { s.mouseEvent with
                  data := GUIMouseEventData.DragAndDropDragged
                    (getWidgetRelativePos w info.widget screenPos) } } : SentEvent)]) := by
      rw [hr]
      exact Delivers.setMouseEvent _ (sendMouseEvent_delivers w _ _ _)
    have htag : ∀ e ∈ (if w.isDestroyed info.element then []
        else [({ element := info.element,
                 event := GUIEvent.mouse { s.mouseEvent with
                  data := GUIMouseEventData.DragAndDropDragged
                    (getWidgetRelativePos w info.widget screenPos) } } : SentEvent)]),
        e.event.tag = EventTag.dragAndDropDragged := by
      intro e he
      split_ifs at he
      · cases he
      · simp only [List.mem_singleton] at he
        subst he
        rfl
    have hgoal : dragAndDropLoop w screenPos (info :: rest) s a =
        if acc = true then
          (if r.2 = true then (r.1, acc, true) else dragAndDropLoop w screenPos rest r.1 acc)
        else dragAndDropLoop w screenPos rest s acc := by
      rw [hacc, hr]
      rfl
    rw [hgoal]
    split_ifs
    · exact ⟨_, hd, htag⟩
    · obtain ⟨extra, h3, h4⟩ := ih r.1 acc
      refine ⟨_, hd.trans h3, ?_⟩
      intro e he
      rcases List.mem_append.1 he with he | he
      · exact htag e he
      · exact h4 e he
    · exact ih s acc

theorem mouseMoveLoop_routes (w : World) (screenPos : Vector2I)
    (l : List ElementInfoUnderPointer) :
    ∀ (s : GUIManager) (hasCustomCursor : Bool),
      ∃ extra, Routes s (mouseMoveLoop w screenPos l s hasCustomCursor).1 extra ∧
        ∀ e ∈ extra, e.event.tag = EventTag.mouseMove := by
  induction l with
  | nil => intro s a; exact ⟨[], Routes.routes_rfl s, by simp⟩
  | cons info rest ih =>
    intro s a
    obtain ⟨r, hr⟩ : ∃ r : GUIManager × Bool, r = sendMouseEvent w
        { s with mouseEvent := { s.mouseEvent with
            data := GUIMouseEventData.MouseMove
              (getWidgetRelativePos w info.widget screenPos) } }
        info.element
        { s.mouseEvent with
            data := GUIMouseEventData.MouseMove
              (getWidgetRelativePos w info.widget screenPos) } := ⟨_, rfl⟩
    have hd : Routes s r.1 (if w.isDestroyed info.element then []
        else [({ element := info.element,
                 event := GUIEvent.mouse { s.mouseEvent with
                  data := GUIMouseEventData.MouseMove
                    (getWidgetRelativePos w info.widget screenPos) } } : SentEvent)]) := by
      rw [hr]
      exact (Delivers.setMouseEvent _ (sendMouseEvent_delivers w _ _ _)).routes
    have htag : ∀ e ∈ (if w.isDestroyed info.element then []
        else [({ element := info.element,
                 event := GUIEvent.mouse { s.mouseEvent with
                  data := GUIMouseEventData.MouseMove
                    (getWidgetRelativePos w info.widget screenPos) } } : SentEvent)]),
        e.event.tag = EventTag.mouseMove := by
      intro e he
      split_ifs at he
      · cases he
      · simp only [List.mem_singleton] at he
        subst he
        rfl
    obtain ⟨c, hc⟩ : ∃ c : GUIManager × Bool, c =
        (if r.1.dragState = DragState.NoDrag then
          match w.hasCustomCursor info.element (getWidgetRelativePos w info.widget screenPos) with
          | some newCursor => ({ r.1 with activeCursor := newCursor }, true)
          | none => (r.1, a)
        else (r.1, a)) := ⟨_, rfl⟩
    have hroute : Routes s c.1 (if w.isDestroyed info.element then []
        else [({ element := info.element,
                 event := GUIEvent.mouse { s.mouseEvent with
                  data := GUIMouseEventData.MouseMove
                    (getWidgetRelativePos w info.widget screenPos) } } : SentEvent)]) := by
      rw [hc]
      by_cases hdr : r.1.dragState = DragState.NoDrag
      · rw [if_pos hdr]
        cases w.hasCustomCursor info.element (getWidgetRelativePos w info.widget screenPos) with
        | none => exact hd
        | some newCursor => exact hd.setCursor newCursor
      · rw [if_neg hdr]
        exact hd
    have hgoal : mouseMoveLoop w screenPos (info :: rest) s a =
        if r.2 = true then (c.1, c.2, true) else mouseMoveLoop w screenPos rest c.1 c.2 := by
      rw [hc, hr]
      rfl
    rw [hgoal]
    split_ifs
    · exact ⟨_, hroute, htag⟩
    · obtain ⟨extra, h3, h4⟩ := ih c.1 c.2
      refine ⟨_, hroute.compose h3, ?_⟩
      intro e he
      rcases List.mem_append.1 he with he | he
      · exact htag e he
      · exact h4 e he

theorem sendAll_tags (w : World) (evs : List (Nat × GUIMouseEventData)) (t : EventTag)
    (ht : ∀ p ∈ evs, p.2.tag = t) (s : GUIManager) :
    ∃ extra, Delivers s (sendAll w evs s).1 extra ∧ ∀ e ∈ extra, e.event.tag = t := by
  obtain ⟨extra, h1, h2⟩ := sendAll_delivers w evs s
  refine ⟨extra, h1, ?_⟩
  intro e he
  have : e.sig ∈ extra.map SentEvent.sig := List.mem_map_of_mem _ he
  rw [h2] at this
  simp only [deliveredSigs, List.mem_map, List.mem_filter] at this
  obtain ⟨p, ⟨hp, -⟩, hsig⟩ := this
  have h3 : p.2.tag = e.event.tag := (Prod.mk.inj hsig).2
  rw [← h3]
  exact ht p hp

theorem sendFirst_tags (w : World) (evs : List (Nat × GUIMouseEventData)) (t : EventTag)
    (ht : ∀ p ∈ evs, p.2.tag = t) (s : GUIManager) :
    ∃ extra, Delivers s (sendFirst w evs s).1 extra ∧ ∀ e ∈ extra, e.event.tag = t := by
  obtain ⟨extra, h1, h2⟩ := sendFirst_delivers w evs s
  refine ⟨extra, h1, ?_⟩
  intro e he
  obtain ⟨p, hp, hsig⟩ := h2 e he
  have h3 : e.event.tag = p.2.tag := (Prod.mk.inj hsig).2
  rw [h3]
  exact ht p hp

theorem dragStartStep_starts (w : World) (s : GUIManager) (event : PointerEvent)
    (h : startsDrag s event) :
    ∃ (m : GUIMouseEvent) (extra : List SentEvent),
      (dragStartStep w s event).1 =
        { s with
          mouseEvent := m
          sent := s.sent ++ extra
          dragState := DragState.Dragging
          dragStartPos := event.screenPos } ∧
      extra.map SentEvent.sig = deliveredSigs w (dragStartTargets w s event) := by
  obtain ⟨extra, ⟨m, hm⟩, hsig⟩ := sendAll_delivers w (dragStartTargets w s event) s
  refine ⟨m, extra, ?_, hsig⟩
  unfold dragStartStep
  rw [if_pos h]
  show ({ (sendAll w (dragStartTargets w s event) s).1 with
    dragState := DragState.Dragging, dragStartPos := event.screenPos } : GUIManager) = _
  rw [hm]

theorem dragStartStep_idle (w : World) (s : GUIManager) (event : PointerEvent)
    (h : ¬ startsDrag s event) : dragStartStep w s event = (s, false) := by
  unfold dragStartStep
  rw [if_neg h]

theorem draggingStep_routes (w : World) (s : GUIManager) (event : PointerEvent) :
    ∃ extra, Routes s (draggingStep w s event).1 extra ∧
      ∀ e ∈ extra, e.event.tag = EventTag.mouseDrag ∨
        e.event.tag = EventTag.dragAndDropDragged := by
  obtain ⟨drag, hdrag⟩ : ∃ drag : GUIManager × Bool, drag =
      (if s.lastPointerScreenPos ≠ event.screenPos then
        sendAll w
          (s.activeElements.map fun activeElement =>
            (activeElement.element,
              GUIMouseEventData.MouseDrag
                (getWidgetRelativePos w activeElement.widget event.screenPos)
                (event.screenPos.sub s.dragStartPos))) s
      else (s, false)) := ⟨_, rfl⟩
  have h1 : ∃ e1, Delivers s drag.1 e1 ∧ ∀ e ∈ e1, e.event.tag = EventTag.mouseDrag := by
    rw [hdrag]
    split_ifs
    · apply sendAll_tags
      intro p hp
      simp only [List.mem_map] at hp
      obtain ⟨x, -, rfl⟩ := hp
      rfl
    · exact ⟨[], Delivers.refl s, by simp⟩
  obtain ⟨e1, hd1, t1⟩ := h1
  have hgoal : draggingStep w s event =
      if w.isDragInProgress = true then
        ({ (dragAndDropLoop w event.screenPos
              ({ drag.1 with lastPointerScreenPos := event.screenPos } :
                GUIManager).elementsUnderPointer
              { drag.1 with lastPointerScreenPos := event.screenPos } true).1 with
            activeCursor :=
              if (dragAndDropLoop w event.screenPos
                  ({ drag.1 with lastPointerScreenPos := event.screenPos } :
                    GUIManager).elementsUnderPointer
                  { drag.1 with lastPointerScreenPos := event.screenPos } true).2.1 = true
              then CursorType.ArrowDrag else CursorType.Deny },
          drag.2 || (dragAndDropLoop w event.screenPos
              ({ drag.1 with lastPointerScreenPos := event.screenPos } :
                GUIManager).elementsUnderPointer
              { drag.1 with lastPointerScreenPos := event.screenPos } true).2.2)
      else ({ drag.1 with lastPointerScreenPos := event.screenPos }, drag.2) := by
    rw [hdrag]
    rfl
  rw [hgoal]
  have hr1 : Routes s { drag.1 with lastPointerScreenPos := event.screenPos } e1 :=
    hd1.routes.setScreenPos _
  by_cases hprog : w.isDragInProgress = true
  · rw [if_pos hprog]
    obtain ⟨e2, hd2, t2⟩ := dragAndDropLoop_delivers w event.screenPos
      ({ drag.1 with lastPointerScreenPos := event.screenPos } :
        GUIManager).elementsUnderPointer
      { drag.1 with lastPointerScreenPos := event.screenPos } true
    refine ⟨e1 ++ e2, (hr1.compose hd2.routes).setCursor _, ?_⟩
    intro e he
    rcases List.mem_append.1 he with he | he
    · exact Or.inl (t1 e he)
    · exact Or.inr (t2 e he)
  · rw [if_neg hprog]
    exact ⟨e1, hr1, fun e he => Or.inl (t1 e he)⟩

theorem hoverStep_routes (w : World) (s : GUIManager) (event : PointerEvent) :
    ∃ extra, Routes s (hoverStep w s event).1 extra ∧
      ∀ e ∈ extra, e.event.tag = EventTag.mouseMove ∨
        e.event.tag = EventTag.mouseWheelScroll := by
  obtain ⟨move, hmove⟩ : ∃ move : GUIManager × Bool, move =
      (if s.lastPointerScreenPos ≠ event.screenPos then
        if (mouseMoveLoop w event.screenPos s.elementsUnderPointer s false).1.dragState =
            DragState.NoDrag ∧
            (mouseMoveLoop w event.screenPos s.elementsUnderPointer s false).2.1 = false then
          ({ (mouseMoveLoop w event.screenPos s.elementsUnderPointer s false).1 with
              activeCursor := CursorType.Arrow },
            (mouseMoveLoop w event.screenPos s.elementsUnderPointer s false).2.2)
        else ((mouseMoveLoop w event.screenPos s.elementsUnderPointer s false).1,
          (mouseMoveLoop w event.screenPos s.elementsUnderPointer s false).2.2)
      else (s, false)) := ⟨_, rfl⟩
  have h1 : ∃ e1, Routes s move.1 e1 ∧ ∀ e ∈ e1, e.event.tag = EventTag.mouseMove := by
    rw [hmove]
    obtain ⟨e1, hr, t1⟩ := mouseMoveLoop_routes w event.screenPos s.elementsUnderPointer s false
    split_ifs
    · exact ⟨e1, hr.setCursor _, t1⟩
    · exact ⟨e1, hr, t1⟩
    · exact ⟨[], Routes.routes_rfl s, by simp⟩
  obtain ⟨e1, hr1, t1⟩ := h1
  have hgoal : hoverStep w s event =
      if wheelMoved event.mouseWheelScrollAmount = true then
        ((sendFirst w
          (({ move.1 with lastPointerScreenPos := event.screenPos } :
              GUIManager).elementsUnderPointer.map fun info =>
            (info.element, GUIMouseEventData.MouseWheelScroll event.mouseWheelScrollAmount))
          { move.1 with lastPointerScreenPos := event.screenPos }).1,
          move.2 || (sendFirst w
          (({ move.1 with lastPointerScreenPos := event.screenPos } :
              GUIManager).elementsUnderPointer.map fun info =>
            (info.element, GUIMouseEventData.MouseWheelScroll event.mouseWheelScrollAmount))
          { move.1 with lastPointerScreenPos := event.screenPos }).2)
      else ({ move.1 with lastPointerScreenPos := event.screenPos }, move.2) := by
    rw [hmove]
    rfl
  rw [hgoal]
  have hr2 : Routes s { move.1 with lastPointerScreenPos := event.screenPos } e1 :=
    hr1.setScreenPos _
  split_ifs
  · obtain ⟨e2, hd2, t2⟩ := sendFirst_tags w
      (({ move.1 with lastPointerScreenPos := event.screenPos } :
          GUIManager).elementsUnderPointer.map fun info =>
        (info.element, GUIMouseEventData.MouseWheelScroll event.mouseWheelScrollAmount))
      EventTag.mouseWheelScroll
      (by
        intro p hp
        simp only [List.mem_map] at hp
        obtain ⟨x, -, rfl⟩ := hp
        rfl)
      { move.1 with lastPointerScreenPos := event.screenPos }
    refine ⟨e1 ++ e2, hr2.compose hd2.routes, ?_⟩
    intro e he
    rcases List.mem_append.1 he with he | he
    · exact Or.inl (t1 e he)
    · exact Or.inr (t2 e he)
  · exact ⟨e1, hr2, fun e he => Or.inl (t1 e he)⟩

theorem onPointerMoved_spec (w : World) (s : GUIManager) (event : PointerEvent)
    (hu : event.used = false) : MoveOutcome w s event (onPointerMoved w s event).1 := by
  obtain ⟨m0, eHit, tip, hH, tHit⟩ := afterHitTest_eq w s event
  obtain ⟨H, hHdef⟩ : ∃ H : GUIManager, H = afterHitTest w s event := ⟨_, rfl⟩
  rw [← hHdef] at hH
  have hstartsIff : startsDrag H event ↔ startsDrag s event := by
    rw [hH]; rfl
  have htargets : dragStartTargets w H event = dragStartTargets w s event := by
    rw [hH]; rfl
  -- the drag-start block
  have hstart : ∃ (m : GUIMouseEvent) (eStart : List SentEvent),
      (dragStartStep w H event).1 =
        { s with
          elementsUnderPointer := hoveredList w s event
          showTooltip := tip
          mouseEvent := m
          sent := s.sent ++ (eHit ++ eStart)
          dragState := if startsDrag s event then DragState.Dragging else s.dragState
          dragStartPos := if startsDrag s event then event.screenPos else s.dragStartPos } ∧
      eStart.map SentEvent.sig =
        (if startsDrag s event then deliveredSigs w (dragStartTargets w s event) else []) := by
    by_cases hst : startsDrag s event
    · obtain ⟨m, eStart, h1, h2⟩ := dragStartStep_starts w H event (hstartsIff.2 hst)
      refine ⟨m, eStart, ?_, ?_⟩
      · rw [h1, hH]
        simp [hst, List.append_assoc]
      · rw [if_pos hst, ← htargets]
        exact h2
    · refine ⟨m0, [], ?_, by simp [hst]⟩
      rw [dragStartStep_idle w H event (fun h => hst (hstartsIff.1 h)), hH]
      simp [hst]
  obtain ⟨m1, eStart, hS, hsig⟩ := hstart
  obtain ⟨S, hSdef⟩ : ∃ S : GUIManager, S = (dragStartStep w H event).1 := ⟨_, rfl⟩
  rw [← hSdef] at hS
  -- the rest of the handler
  have hrest : ∃ eRest, Routes S
      (if S.dragState = DragState.Dragging then draggingStep w S event
        else hoverStep w S event).1 eRest ∧
      ∀ e ∈ eRest, e.event.tag = EventTag.mouseDrag ∨
        e.event.tag = EventTag.dragAndDropDragged ∨ e.event.tag = EventTag.mouseMove ∨
        e.event.tag = EventTag.mouseWheelScroll := by
    split_ifs
    · obtain ⟨eRest, h1, h2⟩ := draggingStep_routes w S event
      refine ⟨eRest, h1, ?_⟩
      intro e he
      rcases h2 e he with h | h
      · exact Or.inl h
      · exact Or.inr (Or.inl h)
    · obtain ⟨eRest, h1, h2⟩ := hoverStep_routes w S event
      refine ⟨eRest, h1, ?_⟩
      intro e he
      rcases h2 e he with h | h
      · exact Or.inr (Or.inr (Or.inl h))
      · exact Or.inr (Or.inr (Or.inr h))
  obtain ⟨eRest, ⟨m2, c2, p2, hR⟩, tRest⟩ := hrest
  have hfinal : (onPointerMoved w s event).1 =
      (if S.dragState = DragState.Dragging then draggingStep w S event
        else hoverStep w S event).1 := by
    rw [hSdef, hHdef]
    unfold onPointerMoved
    rw [if_neg (by simp [hu])]
    rfl
  rw [hfinal, hR, hS]
  exact
    { hovered_eq := rfl
      focus_eq := rfl
      active_eq := rfl
      button_eq := rfl
      clickPos_eq := rfl
      widgets_eq := rfl
      dragState_eq := rfl
      dragStartPos_eq := rfl
      sent_eq := ⟨eHit, eStart, eRest, by simp [List.append_assoc], tHit, hsig, tRest⟩ }

/-! ## Lemmas on the release -/

theorem onPointerReleased_spec (w : World) (s : GUIManager) (event : PointerEvent)
    (guiButton : GUIMouseButton) (hu : event.used = false)
    (hb : buttonToGUIButton event.button = Except.ok guiButton) :
    ∃ (s' : GUIManager) (used : Bool), onPointerReleased w s event = Except.ok (s', used) ∧
      ReleaseOutcome w s event guiButton s' := by
  obtain ⟨m0, eHit, tip, hH, tHit⟩ := afterHitTest_eq w s event
  obtain ⟨s1, hs1⟩ : ∃ s1 : GUIManager,
      s1 = { afterHitTest w s event with mouseEvent := baseEvent event } := ⟨_, rfl⟩
  have hs1' : s1 =
      { s with
        elementsUnderPointer := hoveredList w s event
        showTooltip := tip
        mouseEvent := baseEvent event
        sent := s.sent ++ eHit } := by
    rw [hs1, hH]
  -- mouse-up
  obtain ⟨up, hup⟩ : ∃ up : GUIManager × Bool, up =
      (if s1.activeMouseButton = guiButton then
        sendFirst w (mouseUpTargets w s1 event.screenPos guiButton) s1
      else (s1, false)) := ⟨_, rfl⟩
  have hU : ∃ eUp, Delivers s1 up.1 eUp ∧
      ∀ e ∈ eUp, e.event.tag = EventTag.mouseUp ∧ s.activeMouseButton = guiButton := by
    rw [hup]
    by_cases hbtn : s1.activeMouseButton = guiButton
    · rw [if_pos hbtn]
      obtain ⟨eUp, h1, h2⟩ := sendFirst_tags w (mouseUpTargets w s1 event.screenPos guiButton)
        EventTag.mouseUp
        (by
          intro p hp
          simp only [mouseUpTargets, List.mem_map] at hp
          obtain ⟨x, -, rfl⟩ := hp
          rfl) s1
      refine ⟨eUp, h1, fun e he => ⟨h2 e he, ?_⟩⟩
      rw [hs1'] at hbtn
      exact hbtn
    · rw [if_neg hbtn]
      exact ⟨[], Delivers.refl s1, by simp⟩
  obtain ⟨eUp, ⟨m1, hU1⟩, tUp⟩ := hU
  have hU2 : up.1 =
      { s with
        elementsUnderPointer := hoveredList w s event
        showTooltip := tip
        mouseEvent := m1
        sent := s.sent ++ (eHit ++ eUp) } := by
    rw [hU1, hs1']
    simp [List.append_assoc]
  -- drag-end
  have hendsIff : endsDrag up.1 guiButton ↔ endsDrag s guiButton := by
    rw [hU2]; rfl
  have htargets : dragEndTargets w up.1 event = dragEndTargets w s event := by
    rw [hU2]; rfl
  have hdrag : up.1.dragState = s.dragState := by rw [hU2]
  have hE : ∃ (m : GUIMouseEvent) (eEnd : List SentEvent),
      (dragEndStep w up.1 event guiButton).1 =
        { s with
          elementsUnderPointer := hoveredList w s event
          showTooltip := tip
          mouseEvent := m
          sent := s.sent ++ (eHit ++ eUp ++ eEnd)
          dragState := if endsDrag s guiButton then DragState.NoDrag else s.dragState } ∧
      eEnd.map SentEvent.sig =
        (if s.dragState = DragState.Dragging ∧ endsDrag s guiButton then
          deliveredSigs w (dragEndTargets w s event)
        else []) := by
    unfold dragEndStep
    by_cases hends : endsDrag s guiButton
    · rw [if_pos (hendsIff.2 hends)]
      by_cases hdr : s.dragState = DragState.Dragging
      · obtain ⟨eEnd, ⟨m, hm⟩, hsig⟩ := sendAll_delivers w (dragEndTargets w up.1 event) up.1
        refine ⟨m, eEnd, ?_, ?_⟩
        · simp only [hdrag, hdr, if_true]
          rw [hm, hU2]
          simp [hends, List.append_assoc]
        · rw [if_pos ⟨hdr, hends⟩, ← htargets]
          exact hsig
      · refine ⟨m1, [], ?_, by simp [hdr]⟩
        simp only [hdrag, hdr, if_false]
        rw [hU2]
        simp [hends]
    · rw [if_neg (fun h => hends (hendsIff.1 h))]
      refine ⟨m1, [], ?_, by simp [hends]⟩
      rw [hU2]
      simp [hends]
  obtain ⟨m2, eEnd, hE1, hE2⟩ := hE
  obtain ⟨E, hEdef⟩ : ∃ E : GUIManager × Bool, E = dragEndStep w up.1 event guiButton :=
    ⟨_, rfl⟩
  rw [← hEdef] at hE1
  have hpress : onPointerReleased w s event = Except.ok
      ({ (if E.1.activeMouseButton = guiButton then
            { E.1 with activeElements := [], activeMouseButton := GUIMouseButton.Left }
          else E.1) with activeCursor := CursorType.Arrow },
        (findElementUnderPointer w s event.screenPos event.buttonStates event.shift
            event.control event.alt).2 || up.2 || E.2) := by
    subst hEdef
    subst hup
    subst hs1
    unfold onPointerReleased
    rw [if_neg (by simp [hu])]
    simp only [hb]
    rfl
  refine ⟨_, _, hpress, ?_⟩
  have hbtn : E.1.activeMouseButton = s.activeMouseButton := by rw [hE1]
  by_cases hsame : s.activeMouseButton = guiButton
  · rw [if_pos (hbtn.trans hsame), hE1]
    exact
      { hovered_eq := rfl
        focus_eq := rfl
        active_eq := by simp [hsame]
        button_eq := by simp [hsame]
        clickPos_eq := rfl
        widgets_eq := rfl
        dragState_eq := rfl
        sent_eq := ⟨eHit, eUp, eEnd, rfl, tHit, tUp, hE2⟩
        dragStartPos_eq := rfl }
  · rw [if_neg (fun h => hsame (hbtn.symm.trans h)), hE1]
    exact
      { hovered_eq := rfl
        focus_eq := rfl
        active_eq := by simp [hsame]
        button_eq := by simp [hsame]
        clickPos_eq := rfl
        widgets_eq := rfl
        dragState_eq := rfl
        sent_eq := ⟨eHit, eUp, eEnd, rfl, tHit, tUp, hE2⟩
        dragStartPos_eq := rfl }

theorem buttonToGUIButton_ok (b : PointerEventButton) (h : ∀ raw, b ≠ PointerEventButton.Other raw) :
    ∃ guiButton, buttonToGUIButton b = Except.ok guiButton := by
  cases b with
  | Left => exact ⟨_, rfl⟩
  | Middle => exact ⟨_, rfl⟩
  | Right => exact ⟨_, rfl⟩
  | Other raw => exact absurd rfl (h raw)

theorem onPointerDoubleClick_spec (w : World) (s : GUIManager) (event : PointerEvent)
    (guiButton : GUIMouseButton) (hu : event.used = false)
    (hb : buttonToGUIButton event.button = Except.ok guiButton) :
    ∃ (s' : GUIManager) (used : Bool) (m : GUIMouseEvent) (tip : Bool) (extra : List SentEvent),
      onPointerDoubleClick w s event = Except.ok (s', used) ∧
      s' = { s with
        elementsUnderPointer := hoveredList w s event
        showTooltip := tip
        mouseEvent := m
        sent := s.sent ++ extra } ∧
      ∀ e ∈ extra, e.event.tag = EventTag.mouseOver ∨ e.event.tag = EventTag.dragAndDropLeft ∨
        e.event.tag = EventTag.mouseOut ∨ e.event.tag = EventTag.mouseDoubleClick := by
  obtain ⟨m0, eHit, tip, hH, tHit⟩ := afterHitTest_eq w s event
  obtain ⟨s1, hs1⟩ : ∃ s1 : GUIManager,
      s1 = { afterHitTest w s event with mouseEvent := baseEvent event } := ⟨_, rfl⟩
  have hs1' : s1 =
      { s with
        elementsUnderPointer := hoveredList w s event
        showTooltip := tip
        mouseEvent := baseEvent event
        sent := s.sent ++ eHit } := by
    rw [hs1, hH]
  obtain ⟨eClick, ⟨m1, hC⟩, tClick⟩ := sendFirst_tags w
    (s1.elementsUnderPointer.map fun info =>
      (info.element,
        GUIMouseEventData.MouseDoubleClick
          (getWidgetRelativePos w info.widget event.screenPos) guiButton))
    EventTag.mouseDoubleClick
    (by
      intro p hp
      simp only [List.mem_map] at hp
      obtain ⟨x, -, rfl⟩ := hp
      rfl) s1
  have hres : onPointerDoubleClick w s event = Except.ok
      ((sendFirst w
          (s1.elementsUnderPointer.map fun info =>
            (info.element,
              GUIMouseEventData.MouseDoubleClick
                (getWidgetRelativePos w info.widget event.screenPos) guiButton)) s1).1,
        (findElementUnderPointer w s event.screenPos event.buttonStates event.shift
            event.control event.alt).2 ||
          (sendFirst w
            (s1.elementsUnderPointer.map fun info =>
              (info.element,
                GUIMouseEventData.MouseDoubleClick
                  (getWidgetRelativePos w info.widget event.screenPos) guiButton)) s1).2) := by
    subst hs1
    unfold onPointerDoubleClick
    rw [if_neg (by simp [hu])]
    simp only [hb]
    rfl
  refine ⟨_, _, m1, tip, eHit ++ eClick, hres, ?_, ?_⟩
  · rw [hC, hs1']
    simp [List.append_assoc]
  · intro e he
    rcases List.mem_append.1 he with he | he
    · rcases tHit e he with h | h | h
      · exact Or.inl h
      · exact Or.inr (Or.inl h)
      · exact Or.inr (Or.inr (Or.inl h))
    · exact Or.inr (Or.inr (Or.inr (tClick e he)))

theorem count_map_filter {α : Type} (l : List α) (f : α → Nat) (p : α → Bool) (e : Nat)
    (h : ∀ x ∈ l, f x = e → p x = true) :
    ((l.filter p).map f).count e = (l.map f).count e := by
  induction l with
  | nil => rfl
  | cons x xs ih =>
    have ih' := ih (fun y hy => h y (List.mem_cons_of_mem _ hy))
    by_cases hp : p x = true
    · simp only [List.filter_cons, hp, if_true, List.map_cons, List.count_cons, ih']
    · have hne : f x ≠ e := fun hfe => hp (h x (List.mem_cons_self _ _) hfe)
      simp only [List.filter_cons, hp, List.map_cons, List.count_cons]
      simp [hne, ih']

theorem receivers_deliveredSigs (w : World) (t : EventTag) (extra : List SentEvent)
    (evs : List (Nat × GUIMouseEventData)) (ht : ∀ p ∈ evs, p.2.tag = t)
    (h : extra.map SentEvent.sig = deliveredSigs w evs) :
    receivers t extra = (evs.filter fun p => !w.isDestroyed p.1).map Prod.fst := by
  apply receivers_of_sigs t extra (evs.filter fun p => !w.isDestroyed p.1) Prod.fst
  rw [h, deliveredSigs]
  apply List.map_congr_left
  intro p hp
  rw [ht p (List.mem_of_mem_filter hp)]

theorem receivers_deliveredSigs_ne (w : World) (t t' : EventTag) (extra : List SentEvent)
    (evs : List (Nat × GUIMouseEventData)) (ht : ∀ p ∈ evs, p.2.tag = t') (hne : t' ≠ t)
    (h : extra.map SentEvent.sig = deliveredSigs w evs) : receivers t extra = [] := by
  apply receivers_of_sigs_ne t t' extra (evs.filter fun p => !w.isDestroyed p.1) Prod.fst _ hne
  rw [h, deliveredSigs]
  apply List.map_congr_left
  intro p hp
  rw [ht p (List.mem_of_mem_filter hp)]

theorem dragStartTargets_tag (w : World) (s : GUIManager) (event : PointerEvent) :
    ∀ p ∈ dragStartTargets w s event, p.2.tag = EventTag.mouseDragStart := by
  intro p hp
  simp only [dragStartTargets, List.mem_map] at hp
  obtain ⟨x, -, rfl⟩ := hp
  rfl

theorem dragEndTargets_tag (w : World) (s : GUIManager) (event : PointerEvent) :
    ∀ p ∈ dragEndTargets w s event, p.2.tag = EventTag.mouseDragEnd := by
  intro p hp
  simp only [dragEndTargets, List.mem_map] at hp
  obtain ⟨x, -, rfl⟩ := hp
  rfl

theorem count_alive_targets (w : World) (l : List ElementInfo) (g : ElementInfo → GUIMouseEventData)
    (e : Nat) (he : w.isDestroyed e = false) :
    (((l.map fun a => (a.element, g a)).filter fun p => !w.isDestroyed p.1).map
      Prod.fst).count e = (l.map fun a => a.element).count e := by
  rw [count_map_filter]
  · rw [List.map_map]
    rfl
  · intro x _ hx
    rw [hx, he]
    rfl

/-- The drag-start events of a pointer move, in order of delivery. -/
theorem MoveOutcome.dragStart_receivers {w : World} {s s' : GUIManager} {event : PointerEvent}
    (h : MoveOutcome w s event s') :
    receivers EventTag.mouseDragStart (sentSince s s') =
      if startsDrag s event then
        ((dragStartTargets w s event).filter fun p => !w.isDestroyed p.1).map Prod.fst
      else [] := by
  obtain ⟨eHit, eStart, eRest, hsent, tHit, hStart, tRest⟩ := h.sent_eq
  rw [sentSince_of_sent hsent, receivers_append, receivers_append,
    hitTest_tags_ne _ _ tHit (by decide) (by decide) (by decide),
    receivers_eq_nil _ eRest (fun e he => by
      rcases tRest e he with h | h | h | h <;> rw [h] <;> decide)]
  simp only [List.nil_append, List.append_nil]
  split_ifs with hst
  · rw [if_pos hst] at hStart
    exact receivers_deliveredSigs w _ _ _ (dragStartTargets_tag w s event) hStart
  · rw [if_neg hst] at hStart
    have : eStart = [] := by simpa using hStart
    rw [this]; rfl

theorem manhattanDist_gt_iff (c p : Vector2I) (n : Nat) :
    c.manhattanDist p > n ↔ |p.x - c.x| + |p.y - c.y| > (n : Int) := by
  unfold Vector2I.manhattanDist
  rw [Int.abs_eq_natAbs, Int.abs_eq_natAbs]
  omega

/-! ## Lemmas on runs of pointer events -/

/-- One input that is not a press, handled in a state other than `HeldWithoutDrag`, returns
and delivers no drag-start event; the state is not `HeldWithoutDrag` afterwards either. -/
theorem handleInput_no_dragStart (w : World) (s : GUIManager) (input : PointerInput)
    (hs : s.dragState ≠ DragState.HeldWithoutDrag) (hnp : input.isPress = false)
    (hsup : input.supported) :
    ∃ s', handleInput w s input = Except.ok s' ∧
      s'.dragState ≠ DragState.HeldWithoutDrag ∧
      ∃ extra, s'.sent = s.sent ++ extra ∧ receivers EventTag.mouseDragStart extra = [] := by
  cases input with
  | pressed event => cases hnp
  | moved event =>
    refine ⟨_, rfl, ?_⟩
    by_cases hu : event.used = true
    · have : onPointerMoved w s event = (s, true) := by
        unfold onPointerMoved
        rw [if_pos hu]
      rw [this]
      exact ⟨hs, [], by simp, rfl⟩
    · have out := onPointerMoved_spec w s event (by simpa using hu)
      have hn : ¬ startsDrag s event := fun h => hs h.1
      refine ⟨by rw [out.dragState_eq, if_neg hn]; exact hs, ?_⟩
      have hr := out.dragStart_receivers
      rw [if_neg hn] at hr
      obtain ⟨eHit, eStart, eRest, hsent, -⟩ := out.sent_eq
      refine ⟨_, hsent, ?_⟩
      rw [sentSince_of_sent hsent] at hr
      exact hr
  | released event =>
    obtain ⟨b, hb⟩ := buttonToGUIButton_ok event.button hsup
    by_cases hu : event.used = true
    · have : onPointerReleased w s event = Except.ok (s, true) := by
        unfold onPointerReleased
        rw [if_pos hu]
      refine ⟨s, by simp [handleInput, this, Except.map], hs, [], by simp, rfl⟩
    · obtain ⟨s', used, hrel, out⟩ := onPointerReleased_spec w s event b (by simpa using hu) hb
      refine ⟨s', by simp [handleInput, hrel, Except.map], ?_, ?_⟩
      · rw [out.dragState_eq]
        split_ifs
        · decide
        · exact hs
      · obtain ⟨eHit, eUp, eEnd, hsent, tHit, tUp, hEnd⟩ := out.sent_eq
        refine ⟨_, hsent, ?_⟩
        rw [receivers_append, receivers_append,
          hitTest_tags_ne _ _ tHit (by decide) (by decide) (by decide),
          receivers_eq_nil _ eUp (fun e he => by rw [(tUp e he).1]; decide)]
        simp only [List.nil_append]
        split_ifs at hEnd
        · exact receivers_deliveredSigs_ne w _ _ _ _ (dragEndTargets_tag w s event)
            (by decide) hEnd
        · have : eEnd = [] := by simpa using hEnd
          rw [this]; rfl
  | doubleClicked event =>
    obtain ⟨b, hb⟩ := buttonToGUIButton_ok event.button hsup
    by_cases hu : event.used = true
    · have : onPointerDoubleClick w s event = Except.ok (s, true) := by
        unfold onPointerDoubleClick
        rw [if_pos hu]
      refine ⟨s, by simp [handleInput, this, Except.map], hs, [], by simp, rfl⟩
    · obtain ⟨s', used, m, tip, extra, hdc, hs', tags⟩ :=
        onPointerDoubleClick_spec w s event b (by simpa using hu) hb
      refine ⟨s', by simp [handleInput, hdc, Except.map], by rw [hs']; exact hs, extra,
        by rw [hs'], ?_⟩
      apply receivers_eq_nil
      intro e he heq
      rcases tags e he with h | h | h | h <;> rw [h] at heq <;> cases heq

/-- A run of inputs without a press, started in a state other than `HeldWithoutDrag`,
returns and delivers no drag-start event. -/
theorem handleInputs_no_dragStart (w : World) (inputs : List PointerInput) :
    ∀ s : GUIManager, s.dragState ≠ DragState.HeldWithoutDrag →
      (∀ input ∈ inputs, input.isPress = false ∧ input.supported) →
      ∃ s' extra, handleInputs w s inputs = Except.ok s' ∧ s'.sent = s.sent ++ extra ∧
        receivers EventTag.mouseDragStart extra = [] := by
  induction inputs with
  | nil =>
    intro s _ _
    exact ⟨s, [], rfl, by simp, rfl⟩
  | cons input rest ih =>
    intro s hs hall
    obtain ⟨hnp, hsup⟩ := hall input (List.mem_cons_self _ _)
    obtain ⟨s1, h1, hs1, e1, hsent1, hr1⟩ := handleInput_no_dragStart w s input hs hnp hsup
    obtain ⟨s2, e2, h2, hsent2, hr2⟩ :=
      ih s1 hs1 (fun i hi => hall i (List.mem_cons_of_mem _ hi))
    refine ⟨s2, e1 ++ e2, by simp [handleInputs, h1, h2], ?_, ?_⟩
    · rw [hsent2, hsent1, List.append_assoc]
    · rw [receivers_append, hr1, hr2]
      rfl

/-- The drag-end events of a release, in order of delivery. -/
theorem ReleaseOutcome.dragEnd_receivers {w : World} {s s' : GUIManager}
    {event : PointerEvent} {guiButton : GUIMouseButton}
    (h : ReleaseOutcome w s event guiButton s') :
    receivers EventTag.mouseDragEnd (sentSince s s') =
      if s.dragState = DragState.Dragging ∧ endsDrag s guiButton then
        ((dragEndTargets w s event).filter fun p => !w.isDestroyed p.1).map Prod.fst
      else [] := by
  obtain ⟨eHit, eUp, eEnd, hsent, tHit, tUp, hEnd⟩ := h.sent_eq
  rw [sentSince_of_sent hsent, receivers_append, receivers_append,
    hitTest_tags_ne _ _ tHit (by decide) (by decide) (by decide),
    receivers_eq_nil _ eUp (fun e he => by rw [(tUp e he).1]; decide)]
  simp only [List.nil_append]
  split_ifs with hc
  · rw [if_pos hc] at hEnd
    exact receivers_deliveredSigs w _ _ _ (dragEndTargets_tag w s event) hEnd
  · rw [if_neg hc] at hEnd
    have : eEnd = [] := by simpa using hEnd
    rw [this]; rfl

/-- A release delivers no drag-start event. -/
theorem ReleaseOutcome.release_dragStart_receivers {w : World} {s s' : GUIManager}
    {event : PointerEvent} {guiButton : GUIMouseButton}
    (h : ReleaseOutcome w s event guiButton s') :
    receivers EventTag.mouseDragStart (sentSince s s') = [] := by
  obtain ⟨eHit, eUp, eEnd, hsent, tHit, tUp, hEnd⟩ := h.sent_eq
  rw [sentSince_of_sent hsent, receivers_append, receivers_append,
    hitTest_tags_ne _ _ tHit (by decide) (by decide) (by decide),
    receivers_eq_nil _ eUp (fun e he => by rw [(tUp e he).1]; decide)]
  simp only [List.nil_append]
  split_ifs at hEnd
  · exact receivers_deliveredSigs_ne w _ _ _ _ (dragEndTargets_tag w s event) (by decide) hEnd
  · have : eEnd = [] := by simpa using hEnd
    rw [this]; rfl

/-- A release of a button other than the active one delivers no mouse-up event. -/
theorem ReleaseOutcome.mouseUp_receivers_of_ne {w : World} {s s' : GUIManager}
    {event : PointerEvent} {guiButton : GUIMouseButton}
    (h : ReleaseOutcome w s event guiButton s') (hne : s.activeMouseButton ≠ guiButton) :
    receivers EventTag.mouseUp (sentSince s s') = [] := by
  obtain ⟨eHit, eUp, eEnd, hsent, tHit, tUp, hEnd⟩ := h.sent_eq
  have hup : eUp = [] := by
    cases eUp with
    | nil => rfl
    | cons e es => exact absurd (tUp e (List.mem_cons_self _ _)).2 hne
  have hend : eEnd = [] := by
    rw [if_neg (fun hc => hne hc.2.2.1)] at hEnd
    simpa using hEnd
  rw [sentSince_of_sent hsent, hup, hend, List.append_nil, List.append_nil]
  exact hitTest_tags_ne _ _ tHit (by decide) (by decide) (by decide)

/-! ## Loops that stop at the first consumer -/

theorem sendFirst_spec (w : World) (evs : List (Nat × GUIMouseEventData)) :
    ∀ s : GUIManager, ∃ extra, Delivers s (sendFirst w evs s).1 extra ∧
      extra.map SentEvent.sig = deliveredSigs w (takeThrough (consumesData w s.mouseEvent) evs) ∧
      (sendFirst w evs s).2 = evs.any (consumesData w s.mouseEvent) := by
  induction evs with
  | nil => intro s; exact ⟨[], Delivers.refl s, rfl, rfl⟩
  | cons p rest ih =>
    intro s
    obtain ⟨element, data⟩ := p
    unfold sendFirst
    simp only
    have h1 := sendMouseEvent_delivers w
      { s with mouseEvent := { s.mouseEvent with data := data } } element
      { s.mouseEvent with data := data }
    have hc := sendMouseEvent_consumed w
      { s with mouseEvent := { s.mouseEvent with data := data } } element
      { s.mouseEvent with data := data }
    have hcons : consumesData w s.mouseEvent (element, data) =
        (sendMouseEvent w { s with mouseEvent := { s.mouseEvent with data := data } } element
          { s.mouseEvent with data := data }).2 := by
      rw [hc]; rfl
    have hfirst : (if w.isDestroyed element then []
        else [({ element := element, event := GUIEvent.mouse { s.mouseEvent with data := data } } :
          SentEvent)]).map SentEvent.sig = deliveredSigs w [(element, data)] := by
      by_cases hd : w.isDestroyed element = true
      · simp [hd, deliveredSigs]
      · simp [hd, deliveredSigs, SentEvent.sig, GUIEvent.tag]
    by_cases hcc : (sendMouseEvent w { s with mouseEvent := { s.mouseEvent with data := data } }
        element { s.mouseEvent with data := data }).2 = true
    · rw [if_pos hcc]
      refine ⟨_, Delivers.setMouseEvent _ h1, ?_, ?_⟩
      · simp only [takeThrough, hcons, hcc, if_true]
        exact hfirst
      · simp [List.any_cons, hcons, hcc]
    · rw [if_neg hcc]
      obtain ⟨extra, h2, h3, h4⟩ := ih (sendMouseEvent w
        { s with mouseEvent := { s.mouseEvent with data := data } } element
        { s.mouseEvent with data := data }).1
      have hbase : ∀ q : Nat × GUIMouseEventData,
          consumesData w (sendMouseEvent w
            { s with mouseEvent := { s.mouseEvent with data := data } } element
            { s.mouseEvent with data := data }).1.mouseEvent q = consumesData w s.mouseEvent q := by
        intro q
        obtain ⟨m, hm⟩ := h1
        unfold sendMouseEvent
        split_ifs <;> rfl
      have hfun : consumesData w (sendMouseEvent w
            { s with mouseEvent := { s.mouseEvent with data := data } } element
            { s.mouseEvent with data := data }).1.mouseEvent = consumesData w s.mouseEvent :=
        funext hbase
      rw [hfun] at h3 h4
      have hcf : consumesData w s.mouseEvent (element, data) = false := by
        rw [hcons]; simpa using hcc
      refine ⟨_, Delivers.setMouseEvent _ (h1.trans h2), ?_, ?_⟩
      · rw [List.map_append, h3, hfirst]
        simp only [takeThrough, hcf, Bool.false_eq_true, if_false]
        simp [deliveredSigs, List.filter_cons]
        split_ifs <;> simp
      · rw [h4]
        simp [List.any_cons, hcf]

theorem mouseOutTargets_congr (w : World) (s s' : GUIManager) (pos : Vector2I)
    (old new : List ElementInfoUnderPointer) (h : s'.activeElements = s.activeElements) :
    mouseOutTargets w s' pos old new = mouseOutTargets w s pos old new := by
  unfold mouseOutTargets activeOrNoneActive
  rw [h]

theorem mouseOutTargets_tag (w : World) (s : GUIManager) (pos : Vector2I)
    (old new : List ElementInfoUnderPointer) :
    ∀ p ∈ mouseOutTargets w s pos old new, p.2.tag = EventTag.mouseOut := by
  intro p hp
  simp only [mouseOutTargets, List.mem_map] at hp
  obtain ⟨info, -, rfl⟩ := hp
  rfl

/-- The mouse-out events of a hit test, in order of delivery: the targets of the mouse-out
loop up to and including the first one that consumes the event, those that are destroyed
left out. `base` is the mouse event the loop finds in `mMouseEvent`. -/
theorem findElementUnderPointer_mouseOut (w : World) (s : GUIManager) (pos : Vector2I)
    (bs : Bool × Bool × Bool) (sh c a : Bool) :
    ∃ base : GUIMouseEvent,
      receivers EventTag.mouseOut
          (sentSince s (findElementUnderPointer w s pos bs sh c a).1) =
        ((takeThrough (consumesData w base)
            (mouseOutTargets w s pos s.elementsUnderPointer
              (findElementUnderPointer w s pos bs sh c a).1.elementsUnderPointer)).filter
          fun p => !w.isDestroyed p.1).map Prod.fst := by
  obtain ⟨e1, h1, t1⟩ := mouseOverLoop_delivers w pos
    { buttonStates := bs, shift := sh, control := c, alt := a }
    (sortByDepth w (hitElements w s pos)) s
  rw [findElementUnderPointer_list]
  generalize hover : mouseOverLoop w pos
    { buttonStates := bs, shift := sh, control := c, alt := a }
    (sortByDepth w (hitElements w s pos)) s = over at h1
  have hleft : ∃ e2, Delivers over.2.1
      (if w.isDragInProgress then
        sendFirst w (dragAndDropLeftTargets w pos over.2.1.elementsUnderPointer over.1) over.2.1
      else (over.2.1, false)).1 e2 ∧ ∀ e ∈ e2, e.event.tag = EventTag.dragAndDropLeft := by
    split_ifs
    · obtain ⟨e2, h2, t2⟩ := sendFirst_delivers w
        (dragAndDropLeftTargets w pos over.2.1.elementsUnderPointer over.1) over.2.1
      refine ⟨e2, h2, ?_⟩
      intro e he
      obtain ⟨p, hp, hsig⟩ := t2 e he
      simp only [dragAndDropLeftTargets, List.mem_map] at hp
      obtain ⟨info, -, rfl⟩ := hp
      exact (Prod.mk.inj hsig).2
    · exact ⟨[], Delivers.refl _, by simp⟩
  obtain ⟨e2, h2, t2⟩ := hleft
  generalize hl : (if w.isDragInProgress then
        sendFirst w (dragAndDropLeftTargets w pos over.2.1.elementsUnderPointer over.1) over.2.1
      else (over.2.1, false)) = left at h2
  obtain ⟨e3, h3, t3, -⟩ := sendFirst_spec w
    (mouseOutTargets w left.1 pos left.1.elementsUnderPointer over.1) left.1
  have h12 := h1.trans h2
  have hsent : (findElementUnderPointer w s pos bs sh c a).1.sent =
      s.sent ++ (e1 ++ e2 ++ e3) := by
    have := (h12.trans h3).sent
    unfold findElementUnderPointer
    simp only [hover, hl]
    exact this
  rw [mouseOutTargets_congr w s left.1 pos _ _ h12.activeElements, h12.elementsUnderPointer]
    at t3
  refine ⟨left.1.mouseEvent, ?_⟩
  rw [sentSince_of_sent hsent, receivers_append, receivers_append,
    receivers_eq_nil _ e1 (fun e he => by rw [t1 e he]; decide),
    receivers_eq_nil _ e2 (fun e he => by rw [t2 e he]; decide)]
  simp only [List.nil_append]
  refine receivers_deliveredSigs w _ e3 _ ?_ t3
  intro p hp
  obtain ⟨k, hk, -⟩ := takeThrough_eq_take (consumesData w left.1.mouseEvent)
    (mouseOutTargets w s pos s.elementsUnderPointer over.1)
  rw [hk] at hp
  exact mouseOutTargets_tag w s pos _ _ p (List.mem_of_mem_take hp)

theorem takeThrough_sublist {α : Type} (p : α → Bool) (l : List α) :
    (takeThrough p l).Sublist l := by
  obtain ⟨k, hk, -⟩ := takeThrough_eq_take p l
  rw [hk]
  exact List.take_sublist _ _

theorem dropLoop_spec (w : World) (screenPos : Vector2I) (l : List ElementInfoUnderPointer) :
    ∀ s : GUIManager, ∃ extra, Delivers s (dropLoop w screenPos l s).1 extra ∧
      extra.map SentEvent.sig =
        (((takeThrough (consumesDrop w s.mouseEvent screenPos) l).filter fun info =>
            acceptsDrop w screenPos info && !w.isDestroyed info.element).map fun info =>
          (info.element, EventTag.dragAndDropDropped)) ∧
      (dropLoop w screenPos l s).2.1 = l.any (consumesDrop w s.mouseEvent screenPos) ∧
      (dropLoop w screenPos l s).2.2 =
        if w.needsValidDropTarget then
          (takeThrough (consumesDrop w s.mouseEvent screenPos) l).map fun info => info.element
        else [] := by
  induction l with
  | nil =>
    intro s
    refine ⟨[], Delivers.refl s, rfl, rfl, ?_⟩
    simp [dropLoop, takeThrough]
  | cons info rest ih =>
    intro s
    unfold dropLoop
    simp only
    have hacc : (if w.needsValidDropTarget = true then
        w.acceptDragAndDrop info.element
          (if info.widget ≠ 0 then getWidgetRelativePos w info.widget screenPos else {})
        else true) = acceptsDrop w screenPos info := rfl
    have hpos : (if info.widget ≠ 0 then getWidgetRelativePos w info.widget screenPos else {}) =
        dropPos w screenPos info := rfl
    rw [hacc, hpos]
    by_cases ha : acceptsDrop w screenPos info = true
    · rw [if_pos ha]
      have h1 := sendMouseEvent_delivers w
        { s with mouseEvent := { s.mouseEvent with
            data := GUIMouseEventData.DragAndDropDropped (dropPos w screenPos info) } }
        info.element
        { s.mouseEvent with
            data := GUIMouseEventData.DragAndDropDropped (dropPos w screenPos info) }
      have hc := sendMouseEvent_consumed w
        { s with mouseEvent := { s.mouseEvent with
            data := GUIMouseEventData.DragAndDropDropped (dropPos w screenPos info) } }
        info.element
        { s.mouseEvent with
            data := GUIMouseEventData.DragAndDropDropped (dropPos w screenPos info) }
      have hcons : consumesDrop w s.mouseEvent screenPos info =
          (sendMouseEvent w
            { s with mouseEvent := { s.mouseEvent with
                data := GUIMouseEventData.DragAndDropDropped (dropPos w screenPos info) } }
            info.element
            { s.mouseEvent with
                data := GUIMouseEventData.DragAndDropDropped (dropPos w screenPos info) }).2 := by
        rw [hc]
        simp [consumesDrop, consumesData, ha]
      have hfirst : (if w.isDestroyed info.element then []
          else [({ element := info.element, event := GUIEvent.mouse { s.mouseEvent with
            data := GUIMouseEventData.DragAndDropDropped (dropPos w screenPos info) } } :
              SentEvent)]).map SentEvent.sig =
          (([info].filter fun info =>
            acceptsDrop w screenPos info && !w.isDestroyed info.element).map fun info =>
              (info.element, EventTag.dragAndDropDropped)) := by
        by_cases hd : w.isDestroyed info.element = true
        · simp [hd]
        · simp [hd, ha, SentEvent.sig, GUIEvent.tag, GUIMouseEventData.tag]
      by_cases hcc : (sendMouseEvent w
            { s with mouseEvent := { s.mouseEvent with
                data := GUIMouseEventData.DragAndDropDropped (dropPos w screenPos info) } }
            info.element
            { s.mouseEvent with
                data := GUIMouseEventData.DragAndDropDropped (dropPos w screenPos info) }).2 = true
      · rw [if_pos hcc]
        have hct : consumesDrop w s.mouseEvent screenPos info = true := by rw [hcons, hcc]
        refine ⟨_, Delivers.setMouseEvent _ h1, ?_, ?_, ?_⟩
        · simp only [takeThrough, hct, if_true]
          exact hfirst
        · simp [List.any_cons, hct]
        · simp only [takeThrough, hct, if_true]
          split_ifs <;> rfl
      · rw [if_neg hcc]
        have hcf : consumesDrop w s.mouseEvent screenPos info = false := by
          rw [hcons]; simpa using hcc
        obtain ⟨extra, h2, h3, h4, h5⟩ := ih (sendMouseEvent w
            { s with mouseEvent := { s.mouseEvent with
                data := GUIMouseEventData.DragAndDropDropped (dropPos w screenPos info) } }
            info.element
            { s.mouseEvent with
                data := GUIMouseEventData.DragAndDropDropped (dropPos w screenPos info) }).1
        have hfun : consumesDrop w (sendMouseEvent w
            { s with mouseEvent := { s.mouseEvent with
                data := GUIMouseEventData.DragAndDropDropped (dropPos w screenPos info) } }
            info.element
            { s.mouseEvent with
                data := GUIMouseEventData.DragAndDropDropped
                  (dropPos w screenPos info) }).1.mouseEvent screenPos =
            consumesDrop w s.mouseEvent screenPos := by
          funext q
          unfold sendMouseEvent
          split_ifs <;> rfl
        rw [hfun] at h3 h4 h5
        refine ⟨_, Delivers.setMouseEvent _ (h1.trans h2), ?_, ?_, ?_⟩
        · rw [List.map_append, h3, hfirst]
          simp only [takeThrough, hcf, Bool.false_eq_true, if_false]
          simp only [List.filter_cons, List.filter_nil]
          split_ifs <;> simp
        · simp only
          rw [h4]
          simp [List.any_cons, hcf]
        · simp only
          rw [h5]
          simp only [takeThrough, hcf, Bool.false_eq_true, if_false]
          split_ifs <;> simp
    · rw [if_neg ha]
      have hcf : consumesDrop w s.mouseEvent screenPos info = false := by
        simp [consumesDrop, ha]
      obtain ⟨extra, h2, h3, h4, h5⟩ := ih s
      refine ⟨extra, h2, ?_, ?_, ?_⟩
      · rw [h3]
        simp only [takeThrough, hcf, Bool.false_eq_true, if_false, List.filter_cons]
        simp [ha]
      · rw [h4]
        simp [List.any_cons, hcf]
      · rw [h5]
        simp only [takeThrough, hcf, Bool.false_eq_true, if_false]
        split_ifs <;> simp

/-! ## Lemmas on the sets after a pointer handler -/

theorem hoveredList_keys (w : World) (s : GUIManager) (event : PointerEvent) :
    ((hoveredList w s event).map ElementInfoUnderPointer.key).Perm
      ((hitElements w s event.screenPos).map ElementInfoUnderPointer.key) := by
  unfold hoveredList afterHitTest
  rw [findElementUnderPointer_list, mouseOverLoop_keys]
  exact (sortByDepth_perm w _).map _

theorem hoveredList_widget (w : World) (s : GUIManager) (event : PointerEvent)
    (info : ElementInfoUnderPointer) (h : info ∈ hoveredList w s event) :
    info.widget ∈ s.widgets := by
  have h1 : (info.element, info.widget) ∈
      (hoveredList w s event).map ElementInfoUnderPointer.key :=
    List.mem_map.mpr ⟨info, h, rfl⟩
  rw [(hoveredList_keys w s event).mem_iff, mem_hitElements_keys] at h1
  exact h1.1

theorem handleInput_sets (w : World) (s s' : GUIManager) (input : PointerInput)
    (h : handleInput w s input = Except.ok s') :
    s'.widgets = s.widgets ∧
    (s'.elementsUnderPointer = s.elementsUnderPointer ∨
      s'.elementsUnderPointer = hoveredList w s input.event) ∧
    (∀ r ∈ s'.activeElements, r ∈ s.activeElements ∨
      ∃ info ∈ hoveredList w s input.event, r.widget = info.widget) ∧
    (∀ r ∈ s'.elementsInFocus, r ∈ s.elementsInFocus ∨
      ∃ info ∈ hoveredList w s input.event, r.widget = info.widget) := by
  cases input with
  | moved event =>
    simp only [handleInput, Except.ok.injEq] at h
    by_cases hu : event.used = true
    · have : s' = s := by rw [← h]; unfold onPointerMoved; rw [if_pos hu]
      rw [this]
      exact ⟨rfl, Or.inl rfl, fun r hr => Or.inl hr, fun r hr => Or.inl hr⟩
    · have o := onPointerMoved_spec w s event (by simpa using hu)
      rw [h] at o
      refine ⟨o.widgets_eq, Or.inr o.hovered_eq, fun r hr => Or.inl ?_, fun r hr => Or.inl ?_⟩
      · rw [o.active_eq] at hr; exact hr
      · rw [o.focus_eq] at hr; exact hr
  | pressed event =>
    simp only [handleInput] at h
    by_cases hu : event.used = true
    · have : s' = s := by
        unfold onPointerPressed at h
        rw [if_pos hu] at h
        cases h
        rfl
      rw [this]
      exact ⟨rfl, Or.inl rfl, fun r hr => Or.inl hr, fun r hr => Or.inl hr⟩
    · cases hb : buttonToGUIButton event.button with
      | error e =>
        exfalso
        unfold onPointerPressed at h
        rw [if_neg hu] at h
        simp only [hb] at h
        cases h
      | ok guiButton =>
        obtain ⟨s'', used, hp, o⟩ := onPointerPressed_spec w s event guiButton (by simpa using hu) hb
        rw [hp] at h
        cases h
        refine ⟨o.widgets_eq, Or.inr o.hovered_eq, fun r hr => ?_, fun r hr => ?_⟩
        · rw [o.active_eq] at hr
          split_ifs at hr
          · right
            obtain ⟨info, hinfo, rfl⟩ := List.mem_map.mp hr
            exact ⟨info, (takeThrough_sublist _ _).subset hinfo, rfl⟩
          · exact Or.inl hr
        · rw [o.focus_eq] at hr
          obtain ⟨info, hinfo, rfl⟩ := List.mem_map.mp hr
          unfold focusRecord
          cases hf : List.find? (fun x => x.element == info.element) s.elementsInFocus with
          | none => exact Or.inr ⟨info, (takeThrough_sublist _ _).subset hinfo, rfl⟩
          | some found => exact Or.inl (List.mem_of_find?_eq_some hf)
  | released event =>
    simp only [handleInput] at h
    by_cases hu : event.used = true
    · have : s' = s := by
        unfold onPointerReleased at h
        rw [if_pos hu] at h
        cases h
        rfl
      rw [this]
      exact ⟨rfl, Or.inl rfl, fun r hr => Or.inl hr, fun r hr => Or.inl hr⟩
    · cases hb : buttonToGUIButton event.button with
      | error e =>
        exfalso
        unfold onPointerReleased at h
        rw [if_neg hu] at h
        simp only [hb] at h
        cases h
      | ok guiButton =>
        obtain ⟨s'', used, hp, o⟩ := onPointerReleased_spec w s event guiButton (by simpa using hu) hb
        rw [hp] at h
        cases h
        refine ⟨o.widgets_eq, Or.inr o.hovered_eq, fun r hr => Or.inl ?_, fun r hr => Or.inl ?_⟩
        · rw [o.active_eq] at hr
          split_ifs at hr
          · cases hr
          · exact hr
        · rw [o.focus_eq] at hr; exact hr
  | doubleClicked event =>
    simp only [handleInput] at h
    by_cases hu : event.used = true
    · have : s' = s := by
        unfold onPointerDoubleClick at h
        rw [if_pos hu] at h
        cases h
        rfl
      rw [this]
      exact ⟨rfl, Or.inl rfl, fun r hr => Or.inl hr, fun r hr => Or.inl hr⟩
    · cases hb : buttonToGUIButton event.button with
      | error e =>
        exfalso
        unfold onPointerDoubleClick at h
        rw [if_neg hu] at h
        simp only [hb] at h
        cases h
      | ok guiButton =>
        obtain ⟨s'', used, m, tip, extra, hp, hs, -⟩ :=
          onPointerDoubleClick_spec w s event guiButton (by simpa using hu) hb
        rw [hp] at h
        cases h
        rw [hs]
        exact ⟨rfl, Or.inr rfl, fun r hr => Or.inl hr, fun r hr => Or.inl hr⟩

theorem hitElements_elements_sublist (old : List ElementInfoUnderPointer)
    (p : Nat → Bool) (widget : Nat) (l : List Nat) :
    ((l.filter p).map fun element => (carryOver old element widget).element) = l.filter p := by
  induction l.filter p with
  | nil => rfl
  | cons a t ih =>
    simp only [List.map_cons, ih]
    congr 1
    exact congrArg Prod.fst (carryOver_key old a widget)

theorem hitElements_nodup (w : World) (s : GUIManager) (pos : Vector2I)
    (hw : s.widgets.Nodup) (ho : OwnsElements w) :
    ((hitElements w s pos).map fun info => info.element).Nodup := by
  unfold hitElements
  simp only
  split_ifs with h0
  · exact List.nodup_nil
  · rw [List.map_flatMap, List.nodup_flatMap]
    have hsub : ∀ widget : Nat, ∀ e,
        e ∈ (List.map (fun info : ElementInfoUnderPointer => info.element)
          (if w.getWidgetWindow widget = 0 then []
          else if w.getWidgetWindow widget = windowUnderPointer w s.widgets pos ∧
              w.widgetInBounds widget (w.windowToBridgedCoords widget
                (w.screenToWindowPos (windowUnderPointer w s.widgets pos) pos)) = true then
            ((w.widgetElements widget).filter fun element =>
              w.isVisible element && w.isInBounds element
                (getWidgetRelativePos w widget pos)).map fun element =>
                carryOver s.elementsUnderPointer element widget
          else [])) → e ∈ w.widgetElements widget := by
      intro widget e he
      split_ifs at he
      · cases he
      · rw [List.map_map] at he
        obtain ⟨x, hx, rfl⟩ := List.mem_map.mp he
        have : (carryOver s.elementsUnderPointer x widget).element = x :=
          congrArg Prod.fst (carryOver_key s.elementsUnderPointer x widget)
        simp only [Function.comp]
        rw [this]
        exact (List.mem_filter.mp hx).1
      · cases he
    constructor
    · intro widget _
      split_ifs
      · exact List.nodup_nil
      · rw [List.map_map]
        have : (List.map ((fun info : ElementInfoUnderPointer => info.element) ∘ fun element =>
            carryOver s.elementsUnderPointer element widget)
            ((w.widgetElements widget).filter fun element =>
              w.isVisible element && w.isInBounds element
                (getWidgetRelativePos w widget pos))) =
            (w.widgetElements widget).filter fun element =>
              w.isVisible element && w.isInBounds element
                (getWidgetRelativePos w widget pos) :=
          hitElements_elements_sublist s.elementsUnderPointer _ widget _
        rw [this]
        exact (ho.1 widget).filter _
      · exact List.nodup_nil
    · refine hw.imp ?_
      intro a b hab
      intro e ha hb
      exact hab ((ho.2 a e (hsub a e ha)).symm.trans (ho.2 b e (hsub b e hb)))

theorem hoveredList_nodup (w : World) (s : GUIManager) (event : PointerEvent)
    (hw : s.widgets.Nodup) (ho : OwnsElements w) :
    ((hoveredList w s event).map fun info => info.element).Nodup := by
  have h1 := hoveredList_keys w s event
  have h2 : ((hoveredList w s event).map fun info => info.element) =
      ((hoveredList w s event).map ElementInfoUnderPointer.key).map Prod.fst := by
    rw [List.map_map]; rfl
  have h3 : ((hitElements w s event.screenPos).map fun info => info.element) =
      ((hitElements w s event.screenPos).map ElementInfoUnderPointer.key).map Prod.fst := by
    rw [List.map_map]; rfl
  rw [h2, (h1.map Prod.fst).nodup_iff, ← h3]
  exact hitElements_nodup w s event.screenPos hw ho

/-! ## Lemmas on the destroy loop -/

theorem purgeDestroyed_frame (w : World) (st : FrameState) :
    (purgeDestroyed w st).forcedFocusElements = st.forcedFocusElements ∧
    (purgeDestroyed w st).scheduledForDestruction = st.scheduledForDestruction ∧
    (purgeDestroyed w st).destroyed = st.destroyed ∧
    (purgeDestroyed w st).destroyedByHandler = st.destroyedByHandler ∧
    (purgeDestroyed w st).deleted = st.deleted :=
  ⟨rfl, rfl, rfl, rfl, rfl⟩

theorem forcedFocusPass_nil (w : World) (st : FrameState) (h : st.forcedFocusElements = []) :
    forcedFocusPass w st = st := by
  unfold forcedFocusPass
  rw [h]
  cases st
  simp_all

/-- One pass of the destroy loop in the middle of a destruction chain: the queue holds the
element `k` only, no focus request is pending, and the destructor of `k` asks for the
destruction of the unflagged element `k + 1`. -/
theorem destroyLoopBody_chain_step (w : World) (st : FrameState) (k : Nat)
    (hqueue : st.scheduledForDestruction = [k]) (hfocus : st.forcedFocusElements = [])
    (hnext : w.destructorDestroys k = [k + 1]) (hfresh : st.isDestroyed w (k + 1) = false) :
    (destroyLoopBody w st).2 = true ∧
    (destroyLoopBody w st).1.scheduledForDestruction = [k + 1] ∧
    (destroyLoopBody w st).1.forcedFocusElements = [] ∧
    (destroyLoopBody w st).1.deleted = st.deleted ++ [k] ∧
    (destroyLoopBody w st).1.destroyed = (k + 1) :: st.destroyed := by
  unfold destroyLoopBody
  rw [forcedFocusPass_nil w (purgeDestroyed w st) hfocus]
  simp only [processDestroyQueue, (purgeDestroyed_frame w st).2.1, hqueue, List.foldl_cons,
    List.foldl_nil, bsDelete, hnext, destroyElement]
  have hp2 : ∀ (q d : List Nat), FrameState.isDestroyed w
      { purgeDestroyed w st with scheduledForDestruction := q, deleted := d } (k + 1) =
        false := fun _ _ => hfresh
  rw [hp2]
  simp [queueForDestroy, purgeDestroyed, hfocus]

/-- The last pass of the destroy loop in a destruction chain: the destructor of the queued
element asks for nothing. -/
theorem destroyLoopBody_chain_last (w : World) (st : FrameState) (k : Nat)
    (hqueue : st.scheduledForDestruction = [k]) (hfocus : st.forcedFocusElements = [])
    (hlast : w.destructorDestroys k = []) :
    (destroyLoopBody w st).2 = false ∧
    (destroyLoopBody w st).1.scheduledForDestruction = [] ∧
    (destroyLoopBody w st).1.deleted = st.deleted ++ [k] := by
  unfold destroyLoopBody
  rw [forcedFocusPass_nil w (purgeDestroyed w st) hfocus]
  simp [processDestroyQueue, (purgeDestroyed_frame w st).2.1, hqueue, bsDelete, hlast,
    purgeDestroyed]

theorem isDestroyed_cons (w : World) (st st' : FrameState) (x e : Nat)
    (h : st'.destroyed = x :: st.destroyed) (hne : e ≠ x)
    (hfresh : st.isDestroyed w e = false) : st'.isDestroyed w e = false := by
  simp only [FrameState.isDestroyed, Bool.or_eq_false_iff, decide_eq_false_iff_not] at hfresh ⊢
  rw [h]
  simp [hfresh.1, hfresh.2, hne]

theorem destroyLoop_from_element (w : World) (N : Nat)
    (hchain : ∀ k, 1 ≤ k → k < N → w.destructorDestroys k = [k + 1])
    (hlast : w.destructorDestroys N = []) :
    ∀ (m k : Nat) (st : FrameState) (fuel : Nat), k + m = N → 1 ≤ k →
      st.scheduledForDestruction = [k] → st.forcedFocusElements = [] →
      (∀ j, k < j → j ≤ N → st.isDestroyed w j = false) → m + 1 ≤ fuel →
      ∃ st', destroyLoop w fuel st = some (st', m + 1) ∧
        st'.deleted = st.deleted ++ List.range' k (m + 1) ∧
        st'.scheduledForDestruction = [] := by
  intro m
  induction m with
  | zero =>
    intro k st fuel hk h1 hqueue hfocus _ hfuel
    have hkN : k = N := by omega
    subst hkN
    obtain ⟨f, rfl⟩ : ∃ f, fuel = f + 1 := ⟨fuel - 1, by omega⟩
    obtain ⟨hb1, hb2, hb3⟩ := destroyLoopBody_chain_last w st k hqueue hfocus hlast
    refine ⟨(destroyLoopBody w st).1, ?_, ?_, hb2⟩
    · simp [destroyLoop, hb1]
    · rw [hb3]; rfl
  | succ m ih =>
    intro k st fuel hk h1 hqueue hfocus hfresh hfuel
    obtain ⟨f, rfl⟩ : ∃ f, fuel = f + 1 := ⟨fuel - 1, by omega⟩
    obtain ⟨hb1, hb2, hb3, hb4, hb5⟩ := destroyLoopBody_chain_step w st k hqueue hfocus
      (hchain k h1 (by omega)) (hfresh (k + 1) (by omega) (by omega))
    obtain ⟨st', hrun, hdel, hq⟩ := ih (k + 1) (destroyLoopBody w st).1 f (by omega)
      (by omega) hb2 hb3
      (fun j hj hjN => isDestroyed_cons w st _ (k + 1) j hb5 (by omega)
        (hfresh j (by omega) hjN))
      (by omega)
    refine ⟨st', ?_, ?_, hq⟩
    · simp [destroyLoop, hb1, hrun]
    · rw [hdel, hb4, List.append_assoc]
      rfl

/-! ## Destroyed flags during the update -/

theorem SameElements.same_refl (st : FrameState) : SameElements st st :=
  ⟨rfl, rfl, rfl, rfl, rfl, rfl, rfl⟩

theorem SameElements.same_trans {a b c : FrameState} (h1 : SameElements a b)
    (h2 : SameElements b c) : SameElements a c := by
  obtain ⟨a1, a2, a3, a4, a5, a6, a7⟩ := h1
  obtain ⟨b1, b2, b3, b4, b5, b6, b7⟩ := h2
  exact ⟨b1.trans a1, b2.trans a2, b3.trans a3, b4.trans a4, b5.trans a5, b6.trans a6,
    b7.trans a7⟩

theorem SameElements.isDestroyed_eq {st st' : FrameState} (h : SameElements st st') (w : World)
    (e : Nat) : st'.isDestroyed w e = st.isDestroyed w e := by
  unfold FrameState.isDestroyed
  rw [h.2.2.2.2.1]

theorem SameElements.world_eq {st st' : FrameState} (h : SameElements st st') (w : World) :
    st'.world w = st.world w := by
  unfold FrameState.world
  congr 1
  funext e
  exact h.isDestroyed_eq w e

theorem updateRenderData_same (w : World) (st : FrameState) (renderData : GUIRenderData) :
    SameElements st (updateRenderData w st renderData).1 := by
  unfold updateRenderData
  simp only
  split_ifs <;> exact ⟨rfl, rfl, rfl, rfl, rfl, rfl, rfl⟩

theorem updateMeshesLoop_same (w : World) (l : List (Nat × GUIRenderData)) :
    ∀ (st : FrameState) (done : List (Nat × GUIRenderData)),
      SameElements st (updateMeshesLoop w l st done).1 := by
  induction l with
  | nil => intro st done; exact SameElements.same_refl st
  | cons entry rest ih =>
    intro st done
    unfold updateMeshesLoop
    exact (updateRenderData_same w st entry.2).same_trans (ih _ _)

theorem updateMeshes_same (w : World) (st : FrameState) : SameElements st (updateMeshes w st) := by
  unfold updateMeshes
  exact (updateMeshesLoop_same w st.cachedGUIData st []).same_trans
    ⟨rfl, rfl, rfl, rfl, rfl, rfl, rfl⟩

theorem sendCoreData_same (w : World) (st st' : FrameState) (h : sendCoreData w st = some st') :
    SameElements st st' := by
  unfold sendCoreData at h
  split_ifs at h
  · cases hs : coreSnapshot w st.cachedGUIData [] with
    | none => rw [hs] at h; cases h
    | some data =>
      rw [hs] at h
      simp only [Option.some.injEq] at h
      rw [← h]
      exact ⟨rfl, rfl, rfl, rfl, rfl, rfl, rfl⟩
  · simp only [Option.some.injEq] at h
    rw [← h]
    exact SameElements.same_refl st

theorem update_eq_some (w : World) (fuel : Nat) (tooltipDue caretDue : Bool)
    (st st' : FrameState) (h : update w fuel tooltipDue caretDue st = some st') :
    ∃ st2, updateElements w fuel tooltipDue caretDue st = some st2 ∧
      sendCoreData w (updateMeshes w st2) = some st' ∧ SameElements st2 st' := by
  unfold update at h
  cases h2 : updateElements w fuel tooltipDue caretDue st with
  | none => rw [h2] at h; cases h
  | some st2 =>
    rw [h2] at h
    exact ⟨st2, rfl, h, (updateMeshes_same w st2).same_trans (sendCoreData_same w _ _ h)⟩

theorem SameCache.cache_refl (st : FrameState) : SameCache st st := ⟨rfl, rfl, rfl, rfl, rfl⟩

theorem SameCache.cache_trans {a b c : FrameState} (h1 : SameCache a b) (h2 : SameCache b c) :
    SameCache a c := by
  obtain ⟨a1, a2, a3, a4, a5⟩ := h1
  obtain ⟨b1, b2, b3, b4, b5⟩ := h2
  exact ⟨b1.trans a1, b2.trans a2, b3.trans a3, b4.trans a4, b5.trans a5⟩

theorem ElementsStep.elements_refl (st : FrameState) : ElementsStep st st :=
  ⟨SameCache.cache_refl st, rfl, List.Sublist.refl _, List.Sublist.refl _, Or.inl rfl,
    fun _ => List.Sublist.refl _⟩

theorem ElementsStep.elements_trans {a b c : FrameState} (h1 : ElementsStep a b)
    (h2 : ElementsStep b c) : ElementsStep a c := by
  refine ⟨h1.cache.cache_trans h2.cache, h2.widgets.trans h1.widgets, h2.under.trans h1.under,
    h2.active.trans h1.active, ?_, ?_⟩
  · rcases h2.requests with h | h
    · rcases h1.requests with h' | h'
      · exact Or.inl (h.trans h')
      · exact Or.inr (h.trans h')
    · exact Or.inr h
  · intro ha
    have hb : b.forcedFocusElements = [] := by
      rcases h1.requests with h' | h'
      · exact h'.trans ha
      · exact h'
    exact (h2.focus hb).trans (h1.focus ha)

theorem ElementsStep.requests_nil {a b : FrameState} (h : ElementsStep a b)
    (ha : a.forcedFocusElements = []) : b.forcedFocusElements = [] := by
  rcases h.requests with h' | h'
  · exact h'.trans ha
  · exact h'

/-- A step that changes neither the routing state nor the request queue nor the cache. -/
theorem ElementsStep.of_eq {st st' : FrameState} (hg : st'.gui = st.gui)
    (hr : st'.forcedFocusElements = st.forcedFocusElements) (hc : SameCache st st') :
    ElementsStep st st' :=
  ⟨hc, by rw [hg], by rw [hg], by rw [hg], Or.inl hr, fun _ => by rw [hg]⟩

theorem destroyElement_fields (w : World) (b : Bool) (x : Nat) (st : FrameState) :
    (destroyElement w b x st).gui = st.gui ∧
    (destroyElement w b x st).forcedFocusElements = st.forcedFocusElements ∧
    SameCache st (destroyElement w b x st) := by
  unfold destroyElement
  split_ifs <;> exact ⟨rfl, rfl, rfl, rfl, rfl, rfl, rfl⟩

theorem destroyAll_fields (w : World) (b : Bool) (l : List Nat) :
    ∀ st : FrameState,
      (l.foldl (fun acc x => destroyElement w b x acc) st).gui = st.gui ∧
      (l.foldl (fun acc x => destroyElement w b x acc) st).forcedFocusElements =
        st.forcedFocusElements ∧
      SameCache st (l.foldl (fun acc x => destroyElement w b x acc) st) := by
  induction l with
  | nil => intro st; exact ⟨rfl, rfl, SameCache.cache_refl st⟩
  | cons x rest ih =>
    intro st
    obtain ⟨h1, h2, h3⟩ := destroyElement_fields w b x st
    obtain ⟨i1, i2, i3⟩ := ih (destroyElement w b x st)
    exact ⟨i1.trans h1, i2.trans h2, h3.cache_trans i3⟩

theorem bsDelete_fields (w : World) (st : FrameState) (x : Nat) :
    (bsDelete w st x).gui = st.gui ∧
    (bsDelete w st x).forcedFocusElements = st.forcedFocusElements ∧
    SameCache st (bsDelete w st x) := by
  unfold bsDelete
  obtain ⟨i1, i2, i3⟩ := destroyAll_fields w false (w.destructorDestroys x)
    { st with deleted := st.deleted ++ [x] }
  exact ⟨i1, i2, i3⟩

theorem bsDelete_foldl_fields (w : World) (l : List Nat) :
    ∀ st : FrameState,
      (l.foldl (bsDelete w) st).gui = st.gui ∧
      (l.foldl (bsDelete w) st).forcedFocusElements = st.forcedFocusElements ∧
      SameCache st (l.foldl (bsDelete w) st) := by
  induction l with
  | nil => intro st; exact ⟨rfl, rfl, SameCache.cache_refl st⟩
  | cons x rest ih =>
    intro st
    obtain ⟨h1, h2, h3⟩ := bsDelete_fields w st x
    obtain ⟨i1, i2, i3⟩ := ih (bsDelete w st x)
    exact ⟨i1.trans h1, i2.trans h2, h3.cache_trans i3⟩

theorem processDestroyQueue_fields (w : World) (st : FrameState) :
    (processDestroyQueue w st).1.gui = st.gui ∧
    (processDestroyQueue w st).1.forcedFocusElements = st.forcedFocusElements ∧
    SameCache st (processDestroyQueue w st).1 := by
  unfold processDestroyQueue
  obtain ⟨i1, i2, i3⟩ := bsDelete_foldl_fields w st.scheduledForDestruction
    { st with scheduledForDestruction := [] }
  exact ⟨i1, i2, i3⟩

theorem purgeDestroyed_step (w : World) (st : FrameState) :
    ElementsStep st (purgeDestroyed w st) ∧
    (purgeDestroyed w st).gui.sent = st.gui.sent ∧
    (purgeDestroyed w st).forcedFocusElements = st.forcedFocusElements ∧
    (purgeDestroyed w st).scheduledForDestruction = st.scheduledForDestruction := by
  refine ⟨?_, rfl, rfl, rfl⟩
  exact
    { cache := SameCache.cache_refl st
      widgets := rfl
      under := List.filter_sublist _
      active := List.filter_sublist _
      requests := Or.inl rfl
      focus := fun _ => List.filter_sublist _ }

theorem frameSendCommandEvent_fields (w : World) (st : FrameState) (element : Nat)
    (type : GUICommandEventType) :
    Delivers st.gui (frameSendCommandEvent w st element type).1.gui
      (if st.isDestroyed w element then []
        else [{ element := element, event := GUIEvent.command type }]) ∧
    (frameSendCommandEvent w st element type).1.forcedFocusElements = st.forcedFocusElements ∧
    SameCache st (frameSendCommandEvent w st element type).1 := by
  have hd := sendCommandEvent_delivers (st.world w) st.gui element type
  unfold frameSendCommandEvent
  simp only
  split_ifs with h
  · simp only
    rw [if_pos (show (st.world w).isDestroyed element = true from h)] at hd
    exact ⟨hd, trivial, SameCache.cache_refl st⟩
  · simp only
    rw [if_neg (show ¬ (st.world w).isDestroyed element = true from h)] at hd
    obtain ⟨i1, i2, i3⟩ := destroyAll_fields w true (w.commandDestroys element type)
      { st with gui := (sendCommandEvent (st.world w) st.gui element type).1 }
    rw [i1]
    exact ⟨hd, i2, i3⟩

theorem Delivers.elementsStep {st st' : FrameState} {extra : List SentEvent}
    (hd : Delivers st.gui st'.gui extra)
    (hr : st'.forcedFocusElements = st.forcedFocusElements) (hc : SameCache st st') :
    ElementsStep st st' := by
  obtain ⟨m, hm⟩ := hd
  exact ⟨hc, by rw [hm], by rw [hm], by rw [hm], Or.inl hr, fun _ => by rw [hm]⟩

theorem frameSendCommandEvent_step (w : World) (st : FrameState) (element : Nat)
    (type : GUICommandEventType) :
    ElementsStep st (frameSendCommandEvent w st element type).1 := by
  obtain ⟨h1, h2, h3⟩ := frameSendCommandEvent_fields w st element type
  exact h1.elementsStep h2 h3

theorem redrawLoop_step (w : World) (l : List ElementFocusInfo) :
    ∀ st : FrameState, ElementsStep st (redrawLoop w l st) := by
  induction l with
  | nil => intro st; exact ElementsStep.elements_refl st
  | cons info rest ih =>
    intro st
    unfold redrawLoop
    exact (frameSendCommandEvent_step w st info.element _).elements_trans (ih _)

theorem FocusStep.focus_refl (st : FrameState) : FocusStep st st :=
  ⟨SameCache.cache_refl st, rfl, rfl, rfl, rfl⟩

theorem FocusStep.focus_trans {a b c : FrameState} (h1 : FocusStep a b) (h2 : FocusStep b c) :
    FocusStep a c := by
  obtain ⟨a1, a2, a3, a4, a5⟩ := h1
  obtain ⟨b1, b2, b3, b4, b5⟩ := h2
  exact ⟨a1.cache_trans b1, b2.trans a2, b3.trans a3, b4.trans a4, b5.trans a5⟩

theorem frameSendCommandEvent_focusStep (w : World) (st : FrameState) (element : Nat)
    (type : GUICommandEventType) :
    FocusStep st (frameSendCommandEvent w st element type).1 := by
  obtain ⟨⟨m, hm⟩, h2, h3⟩ := frameSendCommandEvent_fields w st element type
  exact ⟨h3, h2, by rw [hm], by rw [hm], by rw [hm]⟩

theorem forcedFocusLostLoop_focusStep (w : World) (element : Nat) (l : List ElementFocusInfo) :
    ∀ (st : FrameState) (newFocus : List ElementFocusInfo),
      FocusStep st (forcedFocusLostLoop w element l st newFocus).1 := by
  induction l with
  | nil => intro st newFocus; exact FocusStep.focus_refl st
  | cons info rest ih =>
    intro st newFocus
    unfold forcedFocusLostLoop
    split_ifs
    · exact (frameSendCommandEvent_focusStep w st info.element _).focus_trans (ih _ _)
    · exact ih _ _

theorem applyForcedFocus_focusStep (w : World) (st : FrameState)
    (request : ElementForcedFocusInfo) : FocusStep st (applyForcedFocus w st request) := by
  unfold applyForcedFocus
  split_ifs
  · exact FocusStep.focus_refl st
  · exact FocusStep.focus_refl st
  · simp only
    exact FocusStep.focus_trans ⟨SameCache.cache_refl st, rfl, rfl, rfl, rfl⟩
      (frameSendCommandEvent_focusStep w _ request.element _)
  · simp only
    exact (forcedFocusLostLoop_focusStep w request.element st.gui.elementsInFocus st []).focus_trans
      ⟨SameCache.cache_refl _, rfl, rfl, rfl, rfl⟩

theorem forcedFocus_foldl_focusStep (w : World) (l : List ElementForcedFocusInfo) :
    ∀ st : FrameState, FocusStep st (l.foldl (applyForcedFocus w) st) := by
  induction l with
  | nil => intro st; exact FocusStep.focus_refl st
  | cons r rest ih =>
    intro st
    exact (applyForcedFocus_focusStep w st r).focus_trans (ih _)

theorem forcedFocusPass_step (w : World) (st : FrameState) :
    ElementsStep st (forcedFocusPass w st) ∧ (forcedFocusPass w st).forcedFocusElements = [] ∧
    (st.forcedFocusElements = [] → (forcedFocusPass w st).gui = st.gui) ∧
    (st.forcedFocusElements = [] →
      (forcedFocusPass w st).scheduledForDestruction = st.scheduledForDestruction) := by
  obtain ⟨h1, h2, h3, h4, h5⟩ := forcedFocus_foldl_focusStep w st.forcedFocusElements st
  have hg : st.forcedFocusElements = [] → (forcedFocusPass w st).gui = st.gui := by
    intro h0
    unfold forcedFocusPass
    rw [h0]
    rfl
  refine ⟨?_, rfl, hg, ?_⟩
  · exact
      { cache := h1
        widgets := h3
        under := by
          show (st.forcedFocusElements.foldl (applyForcedFocus w) st).gui.elementsUnderPointer.Sublist _
          rw [h4]
        active := by
          show (st.forcedFocusElements.foldl (applyForcedFocus w) st).gui.activeElements.Sublist _
          rw [h5]
        requests := Or.inr rfl
        focus := fun h0 => by rw [hg h0] }
  · intro h0
    unfold forcedFocusPass
    rw [h0]
    rfl

theorem processDestroyQueue_step (w : World) (st : FrameState) :
    ElementsStep st (processDestroyQueue w st).1 := by
  obtain ⟨h1, h2, h3⟩ := processDestroyQueue_fields w st
  exact ElementsStep.of_eq h1 h2 h3

theorem destroyLoopBody_step (w : World) (st : FrameState) :
    ElementsStep st (destroyLoopBody w st).1 ∧
    (destroyLoopBody w st).1.forcedFocusElements = [] ∧
    (st.forcedFocusElements = [] → (destroyLoopBody w st).1.gui.sent = st.gui.sent) := by
  unfold destroyLoopBody
  obtain ⟨p1, p2, p3, -⟩ := purgeDestroyed_step w st
  obtain ⟨f1, f2, f3, -⟩ := forcedFocusPass_step w (purgeDestroyed w st)
  obtain ⟨q1, q2, q3⟩ := processDestroyQueue_fields w (forcedFocusPass w (purgeDestroyed w st))
  refine ⟨(p1.elements_trans f1).elements_trans (ElementsStep.of_eq q1 q2 q3), q2.trans f2, ?_⟩
  intro h0
  rw [q1, f3 (p3.trans h0), p2]

theorem destroyLoop_step (w : World) (fuel : Nat) :
    ∀ (st st' : FrameState) (n : Nat), destroyLoop w fuel st = some (st', n) →
      ElementsStep st st' ∧ st'.forcedFocusElements = [] ∧
      (st.forcedFocusElements = [] → st'.gui.sent = st.gui.sent) := by
  induction fuel with
  | zero => intro st st' n h; cases h
  | succ fuel ih =>
    intro st st' n h
    unfold destroyLoop at h
    simp only at h
    obtain ⟨b1, b2, b3⟩ := destroyLoopBody_step w st
    split_ifs at h with hc
    · cases hr : destroyLoop w fuel (destroyLoopBody w st).1 with
      | none => rw [hr] at h; cases h
      | some p =>
        rw [hr] at h
        simp only [Option.map_some', Option.some.injEq, Prod.mk.injEq] at h
        obtain ⟨i1, i2, i3⟩ := ih _ p.1 p.2 hr
        rw [← h.1]
        exact ⟨b1.elements_trans i1, i2, fun h0 => (i3 b2).trans (b3 h0)⟩
    · simp only [Option.some.injEq, Prod.mk.injEq] at h
      rw [← h.1]
      exact ⟨b1, b2, b3⟩

theorem updateElements_step (w : World) (fuel : Nat) (tooltipDue caretDue : Bool)
    (st st' : FrameState) (h : updateElements w fuel tooltipDue caretDue st = some st') :
    ElementsStep st st' ∧ st'.forcedFocusElements = [] ∧
    (st.forcedFocusElements = [] → caretDue = false → st'.gui.sent = st.gui.sent) := by
  unfold updateElements at h
  simp only at h
  obtain ⟨st0, hst0⟩ : ∃ st0 : FrameState, st0 =
      (if (st.gui.showTooltip && tooltipDue) = true then
        { st with gui := { st.gui with showTooltip := false } }
      else st) := ⟨_, rfl⟩
  rw [← hst0] at h
  have h0 : ElementsStep st st0 ∧ st0.gui.sent = st.gui.sent ∧
      st0.forcedFocusElements = st.forcedFocusElements := by
    rw [hst0]
    split_ifs
    · refine ⟨?_, rfl, rfl⟩
      exact
        { cache := SameCache.cache_refl st
          widgets := rfl
          under := List.Sublist.refl _
          active := List.Sublist.refl _
          requests := Or.inl rfl
          focus := fun _ => List.Sublist.refl _ }
    · exact ⟨ElementsStep.elements_refl st, rfl, rfl⟩
  cases hloop : destroyLoop w fuel st0 with
  | none => rw [hloop] at h; cases h
  | some p =>
    obtain ⟨st1, n⟩ := p
    rw [hloop] at h
    simp only [Option.some.injEq] at h
    obtain ⟨l1, l2, l3⟩ := destroyLoop_step w fuel st0 st1 n hloop
    rw [← h]
    split_ifs with hc
    · have hr := redrawLoop_step w st1.gui.elementsInFocus { st1 with isCaretOn := !st1.isCaretOn }
      have h1 : ElementsStep st1 { st1 with isCaretOn := !st1.isCaretOn } :=
        ElementsStep.of_eq rfl rfl ⟨rfl, rfl, rfl, rfl, rfl⟩
      have hall := (h0.1.elements_trans l1).elements_trans (h1.elements_trans hr)
      refine ⟨hall, ?_, ?_⟩
      · exact (h1.elements_trans hr).requests_nil l2
      · intro _ hf
        rw [hc] at hf
        cases hf
    · exact ⟨h0.1.elements_trans l1, l2, fun hq _ => (l3 (h0.2.2.trans hq)).trans h0.2.1⟩

theorem update_step (w : World) (fuel : Nat) (tooltipDue caretDue : Bool)
    (st st' : FrameState) (h : update w fuel tooltipDue caretDue st = some st') :
    st'.gui.widgets = st.gui.widgets ∧
    st'.gui.elementsUnderPointer.Sublist st.gui.elementsUnderPointer ∧
    st'.gui.activeElements.Sublist st.gui.activeElements ∧
    st'.forcedFocusElements = [] ∧
    (st.forcedFocusElements = [] →
      st'.gui.elementsInFocus.Sublist st.gui.elementsInFocus ∧
      (caretDue = false → st'.gui.sent = st.gui.sent)) := by
  obtain ⟨st2, h2, -, hs⟩ := update_eq_some w fuel tooltipDue caretDue st st' h
  obtain ⟨e1, e2, e3⟩ := updateElements_step w fuel tooltipDue caretDue st st2 h2
  rw [hs.1, hs.2.1]
  exact ⟨e1.widgets, e1.under, e1.active, e2, fun h0 => ⟨e1.focus h0, e3 h0⟩⟩

theorem storeGroup_fields (w : World) (sep : Bool) (groupIdx : Nat) (group : GUIMaterialGroup)
    (rd : GUIRenderData) (heap : MeshHeap) :
    (storeGroup w sep groupIdx group rd heap).1.isDirty = rd.isDirty ∧
    (storeGroup w sep groupIdx group rd heap).1.widgets = rd.widgets := by
  unfold storeGroup
  simp only
  split <;> exact ⟨rfl, rfl⟩

theorem storeGroups_fields (w : World) (sep : Bool) (l : List (Nat × GUIMaterialGroup)) :
    ∀ (groupIdx : Nat) (rd : GUIRenderData) (heap : MeshHeap),
      (storeGroups w sep l groupIdx rd heap).1.isDirty = rd.isDirty ∧
      (storeGroups w sep l groupIdx rd heap).1.widgets = rd.widgets := by
  induction l with
  | nil => intro groupIdx rd heap; exact ⟨rfl, rfl⟩
  | cons g rest ih =>
    intro groupIdx rd heap
    unfold storeGroups
    obtain ⟨h1, h2⟩ := storeGroup_fields w sep groupIdx g.2 rd heap
    obtain ⟨i1, i2⟩ := ih (groupIdx + 1) (storeGroup w sep groupIdx g.2 rd heap).1
      (storeGroup w sep groupIdx g.2 rd heap).2
    exact ⟨i1.trans h1, i2.trans h2⟩

theorem rebuildMeshes_fields (w : World) (sep : Bool) (rd : GUIRenderData) (heap : MeshHeap) :
    (rebuildMeshes w sep rd heap).1.isDirty = rd.isDirty ∧
    (rebuildMeshes w sep rd heap).1.widgets = rd.widgets := by
  unfold rebuildMeshes
  exact storeGroups_fields w sep _ 0 _ _

theorem updateRenderData_fields (w : World) (st : FrameState) (rd : GUIRenderData) :
    (updateRenderData w st rd).2.isDirty = false ∧
    (updateRenderData w st rd).2.widgets = rd.widgets ∧
    (updateRenderData w st rd).1.dirtyWidgets =
      st.dirtyWidgets.filter fun widget => decide (widget ∉ rd.widgets) := by
  unfold updateRenderData
  simp only
  split_ifs
  · obtain ⟨h1, h2⟩ := rebuildMeshes_fields w st.gui.separateMeshesByWidget
      { rd with isDirty := false } st.meshHeap
    exact ⟨h1, h2, rfl⟩
  · exact ⟨rfl, rfl, rfl⟩

theorem updateRenderData_clean (w : World) (st : FrameState) (rd : GUIRenderData)
    (h1 : rd.isDirty = false) (h2 : ∀ widget ∈ rd.widgets, widget ∉ st.dirtyWidgets) :
    updateRenderData w st rd = (st, rd) := by
  unfold updateRenderData cleanWidgets
  have ha : (rd.widgets.any fun widget => decide (widget ∈ st.dirtyWidgets)) = false := by
    rw [List.any_eq_false]
    intro x hx
    simpa using h2 x hx
  have hf : (st.dirtyWidgets.filter fun widget => decide (widget ∉ rd.widgets)) =
      st.dirtyWidgets := by
    rw [List.filter_eq_self]
    intro x hx
    simp only [decide_eq_true_eq]
    intro hxw
    exact h2 x hxw hx
  simp only [ha, hf, h1, Bool.or_false, Bool.false_eq_true, if_false]
  cases rd
  simp only at h1
  subst h1
  rfl

theorem updateMeshesLoop_clean (w : World) (l : List (Nat × GUIRenderData)) :
    ∀ (st : FrameState) (done : List (Nat × GUIRenderData)),
      (∀ p ∈ l, p.2.isDirty = false ∧ ∀ widget ∈ p.2.widgets, widget ∉ st.dirtyWidgets) →
      updateMeshesLoop w l st done = (st, done ++ l) := by
  induction l with
  | nil => intro st done _; simp [updateMeshesLoop]
  | cons entry rest ih =>
    intro st done h
    unfold updateMeshesLoop
    have he := h entry (List.mem_cons_self _ _)
    rw [updateRenderData_clean w st entry.2 he.1 he.2]
    simp only
    rw [ih st _ fun p hp => h p (List.mem_cons_of_mem _ hp)]
    simp

theorem updateMeshes_clean (w : World) (st : FrameState) (h : CleanCache st) :
    updateMeshes w st = st := by
  unfold updateMeshes
  simp only
  rw [updateMeshesLoop_clean w st.cachedGUIData st [] h.2]
  rfl

theorem updateMeshesLoop_cleans (w : World) (l : List (Nat × GUIRenderData)) :
    ∀ (st : FrameState) (done : List (Nat × GUIRenderData)),
      (∀ p ∈ done, p.2.isDirty = false ∧ ∀ widget ∈ p.2.widgets, widget ∉ st.dirtyWidgets) →
      ∀ p ∈ (updateMeshesLoop w l st done).2, p.2.isDirty = false ∧
        ∀ widget ∈ p.2.widgets, widget ∉ (updateMeshesLoop w l st done).1.dirtyWidgets := by
  induction l with
  | nil => intro st done h; exact h
  | cons entry rest ih =>
    intro st done h
    unfold updateMeshesLoop
    obtain ⟨u1, u2, u3⟩ := updateRenderData_fields w st entry.2
    refine ih _ _ ?_
    intro p hp
    rw [u3]
    rcases List.mem_append.mp hp with hp | hp
    · refine ⟨(h p hp).1, fun widget hw hm => ?_⟩
      exact (h p hp).2 widget hw (List.mem_filter.mp hm).1
    · rw [List.mem_singleton] at hp
      rw [hp]
      refine ⟨u1, fun widget hw hm => ?_⟩
      simp only at hw
      rw [u2] at hw
      have := (List.mem_filter.mp hm).2
      simp only [decide_eq_true_eq] at this
      exact this hw

theorem update_cleanCache (w : World) (fuel : Nat) (tooltipDue caretDue : Bool)
    (st st' : FrameState) (h : update w fuel tooltipDue caretDue st = some st') :
    CleanCache st' := by
  obtain ⟨st2, -, h3, -⟩ := update_eq_some w fuel tooltipDue caretDue st st' h
  have hc : ∀ p ∈ (updateMeshes w st2).cachedGUIData, p.2.isDirty = false ∧
      ∀ widget ∈ p.2.widgets, widget ∉ (updateMeshes w st2).dirtyWidgets := by
    unfold updateMeshes
    exact updateMeshesLoop_cleans w st2.cachedGUIData st2 [] (fun p hp => by cases hp)
  unfold sendCoreData at h3
  split_ifs at h3 with hd
  · cases hs : coreSnapshot w (updateMeshes w st2).cachedGUIData [] with
    | none => rw [hs] at h3; cases h3
    | some data =>
      rw [hs] at h3
      simp only [Option.some.injEq] at h3
      rw [← h3]
      exact ⟨rfl, hc⟩
  · simp only [Option.some.injEq] at h3
    rw [← h3]
    exact ⟨by simpa using hd, hc⟩

theorem sendCoreData_clean (w : World) (st : FrameState) (h : CleanCache st) :
    sendCoreData w st = some st := by
  unfold sendCoreData
  rw [h.1]
  rfl

theorem destroyLoop_idle (w : World) (fuel : Nat) (st : FrameState)
    (hr : st.forcedFocusElements = []) (hq : st.scheduledForDestruction = []) :
    ∃ st', destroyLoop w (fuel + 1) st = some (st', 1) ∧ st'.scheduledForDestruction = [] := by
  unfold destroyLoop
  simp only
  have h1 : (forcedFocusPass w (purgeDestroyed w st)).scheduledForDestruction = [] :=
    ((forcedFocusPass_step w (purgeDestroyed w st)).2.2.2 hr).trans hq
  have h2 : (destroyLoopBody w st).1.scheduledForDestruction = [] := by
    unfold destroyLoopBody processDestroyQueue
    simp only
    rw [h1]
    rfl
  have h3 : (destroyLoopBody w st).2 = false := by
    have : (destroyLoopBody w st).2 = !(destroyLoopBody w st).1.scheduledForDestruction.isEmpty :=
      rfl
    rw [this, h2]
    rfl
  rw [h3]
  exact ⟨_, rfl, h2⟩

/-! ## Lemmas on registration and sequences of calls -/

theorem cacheFind_append (c : List (Nat × GUIRenderData)) (t t' : Nat) (rd : GUIRenderData) :
    cacheFind (c ++ [(t, rd)]) t' =
      match cacheFind c t' with
      | some x => some x
      | none => if t = t' then some rd else none := by
  unfold cacheFind
  rw [List.find?_append]
  cases h : List.find? (fun p => p.1 == t') c with
  | some x => rfl
  | none =>
    simp only [Option.none_or, Option.map_none', List.find?_cons, List.find?_nil]
    by_cases ht : t = t'
    · simp [ht]
    · have : (t == t') = false := by simpa using ht
      simp [ht, this]

theorem cacheFind_cacheSet (c : List (Nat × GUIRenderData)) (t t' : Nat) (rd : GUIRenderData) :
    cacheFind (cacheSet c t rd) t' =
      if t' = t then (cacheFind c t').map (fun _ => rd) else cacheFind c t' := by
  unfold cacheFind cacheSet
  induction c with
  | nil => simp
  | cons p rest ih =>
    simp only [List.map_cons, List.find?_cons]
    by_cases hp : p.1 = t
    · rw [if_pos hp]
      simp only
      by_cases ht : t' = t
      · simp [ht, hp]
      · have : (p.1 == t') = false := by simp [hp]; exact fun h => ht h.symm
        simp only [this, ht, if_false]
        rw [ih, if_neg ht]
    · rw [if_neg hp]
      by_cases hpt : p.1 = t'
      · have hne : ¬ t' = t := fun h => hp (hpt.trans h)
        simp [hpt, hne]
      · have : (p.1 == t') = false := by simpa using hpt
        simp only [this]
        exact ih

theorem cacheFind_cacheErase (c : List (Nat × GUIRenderData)) (t t' : Nat) :
    cacheFind (cacheErase c t) t' = if t' = t then none else cacheFind c t' := by
  unfold cacheFind cacheErase
  induction c with
  | nil => simp
  | cons p rest ih =>
    by_cases hp : p.1 = t
    · rw [List.filter_cons_of_neg (by simp [hp]), ih]
      by_cases ht : t' = t
      · simp [ht]
      · have : (p.1 == t') = false := by simp [hp]; exact fun h => ht h.symm
        simp [ht, List.find?_cons, this]
    · rw [List.filter_cons_of_pos (by simpa using hp)]
      simp only [List.find?_cons]
      by_cases hpt : p.1 = t'
      · have hne : ¬ t' = t := fun h => hp (hpt.trans h)
        simp [hpt, hne]
      · have : (p.1 == t') = false := by simpa using hpt
        simp only [this]
        exact ih

theorem registerWidget_find (w : World) (x : Nat) (st : FrameState) (hx : w.getTarget x ≠ 0)
    (t : Nat) :
    cacheFind (registerWidget w x st).cachedGUIData t =
      if t = w.getTarget x then
        some { entryOrFresh st.cachedGUIData (w.getTarget x) with
          widgets := (entryOrFresh st.cachedGUIData (w.getTarget x)).widgets ++ [x]
          isDirty := true }
      else cacheFind st.cachedGUIData t := by
  unfold registerWidget
  simp only
  rw [if_neg hx]
  simp only
  cases hf : cacheFind st.cachedGUIData (w.getTarget x) with
  | some found =>
    simp only
    rw [cacheFind_cacheSet]
    by_cases ht : t = w.getTarget x
    · rw [if_pos ht, if_pos ht, ht, hf]
      rfl
    · rw [if_neg ht, if_neg ht]
  | none =>
    simp only
    rw [cacheFind_append]
    by_cases ht : t = w.getTarget x
    · rw [if_pos ht, ht, hf]
      simp
    · rw [if_neg ht]
      cases cacheFind st.cachedGUIData t with
      | some y => rfl
      | none => simp only; rw [if_neg fun h => ht h.symm]

theorem registerWidget_widgets (w : World) (x : Nat) (st : FrameState) :
    (registerWidget w x st).gui.widgets =
      if w.getTarget x = 0 then st.gui.widgets else st.gui.widgets ++ [x] := by
  unfold registerWidget
  simp only
  split_ifs <;> rfl

theorem unregisterWidget_find (w : World) (x : Nat) (st : FrameState) (t : Nat) :
    cacheFind (unregisterWidget w x st).cachedGUIData t =
      if t = w.getTarget x then
        if (entryOrFresh st.cachedGUIData (w.getTarget x)).widgets.erase x = [] then none
        else
          (cacheFind st.cachedGUIData (w.getTarget x)).map fun _ =>
            { entryOrFresh st.cachedGUIData (w.getTarget x) with
              widgets := (entryOrFresh st.cachedGUIData (w.getTarget x)).widgets.erase x
              isDirty := true }
      else cacheFind st.cachedGUIData t := by
  unfold unregisterWidget
  simp only
  by_cases hws : (entryOrFresh st.cachedGUIData (w.getTarget x)).widgets.erase x = []
  · rw [if_pos hws, if_pos hws]
    simp only
    rw [cacheFind_cacheErase]
  · rw [if_neg hws, if_neg hws]
    simp only
    rw [cacheFind_cacheSet]
    by_cases ht : t = w.getTarget x
    · rw [if_pos ht, if_pos ht, ht]
    · rw [if_neg ht, if_neg ht]

theorem unregisterWidget_widgets (w : World) (x : Nat) (st : FrameState) :
    (unregisterWidget w x st).gui.widgets = st.gui.widgets.erase x := by
  unfold unregisterWidget
  simp only
  split_ifs <;> rfl

theorem registerWidget_cacheInv (w : World) (x : Nat) (st : FrameState) (h : CacheInv w st) :
    CacheInv w (registerWidget w x st) := by
  by_cases hx : w.getTarget x = 0
  · have : registerWidget w x st = st := by unfold registerWidget; simp only; rw [if_pos hx]
    rw [this]; exact h
  · obtain ⟨hA, hB⟩ := h
    have hw : (registerWidget w x st).gui.widgets = st.gui.widgets ++ [x] := by
      rw [registerWidget_widgets, if_neg hx]
    constructor
    · intro t rd hf
      rw [registerWidget_find w x st hx] at hf
      rw [hw, List.filter_append]
      by_cases ht : t = w.getTarget x
      · rw [if_pos ht] at hf
        simp only [Option.some.injEq] at hf
        rw [← hf]
        simp only
        have hfx : List.filter (fun y => decide (w.getTarget y = t)) [x] = [x] := by
          simp [ht]
        rw [hfx]
        refine ⟨?_, by simp⟩
        congr 1
        unfold entryOrFresh
        cases hc : cacheFind st.cachedGUIData (w.getTarget x) with
        | some found =>
          simp only
          rw [ht]
          exact (hA _ found hc).1
        | none =>
          simp only
          symm
          rw [List.filter_eq_nil_iff]
          intro y hy
          simp only [decide_eq_true_eq]
          rw [ht]
          exact hB _ hc y hy
      · rw [if_neg ht] at hf
        have hne : ¬ w.getTarget x = t := fun h => ht h.symm
        have hfx : List.filter (fun y => decide (w.getTarget y = t)) [x] = [] := by
          simp [hne]
        rw [hfx, List.append_nil]
        exact hA t rd hf
    · intro t hf y hy
      rw [registerWidget_find w x st hx] at hf
      by_cases ht : t = w.getTarget x
      · rw [if_pos ht] at hf; cases hf
      · rw [if_neg ht] at hf
        rw [hw] at hy
        rcases List.mem_append.mp hy with hy | hy
        · exact hB t hf y hy
        · rw [List.mem_singleton] at hy
          rw [hy]
          exact fun h => ht h.symm

theorem unregisterWidget_cacheInv (w : World) (x : Nat) (st : FrameState) (h : CacheInv w st) :
    CacheInv w (unregisterWidget w x st) := by
  obtain ⟨hA, hB⟩ := h
  have hfilter : ∀ t, t ≠ w.getTarget x →
      List.filter (fun y => decide (w.getTarget y = t)) (st.gui.widgets.erase x) =
        List.filter (fun y => decide (w.getTarget y = t)) st.gui.widgets := by
    intro t ht
    rw [← List.erase_filter, List.erase_of_not_mem]
    intro hm
    have := (List.mem_filter.mp hm).2
    simp only [decide_eq_true_eq] at this
    exact ht this.symm
  constructor
  · intro t rd hf
    rw [unregisterWidget_find] at hf
    rw [unregisterWidget_widgets]
    by_cases ht : t = w.getTarget x
    · rw [if_pos ht] at hf
      split_ifs at hf with hws
      cases hc : cacheFind st.cachedGUIData (w.getTarget x) with
      | none => rw [hc] at hf; cases hf
      | some found =>
        rw [hc] at hf
        simp only [Option.map_some', Option.some.injEq] at hf
        have he : entryOrFresh st.cachedGUIData (w.getTarget x) = found := by
          unfold entryOrFresh; rw [hc]
        rw [he] at hf hws
        rw [← hf]
        simp only
        refine ⟨?_, hws⟩
        rw [(hA _ found hc).1, List.erase_filter, ht]
    · rw [if_neg ht] at hf
      rw [hfilter t ht]
      exact hA t rd hf
  · intro t hf y hy
    rw [unregisterWidget_find] at hf
    rw [unregisterWidget_widgets] at hy
    by_cases ht : t = w.getTarget x
    · rw [if_pos ht] at hf
      split_ifs at hf with hws
      · cases hc : cacheFind st.cachedGUIData (w.getTarget x) with
        | none =>
          rw [ht]
          exact hB _ hc y (List.mem_of_mem_erase hy)
        | some found =>
          have he : entryOrFresh st.cachedGUIData (w.getTarget x) = found := by
            unfold entryOrFresh; rw [hc]
          rw [he, (hA _ found hc).1, List.erase_filter] at hws
          intro hty
          have : y ∈ List.filter (fun y => decide (w.getTarget y = w.getTarget x))
              (st.gui.widgets.erase x) :=
            List.mem_filter.mpr ⟨hy, by simp [hty, ht]⟩
          rw [hws] at this
          cases this
      · cases hc : cacheFind st.cachedGUIData (w.getTarget x) with
        | none =>
          exfalso
          apply hws
          unfold entryOrFresh
          rw [hc]
          rfl
        | some found => rw [hc] at hf; cases hf
    · rw [if_neg ht] at hf
      exact hB t hf y (List.mem_of_mem_erase hy)

theorem cacheInv_initial (w : World) : CacheInv w {} := by
  constructor
  · intro t rd h
    cases h
  · intro t _ x hx
    cases hx

theorem applyCalls_registration (w : World) (fuel : Nat) (calls : List ManagerCall) :
    ∀ st : FrameState, CacheInv w st →
      (∀ c ∈ calls, ∃ x, w.getTarget x ≠ 0 ∧
        (c = ManagerCall.registerWidget x ∨ c = ManagerCall.unregisterWidget x)) →
      ∃ st', applyCalls w fuel st calls = some st' ∧ CacheInv w st' ∧
        st'.gui.widgets = registeredWidgets st.gui.widgets calls := by
  induction calls with
  | nil => intro st h _; exact ⟨st, rfl, h, rfl⟩
  | cons c rest ih =>
    intro st h hc
    obtain ⟨x, hx, hcx⟩ := hc c (List.mem_cons_self _ _)
    have hrest := fun c' hc' => hc c' (List.mem_cons_of_mem _ hc')
    rcases hcx with rfl | rfl
    · obtain ⟨st', h1, h2, h3⟩ := ih (registerWidget w x st) (registerWidget_cacheInv w x st h)
        hrest
      refine ⟨st', h1, h2, ?_⟩
      rw [h3, registerWidget_widgets, if_neg hx]
      rfl
    · obtain ⟨st', h1, h2, h3⟩ := ih (unregisterWidget w x st)
        (unregisterWidget_cacheInv w x st h) hrest
      refine ⟨st', h1, h2, ?_⟩
      rw [h3, unregisterWidget_widgets]
      rfl

theorem CacheInv.isSome_iff {w : World} {st : FrameState} (h : CacheInv w st) (t : Nat) :
    (cacheFind st.cachedGUIData t).isSome = true ↔ ∃ x ∈ st.gui.widgets, w.getTarget x = t := by
  constructor
  · intro hs
    obtain ⟨rd, hrd⟩ := Option.isSome_iff_exists.mp hs
    obtain ⟨h1, h2⟩ := h.1 t rd hrd
    rw [h1] at h2
    obtain ⟨x, hx⟩ := List.exists_mem_of_ne_nil _ h2
    obtain ⟨hx1, hx2⟩ := List.mem_filter.mp hx
    exact ⟨x, hx1, by simpa using hx2⟩
  · rintro ⟨x, hx, rfl⟩
    cases hc : cacheFind st.cachedGUIData (w.getTarget x) with
    | some rd => rfl
    | none => exact absurd rfl (h.2 _ hc x hx)

theorem unregisterWidget_gui (w : World) (x : Nat) (st : FrameState) :
    (unregisterWidget w x st).gui =
      { st.gui with
        widgets := st.gui.widgets.erase x
        elementsInFocus := st.gui.elementsInFocus.map fun entry =>
          if entry.widget = x then { entry with widget := 0 } else entry
        elementsUnderPointer := st.gui.elementsUnderPointer.map fun entry =>
          if entry.widget = x then { entry with widget := 0 } else entry
        activeElements := st.gui.activeElements.map fun entry =>
          if entry.widget = x then { entry with widget := 0 } else entry } ∧
    (unregisterWidget w x st).forcedFocusElements = st.forcedFocusElements := by
  unfold unregisterWidget
  simp only
  split_ifs <;> exact ⟨rfl, rfl⟩

theorem registerWidget_gui (w : World) (x : Nat) (st : FrameState) :
    (registerWidget w x st).gui =
      { st.gui with widgets := (registerWidget w x st).gui.widgets } ∧
    (registerWidget w x st).forcedFocusElements = st.forcedFocusElements := by
  unfold registerWidget
  simp only
  split_ifs <;> exact ⟨rfl, rfl⟩

theorem unregisterWidget_noRecordOf (w : World) (x y : Nat) (st : FrameState) (hx : x ≠ 0)
    (h : y = x ∨ NoRecordOf x st.gui) : NoRecordOf x (unregisterWidget w y st).gui := by
  rw [(unregisterWidget_gui w y st).1]
  refine ⟨fun r hr => ?_, fun r hr => ?_, fun r hr => ?_⟩
  · obtain ⟨r0, hr0, rfl⟩ := List.mem_map.mp hr
    split_ifs with hy
    · exact fun h0 => hx h0.symm
    · rcases h with h | h
      · rw [← h]; exact hy
      · exact h.1 r0 hr0
  · obtain ⟨r0, hr0, rfl⟩ := List.mem_map.mp hr
    split_ifs with hy
    · exact fun h0 => hx h0.symm
    · rcases h with h | h
      · rw [← h]; exact hy
      · exact h.2.1 r0 hr0
  · obtain ⟨r0, hr0, rfl⟩ := List.mem_map.mp hr
    split_ifs with hy
    · exact fun h0 => hx h0.symm
    · rcases h with h | h
      · rw [← h]; exact hy
      · exact h.2.2 r0 hr0

theorem unregisterWidget_elements (w : World) (x : Nat) (st : FrameState) :
    (unregisterWidget w x st).gui.elementsUnderPointer.map (fun r => r.element) =
      st.gui.elementsUnderPointer.map (fun r => r.element) ∧
    (unregisterWidget w x st).gui.activeElements.map (fun r => r.element) =
      st.gui.activeElements.map (fun r => r.element) ∧
    (unregisterWidget w x st).gui.elementsInFocus.map (fun r => r.element) =
      st.gui.elementsInFocus.map (fun r => r.element) := by
  rw [(unregisterWidget_gui w x st).1]
  simp only [List.map_map]
  refine ⟨?_, ?_, ?_⟩ <;>
  · apply List.map_congr_left
    intro r _
    simp only [Function.comp]
    split_ifs <;> rfl

theorem applyCall_pointer (w : World) (fuel : Nat) (st st' : FrameState) (input : PointerInput)
    (h : applyCall w fuel st (ManagerCall.pointer input) = some st') :
    ∃ gui, handleInput (st.world w) st.gui input = Except.ok gui ∧ st' = { st with gui := gui } := by
  simp only [applyCall] at h
  cases hh : handleInput (st.world w) st.gui input with
  | error e => rw [hh] at h; cases h
  | ok gui =>
    rw [hh] at h
    simp only [Option.some.injEq] at h
    exact ⟨gui, rfl, h.symm⟩

/-- The invariant kept after `unregisterWidget x` until `x` is registered again. -/
theorem applyCall_noRecordOf (w : World) (fuel : Nat) (x : Nat) (st st' : FrameState)
    (c : ManagerCall) (hx : x ≠ 0) (hc : c ≠ ManagerCall.registerWidget x)
    (h : applyCall w fuel st c = some st')
    (hi : x ∉ st.gui.widgets ∧ st.forcedFocusElements = [] ∧ NoRecordOf x st.gui) :
    x ∉ st'.gui.widgets ∧ st'.forcedFocusElements = [] ∧ NoRecordOf x st'.gui := by
  obtain ⟨hw, hr, hn⟩ := hi
  cases c with
  | registerWidget y =>
    simp only [applyCall, Option.some.injEq] at h
    rw [← h]
    have hy : y ≠ x := fun e => hc (by rw [e])
    refine ⟨?_, (registerWidget_gui w y st).2.trans hr, ?_⟩
    · rw [registerWidget_widgets]
      split_ifs
      · exact hw
      · intro hm
        rcases List.mem_append.mp hm with hm | hm
        · exact hw hm
        · exact hy (List.mem_singleton.mp hm).symm
    · rw [(registerWidget_gui w y st).1]
      exact hn
  | unregisterWidget y =>
    simp only [applyCall, Option.some.injEq] at h
    rw [← h]
    refine ⟨?_, (unregisterWidget_gui w y st).2.trans hr,
      unregisterWidget_noRecordOf w x y st hx (Or.inr hn)⟩
    rw [unregisterWidget_widgets]
    exact fun hm => hw (List.mem_of_mem_erase hm)
  | pointer input =>
    obtain ⟨gui, hh, rfl⟩ := applyCall_pointer w fuel st st' input h
    obtain ⟨s1, s2, s3, s4⟩ := handleInput_sets (st.world w) st.gui gui input hh
    have hov : ∀ info ∈ hoveredList (st.world w) st.gui input.event, info.widget ≠ x := by
      intro info hinfo e
      exact hw (e ▸ hoveredList_widget (st.world w) st.gui input.event info hinfo)
    refine ⟨by show x ∉ gui.widgets; rw [s1]; exact hw, hr, ?_, ?_, ?_⟩
    · intro r hrm
      have hrm' : r ∈ gui.elementsUnderPointer := hrm
      rcases s2 with s2 | s2
      · rw [s2] at hrm'; exact hn.1 r hrm'
      · rw [s2] at hrm'; exact hov r hrm'
    · intro r hrm
      rcases s3 r hrm with h1 | ⟨info, hinfo, he⟩
      · exact hn.2.1 r h1
      · rw [he]; exact hov info hinfo
    · intro r hrm
      rcases s4 r hrm with h1 | ⟨info, hinfo, he⟩
      · exact hn.2.2 r h1
      · rw [he]; exact hov info hinfo
  | update tooltipDue caretDue =>
    simp only [applyCall] at h
    obtain ⟨u1, u2, u3, u4, u5⟩ := update_step w fuel tooltipDue caretDue st st' h
    refine ⟨by rw [u1]; exact hw, u4, fun r hrm => hn.1 r (u2.subset hrm),
      fun r hrm => hn.2.1 r (u3.subset hrm), fun r hrm => hn.2.2 r ((u5 hr).1.subset hrm)⟩

theorem applyCalls_noRecordOf (w : World) (fuel : Nat) (x : Nat) (hx : x ≠ 0)
    (calls : List ManagerCall) :
    ∀ st st' : FrameState, (∀ c ∈ calls, c ≠ ManagerCall.registerWidget x) →
      applyCalls w fuel st calls = some st' →
      x ∉ st.gui.widgets ∧ st.forcedFocusElements = [] ∧ NoRecordOf x st.gui →
      x ∉ st'.gui.widgets ∧ st'.forcedFocusElements = [] ∧ NoRecordOf x st'.gui := by
  induction calls with
  | nil =>
    intro st st' _ h hi
    simp only [applyCalls, Option.some.injEq] at h
    rw [← h]; exact hi
  | cons c rest ih =>
    intro st st' hc h hi
    unfold applyCalls at h
    cases h1 : applyCall w fuel st c with
    | none => rw [h1] at h; cases h
    | some st1 =>
      rw [h1] at h
      exact ih st1 st' (fun c' hc' => hc c' (List.mem_cons_of_mem _ hc')) h
        (applyCall_noRecordOf w fuel x st st1 c hx (hc c (List.mem_cons_self _ _)) h1 hi)

theorem applyCall_hoverInv (w : World) (fuel : Nat) (st st' : FrameState) (c : ManagerCall)
    (ho : OwnsElements w) (hreg : ∀ x, c = ManagerCall.registerWidget x → x ∉ st.gui.widgets)
    (h : applyCall w fuel st c = some st') (hi : HoverInv st) : HoverInv st' := by
  obtain ⟨hw, hu⟩ := hi
  cases c with
  | registerWidget y =>
    simp only [applyCall, Option.some.injEq] at h
    rw [← h]
    constructor
    · rw [registerWidget_widgets]
      split_ifs
      · exact hw
      · rw [List.nodup_append]
        refine ⟨hw, List.nodup_singleton y, ?_⟩
        intro a ha hb
        rw [List.mem_singleton] at hb
        exact hreg y rfl (hb ▸ ha)
    · rw [(registerWidget_gui w y st).1]
      exact hu
  | unregisterWidget y =>
    simp only [applyCall, Option.some.injEq] at h
    rw [← h]
    constructor
    · rw [unregisterWidget_widgets]
      exact hw.erase y
    · rw [(unregisterWidget_elements w y st).1]
      exact hu
  | pointer input =>
    obtain ⟨gui, hh, rfl⟩ := applyCall_pointer w fuel st st' input h
    obtain ⟨s1, s2, -, -⟩ := handleInput_sets (st.world w) st.gui gui input hh
    constructor
    · show gui.widgets.Nodup
      rw [s1]; exact hw
    · show (gui.elementsUnderPointer.map fun info => info.element).Nodup
      rcases s2 with s2 | s2
      · rw [s2]; exact hu
      · rw [s2]
        exact hoveredList_nodup (st.world w) st.gui input.event hw ho
  | update tooltipDue caretDue =>
    simp only [applyCall] at h
    obtain ⟨u1, u2, -⟩ := update_step w fuel tooltipDue caretDue st st' h
    exact ⟨by rw [u1]; exact hw, (u2.map _).nodup hu⟩

theorem applyCalls_hoverInv (w : World) (fuel : Nat) (ho : OwnsElements w)
    (calls : List ManagerCall) :
    ∀ st st' : FrameState,
      (∀ pre x post stp, calls = pre ++ ManagerCall.registerWidget x :: post →
        applyCalls w fuel st pre = some stp → x ∉ stp.gui.widgets) →
      applyCalls w fuel st calls = some st' → HoverInv st → HoverInv st' := by
  induction calls with
  | nil =>
    intro st st' _ h hi
    simp only [applyCalls, Option.some.injEq] at h
    rw [← h]; exact hi
  | cons c rest ih =>
    intro st st' hreg h hi
    unfold applyCalls at h
    cases h1 : applyCall w fuel st c with
    | none => rw [h1] at h; cases h
    | some st1 =>
      rw [h1] at h
      refine ih st1 st' ?_ h (applyCall_hoverInv w fuel st st1 c ho ?_ h1 hi)
      · intro pre x post stp hsplit hpre
        refine hreg (c :: pre) x post stp (by rw [hsplit]; rfl) ?_
        unfold applyCalls
        rw [h1]
        exact hpre
      · intro x hcx
        exact hreg [] x rest st (by rw [hcx]; rfl) rfl

theorem exampleRegisterWorld_owns : OwnsElements exampleRegisterWorld := by
  constructor
  · intro widget
    show (if widget = 1 then [1, 2, 3] else ([] : List Nat)).Nodup
    split_ifs
    · decide
    · exact List.nodup_nil
  · intro widget e he
    have he' : e ∈ (if widget = 1 then [1, 2, 3] else ([] : List Nat)) := he
    split_ifs at he' with h1
    · exact h1.symm
    · cases he'

theorem exampleCalls_registerOnce :
    ∀ pre x post stp,
      [ManagerCall.registerWidget 1, ManagerCall.pointer (PointerInput.moved (moveTo 0 0))] =
        pre ++ ManagerCall.registerWidget x :: post →
      applyCalls exampleRegisterWorld 1 {} pre = some stp → x ∉ stp.gui.widgets := by
  intro pre x post stp hs hp
  cases pre with
  | nil =>
    simp only [applyCalls, Option.some.injEq] at hp
    rw [← hp]
    exact List.not_mem_nil x
  | cons c pre1 =>
    exfalso
    cases pre1 with
    | nil =>
      simp only [List.cons_append, List.nil_append, List.cons.injEq] at hs
      cases hs.2.1
    | cons c2 pre2 =>
      simp only [List.cons_append, List.cons.injEq] at hs
      have := hs.2.2
      cases pre2 <;> cases this

/-! ## Lemmas on drags and hover events -/

theorem sendAll_events (w : World) (evs : List (Nat × GUIMouseEventData)) :
    ∀ s : GUIManager, ∃ m : GUIMouseEvent,
      (sendAll w evs s).1 =
        { s with
          mouseEvent := m
          sent := s.sent ++ (evs.filter fun p => !w.isDestroyed p.1).map fun p =>
            { element := p.1, event := GUIEvent.mouse { s.mouseEvent with data := p.2 } } } ∧
      ∀ d, ({ m with data := d } : GUIMouseEvent) = { s.mouseEvent with data := d } := by
  induction evs with
  | nil => intro s; exact ⟨s.mouseEvent, by simp [sendAll], fun d => rfl⟩
  | cons p rest ih =>
    intro s
    obtain ⟨element, data⟩ := p
    unfold sendAll
    simp only
    by_cases hd : w.isDestroyed element = true
    · have h1 : sendMouseEvent w { s with mouseEvent := { s.mouseEvent with data := data } }
          element { s.mouseEvent with data := data } =
          ({ s with mouseEvent := { s.mouseEvent with data := data } }, false) := by
        unfold sendMouseEvent; rw [if_pos hd]
      rw [h1]
      obtain ⟨m, hm, hb⟩ := ih { s with mouseEvent := { s.mouseEvent with data := data } }
      refine ⟨m, ?_, fun d => (hb d).trans rfl⟩
      rw [hm]
      simp [hd]
    · have h1 : (sendMouseEvent w { s with mouseEvent := { s.mouseEvent with data := data } }
          element { s.mouseEvent with data := data }).1 =
          { s with
            mouseEvent := { s.mouseEvent with data := data }
            sent := s.sent ++
              [{ element := element,
                 event := GUIEvent.mouse { s.mouseEvent with data := data } }] } := by
        unfold sendMouseEvent; rw [if_neg hd]
      rw [h1]
      obtain ⟨m, hm, hb⟩ := ih
        { s with
          mouseEvent := { s.mouseEvent with data := data }
          sent := s.sent ++
            [{ element := element,
               event := GUIEvent.mouse { s.mouseEvent with data := data } }] }
      refine ⟨m, ?_, fun d => (hb d).trans rfl⟩
      rw [hm]
      simp [hd]

theorem consumesDragged_congr (w : World) (m m' : GUIMouseEvent) (screenPos : Vector2I)
    (h : ∀ d, ({ m with data := d } : GUIMouseEvent) = { m' with data := d }) :
    consumesDragged w m screenPos = consumesDragged w m' screenPos := by
  funext info
  unfold consumesDragged consumesData
  simp only
  rw [h]

theorem getLast?_cons_eq {α : Type} (x : α) (l : List α) :
    (x :: l).getLast? = match l.getLast? with
      | none => some x
      | some y => some y := by
  cases l with
  | nil => rfl
  | cons y ys =>
    rw [List.getLast?_cons_cons]
    cases h : (y :: ys).getLast? with
    | none => simp at h
    | some z => rfl

theorem dragAndDropLoop_accept (w : World) (screenPos : Vector2I)
    (l : List ElementInfoUnderPointer) :
    ∀ (s : GUIManager) (acceptDrop : Bool),
      (dragAndDropLoop w screenPos l s acceptDrop).2.1 =
        match (takeThrough (consumesDragged w s.mouseEvent screenPos) l).getLast? with
        | none => acceptDrop
        | some info => acceptsDragged w screenPos info := by
  induction l with
  | nil => intro s a; rfl
  | cons info rest ih =>
    intro s a
    obtain ⟨r, hr⟩ : ∃ r : GUIManager × Bool, r = sendMouseEvent w
        { s with mouseEvent := { s.mouseEvent with
            data := GUIMouseEventData.DragAndDropDragged
              (getWidgetRelativePos w info.widget screenPos) } }
        info.element
        { s.mouseEvent with
            data := GUIMouseEventData.DragAndDropDragged
              (getWidgetRelativePos w info.widget screenPos) } := ⟨_, rfl⟩
    have hgoal : dragAndDropLoop w screenPos (info :: rest) s a =
        if acceptsDragged w screenPos info = true then
          (if r.2 = true then (r.1, acceptsDragged w screenPos info, true)
            else dragAndDropLoop w screenPos rest r.1 (acceptsDragged w screenPos info))
        else dragAndDropLoop w screenPos rest s (acceptsDragged w screenPos info) := by
      rw [hr]
      rfl
    have hr2 : r.2 = consumesData w s.mouseEvent
        (info.element,
          GUIMouseEventData.DragAndDropDragged
            (getWidgetRelativePos w info.widget screenPos)) := by
      rw [hr, sendMouseEvent_consumed]
      rfl
    have hbase : consumesDragged w r.1.mouseEvent screenPos =
        consumesDragged w s.mouseEvent screenPos := by
      apply consumesDragged_congr
      intro d
      rw [hr]
      unfold sendMouseEvent
      split_ifs <;> rfl
    rw [hgoal]
    unfold takeThrough
    by_cases hacc : acceptsDragged w screenPos info = true
    · rw [if_pos hacc]
      by_cases hc : r.2 = true
      · rw [if_pos hc]
        have : consumesDragged w s.mouseEvent screenPos info = true := by
          unfold consumesDragged
          rw [hacc, ← hr2, hc]
          rfl
        rw [if_pos this]
        rfl
      · rw [if_neg hc]
        have : ¬ consumesDragged w s.mouseEvent screenPos info = true := by
          unfold consumesDragged
          rw [← hr2]
          simp [hc]
        rw [if_neg this, ih, hbase, getLast?_cons_eq]
        cases (takeThrough (consumesDragged w s.mouseEvent screenPos) rest).getLast? <;> rfl
    · rw [if_neg hacc]
      have : ¬ consumesDragged w s.mouseEvent screenPos info = true := by
        unfold consumesDragged
        simp [hacc]
      rw [if_neg this, ih, getLast?_cons_eq]
      cases (takeThrough (consumesDragged w s.mouseEvent screenPos) rest).getLast? <;> rfl

theorem tags_of_sigs (w : World) (evs : List (Nat × GUIMouseEventData)) (t : EventTag)
    (extra : List SentEvent) (h : extra.map SentEvent.sig = deliveredSigs w evs)
    (ht : ∀ p ∈ evs, p.2.tag = t) : ∀ e ∈ extra, e.event.tag = t := by
  intro e he
  have : e.sig ∈ deliveredSigs w evs := by
    rw [← h]; exact List.mem_map.mpr ⟨e, he, rfl⟩
  unfold deliveredSigs at this
  obtain ⟨p, hp, hpe⟩ := List.mem_map.mp this
  have h2 : e.event.tag = p.2.tag := (congrArg Prod.snd hpe).symm
  rw [h2]
  exact ht p (List.mem_of_mem_filter hp)

theorem onPointerMoved_dragging (w : World) (s : GUIManager) (event : PointerEvent)
    (hu : event.used = false)
    (hdrag : s.dragState = DragState.Dragging ∨ startsDrag s event) :
    ∃ (base : GUIMouseEvent) (eHit eStart eDnd : List SentEvent),
      (onPointerMoved w s event).1.sent =
        s.sent ++ (eHit ++ eStart ++
          (if s.lastPointerScreenPos ≠ event.screenPos then
            dragEvents w base s.activeElements event.screenPos
              (if startsDrag s event then event.screenPos else s.dragStartPos)
          else []) ++ eDnd) ∧
      (∀ e ∈ eHit, e.event.tag = EventTag.mouseOver ∨ e.event.tag = EventTag.dragAndDropLeft ∨
        e.event.tag = EventTag.mouseOut) ∧
      (∀ e ∈ eStart, e.event.tag = EventTag.mouseDragStart) ∧
      (∀ e ∈ eDnd, e.event.tag = EventTag.dragAndDropDragged) ∧
      (w.isDragInProgress = true →
        (onPointerMoved w s event).1.activeCursor =
          if lastAccepts w base event.screenPos (hoveredList w s event) then
            CursorType.ArrowDrag
          else CursorType.Deny) := by
  obtain ⟨m0, eHit, tip, hH, tHit⟩ := afterHitTest_eq w s event
  obtain ⟨H, hHdef⟩ : ∃ H : GUIManager, H = afterHitTest w s event := ⟨_, rfl⟩
  rw [← hHdef] at hH
  have hstartsIff : startsDrag H event ↔ startsDrag s event := by
    rw [hH]; rfl
  have htargets : dragStartTargets w H event = dragStartTargets w s event := by
    rw [hH]; rfl
  have hstart : ∃ (m : GUIMouseEvent) (eStart : List SentEvent),
      (dragStartStep w H event).1 =
        { s with
          elementsUnderPointer := hoveredList w s event
          showTooltip := tip
          mouseEvent := m
          sent := s.sent ++ (eHit ++ eStart)
          dragState := DragState.Dragging
          dragStartPos := if startsDrag s event then event.screenPos else s.dragStartPos } ∧
      ∀ e ∈ eStart, e.event.tag = EventTag.mouseDragStart := by
    by_cases hst : startsDrag s event
    · obtain ⟨m, eStart, h1, h2⟩ := dragStartStep_starts w H event (hstartsIff.2 hst)
      refine ⟨m, eStart, ?_, ?_⟩
      · rw [h1, hH]
        simp [hst, List.append_assoc]
      · exact tags_of_sigs w _ _ _ h2 (dragStartTargets_tag w H event)
    · have hd : s.dragState = DragState.Dragging := by
        rcases hdrag with h | h
        · exact h
        · exact absurd h hst
      refine ⟨m0, [], ?_, by simp⟩
      rw [dragStartStep_idle w H event (fun h => hst (hstartsIff.1 h)), hH]
      simp [hst, hd]
  obtain ⟨m1, eStart, hS, tStart⟩ := hstart
  obtain ⟨S, hSdef⟩ : ∃ S : GUIManager, S = (dragStartStep w H event).1 := ⟨_, rfl⟩
  rw [← hSdef] at hS
  have hSdrag : S.dragState = DragState.Dragging := by rw [hS]
  have hfinal : (onPointerMoved w s event).1 = (draggingStep w S event).1 := by
    have : (onPointerMoved w s event).1 =
        (if S.dragState = DragState.Dragging then draggingStep w S event
          else hoverStep w S event).1 := by
      rw [hSdef, hHdef]
      unfold onPointerMoved
      rw [if_neg (by simp [hu])]
      rfl
    rw [this, if_pos hSdrag]
  -- the drag events
  obtain ⟨drag, hdrag'⟩ : ∃ drag : GUIManager × Bool, drag =
      (if S.lastPointerScreenPos ≠ event.screenPos then
        sendAll w
          (S.activeElements.map fun activeElement =>
            (activeElement.element,
              GUIMouseEventData.MouseDrag
                (getWidgetRelativePos w activeElement.widget event.screenPos)
                (event.screenPos.sub S.dragStartPos))) S
      else (S, false)) := ⟨_, rfl⟩
  have hdragState : ∃ m2 : GUIMouseEvent,
      drag.1 =
        { S with
          mouseEvent := m2
          sent := S.sent ++
            (if s.lastPointerScreenPos ≠ event.screenPos then
              dragEvents w m1 s.activeElements event.screenPos
                (if startsDrag s event then event.screenPos else s.dragStartPos)
            else []) } ∧
      ∀ d, ({ m2 with data := d } : GUIMouseEvent) = { m1 with data := d } := by
    have hlast : S.lastPointerScreenPos = s.lastPointerScreenPos := by rw [hS]
    rw [hdrag']
    by_cases hne : s.lastPointerScreenPos ≠ event.screenPos
    · rw [if_pos (show S.lastPointerScreenPos ≠ event.screenPos by rw [hlast]; exact hne),
        if_pos hne]
      obtain ⟨m2, h1, h2⟩ := sendAll_events w
        (S.activeElements.map fun activeElement =>
          (activeElement.element,
            GUIMouseEventData.MouseDrag
              (getWidgetRelativePos w activeElement.widget event.screenPos)
              (event.screenPos.sub S.dragStartPos))) S
      refine ⟨m2, ?_, fun d => (h2 d).trans (by rw [hS])⟩
      rw [h1]
      congr 2
      rw [hS]
      simp only [dragEvents, List.filter_map, List.map_map]
      rfl
    · rw [if_neg (show ¬ S.lastPointerScreenPos ≠ event.screenPos by rw [hlast]; exact hne),
        if_neg hne]
      refine ⟨S.mouseEvent, by simp, fun d => by rw [hS]⟩
  obtain ⟨m2, hD, hbase⟩ := hdragState
  obtain ⟨S1, hS1⟩ : ∃ S1 : GUIManager,
      S1 = { drag.1 with lastPointerScreenPos := event.screenPos } := ⟨_, rfl⟩
  have hstep : draggingStep w S event =
      if w.isDragInProgress = true then
        ({ (dragAndDropLoop w event.screenPos S1.elementsUnderPointer S1 true).1 with
            activeCursor :=
              if (dragAndDropLoop w event.screenPos S1.elementsUnderPointer S1 true).2.1 = true
              then CursorType.ArrowDrag else CursorType.Deny },
          drag.2 || (dragAndDropLoop w event.screenPos S1.elementsUnderPointer S1 true).2.2)
      else (S1, drag.2) := by
    rw [hS1, hdrag']
    rfl
  have hS1sent : S1.sent = s.sent ++ (eHit ++ eStart ++
      (if s.lastPointerScreenPos ≠ event.screenPos then
        dragEvents w m1 s.activeElements event.screenPos
          (if startsDrag s event then event.screenPos else s.dragStartPos)
      else [])) := by
    rw [hS1, hD, hS]
    simp [List.append_assoc]
  have hS1hov : S1.elementsUnderPointer = hoveredList w s event := by
    rw [hS1, hD, hS]
  have hS1base : consumesDragged w S1.mouseEvent event.screenPos =
      consumesDragged w m1 event.screenPos := by
    apply consumesDragged_congr
    intro d
    rw [hS1, hD]
    exact hbase d
  rw [hfinal, hstep]
  by_cases hprog : w.isDragInProgress = true
  · rw [if_pos hprog]
    obtain ⟨e2, hd2, t2⟩ := dragAndDropLoop_delivers w event.screenPos
      S1.elementsUnderPointer S1 true
    refine ⟨m1, eHit, eStart, e2, ?_, tHit, tStart, t2, fun _ => ?_⟩
    · show (dragAndDropLoop w event.screenPos S1.elementsUnderPointer S1 true).1.sent = _
      rw [hd2.sent, hS1sent, List.append_assoc]
    · show (if (dragAndDropLoop w event.screenPos S1.elementsUnderPointer S1 true).2.1 = true
          then CursorType.ArrowDrag else CursorType.Deny) = _
      rw [dragAndDropLoop_accept, hS1base, hS1hov]
      rfl
  · rw [if_neg hprog]
    refine ⟨m1, eHit, eStart, [], ?_, tHit, tStart, by simp, fun h => absurd h hprog⟩
    rw [hS1sent, List.append_nil]

theorem getLast?_takeThrough_mem {α : Type} (p : α → Bool) (l : List α) (x : α)
    (h : (takeThrough p l).getLast? = some x) : x ∈ l :=
  (takeThrough_sublist p l).subset (List.mem_of_getLast?_eq_some h)

theorem getLast?_takeThrough_of_exists {α : Type} (p : α → Bool) (l : List α)
    (h : ∃ x ∈ l, p x = true) :
    ∃ y, (takeThrough p l).getLast? = some y ∧ p y = true := by
  induction l with
  | nil => obtain ⟨x, hx, -⟩ := h; cases hx
  | cons a rest ih =>
    unfold takeThrough
    by_cases ha : p a = true
    · rw [if_pos ha]
      exact ⟨a, rfl, ha⟩
    · rw [if_neg ha]
      obtain ⟨x, hx, hp⟩ := h
      rcases List.mem_cons.mp hx with hx | hx
      · rw [hx] at hp; exact absurd hp ha
      · obtain ⟨y, hy, hpy⟩ := ih ⟨x, hx, hp⟩
        refine ⟨y, ?_, hpy⟩
        rw [getLast?_cons_eq, hy]

theorem lastAccepts_cases (w : World) (base : GUIMouseEvent) (screenPos : Vector2I)
    (l : List ElementInfoUnderPointer) :
    (l = [] → lastAccepts w base screenPos l = true) ∧
    ((∀ info ∈ l, acceptsDragged w screenPos info = true) →
      lastAccepts w base screenPos l = true) ∧
    (l ≠ [] → (∀ info ∈ l, acceptsDragged w screenPos info = false) →
      lastAccepts w base screenPos l = false) ∧
    ((∃ info ∈ l, consumesDragged w base screenPos info = true) →
      lastAccepts w base screenPos l = true) := by
  refine ⟨?_, ?_, ?_, ?_⟩
  · intro h; rw [h]; rfl
  · intro h
    unfold lastAccepts
    cases hl : (takeThrough (consumesDragged w base screenPos) l).getLast? with
    | none => rfl
    | some x => exact h x (getLast?_takeThrough_mem _ _ _ hl)
  · intro hne h
    unfold lastAccepts
    cases hl : (takeThrough (consumesDragged w base screenPos) l).getLast? with
    | none =>
      rw [List.getLast?_eq_none_iff] at hl
      exact absurd hl (takeThrough_ne_nil _ hne)
    | some x => exact h x (getLast?_takeThrough_mem _ _ _ hl)
  · intro h
    obtain ⟨y, hy, hpy⟩ := getLast?_takeThrough_of_exists _ l h
    unfold lastAccepts
    rw [hy]
    unfold consumesDragged at hpy
    simp only [Bool.and_eq_true] at hpy
    exact hpy.1

theorem filter_tag_eq_nil (t : EventTag) (l : List SentEvent)
    (h : ∀ e ∈ l, e.event.tag ≠ t) : (l.filter fun e => decide (e.event.tag = t)) = [] := by
  rw [List.filter_eq_nil_iff]
  intro e he
  simpa using h e he

theorem filter_tag_eq_self (t : EventTag) (l : List SentEvent)
    (h : ∀ e ∈ l, e.event.tag = t) : (l.filter fun e => decide (e.event.tag = t)) = l := by
  rw [List.filter_eq_self]
  intro e he
  simpa using h e he

theorem dragEvents_tag (w : World) (base : GUIMouseEvent) (active : List ElementInfo)
    (p d : Vector2I) : ∀ e ∈ dragEvents w base active p d, e.event.tag = EventTag.mouseDrag := by
  intro e he
  unfold dragEvents at he
  obtain ⟨a, -, rfl⟩ := List.mem_map.mp he
  rfl

theorem handleInput_dragStartPos (w : World) (s s' : GUIManager) (input : PointerInput)
    (h : handleInput w s input = Except.ok s') :
    (input.entersDrag s → s'.dragStartPos = input.event.screenPos) ∧
    (¬ input.entersDrag s → s'.dragStartPos = s.dragStartPos) ∧
    (s'.dragState = DragState.Dragging →
      s.dragState = DragState.Dragging ∨ input.entersDrag s) := by
  have hother : (∀ event, input ≠ PointerInput.moved event) →
      s'.dragStartPos = s.dragStartPos →
      (s'.dragState = DragState.Dragging → s.dragState = DragState.Dragging) →
      (input.entersDrag s → s'.dragStartPos = input.event.screenPos) ∧
      (¬ input.entersDrag s → s'.dragStartPos = s.dragStartPos) ∧
      (s'.dragState = DragState.Dragging →
        s.dragState = DragState.Dragging ∨ input.entersDrag s) := by
    intro hne hpos hst
    refine ⟨?_, fun _ => hpos, fun hd => Or.inl (hst hd)⟩
    rintro ⟨event, he, -, -⟩
    exact absurd he (hne event)
  cases input with
  | moved event =>
    simp only [handleInput, Except.ok.injEq] at h
    by_cases hu : event.used = true
    · have : s' = s := by rw [← h]; unfold onPointerMoved; rw [if_pos hu]
      rw [this]
      refine ⟨?_, fun _ => rfl, fun hd => Or.inl hd⟩
      rintro ⟨ev, he, hev, -⟩
      cases he
      rw [hu] at hev
      cases hev
    · have hu' : event.used = false := by simpa using hu
      have o := onPointerMoved_spec w s event hu'
      rw [h] at o
      refine ⟨?_, ?_, ?_⟩
      · rintro ⟨ev, he, -, hst⟩
        cases he
        rw [o.dragStartPos_eq, if_pos hst]
        rfl
      · intro hn
        have hst : ¬ startsDrag s event := fun hst => hn ⟨event, rfl, hu', hst⟩
        rw [o.dragStartPos_eq, if_neg hst]
      · intro hd
        rw [o.dragState_eq] at hd
        by_cases hst : startsDrag s event
        · exact Or.inr ⟨event, rfl, hu', hst⟩
        · rw [if_neg hst] at hd; exact Or.inl hd
  | pressed event =>
    apply hother (fun ev he => by cases he)
    all_goals simp only [handleInput] at h
    all_goals by_cases hu : event.used = true
    · have : s' = s := by
        unfold onPointerPressed at h
        rw [if_pos hu] at h
        cases h
        rfl
      rw [this]
    · cases hb : buttonToGUIButton event.button with
      | error e =>
        exfalso
        unfold onPointerPressed at h
        rw [if_neg hu] at h
        simp only [hb] at h
        cases h
      | ok guiButton =>
        obtain ⟨s'', used, hp, o⟩ := onPointerPressed_spec w s event guiButton (by simpa using hu) hb
        rw [hp] at h
        cases h
        exact o.dragStartPos_eq
    · have : s' = s := by
        unfold onPointerPressed at h
        rw [if_pos hu] at h
        cases h
        rfl
      rw [this]; exact id
    · cases hb : buttonToGUIButton event.button with
      | error e =>
        exfalso
        unfold onPointerPressed at h
        rw [if_neg hu] at h
        simp only [hb] at h
        cases h
      | ok guiButton =>
        obtain ⟨s'', used, hp, o⟩ := onPointerPressed_spec w s event guiButton (by simpa using hu) hb
        rw [hp] at h
        cases h
        intro hd
        rw [o.dragState_eq] at hd
        split_ifs at hd
        exact hd
  | released event =>
    apply hother (fun ev he => by cases he)
    all_goals simp only [handleInput] at h
    all_goals by_cases hu : event.used = true
    · have : s' = s := by
        unfold onPointerReleased at h
        rw [if_pos hu] at h
        cases h
        rfl
      rw [this]
    · cases hb : buttonToGUIButton event.button with
      | error e =>
        exfalso
        unfold onPointerReleased at h
        rw [if_neg hu] at h
        simp only [hb] at h
        cases h
      | ok guiButton =>
        obtain ⟨s'', used, hp, o⟩ := onPointerReleased_spec w s event guiButton (by simpa using hu) hb
        rw [hp] at h
        cases h
        exact o.dragStartPos_eq
    · have : s' = s := by
        unfold onPointerReleased at h
        rw [if_pos hu] at h
        cases h
        rfl
      rw [this]; exact id
    · cases hb : buttonToGUIButton event.button with
      | error e =>
        exfalso
        unfold onPointerReleased at h
        rw [if_neg hu] at h
        simp only [hb] at h
        cases h
      | ok guiButton =>
        obtain ⟨s'', used, hp, o⟩ := onPointerReleased_spec w s event guiButton (by simpa using hu) hb
        rw [hp] at h
        cases h
        intro hd
        rw [o.dragState_eq] at hd
        split_ifs at hd
        exact hd
  | doubleClicked event =>
    have hs : s'.dragStartPos = s.dragStartPos ∧ s'.dragState = s.dragState := by
      simp only [handleInput] at h
      by_cases hu : event.used = true
      · have : s' = s := by
          unfold onPointerDoubleClick at h
          rw [if_pos hu] at h
          cases h
          rfl
        rw [this]; exact ⟨rfl, rfl⟩
      · cases hb : buttonToGUIButton event.button with
        | error e =>
          exfalso
          unfold onPointerDoubleClick at h
          rw [if_neg hu] at h
          simp only [hb] at h
          cases h
        | ok guiButton =>
          obtain ⟨s'', used, m, tip, extra, hp, hs, -⟩ :=
            onPointerDoubleClick_spec w s event guiButton (by simpa using hu) hb
          rw [hp] at h
          cases h
          rw [hs]
          exact ⟨rfl, rfl⟩
    exact hother (fun ev he => by cases he) hs.1 (fun hd => by rw [← hs.2]; exact hd)

theorem handleInput_dragInv (w : World) (s s' : GUIManager) (input : PointerInput)
    (h : handleInput w s input = Except.ok s') (hi : DragInv s) : DragInv s' := by
  cases input with
  | moved event =>
    simp only [handleInput, Except.ok.injEq] at h
    by_cases hu : event.used = true
    · have : s' = s := by rw [← h]; unfold onPointerMoved; rw [if_pos hu]
      rw [this]; exact hi
    · have o := onPointerMoved_spec w s event (by simpa using hu)
      rw [h] at o
      intro hd
      rw [o.active_eq, o.button_eq]
      apply hi
      rw [o.dragState_eq] at hd
      split_ifs at hd with hst
      · exact Or.inl hst.1
      · exact hd
  | pressed event =>
    simp only [handleInput] at h
    by_cases hu : event.used = true
    · have : s' = s := by
        unfold onPointerPressed at h
        rw [if_pos hu] at h
        cases h
        rfl
      rw [this]; exact hi
    · cases hb : buttonToGUIButton event.button with
      | error e =>
        exfalso
        unfold onPointerPressed at h
        rw [if_neg hu] at h
        simp only [hb] at h
        cases h
      | ok guiButton =>
        obtain ⟨s'', used, hp, o⟩ := onPointerPressed_spec w s event guiButton (by simpa using hu) hb
        rw [hp] at h
        cases h
        intro hd
        rw [o.active_eq, o.button_eq]
        rw [o.dragState_eq] at hd
        by_cases ha : s.activeElements = []
        · by_cases hc : hoveredList w s event ≠ [] ∧ guiButton = GUIMouseButton.Left
          · rw [if_pos ha, if_pos ⟨ha, hc.1⟩]
            refine ⟨?_, hc.2⟩
            intro hnil
            exact takeThrough_ne_nil _ hc.1 (List.map_eq_nil_iff.mp hnil)
          · rw [if_neg (fun x => hc x.2)] at hd
            exact absurd ha (hi hd).1
        · rw [if_neg (fun x => ha x.1)] at hd
          rw [if_neg ha, if_neg (fun x => ha x.1)]
          exact hi hd
  | released event =>
    simp only [handleInput] at h
    by_cases hu : event.used = true
    · have : s' = s := by
        unfold onPointerReleased at h
        rw [if_pos hu] at h
        cases h
        rfl
      rw [this]; exact hi
    · cases hb : buttonToGUIButton event.button with
      | error e =>
        exfalso
        unfold onPointerReleased at h
        rw [if_neg hu] at h
        simp only [hb] at h
        cases h
      | ok guiButton =>
        obtain ⟨s'', used, hp, o⟩ := onPointerReleased_spec w s event guiButton (by simpa using hu) hb
        rw [hp] at h
        cases h
        intro hd
        rw [o.dragState_eq] at hd
        by_cases he : endsDrag s guiButton
        · rw [if_pos he] at hd
          rcases hd with hd | hd <;> cases hd
        · rw [if_neg he] at hd
          obtain ⟨h1, h2⟩ := hi hd
          have hne : ¬ s.activeMouseButton = guiButton := by
            intro hbtn
            apply he
            refine ⟨hd.symm, hbtn, ?_⟩
            rw [← hbtn]; exact h2
          rw [o.active_eq, o.button_eq, if_neg hne, if_neg hne]
          exact ⟨h1, h2⟩
  | doubleClicked event =>
    simp only [handleInput] at h
    by_cases hu : event.used = true
    · have : s' = s := by
        unfold onPointerDoubleClick at h
        rw [if_pos hu] at h
        cases h
        rfl
      rw [this]; exact hi
    · cases hb : buttonToGUIButton event.button with
      | error e =>
        exfalso
        unfold onPointerDoubleClick at h
        rw [if_neg hu] at h
        simp only [hb] at h
        cases h
      | ok guiButton =>
        obtain ⟨s'', used, m, tip, extra, hp, hs, -⟩ :=
          onPointerDoubleClick_spec w s event guiButton (by simpa using hu) hb
        rw [hp] at h
        cases h
        rw [hs]
        exact hi

theorem handleInputs_dragInv (w : World) (inputs : List PointerInput) :
    ∀ s s' : GUIManager, handleInputs w s inputs = Except.ok s' → DragInv s → DragInv s' := by
  induction inputs with
  | nil =>
    intro s s' h hi
    simp only [handleInputs, Except.ok.injEq] at h
    rw [← h]; exact hi
  | cons input rest ih =>
    intro s s' h hi
    unfold handleInputs at h
    cases h1 : handleInput w s input with
    | error e => rw [h1] at h; cases h
    | ok s1 =>
      rw [h1] at h
      exact ih s1 s' h (handleInput_dragInv w s s1 input h1 hi)

theorem alternatesFrom_eq_isSome (b : Bool) (l : List EventTag) :
    alternatesFrom b l = (expectsAfter b l).isSome := by
  induction l generalizing b with
  | nil => cases b <;> rfl
  | cons t rest ih =>
    cases b
    · simp only [alternatesFrom, expectsAfter]
      by_cases h : t = EventTag.mouseOut
      · simp [h, ih]
      · simp [h]
    · simp only [alternatesFrom, expectsAfter]
      by_cases h : t = EventTag.mouseOver
      · simp [h, ih]
      · simp [h]

theorem expectsAfter_append (b : Bool) (l m : List EventTag) :
    expectsAfter b (l ++ m) = (expectsAfter b l).bind fun c => expectsAfter c m := by
  induction l generalizing b with
  | nil => cases b <;> rfl
  | cons t rest ih =>
    cases b
    · simp only [List.cons_append, expectsAfter]
      split_ifs
      · exact ih true
      · rfl
    · simp only [List.cons_append, expectsAfter]
      split_ifs
      · exact ih false
      · rfl

theorem overOutTags_append (element : Nat) (a b : List SentEvent) :
    overOutTags element (a ++ b) = overOutTags element a ++ overOutTags element b := by
  simp [overOutTags]

theorem overOutTags_of_tags (element : Nat) (l : List SentEvent)
    (h : ∀ e ∈ l, e.event.tag ≠ EventTag.mouseOver ∧ e.event.tag ≠ EventTag.mouseOut) :
    overOutTags element l = [] := by
  unfold overOutTags
  rw [List.map_eq_nil_iff, List.filter_eq_nil_iff]
  intro p hp
  obtain ⟨e, he, rfl⟩ := List.mem_map.mp hp
  have := h e he
  simp [SentEvent.sig, this.1, this.2]

/-- The over/out kinds of a run of events of one kind `t` sent to the records of `l` that
satisfy `p`, for a list without repeated elements. -/
theorem overOutTags_of_sigs (element : Nat) (t : EventTag)
    (ht : t = EventTag.mouseOver ∨ t = EventTag.mouseOut)
    (l : List ElementInfoUnderPointer) (p : ElementInfoUnderPointer → Bool)
    (extra : List SentEvent)
    (hn : (l.map fun r => r.element).Nodup)
    (h : extra.map SentEvent.sig = (l.filter p).map fun r => (r.element, t)) :
    overOutTags element extra =
      if ∃ r ∈ l, r.element = element ∧ p r = true then [t] else [] := by
  unfold overOutTags
  rw [h]
  clear h
  induction l with
  | nil => simp
  | cons c rest ih =>
    have hn2 : (rest.map fun r => r.element).Nodup := (List.nodup_cons.mp hn).2
    have hc : c.element ∉ rest.map fun r => r.element := (List.nodup_cons.mp hn).1
    have ih2 := ih hn2
    by_cases hp : p c = true
    · rw [List.filter_cons, if_pos hp, List.map_cons, List.filter_cons]
      by_cases he : c.element = element
      · have hno : ¬ ∃ r ∈ rest, r.element = element ∧ p r = true := by
          rintro ⟨r, hr, hre, -⟩
          exact hc (List.mem_map.mpr ⟨r, hr, hre.trans he.symm⟩)
        rw [if_neg hno] at ih2
        have hcond : (c.element == element &&
            (t == EventTag.mouseOver || t == EventTag.mouseOut)) = true := by
          rcases ht with ht | ht <;> simp [he, ht]
        rw [if_pos hcond, List.map_cons, ih2,
          if_pos ⟨c, List.mem_cons_self _ _, he, hp⟩]
      · have hcond : ¬ (c.element == element &&
            (t == EventTag.mouseOver || t == EventTag.mouseOut)) = true := by
          simp [he]
        rw [if_neg hcond, ih2]
        apply if_congr _ rfl rfl
        constructor
        · rintro ⟨r, hr, h1, h2⟩
          exact ⟨r, List.mem_cons_of_mem _ hr, h1, h2⟩
        · rintro ⟨r, hr, h1, h2⟩
          rcases List.mem_cons.mp hr with rfl | hr
          · exact absurd h1 he
          · exact ⟨r, hr, h1, h2⟩
    · rw [List.filter_cons, if_neg hp, ih2]
      apply if_congr _ rfl rfl
      constructor
      · rintro ⟨r, hr, h1, h2⟩
        exact ⟨r, List.mem_cons_of_mem _ hr, h1, h2⟩
      · rintro ⟨r, hr, h1, h2⟩
        rcases List.mem_cons.mp hr with rfl | hr
        · exact absurd h2 hp
        · exact ⟨r, hr, h1, h2⟩

theorem carryOver_flags (old : List ElementInfoUnderPointer) (element widget : Nat)
    (hR : ∀ r ∈ old, r.receivedMouseOver = true ∧ r.usesMouseOver = false) :
    (carryOver old element widget).usesMouseOver = false ∧
    ((carryOver old element widget).receivedMouseOver = true ↔
      element ∈ old.map fun r => r.element) := by
  unfold carryOver
  cases hf : old.find? fun x => x.element == element with
  | some found =>
    have hmem := List.mem_of_find?_eq_some hf
    have hel : found.element = element := by simpa using List.find?_some hf
    refine ⟨(hR found hmem).2, ?_⟩
    simp only [(hR found hmem).1, true_iff]
    exact List.mem_map.mpr ⟨found, hmem, hel⟩
  | none =>
    refine ⟨rfl, ?_⟩
    simp only [Bool.false_eq_true, false_iff]
    intro hmem
    obtain ⟨r, hr, hre⟩ := List.mem_map.mp hmem
    have := List.find?_eq_none.mp hf r hr
    simp [hre] at this

theorem mem_hitElements_carryOver (w : World) (s : GUIManager) (pos : Vector2I)
    (r : ElementInfoUnderPointer) (h : r ∈ hitElements w s pos) :
    ∃ element widget, r = carryOver s.elementsUnderPointer element widget := by
  unfold hitElements at h
  simp only at h
  split_ifs at h with h0
  · cases h
  · obtain ⟨wd, -, hinfo⟩ := List.mem_flatMap.mp h
    split_ifs at hinfo
    · cases hinfo
    · obtain ⟨e, -, rfl⟩ := List.mem_map.mp hinfo
      exact ⟨e, wd, rfl⟩
    · cases hinfo

theorem mouseOverLoop_quiet (w : World) (pos : Vector2I) (fresh : GUIMouseEvent)
    (hq : QuietHover w) (l : List ElementInfoUnderPointer) :
    ∀ s : GUIManager, s.activeElements = [] → (∀ r ∈ l, r.usesMouseOver = false) →
      (mouseOverLoop w pos fresh l s).1 =
        l.map (fun r => { r with receivedMouseOver := true, isHovering := true }) ∧
      ∃ extra, Delivers s (mouseOverLoop w pos fresh l s).2.1 extra ∧
        extra.map SentEvent.sig =
          (l.filter fun r => !r.receivedMouseOver && !w.isDestroyed r.element).map
            fun r => (r.element, EventTag.mouseOver) := by
  induction l with
  | nil => intro s _ _; exact ⟨rfl, [], Delivers.refl s, rfl⟩
  | cons info rest ih =>
    intro s ha hu
    have hui : info.usesMouseOver = false := hu info (List.mem_cons_self _ _)
    have hur : ∀ r ∈ rest, r.usesMouseOver = false :=
      fun r hr => hu r (List.mem_cons_of_mem _ hr)
    unfold mouseOverLoop
    simp only
    by_cases hrec : info.receivedMouseOver = true
    · rw [if_pos hrec, if_neg (by rw [hui]; decide)]
      obtain ⟨h1, extra, h2, h3⟩ := ih s ha hur
      refine ⟨?_, extra, h2, ?_⟩
      · simp only [List.map_cons, h1]
        congr 1
        cases info
        simp only at hrec
        subst hrec
        rfl
      · rw [h3, List.filter_cons, if_neg (by simp [hrec])]
    · have hact : activeOrNoneActive s info.element = true := by
        unfold activeOrNoneActive
        rw [ha]; rfl
      rw [if_neg hrec, if_pos hact]
      have hcons : (sendMouseEvent w
          { s with mouseEvent := { fresh with
              data := GUIMouseEventData.MouseOver (getWidgetRelativePos w info.widget pos) } }
          info.element
          { fresh with
              data := GUIMouseEventData.MouseOver (getWidgetRelativePos w info.widget pos) }).2
          = false := by
        rw [sendMouseEvent_consumed, hq info.element
          { fresh with
              data := GUIMouseEventData.MouseOver (getWidgetRelativePos w info.widget pos) }
          (Or.inl rfl)]
        simp
      have hd := sendMouseEvent_delivers w
        { s with mouseEvent := { fresh with
            data := GUIMouseEventData.MouseOver (getWidgetRelativePos w info.widget pos) } }
        info.element
        { fresh with
            data := GUIMouseEventData.MouseOver (getWidgetRelativePos w info.widget pos) }
      rw [if_neg (by rw [hcons]; decide)]
      obtain ⟨h1, extra, h2, h3⟩ := ih (sendMouseEvent w
        { s with mouseEvent := { fresh with
            data := GUIMouseEventData.MouseOver (getWidgetRelativePos w info.widget pos) } }
        info.element
        { fresh with
            data := GUIMouseEventData.MouseOver (getWidgetRelativePos w info.widget pos) }).1
        (by rw [hd.activeElements]; exact ha) hur
      refine ⟨?_, _, Delivers.setMouseEvent _ (hd.trans h2), ?_⟩
      · simp only [List.map_cons, h1]
      · rw [List.map_append, h3]
        by_cases hdes : w.isDestroyed info.element = true
        · rw [if_pos hdes, List.filter_cons, if_neg (by simp [hdes])]
          rfl
        · rw [if_neg hdes, List.filter_cons, if_pos (by simp [hrec, hdes])]
          rfl

theorem mouseOutTargets_quiet (w : World) (s : GUIManager) (pos : Vector2I)
    (old new : List ElementInfoUnderPointer) (ha : s.activeElements = [])
    (hold : ∀ r ∈ old, r.receivedMouseOver = true)
    (hnew : ∀ r ∈ new, r.isHovering = true) :
    deliveredSigs w (mouseOutTargets w s pos old new) =
      (old.filter fun r =>
        !decide (r.element ∈ new.map fun x => x.element) && !w.isDestroyed r.element).map
        fun r => (r.element, EventTag.mouseOut) := by
  unfold deliveredSigs mouseOutTargets
  rw [List.filter_map, List.map_map, List.filter_filter]
  have hf : ∀ r ∈ old,
      (((fun p : Nat × GUIMouseEventData => !w.isDestroyed p.1) ∘ fun info =>
          (info.element,
            GUIMouseEventData.MouseOut (getWidgetRelativePos w info.widget pos))) r &&
        (r.receivedMouseOver &&
          (match new.find? fun x => x.element == r.element with
            | some found => !found.isHovering
            | none => true) &&
          activeOrNoneActive s r.element)) =
      (!decide (r.element ∈ new.map fun x => x.element) && !w.isDestroyed r.element) := by
    intro r hr
    have hact : activeOrNoneActive s r.element = true := by
      unfold activeOrNoneActive
      rw [ha]; rfl
    rw [hold r hr, hact]
    simp only [Function.comp, Bool.true_and, Bool.and_true]
    cases hfind : new.find? fun x => x.element == r.element with
    | some found =>
      have hmem := List.mem_of_find?_eq_some hfind
      have hel : found.element = r.element := by simpa using List.find?_some hfind
      have hin : r.element ∈ new.map fun x => x.element := List.mem_map.mpr ⟨found, hmem, hel⟩
      simp [hnew found hmem, hin]
    | none =>
      have hnot : r.element ∉ new.map fun x => x.element := by
        intro hmem
        obtain ⟨x, hx, hxe⟩ := List.mem_map.mp hmem
        have := List.find?_eq_none.mp hfind x hx
        simp [hxe] at this
      simp [hnot, Bool.and_comm]
  exact (congrArg (List.map _) (List.filter_congr hf)).trans rfl

theorem afterHitTest_hoverTrace (w : World) (s : GUIManager) (event : PointerEvent)
    (ho : OwnsElements w) (hq : QuietHover w) (h : HoverTrace w s) :
    HoverTrace w (afterHitTest w s event) := by
  have hLflags : ∀ r ∈ sortByDepth w (hitElements w s event.screenPos),
      r.usesMouseOver = false ∧
      (r.receivedMouseOver = true ↔ r.element ∈ s.elementsUnderPointer.map fun x => x.element) := by
    intro r hr
    obtain ⟨element, widget, rfl⟩ := mem_hitElements_carryOver w s event.screenPos r
      ((sortByDepth_perm w _).mem_iff.mp hr)
    have hk : (carryOver s.elementsUnderPointer element widget).element = element :=
      congrArg Prod.fst (carryOver_key s.elementsUnderPointer element widget)
    rw [hk]
    exact carryOver_flags s.elementsUnderPointer element widget h.flags
  have hLnodup : ((sortByDepth w (hitElements w s event.screenPos)).map
      fun r => r.element).Nodup :=
    (((sortByDepth_perm w (hitElements w s event.screenPos)).map
      fun r => r.element).nodup_iff).mpr (hitElements_nodup w s event.screenPos h.widgets ho)
  obtain ⟨hlist, e1, h1, s1⟩ := mouseOverLoop_quiet w event.screenPos
    { buttonStates := event.buttonStates, shift := event.shift, control := event.control,
      alt := event.alt } hq
    (sortByDepth w (hitElements w s event.screenPos)) s h.active (fun r hr => (hLflags r hr).1)
  have hnewEl : (afterHitTest w s event).elementsUnderPointer =
      (sortByDepth w (hitElements w s event.screenPos)).map
        (fun r => { r with receivedMouseOver := true, isHovering := true }) := by
    unfold afterHitTest
    rw [findElementUnderPointer_list]
    exact hlist
  have hsentEq : (afterHitTest w s event).sent =
      (findElementUnderPointer w s event.screenPos event.buttonStates event.shift event.control
        event.alt).1.sent := rfl
  unfold findElementUnderPointer at hsentEq
  simp only at hsentEq
  generalize hover : mouseOverLoop w event.screenPos
    { buttonStates := event.buttonStates, shift := event.shift, control := event.control,
      alt := event.alt }
    (sortByDepth w (hitElements w s event.screenPos)) s = over at h1 hlist hsentEq
  have hleft : ∃ e2, Delivers over.2.1
      (if w.isDragInProgress then
        sendFirst w (dragAndDropLeftTargets w event.screenPos over.2.1.elementsUnderPointer
          over.1) over.2.1
      else (over.2.1, false)).1 e2 ∧ ∀ e ∈ e2, e.event.tag = EventTag.dragAndDropLeft := by
    split_ifs
    · obtain ⟨e2, h2, t2⟩ := sendFirst_delivers w
        (dragAndDropLeftTargets w event.screenPos over.2.1.elementsUnderPointer over.1) over.2.1
      refine ⟨e2, h2, ?_⟩
      intro e he
      obtain ⟨p, hp, hsig⟩ := t2 e he
      simp only [dragAndDropLeftTargets, List.mem_map] at hp
      obtain ⟨info, -, rfl⟩ := hp
      exact (Prod.mk.inj hsig).2
    · exact ⟨[], Delivers.refl _, by simp⟩
  obtain ⟨e2, h2, t2⟩ := hleft
  generalize hl : (if w.isDragInProgress then
        sendFirst w (dragAndDropLeftTargets w event.screenPos over.2.1.elementsUnderPointer
          over.1) over.2.1
      else (over.2.1, false)) = left at h2 hsentEq
  obtain ⟨e3, h3, t3, -⟩ := sendFirst_spec w
    (mouseOutTargets w left.1 event.screenPos left.1.elementsUnderPointer over.1) left.1
  have h12 := h1.trans h2
  have h123 := h12.trans h3
  have hquietOut : ∀ x ∈ mouseOutTargets w left.1 event.screenPos
      left.1.elementsUnderPointer over.1, consumesData w left.1.mouseEvent x = false := by
    intro x hx
    unfold consumesData
    rw [hq x.1 _ (Or.inr (mouseOutTargets_tag w _ _ _ _ x hx))]
    simp
  rw [takeThrough_eq_self _ _ hquietOut, h12.elementsUnderPointer,
    mouseOutTargets_quiet w left.1 event.screenPos s.elementsUnderPointer over.1
      (by rw [h12.activeElements]; exact h.active) (fun r hr => (h.flags r hr).1)
      (by
        intro r hr
        rw [hlist] at hr
        obtain ⟨x, -, rfl⟩ := List.mem_map.mp hr
        rfl)] at t3
  have hsent : (afterHitTest w s event).sent = s.sent ++ (e1 ++ e2 ++ e3) := by
    rw [hsentEq]
    exact h123.sent
  have hmapEl : (over.1.map fun x => x.element) =
      (sortByDepth w (hitElements w s event.screenPos)).map fun r => r.element := by
    rw [hlist, List.map_map]
    rfl
  have hrest : (afterHitTest w s event).activeElements = [] ∧
      (afterHitTest w s event).widgets = s.widgets := by
    obtain ⟨m, extra, tip, heq, -⟩ := findElementUnderPointer_eq w s event.screenPos
      event.buttonStates event.shift event.control event.alt
    unfold afterHitTest
    rw [heq]
    exact ⟨h.active, rfl⟩
  have hEl : ((afterHitTest w s event).elementsUnderPointer.map fun r => r.element) =
      (sortByDepth w (hitElements w s event.screenPos)).map fun r => r.element := by
    rw [hnewEl, List.map_map]
    rfl
  refine ⟨hrest.1, by rw [hrest.2]; exact h.widgets, ?_, ?_, ?_⟩
  · intro r hr
    rw [hnewEl] at hr
    obtain ⟨x, hx, rfl⟩ := List.mem_map.mp hr
    exact ⟨rfl, (hLflags x hx).1⟩
  · rw [hEl]
    exact hLnodup
  · intro element
    rw [hsent, overOutTags_append, overOutTags_append, overOutTags_append,
      overOutTags_of_tags element e2 (fun e he => by rw [t2 e he]; decide),
      overOutTags_of_sigs element EventTag.mouseOver (Or.inl rfl) _ _ e1 hLnodup s1,
      overOutTags_of_sigs element EventTag.mouseOut (Or.inr rfl) _ _ e3 h.nodup t3,
      expectsAfter_append, h.tags element, hEl, hmapEl]
    have hc1 : (∃ r ∈ sortByDepth w (hitElements w s event.screenPos),
        r.element = element ∧ (!r.receivedMouseOver && !w.isDestroyed r.element) = true) ↔
        (element ∈ (sortByDepth w (hitElements w s event.screenPos)).map (fun r => r.element) ∧
          element ∉ s.elementsUnderPointer.map (fun x => x.element) ∧
          w.isDestroyed element = false) := by
      constructor
      · rintro ⟨r, hr, rfl, hp⟩
        simp only [Bool.and_eq_true, Bool.not_eq_true'] at hp
        refine ⟨List.mem_map.mpr ⟨r, hr, rfl⟩, ?_, hp.2⟩
        intro hmem
        have := (hLflags r hr).2.mpr hmem
        rw [hp.1] at this
        cases this
      · rintro ⟨hin, hnot, hd⟩
        obtain ⟨r, hr, rfl⟩ := List.mem_map.mp hin
        refine ⟨r, hr, rfl, ?_⟩
        have : r.receivedMouseOver = false := by
          cases hrr : r.receivedMouseOver
          · rfl
          · exact absurd ((hLflags r hr).2.mp hrr) hnot
        simp [this, hd]
    have hc3 : (∃ r ∈ s.elementsUnderPointer, r.element = element ∧
        (!decide (r.element ∈ (sortByDepth w (hitElements w s event.screenPos)).map
            fun x => x.element) && !w.isDestroyed r.element) = true) ↔
        (element ∈ s.elementsUnderPointer.map (fun x => x.element) ∧
          element ∉ (sortByDepth w (hitElements w s event.screenPos)).map (fun r => r.element) ∧
          w.isDestroyed element = false) := by
      constructor
      · rintro ⟨r, hr, rfl, hp⟩
        simp only [Bool.and_eq_true, Bool.not_eq_true', decide_eq_false_iff_not] at hp
        exact ⟨List.mem_map.mpr ⟨r, hr, rfl⟩, hp.1, hp.2⟩
      · rintro ⟨hin, hnot, hd⟩
        obtain ⟨r, hr, rfl⟩ := List.mem_map.mp hin
        exact ⟨r, hr, rfl, by simp [hnot, hd]⟩
    simp only [hc1, hc3]
    by_cases hL : element ∈ (sortByDepth w (hitElements w s event.screenPos)).map
        (fun r => r.element) <;>
      by_cases hO : element ∈ s.elementsUnderPointer.map (fun x => x.element) <;>
      cases hD : w.isDestroyed element <;>
      simp only [hL, hO, hD, expectsAfter, true_and, false_and, and_true, and_false,
        not_true_eq_false, not_false_eq_true, if_true, if_false, decide_True, decide_False,
        Bool.and_true, Bool.and_false, Bool.not_true, Bool.not_false, Bool.false_and,
        Bool.true_and, Option.some_bind, List.append_nil, List.nil_append, Bool.false_eq_true]

theorem hitTests_hoverTrace (w : World) (ho : OwnsElements w) (hq : QuietHover w)
    (events : List PointerEvent) :
    ∀ s : GUIManager, HoverTrace w s → HoverTrace w (hitTests w s events) := by
  induction events with
  | nil => intro s h; exact h
  | cons event rest ih =>
    intro s h
    exact ih _ (afterHitTest_hoverTrace w s event ho hq h)

theorem expectsAfter_last (l : List EventTag) :
    ∀ b c : Bool, expectsAfter b l = some c →
      (l = [] ∧ b = c) ∨
        l.getLast? = some (if c then EventTag.mouseOut else EventTag.mouseOver) := by
  induction l with
  | nil =>
    intro b c h
    cases b <;> (simp only [expectsAfter, Option.some.injEq] at h; exact Or.inl ⟨rfl, h⟩)
  | cons t rest ih =>
    intro b c h
    right
    cases b
    · simp only [expectsAfter] at h
      split_ifs at h with ht
      rcases ih true c h with ⟨hnil, hc⟩ | hlast
      · subst hnil
        subst hc
        simp [ht]
      · cases rest with
        | nil => simp at hlast
        | cons r rs => rw [List.getLast?_cons_cons]; exact hlast
    · simp only [expectsAfter] at h
      split_ifs at h with ht
      rcases ih false c h with ⟨hnil, hc⟩ | hlast
      · subst hnil
        subst hc
        simp [ht]
      · cases rest with
        | nil => simp at hlast
        | cons r rs => rw [List.getLast?_cons_cons]; exact hlast

theorem exampleLeaveWorld_owns : OwnsElements exampleLeaveWorld := by
  constructor
  · intro widget
    show (if widget = 1 then [1, 2, 3] else ([] : List Nat)).Nodup
    split_ifs
    · decide
    · exact List.nodup_nil
  · intro widget e he
    have he' : e ∈ (if widget = 1 then [1, 2, 3] else ([] : List Nat)) := he
    split_ifs at he' with h1
    · exact h1.symm
    · cases he'

theorem handleInput_activeInv (w : World) (ho : OwnsElements w) (s s' : GUIManager)
    (input : PointerInput) (h : handleInput w s input = Except.ok s') (hi : ActiveInv s) :
    ActiveInv s' := by
  cases input with
  | moved event =>
    simp only [handleInput, Except.ok.injEq] at h
    by_cases hu : event.used = true
    · have : s' = s := by rw [← h]; unfold onPointerMoved; rw [if_pos hu]
      rw [this]; exact hi
    · have o := onPointerMoved_spec w s event (by simpa using hu)
      rw [h] at o
      exact ⟨by rw [o.widgets_eq]; exact hi.1, by rw [o.active_eq]; exact hi.2⟩
  | pressed event =>
    simp only [handleInput] at h
    by_cases hu : event.used = true
    · have : s' = s := by
        unfold onPointerPressed at h
        rw [if_pos hu] at h
        cases h
        rfl
      rw [this]; exact hi
    · cases hb : buttonToGUIButton event.button with
      | error e =>
        exfalso
        unfold onPointerPressed at h
        rw [if_neg hu] at h
        simp only [hb] at h
        cases h
      | ok guiButton =>
        obtain ⟨s'', used, hp, o⟩ := onPointerPressed_spec w s event guiButton (by simpa using hu) hb
        rw [hp] at h
        cases h
        refine ⟨by rw [o.widgets_eq]; exact hi.1, ?_⟩
        rw [o.active_eq]
        split_ifs
        · rw [List.map_map]
          have hsub : ((pressVisited w s event guiButton).map
              ((fun a : ElementInfo => a.element) ∘ ElementInfoUnderPointer.toElementInfo)).Sublist
              ((hoveredList w s event).map fun info => info.element) :=
            (takeThrough_sublist _ _).map _
          exact (hoveredList_nodup w s event hi.1 ho).sublist hsub
        · exact hi.2
  | released event =>
    simp only [handleInput] at h
    by_cases hu : event.used = true
    · have : s' = s := by
        unfold onPointerReleased at h
        rw [if_pos hu] at h
        cases h
        rfl
      rw [this]; exact hi
    · cases hb : buttonToGUIButton event.button with
      | error e =>
        exfalso
        unfold onPointerReleased at h
        rw [if_neg hu] at h
        simp only [hb] at h
        cases h
      | ok guiButton =>
        obtain ⟨s'', used, hp, o⟩ := onPointerReleased_spec w s event guiButton (by simpa using hu) hb
        rw [hp] at h
        cases h
        refine ⟨by rw [o.widgets_eq]; exact hi.1, ?_⟩
        rw [o.active_eq]
        split_ifs
        · exact List.nodup_nil
        · exact hi.2
  | doubleClicked event =>
    simp only [handleInput] at h
    by_cases hu : event.used = true
    · have : s' = s := by
        unfold onPointerDoubleClick at h
        rw [if_pos hu] at h
        cases h
        rfl
      rw [this]; exact hi
    · cases hb : buttonToGUIButton event.button with
      | error e =>
        exfalso
        unfold onPointerDoubleClick at h
        rw [if_neg hu] at h
        simp only [hb] at h
        cases h
      | ok guiButton =>
        obtain ⟨s'', used, m, tip, extra, hp, hs, -⟩ :=
          onPointerDoubleClick_spec w s event guiButton (by simpa using hu) hb
        rw [hp] at h
        cases h
        rw [hs]
        exact hi

theorem handleInputs_activeInv (w : World) (ho : OwnsElements w) (inputs : List PointerInput) :
    ∀ s s' : GUIManager, handleInputs w s inputs = Except.ok s' → ActiveInv s →
      ActiveInv s' := by
  induction inputs with
  | nil =>
    intro s s' h hi
    simp only [handleInputs, Except.ok.injEq] at h
    rw [← h]; exact hi
  | cons input rest ih =>
    intro s s' h hi
    unfold handleInputs at h
    cases h1 : handleInput w s input with
    | error e => rw [h1] at h; cases h
    | ok s1 =>
      rw [h1] at h
      exact ih s1 s' h (handleInput_activeInv w ho s s1 input h1 hi)

/-! ## Lemmas on the mesh rebuild -/

theorem resize_length {α : Type} (l : List α) (n : Nat) (d : α) : (resize l n d).length = n := by
  unfold resize
  rw [List.length_append, List.length_take, List.length_replicate]
  omega

theorem dealloc_foldl (l : List Nat) :
    ∀ heap : MeshHeap,
      (l.foldl MeshHeap.dealloc heap).nextHandle = heap.nextHandle ∧
      (l.foldl MeshHeap.dealloc heap).released = heap.released ++ l ∧
      (l.foldl MeshHeap.dealloc heap).live = heap.live.filter fun p => decide (p.1 ∉ l) := by
  induction l with
  | nil => intro heap; simp
  | cons m rest ih =>
    intro heap
    obtain ⟨i1, i2, i3⟩ := ih (heap.dealloc m)
    rw [List.foldl_cons]
    refine ⟨i1, by rw [i2]; simp [MeshHeap.dealloc], ?_⟩
    rw [i3]
    simp only [MeshHeap.dealloc, List.filter_filter]
    apply List.filter_congr
    intro p _
    by_cases h : p.1 = m
    · simp [h]
    · simp [h]

theorem set_append_cons {α : Type} (pre : List α) (x y : α) (rest : List α) :
    (pre ++ x :: rest).set pre.length y = pre ++ y :: rest := by
  induction pre with
  | nil => rfl
  | cons a t ih => simp [ih]

theorem getElem?_append_length {α : Type} (pre rest : List α) :
    (pre ++ rest)[pre.length]? = rest.head? := by
  induction pre with
  | nil => cases rest <;> simp
  | cons a t ih => simpa using ih

theorem storeGroup_spec (w : World) (sep : Bool) (g : GUIMaterialGroup) (rd : GUIRenderData)
    (heap : MeshHeap) (pre rest : List Nat) (h1 : rd.cachedMeshes = pre ++ rest) :
    (storeGroup w sep pre.length g rd heap).1.cachedMeshes =
      (pre ++ [heap.nextHandle]) ++ rest.drop 1 ∧
    (storeGroup w sep pre.length g rd heap).1.cachedMaterials =
      rd.cachedMaterials.set pre.length g.matInfo ∧
    (storeGroup w sep pre.length g rd heap).1.cachedWidgetsPerMesh =
      (if sep then rd.cachedWidgetsPerMesh.set pre.length (groupWidget w g)
        else rd.cachedWidgetsPerMesh) ∧
    (storeGroup w sep pre.length g rd heap).2.nextHandle = heap.nextHandle + 1 ∧
    (storeGroup w sep pre.length g rd heap).2.released = heap.released ++ rest.take 1 ∧
    (storeGroup w sep pre.length g rd heap).2.live =
      (heap.live.filter fun p => decide (p.1 ∉ rest.take 1)) ++
        [(heap.nextHandle, groupMeshData w g)] := by
  have hget : rd.cachedMeshes[pre.length]? = rest.head? := by
    rw [h1]; exact getElem?_append_length pre rest
  unfold storeGroup
  cases rest with
  | nil =>
    simp only [List.head?_nil] at hget
    simp only [hget]
    refine ⟨?_, ?_, ?_, ?_, ?_, ?_⟩
    · rw [h1]; simp [MeshHeap.alloc]
    · trivial
    · trivial
    · trivial
    · simp [MeshHeap.alloc]
    · simp [MeshHeap.alloc]
  | cons m0 rest1 =>
    simp only [List.head?_cons] at hget
    simp only [hget]
    refine ⟨?_, ?_, ?_, ?_, ?_, ?_⟩
    rotate_left
    · trivial
    · trivial
    · trivial
    rotate_left 2
    · rw [h1, set_append_cons]; simp [MeshHeap.alloc, MeshHeap.dealloc]
    · simp [MeshHeap.alloc, MeshHeap.dealloc]
    · simp only [MeshHeap.alloc, MeshHeap.dealloc, List.take_succ_cons, List.take_zero]
      congr 1
      apply List.filter_congr
      intro p _
      by_cases h : p.1 = m0
      · simp [h]
      · simp [h]

theorem storeGroups_cons (w : World) (sep : Bool) (g : Nat × GUIMaterialGroup)
    (gs : List (Nat × GUIMaterialGroup)) (idx : Nat) (rd : GUIRenderData) (heap : MeshHeap) :
    storeGroups w sep (g :: gs) idx rd heap =
      storeGroups w sep gs (idx + 1) (storeGroup w sep idx g.2 rd heap).1
        (storeGroup w sep idx g.2 rd heap).2 := rfl

theorem storeGroups_meshes (w : World) (sep : Bool) (l : List (Nat × GUIMaterialGroup)) :
    ∀ (rd : GUIRenderData) (heap : MeshHeap) (pre rest : List Nat),
      rd.cachedMeshes = pre ++ rest →
      (storeGroups w sep l pre.length rd heap).1.cachedMeshes =
        pre ++ (List.range l.length).map (fun i => heap.nextHandle + i) ++ rest.drop l.length ∧
      (storeGroups w sep l pre.length rd heap).2.nextHandle = heap.nextHandle + l.length ∧
      (storeGroups w sep l pre.length rd heap).2.released =
        heap.released ++ rest.take l.length ∧
      ((∀ m ∈ rest, m < heap.nextHandle) →
        (storeGroups w sep l pre.length rd heap).2.live =
          (heap.live.filter fun p => decide (p.1 ∉ rest.take l.length)) ++
            l.enum.map fun ig => (heap.nextHandle + ig.1, groupMeshData w ig.2.2)) := by
  induction l with
  | nil =>
    intro rd heap pre rest h1
    simp [storeGroups, h1]
  | cons g gs ih =>
    intro rd heap pre rest h1
    obtain ⟨s1, -, -, s4, s5, s6⟩ := storeGroup_spec w sep g.2 rd heap pre rest h1
    have hlen : (pre ++ [heap.nextHandle]).length = pre.length + 1 := by simp
    rw [storeGroups_cons, ← hlen]
    obtain ⟨i1, i2, i3, i4⟩ := ih (storeGroup w sep pre.length g.2 rd heap).1
      (storeGroup w sep pre.length g.2 rd heap).2 (pre ++ [heap.nextHandle]) (rest.drop 1) s1
    refine ⟨?_, ?_, ?_, ?_⟩
    · rw [i1, s4, List.length_cons, List.range_succ_eq_map]
      simp [List.map_map, Function.comp, Nat.add_assoc, Nat.add_comm 1]
    · rw [i2, s4, List.length_cons]; omega
    · rw [i3, s5, List.length_cons]
      cases rest <;> simp
    · intro hfresh
      have hfresh1 : ∀ m ∈ rest.drop 1, m < (storeGroup w sep pre.length g.2 rd heap).2.nextHandle := by
        intro m hm
        rw [s4]
        exact Nat.lt_succ_of_lt (hfresh m (List.mem_of_mem_drop hm))
      rw [i4 hfresh1, s6, s4, List.filter_append]
      have hkeep : List.filter (fun p => decide (p.1 ∉ List.take gs.length (List.drop 1 rest)))
          [(heap.nextHandle, groupMeshData w g.2)] = [(heap.nextHandle, groupMeshData w g.2)] := by
        rw [List.filter_eq_self]
        intro p hp
        rw [List.mem_singleton] at hp
        rw [hp]
        simp only [decide_eq_true_eq]
        intro hm
        exact Nat.lt_irrefl _ (hfresh _ (List.mem_of_mem_drop (List.mem_of_mem_take hm)))
      rw [hkeep, List.filter_filter, List.length_cons, List.enum_cons]
      have hfil : List.filter (fun p => decide (p.1 ∉ List.take gs.length (List.drop 1 rest)) &&
            decide (p.1 ∉ List.take 1 rest)) heap.live =
          List.filter (fun p => decide (p.1 ∉ List.take (gs.length + 1) rest)) heap.live := by
        apply List.filter_congr
        intro p _
        cases rest with
        | nil => simp
        | cons m0 r1 =>
          simp only [List.drop_succ_cons, List.drop_zero, List.take_succ_cons, List.take_zero,
            List.mem_cons, List.mem_singleton, List.not_mem_nil, or_false]
          by_cases h : p.1 = m0
          · simp [h]
          · simp [h]
      rw [hfil]
      simp only [List.map_cons, List.append_assoc, List.singleton_append, Nat.add_zero]
      congr 2
      rw [← List.map_fst_add_enum_eq_enumFrom, List.map_map]
      apply List.map_congr_left
      intro ig _
      simp [Function.comp, Nat.add_assoc, Nat.add_comm 1]

theorem storeGroup_vectors (w : World) (sep : Bool) (idx : Nat) (g : GUIMaterialGroup)
    (rd : GUIRenderData) (heap : MeshHeap) :
    (storeGroup w sep idx g rd heap).1.cachedMaterials = rd.cachedMaterials.set idx g.matInfo ∧
    (storeGroup w sep idx g rd heap).1.cachedWidgetsPerMesh =
      (if sep then rd.cachedWidgetsPerMesh.set idx (groupWidget w g)
        else rd.cachedWidgetsPerMesh) := by
  unfold storeGroup
  simp only
  split <;> exact ⟨rfl, rfl⟩

theorem storeGroups_materials (w : World) (sep : Bool) (l : List (Nat × GUIMaterialGroup)) :
    ∀ (rd : GUIRenderData) (heap : MeshHeap) (mpre mrest : List SpriteMaterialInfo),
      rd.cachedMaterials = mpre ++ mrest → l.length ≤ mrest.length →
      (storeGroups w sep l mpre.length rd heap).1.cachedMaterials =
        mpre ++ l.map (fun g => g.2.matInfo) ++ mrest.drop l.length := by
  induction l with
  | nil => intro rd heap mpre mrest h1 _; simp [storeGroups, h1]
  | cons g gs ih =>
    intro rd heap mpre mrest h1 h2
    rw [List.length_cons] at h2
    cases mrest with
    | nil => simp at h2
    | cons m0 mrest1 =>
      have hlen : (mpre ++ [g.2.matInfo]).length = mpre.length + 1 := by simp
      rw [storeGroups_cons, ← hlen]
      have hs : (storeGroup w sep mpre.length g.2 rd heap).1.cachedMaterials =
          (mpre ++ [g.2.matInfo]) ++ mrest1 := by
        rw [(storeGroup_vectors w sep mpre.length g.2 rd heap).1, h1, set_append_cons]
        simp
      rw [ih _ _ (mpre ++ [g.2.matInfo]) mrest1 hs (by simpa using h2)]
      simp

theorem storeGroups_widgets (w : World) (l : List (Nat × GUIMaterialGroup)) :
    ∀ (rd : GUIRenderData) (heap : MeshHeap) (wpre wrest : List Nat),
      rd.cachedWidgetsPerMesh = wpre ++ wrest → l.length ≤ wrest.length →
      (storeGroups w true l wpre.length rd heap).1.cachedWidgetsPerMesh =
        wpre ++ l.map (fun g => groupWidget w g.2) ++ wrest.drop l.length := by
  induction l with
  | nil => intro rd heap wpre wrest h1 _; simp [storeGroups, h1]
  | cons g gs ih =>
    intro rd heap wpre wrest h1 h2
    rw [List.length_cons] at h2
    cases wrest with
    | nil => simp at h2
    | cons m0 wrest1 =>
      have hlen : (wpre ++ [groupWidget w g.2]).length = wpre.length + 1 := by simp
      rw [storeGroups_cons, ← hlen]
      have hs : (storeGroup w true wpre.length g.2 rd heap).1.cachedWidgetsPerMesh =
          (wpre ++ [groupWidget w g.2]) ++ wrest1 := by
        rw [(storeGroup_vectors w true wpre.length g.2 rd heap).2, if_pos rfl, h1,
          set_append_cons]
        simp
      rw [ih _ _ (wpre ++ [groupWidget w g.2]) wrest1 hs (by simpa using h2)]
      simp

theorem storeGroups_widgets_kept (w : World) (l : List (Nat × GUIMaterialGroup)) :
    ∀ (idx : Nat) (rd : GUIRenderData) (heap : MeshHeap),
      (storeGroups w false l idx rd heap).1.cachedWidgetsPerMesh = rd.cachedWidgetsPerMesh := by
  induction l with
  | nil => intro idx rd heap; rfl
  | cons g gs ih =>
    intro idx rd heap
    rw [storeGroups_cons, ih, (storeGroup_vectors w false idx g.2 rd heap).2]
    rfl

/-- The meshes, materials and widgets cached by a rebuild, the mesh heap after it, and the
groups in draw order. -/
theorem rebuildMeshes_spec (w : World) (sep : Bool) (rd : GUIRenderData) (heap : MeshHeap) :
    (rebuildMeshes w sep rd heap).1.cachedMeshes =
      (List.range (drawOrder w sep w.groupAddress rd.widgets).length).map
        (fun i => heap.nextHandle + i) ∧
    (rebuildMeshes w sep rd heap).1.cachedMaterials =
      (drawOrder w sep w.groupAddress rd.widgets).map (fun g => g.2.matInfo) ∧
    (rebuildMeshes w sep rd heap).1.cachedWidgetsPerMesh =
      (if sep then (drawOrder w sep w.groupAddress rd.widgets).map (fun g => groupWidget w g.2)
        else rd.cachedWidgetsPerMesh) ∧
    (rebuildMeshes w sep rd heap).2.nextHandle =
      heap.nextHandle + (drawOrder w sep w.groupAddress rd.widgets).length ∧
    (rebuildMeshes w sep rd heap).2.released =
      heap.released ++
        (rd.cachedMeshes.drop (drawOrder w sep w.groupAddress rd.widgets).length ++
          rd.cachedMeshes.take (drawOrder w sep w.groupAddress rd.widgets).length) ∧
    ((∀ m ∈ rd.cachedMeshes, m < heap.nextHandle) →
      (rebuildMeshes w sep rd heap).2.live =
        (heap.live.filter fun p => decide (p.1 ∉ rd.cachedMeshes)) ++
          (drawOrder w sep w.groupAddress rd.widgets).enum.map fun ig =>
            (heap.nextHandle + ig.1, groupMeshData w ig.2.2)) := by
  obtain ⟨sorted, hsorted⟩ : ∃ sorted, sorted = drawOrder w sep w.groupAddress rd.widgets :=
    ⟨_, rfl⟩
  rw [← hsorted]
  obtain ⟨heap1, hheap1⟩ : ∃ heap1 : MeshHeap, heap1 =
      (rd.cachedMeshes.drop sorted.length).foldl MeshHeap.dealloc heap := ⟨_, rfl⟩
  obtain ⟨d1, d2, d3⟩ := dealloc_foldl (rd.cachedMeshes.drop sorted.length) heap
  rw [← hheap1] at d1 d2 d3
  obtain ⟨rd1, hrd1⟩ : ∃ rd1 : GUIRenderData, rd1 =
      { rd with
        cachedMeshes := rd.cachedMeshes.take sorted.length
        cachedMaterials := resize rd.cachedMaterials sorted.length {}
        cachedWidgetsPerMesh :=
          if sep then resize rd.cachedWidgetsPerMesh sorted.length 0
          else rd.cachedWidgetsPerMesh } := ⟨_, rfl⟩
  have hreb : rebuildMeshes w sep rd heap = storeGroups w sep sorted 0 rd1 heap1 := by
    unfold rebuildMeshes
    simp only
    rw [← hsorted]
    by_cases hlt : sorted.length < rd.cachedMeshes.length
    · rw [if_pos hlt, hrd1, hheap1]
    · rw [if_neg hlt, hrd1, hheap1]
      have h1 : rd.cachedMeshes.take sorted.length = rd.cachedMeshes :=
        List.take_of_length_le (by omega)
      have h2 : rd.cachedMeshes.drop sorted.length = [] :=
        List.drop_of_length_le (by omega)
      rw [h1, h2]
      rfl
  have htake : (rd.cachedMeshes.take sorted.length).drop sorted.length = [] :=
    List.drop_of_length_le (by rw [List.length_take]; omega)
  have htake2 : (rd.cachedMeshes.take sorted.length).take sorted.length =
      rd.cachedMeshes.take sorted.length :=
    List.take_of_length_le (by rw [List.length_take]; omega)
  obtain ⟨m1, m2, m3, m4⟩ := storeGroups_meshes w sep sorted rd1 heap1 []
    (rd.cachedMeshes.take sorted.length) (by rw [hrd1]; rfl)
  have hmat := storeGroups_materials w sep sorted rd1 heap1 []
    (resize rd.cachedMaterials sorted.length {}) (by rw [hrd1]; rfl)
    (by rw [resize_length])
  rw [List.length_nil] at m1 m2 m3 m4 hmat
  rw [hreb]
  refine ⟨?_, ?_, ?_, ?_, ?_, ?_⟩
  · rw [m1, htake, d1]; simp
  · rw [hmat, List.drop_of_length_le (by rw [resize_length])]; simp
  · by_cases hs : sep = true
    · subst hs
      have hwid := storeGroups_widgets w sorted rd1 heap1 []
        (resize rd.cachedWidgetsPerMesh sorted.length 0) (by rw [hrd1]; rfl)
        (by rw [resize_length])
      rw [List.length_nil] at hwid
      rw [hwid, List.drop_of_length_le (by rw [resize_length])]
      simp
    · have hs' : sep = false := by simpa using hs
      subst hs'
      rw [storeGroups_widgets_kept, hrd1]
      rfl
  · rw [m2, d1]
  · rw [m3, d2, htake2, List.append_assoc]
  · intro hfresh
    rw [m4 (by
      intro m hm
      rw [d1]
      exact hfresh m (List.mem_of_mem_take hm)), d3, d1, htake2, List.filter_filter]
    congr 1
    apply List.filter_congr
    intro p _
    by_cases h : p.1 ∈ rd.cachedMeshes
    · have : p.1 ∈ rd.cachedMeshes.take sorted.length ∨
          p.1 ∈ rd.cachedMeshes.drop sorted.length := by
        rw [← List.mem_append, List.take_append_drop]; exact h
      rcases this with h' | h'
      · simp [h, h']
      · simp [h, h']
    · have h1 : p.1 ∉ rd.cachedMeshes.take sorted.length := fun x => h (List.mem_of_mem_take x)
      have h2 : p.1 ∉ rd.cachedMeshes.drop sorted.length := fun x => h (List.mem_of_mem_drop x)
      simp [h, h1, h2]

theorem meshEntries_isSome (w : World) (rd : GUIRenderData) (meshes : List Nat) :
    ∀ idx, idx + meshes.length ≤ rd.cachedMaterials.length →
      idx + meshes.length ≤ rd.cachedWidgetsPerMesh.length →
      (meshEntries w rd meshes idx).isSome = true := by
  induction meshes with
  | nil => intro idx _ _; rfl
  | cons m rest ih =>
    intro idx h1 h2
    rw [List.length_cons] at h1 h2
    unfold meshEntries
    have hm : ∃ x, rd.cachedMaterials[idx]? = some x :=
      ⟨_, List.getElem?_eq_getElem (by omega)⟩
    have hw : ∃ x, rd.cachedWidgetsPerMesh[idx]? = some x :=
      ⟨_, List.getElem?_eq_getElem (by omega)⟩
    obtain ⟨x, hx⟩ := hm
    obtain ⟨y, hy⟩ := hw
    rw [hx, hy]
    simp only
    have hi := ih (idx + 1) (by omega) (by omega)
    obtain ⟨z, hz⟩ := Option.isSome_iff_exists.mp hi
    rw [hz]
    simp only
    split_ifs <;> rfl

theorem fillLoop_spec (w : World) (maxNumQuads : Nat) (l : List GUIGroupElement) :
    ∀ start : Nat,
      (fillLoop w maxNumQuads l start).2 = start + (l.map (memberQuads w)).sum ∧
      (fillLoop w maxNumQuads l start).1.length = l.length ∧
      ∀ (k : Nat) (e : GUIGroupElement), l[k]? = some e →
        (fillLoop w maxNumQuads l start).1[k]? =
          some
            ({ element := e.element, renderElement := e.renderElement,
               quadOffset := start + ((l.take k).map (memberQuads w)).sum,
               maxNumQuads := maxNumQuads,
               indexStart := 6 * (start + ((l.take k).map (memberQuads w)).sum),
               indexEnd :=
                 6 * (start + ((l.take k).map (memberQuads w)).sum + memberQuads w e),
               vertOffset := 4 * (start + ((l.take k).map (memberQuads w)).sum) } :
              FillRecord) := by
  induction l with
  | nil =>
    intro start
    refine ⟨rfl, rfl, ?_⟩
    intro k e h
    simp at h
  | cons x rest ih =>
    intro start
    obtain ⟨i1, i2, i3⟩ := ih (start + w.numQuads x.element x.renderElement)
    unfold fillLoop
    simp only
    refine ⟨?_, ?_, ?_⟩
    · rw [i1]; simp [memberQuads, Nat.add_assoc]
    · simp [i2]
    · intro k e h
      cases k with
      | zero =>
        simp only [List.getElem?_cons_zero, Option.some.injEq] at h
        subst h
        simp only [List.getElem?_cons_zero, List.take_zero, List.map_nil, List.sum_nil,
          Nat.add_zero, memberQuads, Option.some.injEq, FillRecord.mk.injEq, true_and]
        refine ⟨by omega, by omega, by omega⟩
      | succ k =>
        simp only [List.getElem?_cons_succ] at h
        rw [List.getElem?_cons_succ, i3 k e h]
        simp only [List.take_succ_cons, List.map_cons, List.sum_cons, memberQuads,
          Option.some.injEq, FillRecord.mk.injEq, true_and]
        refine ⟨by omega, by omega, by omega, by omega⟩

theorem sum_take_add_le (l : List Nat) (k : Nat) (x : Nat) (h : l[k]? = some x) :
    (l.take k).sum + x ≤ l.sum := by
  induction l generalizing k with
  | nil => simp at h
  | cons a rest ih =>
    cases k with
    | zero =>
      simp only [List.getElem?_cons_zero, Option.some.injEq] at h
      subst h
      simp
    | succ k =>
      simp only [List.getElem?_cons_succ] at h
      have := ih k h
      simp only [List.take_succ_cons, List.sum_cons]
      omega

theorem mem_materialGroups_of_mem_drawOrder (w : World) (sep : Bool) (addr : Nat → Nat)
    (widgets : List Nat) (ig : Nat × GUIMaterialGroup)
    (h : ig ∈ drawOrder w sep addr widgets) : ig.2 ∈ materialGroups w sep widgets := by
  unfold drawOrder sortedGroups at h
  rcases mem_of_mem_foldl_setInsert (groupComp addr) _ [] ig h with h | h
  · cases h
  · obtain ⟨i, g⟩ := ig
    exact List.mem_iff_getElem?.mpr ⟨i, List.mk_mem_enum_iff_getElem?.mp h⟩

theorem find?_enum_map {β γ : Type} (f : β → γ) (l : List β) :
    ∀ base i : Nat,
      ((l.enum.map fun ig => (base + ig.1, f ig.2)).find? fun p => p.1 == base + i) =
        (l[i]?).map fun x => (base + i, f x) := by
  induction l with
  | nil => intro base i; simp
  | cons x xs ih =>
    intro base i
    rw [List.enum_cons, ← List.map_fst_add_enum_eq_enumFrom, List.map_cons, List.map_map]
    cases i with
    | zero => simp
    | succ k =>
      have hne : (base + 0 == base + (k + 1)) = false := by
        simp only [beq_eq_false_iff_ne, ne_eq]; omega
      rw [List.find?_cons]
      simp only [hne, List.getElem?_cons_succ]
      have hmap : (xs.enum.map ((fun ig : Nat × β => (base + ig.1, f ig.2)) ∘
          Prod.map (fun x => x + 1) id)) =
          xs.enum.map fun ig => (base + 1 + ig.1, f ig.2) := by
        apply List.map_congr_left
        intro ig _
        simp only [Function.comp, Prod.map, id]
        congr 1
        omega
      rw [hmap]
      have hk : base + (k + 1) = base + 1 + k := by omega
      rw [hk]
      exact ih (base + 1) k

theorem rebuildMeshes_meshData (w : World) (sep : Bool) (rd : GUIRenderData) (heap : MeshHeap)
    (hheap : heap.WellFormed) (hfresh : ∀ m ∈ rd.cachedMeshes, m < heap.nextHandle)
    (i : Nat) (ig : Nat × GUIMaterialGroup)
    (hi : (drawOrder w sep w.groupAddress rd.widgets)[i]? = some ig) :
    (rebuildMeshes w sep rd heap).1.cachedMeshes[i]? = some (heap.nextHandle + i) ∧
    (rebuildMeshes w sep rd heap).2.meshData (heap.nextHandle + i) =
      some (groupMeshData w ig.2) := by
  obtain ⟨s1, -, -, -, -, s6⟩ := rebuildMeshes_spec w sep rd heap
  have hlt : i < (drawOrder w sep w.groupAddress rd.widgets).length := by
    by_contra hge
    rw [List.getElem?_eq_none (by omega)] at hi
    cases hi
  constructor
  · rw [s1, List.getElem?_map, List.getElem?_range hlt]
    rfl
  · unfold MeshHeap.meshData
    rw [s6 hfresh, List.find?_append]
    have hnone : List.find? (fun p => p.1 == heap.nextHandle + i)
        (List.filter (fun p => decide (p.1 ∉ rd.cachedMeshes)) heap.live) = none := by
      rw [List.find?_eq_none]
      intro p hp
      have := hheap p (List.mem_of_mem_filter hp)
      simp only [beq_iff_eq]
      omega
    rw [hnone, Option.none_or]
    have := find?_enum_map (fun g : Nat × GUIMaterialGroup => groupMeshData w g.2)
      (drawOrder w sep w.groupAddress rd.widgets) heap.nextHandle i
    rw [this, hi]
    rfl

/-! ## Lemmas on the render-side data and the input bridge -/

theorem cameraSet_keys (camera : Nat) (entries : List GUICoreRenderData)
    (l : List (Nat × List GUICoreRenderData)) :
    (cameraSet camera entries l).map Prod.fst = l.map Prod.fst := by
  induction l with
  | nil => rfl
  | cons p rest ih =>
    unfold cameraSet
    split_ifs
    · rfl
    · simp only [List.map_cons, ih]

theorem cameraFind_cons (p : Nat × List GUICoreRenderData)
    (l : List (Nat × List GUICoreRenderData)) (camera : Nat) :
    cameraFind (p :: l) camera = if p.1 = camera then some p.2 else cameraFind l camera := by
  unfold cameraFind
  rw [List.find?_cons]
  by_cases h : p.1 = camera
  · simp [h]
  · have : (p.1 == camera) = false := by simpa using h
    simp [h, this]

theorem cameraFind_cameraSet (camera : Nat) (entries : List GUICoreRenderData)
    (l : List (Nat × List GUICoreRenderData)) (c : Nat) :
    cameraFind (cameraSet camera entries l) c =
      if c = camera then (cameraFind l c).map (fun _ => entries) else cameraFind l c := by
  induction l with
  | nil => simp [cameraSet, cameraFind]
  | cons p rest ih =>
    unfold cameraSet
    by_cases hp : p.1 = camera
    · rw [if_pos hp, cameraFind_cons, cameraFind_cons]
      by_cases hc : c = camera
      · simp [hc, hp]
      · have : ¬ p.1 = c := fun h => hc (h.symm.trans hp)
        simp [hc, this]
    · rw [if_neg hp, cameraFind_cons, cameraFind_cons, ih]
      by_cases hpc : p.1 = c
      · have : ¬ c = camera := fun h => hp (hpc.trans h)
        simp [hpc, this]
      · simp [hpc]

theorem cameraFind_append (l : List (Nat × List GUICoreRenderData)) (camera : Nat)
    (entries : List GUICoreRenderData) (c : Nat) :
    cameraFind (l ++ [(camera, entries)]) c =
      match cameraFind l c with
      | some x => some x
      | none => if camera = c then some entries else none := by
  induction l with
  | nil => rw [List.nil_append, cameraFind_cons]; rfl
  | cons p rest ih =>
    rw [List.cons_append, cameraFind_cons, cameraFind_cons, ih]
    split_ifs <;> rfl

theorem cameraFind_eq_none_iff (l : List (Nat × List GUICoreRenderData)) (c : Nat) :
    cameraFind l c = none ↔ c ∉ l.map Prod.fst := by
  induction l with
  | nil => simp [cameraFind]
  | cons p rest ih =>
    rw [cameraFind_cons]
    by_cases h : p.1 = c
    · simp [h]
    · rw [if_neg h, ih]
      have hne : ¬ c = p.1 := fun e => h e.symm
      rw [List.map_cons, List.mem_cons]
      exact ⟨fun h1 h2 => h2.elim hne h1, fun h1 h2 => h1 (Or.inr h2)⟩

theorem cameraFind_filter (q : Nat → Bool) (l : List (Nat × List GUICoreRenderData)) (c : Nat) :
    cameraFind (l.filter fun p => q p.1) c = if q c then cameraFind l c else none := by
  induction l with
  | nil => simp [cameraFind]
  | cons p rest ih =>
    by_cases hq : q p.1 = true
    · have hf : (p :: rest).filter (fun p => q p.1) = p :: rest.filter (fun p => q p.1) :=
        List.filter_cons_of_pos hq
      rw [hf, cameraFind_cons, cameraFind_cons, ih]
      by_cases h : p.1 = c
      · rw [if_pos h, if_pos h, ← h, if_pos hq]
      · rw [if_neg h, if_neg h]
    · have hf : (p :: rest).filter (fun p => q p.1) = rest.filter (fun p => q p.1) :=
        List.filter_cons_of_neg hq
      rw [hf, ih, cameraFind_cons]
      by_cases h : p.1 = c
      · rw [← h, if_neg hq, if_neg hq]
      · rw [if_neg h]

theorem any_key_iff (l : List (Nat × List GUICoreRenderData)) (c : Nat) :
    (l.any fun p => p.1 == c) = true ↔ c ∈ l.map Prod.fst := by
  rw [List.any_eq_true, List.mem_map]
  constructor
  · rintro ⟨p, hp, h⟩; exact ⟨p, hp, by simpa using h⟩
  · rintro ⟨p, hp, h⟩; exact ⟨p, hp, by simpa using h⟩

theorem updateDataLoop_spec (newData : List (Nat × List GUICoreRenderData)) :
    ∀ (core : GUIManagerCore) (valid : List Nat), (newData.map Prod.fst).Nodup →
      (updateDataLoop newData core valid).2 = valid ++ newData.map Prod.fst ∧
      (updateDataLoop newData core valid).1.registered =
        core.registered ++
          (newData.map Prod.fst).filter (fun c => decide (c ∉ core.perCameraData.map Prod.fst)) ∧
      (updateDataLoop newData core valid).1.unregistered = core.unregistered ∧
      (updateDataLoop newData core valid).1.perCameraData.map Prod.fst =
        core.perCameraData.map Prod.fst ++
          (newData.map Prod.fst).filter (fun c => decide (c ∉ core.perCameraData.map Prod.fst)) ∧
      ∀ c, cameraFind (updateDataLoop newData core valid).1.perCameraData c =
        match cameraFind newData c with
        | some entries => some entries
        | none => cameraFind core.perCameraData c := by
  induction newData with
  | nil =>
    intro core valid _
    refine ⟨by simp [updateDataLoop], by simp [updateDataLoop], rfl, by simp [updateDataLoop],
      fun c => rfl⟩
  | cons p rest ih =>
    intro core valid hnd
    rw [List.map_cons, List.nodup_cons] at hnd
    obtain ⟨hp, hrest⟩ := hnd
    unfold updateDataLoop
    by_cases hold : (core.perCameraData.any fun oldCameraData => oldCameraData.1 == p.1) = true
    · rw [if_pos hold]
      have hmem : p.1 ∈ core.perCameraData.map Prod.fst := (any_key_iff _ _).1 hold
      obtain ⟨i1, i2, i3, i4, i5⟩ := ih
        { core with perCameraData := cameraSet p.1 p.2 core.perCameraData }
        (valid ++ [p.1]) hrest
      simp only [cameraSet_keys] at i2 i4
      refine ⟨?_, ?_, i3, ?_, ?_⟩
      · rw [i1]; simp
      · rw [i2, List.map_cons, List.filter_cons_of_neg (by simpa using hmem)]
      · rw [i4, List.map_cons, List.filter_cons_of_neg (by simpa using hmem)]
      · intro c
        rw [i5, cameraFind_cons]
        by_cases hc : p.1 = c
        · rw [if_pos hc]
          have hnone : cameraFind rest c = none := by
            rw [cameraFind_eq_none_iff, ← hc]; exact hp
          rw [hnone]
          simp only
          rw [cameraFind_cameraSet, if_pos hc.symm]
          have hsome : ∃ x, cameraFind core.perCameraData c = some x := by
            cases hx : cameraFind core.perCameraData c with
            | none =>
              rw [cameraFind_eq_none_iff, ← hc] at hx
              exact absurd hmem hx
            | some x => exact ⟨x, rfl⟩
          obtain ⟨x, hx⟩ := hsome
          rw [hx]
          rfl
        · rw [if_neg hc]
          cases cameraFind rest c with
          | some e => rfl
          | none =>
            simp only
            rw [cameraFind_cameraSet, if_neg fun h => hc h.symm]
    · rw [if_neg hold]
      have hmem : p.1 ∉ core.perCameraData.map Prod.fst := fun h => hold ((any_key_iff _ _).2 h)
      obtain ⟨i1, i2, i3, i4, i5⟩ := ih
        { core with
          perCameraData := core.perCameraData ++ [(p.1, p.2)]
          registered := core.registered ++ [p.1] }
        (valid ++ [p.1]) hrest
      have hfilter : (rest.map Prod.fst).filter
          (fun c => decide (c ∉ (core.perCameraData ++ [(p.1, p.2)]).map Prod.fst)) =
          (rest.map Prod.fst).filter (fun c => decide (c ∉ core.perCameraData.map Prod.fst)) := by
        apply List.filter_congr
        intro c hc
        have hne : c ≠ p.1 := fun h => hp (h ▸ hc)
        simp [hne]
      simp only at i2 i4
      rw [hfilter] at i2 i4
      refine ⟨?_, ?_, i3, ?_, ?_⟩
      · rw [i1]; simp
      · rw [i2, List.map_cons, List.filter_cons_of_pos (by simpa using hmem)]
        simp
      · rw [i4, List.map_cons, List.filter_cons_of_pos (by simpa using hmem)]
        simp
      · intro c
        rw [i5, cameraFind_cons]
        by_cases hc : p.1 = c
        · rw [if_pos hc]
          have hnone : cameraFind rest c = none := by
            rw [cameraFind_eq_none_iff, ← hc]; exact hp
          rw [hnone]
          simp only
          rw [cameraFind_append]
          have hn2 : cameraFind core.perCameraData c = none := by
            rw [cameraFind_eq_none_iff, ← hc]; exact hmem
          rw [hn2]
          simp [hc]
        · rw [if_neg hc]
          cases cameraFind rest c with
          | some e => rfl
          | none =>
            simp only
            rw [cameraFind_append]
            cases cameraFind core.perCameraData c with
            | some x => rfl
            | none => simp [hc]

theorem removeCameras_spec (l : List Nat) :
    ∀ core : GUIManagerCore,
      (removeCameras l core).unregistered = core.unregistered ++ l ∧
      (removeCameras l core).registered = core.registered ∧
      (removeCameras l core).perCameraData =
        core.perCameraData.filter fun p => decide (p.1 ∉ l) := by
  induction l with
  | nil => intro core; simp [removeCameras]
  | cons c rest ih =>
    intro core
    unfold removeCameras
    obtain ⟨i1, i2, i3⟩ := ih
      { core with
        unregistered := core.unregistered ++ [c]
        perCameraData := core.perCameraData.filter fun p => p.1 != c }
    refine ⟨by rw [i1]; simp, i2, ?_⟩
    rw [i3, List.filter_filter]
    apply List.filter_congr
    intro p _
    by_cases h : p.1 = c
    · simp [h]
    · simp [h]

theorem bridgeWindowPass_eq_none_iff (w : World) (inputBridge : List (Nat × Nat))
    (target : Nat) (ht : target ≠ 0) :
    bridgeWindowPass w inputBridge target = none ↔ BridgeStuck w inputBridge target := by
  unfold bridgeWindowPass BridgeStuck
  cases hf : bridgeFind inputBridge target with
  | none => simp [ht]
  | some element =>
    simp only [Option.some.injEq, exists_eq_left']
    by_cases h1 : w.parentWidget element = 0
    · simp [h1]
    · by_cases h2 : w.getTarget (w.parentWidget element) = 0
      · simp [h1, h2]
      · by_cases h3 : w.viewportTarget (w.getTarget (w.parentWidget element)) = 0
        · simp [h1, h2, h3]
        · by_cases h4 : w.viewportTarget (w.getTarget (w.parentWidget element)) = target
          · simp [h1, h2, h3, h4]
          · by_cases h5 : w.isWindow (w.viewportTarget (w.getTarget (w.parentWidget element)))
                = true
            · simp [h1, h2, h3, h4, h5, ht]
            · simp [h1, h2, h3, h4, h5, ht]

theorem bridgeWindowLoop_stuck (w : World) (inputBridge : List (Nat × Nat)) (target : Nat)
    (h : bridgeWindowPass w inputBridge target = none) :
    ∀ fuel, bridgeWindowLoop w inputBridge target fuel = none := by
  intro fuel
  induction fuel with
  | zero => rfl
  | succ n ih =>
    unfold bridgeWindowLoop
    rw [h]
    exact ih

/-! ## Paint order of the batches -/

/-- C1. Paint order of `updateMeshes`: if the render elements `p` and `q` of visible elements
of the widgets of a render target have overlapping transformed clipped bounds and `p` is
strictly farther than `q`, then either one group of the draw order holds both with `p` before
`q` in its element list, or the group holding `p` comes strictly before the group holding `q`
in the draw order. Distinct groups have distinct addresses (`addr` is injective). -/
theorem updateMeshes_paint_order (w : World) (separateMeshesByWidget : Bool)
    (addr : Nat → Nat) (haddr : Function.Injective addr) (widgets : List Nat)
    (p q : GUIGroupElement) (hp : p ∈ visibleRenderElements w widgets)
    (hq : q ∈ visibleRenderElements w widgets)
    (hov : (tfrmedBounds w p.element).overlaps (tfrmedBounds w q.element) = true)
    (hdepth : elemDepth w q < elemDepth w p) :
    (∃ g ∈ drawOrder w separateMeshesByWidget addr widgets, ∃ a b : Nat,
        a < b ∧ g.2.elements[a]? = some p ∧ g.2.elements[b]? = some q) ∨
    (∃ (i j : Nat) (gp gq : Nat × GUIMaterialGroup), i < j ∧
        (drawOrder w separateMeshesByWidget addr widgets)[i]? = some gp ∧
        (drawOrder w separateMeshesByWidget addr widgets)[j]? = some gq ∧
        p ∈ gp.2.elements ∧ q ∈ gq.2.elements) := by
  have inv := groupingInv_materialGroups w separateMeshesByWidget widgets
  rcases inv.ordered p (mem_allElements w widgets p hp) q (mem_allElements w widgets q hq)
      hov hdepth with ⟨k, g, a, b, hk, hab, ha, hb⟩ | ⟨kp, kq, gp, gq, hkp, hkq, hpin, hqin, hlt⟩
  · exact Or.inl ⟨(k, g), mem_sortedGroups addr haddr _ hk, a, b, hab, ha, hb⟩
  · obtain ⟨i, j, hij, hi, hj⟩ :=
      index_lt_of_pairwise_depth (sortedGroups_sorted addr _)
        (mem_sortedGroups addr haddr _ hkp) (mem_sortedGroups addr haddr _ hkq) hlt
    exact Or.inr ⟨i, j, (kp, gp), (kq, gq), hij, hi, hj, hpin, hqin⟩

/-- Witness for `updateMeshes_paint_order`: element 1 (depth 9) and element 4 (depth 7) of
`exampleBatchWorldNear` overlap. -/
theorem updateMeshes_paint_order_witness :
    (∃ g ∈ drawOrder exampleBatchWorldNear true id [1, 2], ∃ a b : Nat,
        a < b ∧ g.2.elements[a]? = some (GUIGroupElement.mk 1 0) ∧
        g.2.elements[b]? = some (GUIGroupElement.mk 4 0)) ∨
    (∃ (i j : Nat) (gp gq : Nat × GUIMaterialGroup), i < j ∧
        (drawOrder exampleBatchWorldNear true id [1, 2])[i]? = some gp ∧
        (drawOrder exampleBatchWorldNear true id [1, 2])[j]? = some gq ∧
        GUIGroupElement.mk 1 0 ∈ gp.2.elements ∧ GUIGroupElement.mk 4 0 ∈ gq.2.elements) :=
  updateMeshes_paint_order exampleBatchWorldNear true id Function.injective_id [1, 2]
    ⟨1, 0⟩ ⟨4, 0⟩ (by decide) (by decide) (by decide) (by decide)

/-! ## The batching example -/

/-- C2 (amended). Three render elements of one material and one widget at depths 9, 5 and 5,
alone on the target, end in exactly one group. With a fourth render element of another
material at depth 7 whose bounds overlap the union of the bounds of the depth-9 element and
of the depth-5 element with the greater address (the one grouped first), the depth-9 element
is alone in its group and both depth-5 elements share another group. -/
theorem batching_example (w : World) (separateMeshesByWidget : Bool)
    (widgets3 widgets4 : List Nat) (a b c d : Nat) (m : SpriteMaterialInfo)
    (hda : w.renderElementDepth a 0 = 9) (hdb : w.renderElementDepth b 0 = 5)
    (hdc : w.renderElementDepth c 0 = 5) (hdd : w.renderElementDepth d 0 = 7)
    (hma : w.material a 0 = m) (hmb : w.material b 0 = m) (hmc : w.material c 0 = m)
    (hmd : w.material d 0 ≠ m)
    (hwb : w.parentWidget b = w.parentWidget a) (hwc : w.parentWidget c = w.parentWidget a)
    (hbc : c < b)
    (h3 : ∀ x, x ∈ visibleRenderElements w widgets3 ↔
      x ∈ [GUIGroupElement.mk a 0, GUIGroupElement.mk b 0, GUIGroupElement.mk c 0])
    (h4 : ∀ x, x ∈ visibleRenderElements w widgets4 ↔
      x ∈ [GUIGroupElement.mk a 0, GUIGroupElement.mk d 0, GUIGroupElement.mk b 0,
        GUIGroupElement.mk c 0])
    (hov : (tfrmedBounds w d).overlaps
      ((tfrmedBounds w a).encapsulate (tfrmedBounds w b)) = true) :
    (materialGroups w separateMeshesByWidget widgets3).length = 1 ∧
    ∃ ga gd gb : GUIMaterialGroup,
      materialGroups w separateMeshesByWidget widgets4 = [ga, gd, gb] ∧
      ga.elements = [GUIGroupElement.mk a 0] ∧ gd.elements = [GUIGroupElement.mk d 0] ∧
      gb.elements = [GUIGroupElement.mk b 0, GUIGroupElement.mk c 0] := by
  have e3 : allElements w widgets3 =
      [GUIGroupElement.mk a 0, GUIGroupElement.mk b 0, GUIGroupElement.mk c 0] := by
    apply allElements_eq _ _ _ _ h3
    simp [elemComp, elemDepth, hda, hdb, hdc, hbc]
  have e4 : allElements w widgets4 =
      [GUIGroupElement.mk a 0, GUIGroupElement.mk d 0, GUIGroupElement.mk b 0,
        GUIGroupElement.mk c 0] := by
    apply allElements_eq _ _ _ _ h4
    simp [elemComp, elemDepth, hda, hdb, hdc, hdd, hbc]
  constructor
  · unfold materialGroups
    rw [e3]
    simp only [List.foldl_cons, List.foldl_nil, insertElement_nil]
    rw [insertElement_singleton w _ (newGroup w ⟨a, 0⟩) ⟨b, 0⟩ (by simp [newGroup, hma, hmb])
      (otherWidget_same w _ _ ⟨a, 0⟩ [] b rfl hwb.symm)]
    rw [insertElement_singleton w _ _ ⟨c, 0⟩ (by simp [newGroup, addToGroup, hma, hmc])
      (otherWidget_same w _ _ ⟨a, 0⟩ [⟨b, 0⟩] c rfl hwc.symm)]
    rfl
  · unfold materialGroups
    rw [e4]
    simp only [List.foldl_cons, List.foldl_nil, insertElement_nil]
    -- the depth-7 element has another material, it opens the second group
    have s2 : insertElement w separateMeshesByWidget [newGroup w ⟨a, 0⟩] ⟨d, 0⟩ =
        [newGroup w ⟨a, 0⟩, newGroup w ⟨d, 0⟩] := by
      have : findGroup w separateMeshesByWidget [newGroup w ⟨a, 0⟩] ⟨d, 0⟩ = none := by
        simp [findGroup, List.enum, List.enumFrom, newGroup, hma, Ne.symm hmd]
      simp [insertElement, this]
    -- the first depth-5 element finds the depth-9 group blocked by the depth-7 group
    have s3 : insertElement w separateMeshesByWidget
        [newGroup w ⟨a, 0⟩, newGroup w ⟨d, 0⟩] ⟨b, 0⟩ =
        [newGroup w ⟨a, 0⟩, newGroup w ⟨d, 0⟩, newGroup w ⟨b, 0⟩] := by
      have hfo : foundOverlap [newGroup w ⟨a, 0⟩, newGroup w ⟨d, 0⟩] 0 5 9
          ((tfrmedBounds w a).encapsulate (tfrmedBounds w b)) = true := by
        simp [foundOverlap, List.enum, List.enumFrom, newGroup, depthInWindow, elemDepth,
          hdd, hov]
      have hfit : groupFits w separateMeshesByWidget
          [newGroup w ⟨a, 0⟩, newGroup w ⟨d, 0⟩] ⟨b, 0⟩ 0 (newGroup w ⟨a, 0⟩) = false := by
        have how := otherWidget_same w separateMeshesByWidget (newGroup w ⟨a, 0⟩) ⟨a, 0⟩ [] b
          rfl hwb.symm
        have hdep : (newGroup w ⟨a, 0⟩).depth = 9 := by simp [newGroup, elemDepth, hda]
        have hed : elemDepth w ⟨b, 0⟩ = 5 := by simp [elemDepth, hdb]
        have hbd : (newGroup w ⟨a, 0⟩).bounds = tfrmedBounds w a := rfl
        unfold groupFits
        rw [how, hdep, hed, hbd, hfo]
        simp
      have : findGroup w separateMeshesByWidget
          [newGroup w ⟨a, 0⟩, newGroup w ⟨d, 0⟩] ⟨b, 0⟩ = none := by
        have hd : ¬ (newGroup w ⟨d, 0⟩).matInfo = m := by simpa [newGroup] using hmd
        have ha : (newGroup w ⟨a, 0⟩).matInfo = m := by simpa [newGroup] using hma
        simp [findGroup, List.enum, List.enumFrom, hmb, hd, ha, hfit]
      simp [insertElement, this]
    -- the second depth-5 element joins the group of the first
    have s4 : insertElement w separateMeshesByWidget
        [newGroup w ⟨a, 0⟩, newGroup w ⟨d, 0⟩, newGroup w ⟨b, 0⟩] ⟨c, 0⟩ =
        [newGroup w ⟨a, 0⟩, newGroup w ⟨d, 0⟩, addToGroup w ⟨c, 0⟩ (newGroup w ⟨b, 0⟩)] := by
      have hfit : groupFits w separateMeshesByWidget
          [newGroup w ⟨a, 0⟩, newGroup w ⟨d, 0⟩, newGroup w ⟨b, 0⟩] ⟨c, 0⟩ 2
          (newGroup w ⟨b, 0⟩) = true := by
        have how := otherWidget_same w separateMeshesByWidget (newGroup w ⟨b, 0⟩) ⟨b, 0⟩ [] c
          rfl (hwb.trans hwc.symm)
        have hdep : (newGroup w ⟨b, 0⟩).depth = 5 := by simp [newGroup, elemDepth, hdb]
        have hed : elemDepth w ⟨c, 0⟩ = 5 := by simp [elemDepth, hdc]
        unfold groupFits
        rw [how, hdep, hed]
        simp
      have : findGroup w separateMeshesByWidget
          [newGroup w ⟨a, 0⟩, newGroup w ⟨d, 0⟩, newGroup w ⟨b, 0⟩] ⟨c, 0⟩ = some 2 := by
        have hb : (newGroup w ⟨b, 0⟩).matInfo = m := by simpa [newGroup] using hmb
        simp [findGroup, List.enum, List.enumFrom, hmc, hb, hfit]
      simp [insertElement, this, List.modify]
    rw [s2, s3, s4]
    exact ⟨_, _, _, rfl, rfl, rfl, rfl⟩

/-- C2, counterexample. In `exampleBatchWorld` the three elements of one material and one
widget have depths 9, 5, 5 and pairwise disjoint bounds and form one group when alone; the
fourth element has another material, depth 7 and bounds that overlap the union bounds of the
three. Still the depth-9 element is not alone: its group also holds the depth-5 element 3. -/
theorem batching_example_counterexample :
    ((tfrmedBounds exampleBatchWorld 1).overlaps (tfrmedBounds exampleBatchWorld 2) = false ∧
      (tfrmedBounds exampleBatchWorld 1).overlaps (tfrmedBounds exampleBatchWorld 3) = false ∧
      (tfrmedBounds exampleBatchWorld 2).overlaps (tfrmedBounds exampleBatchWorld 3) = false) ∧
    (materialGroups exampleBatchWorld true [1]).length = 1 ∧
    (tfrmedBounds exampleBatchWorld 4).overlaps
      (((tfrmedBounds exampleBatchWorld 1).encapsulate (tfrmedBounds exampleBatchWorld 2)).encapsulate
        (tfrmedBounds exampleBatchWorld 3)) = true ∧
    (materialGroups exampleBatchWorld true [1, 2]).map (fun g => g.elements) =
      [[GUIGroupElement.mk 1 0, GUIGroupElement.mk 3 0], [GUIGroupElement.mk 4 0],
        [GUIGroupElement.mk 2 0]] ∧
    ¬ ∃ g ∈ materialGroups exampleBatchWorld true [1, 2], g.elements = [GUIGroupElement.mk 1 0] := by
  decide

/-- Witness for `batching_example` in `exampleBatchWorldNear`. -/
theorem batching_example_witness :
    (materialGroups exampleBatchWorldNear true [1]).length = 1 ∧
    ∃ ga gd gb : GUIMaterialGroup,
      materialGroups exampleBatchWorldNear true [1, 2] = [ga, gd, gb] ∧
      ga.elements = [GUIGroupElement.mk 1 0] ∧ gd.elements = [GUIGroupElement.mk 4 0] ∧
      gb.elements = [GUIGroupElement.mk 3 0, GUIGroupElement.mk 2 0] :=
  batching_example exampleBatchWorldNear true [1] [1, 2] 1 3 2 4 { type := 1 }
    (by decide) (by decide) (by decide) (by decide) (by decide) (by decide) (by decide)
    (by decide) (by decide) (by decide) (by decide)
    (by
      have h : visibleRenderElements exampleBatchWorldNear [1] =
          [GUIGroupElement.mk 1 0, GUIGroupElement.mk 2 0, GUIGroupElement.mk 3 0] := by decide
      intro x
      rw [h]
      simp only [List.mem_cons, List.mem_singleton, List.not_mem_nil, or_false]
      tauto)
    (by
      have h : visibleRenderElements exampleBatchWorldNear [1, 2] =
          [GUIGroupElement.mk 1 0, GUIGroupElement.mk 2 0, GUIGroupElement.mk 3 0,
            GUIGroupElement.mk 4 0] := by decide
      intro x
      rw [h]
      simp only [List.mem_cons, List.mem_singleton, List.not_mem_nil, or_false]
      tauto)
    (by decide)

/-! ## Result of the hit test -/

/-- C3. Result of the hit test: a pair (element, widget) is in the under-pointer list exactly
when the widget is registered, its window is the window under the pointer, the widget bounds
contain the pointer, and the element is a visible element of the widget whose bounds contain
the widget-local pointer position; and the list is ordered by non-decreasing depth. -/
theorem findElementUnderPointer_hit_test (w : World) (s : GUIManager)
    (pointerScreenPos : Vector2I) (buttonStates : Bool × Bool × Bool)
    (shift control alt : Bool) :
    (∀ element widget : Nat,
      (∃ info ∈ (findElementUnderPointer w s pointerScreenPos buttonStates shift control
          alt).1.elementsUnderPointer, info.element = element ∧ info.widget = widget) ↔
      (widget ∈ s.widgets ∧ windowUnderPointer w s.widgets pointerScreenPos ≠ 0 ∧
        w.getWidgetWindow widget = windowUnderPointer w s.widgets pointerScreenPos ∧
        w.widgetInBounds widget (w.windowToBridgedCoords widget
          (w.screenToWindowPos (windowUnderPointer w s.widgets pointerScreenPos)
            pointerScreenPos)) = true ∧
        element ∈ w.widgetElements widget ∧ w.isVisible element = true ∧
        w.isInBounds element (getWidgetRelativePos w widget pointerScreenPos) = true)) ∧
    (findElementUnderPointer w s pointerScreenPos buttonStates shift control
      alt).1.elementsUnderPointer.Pairwise
        fun x y => w.depth x.element ≤ w.depth y.element := by
  rw [findElementUnderPointer_list]
  have hk := mouseOverLoop_keys w pointerScreenPos
    { buttonStates := buttonStates, shift := shift, control := control, alt := alt }
    (sortByDepth w (hitElements w s pointerScreenPos)) s
  constructor
  · intro element widget
    rw [← mem_hitElements_keys]
    have hperm := (sortByDepth_perm w (hitElements w s pointerScreenPos)).map
      ElementInfoUnderPointer.key
    rw [← hperm.mem_iff, ← hk, List.mem_map]
    constructor
    · rintro ⟨info, hi, he, hw⟩
      exact ⟨info, hi, by simp [ElementInfoUnderPointer.key, he, hw]⟩
    · rintro ⟨info, hi, hkey⟩
      simp only [ElementInfoUnderPointer.key, Prod.mk.injEq] at hkey
      exact ⟨info, hi, hkey.1, hkey.2⟩
  · have hs := sortByDepth_sorted w (hitElements w s pointerScreenPos)
    have h1 : ((sortByDepth w (hitElements w s pointerScreenPos)).map
        ElementInfoUnderPointer.key).Pairwise fun x y => w.depth x.1 ≤ w.depth y.1 := by
      rw [List.pairwise_map]
      exact hs
    rw [← hk, List.pairwise_map] at h1
    exact h1

/-! ## Dispatch order of a press -/

/-- C4, counterexample. In `exampleWorldDestroyed` the hovered list is 1, 2, 3 and element 1
is flagged as destroyed. A left press with an empty active set leaves the active set 1, 2,
but mouse-down was received by element 2 only: the active set is not the list of elements
that received mouse-down. -/
theorem onPointerPressed_dispatch_counterexample :
    exampleManager.activeElements = [] ∧
    (hoveredList exampleWorldDestroyed exampleManager (leftButtonAt 0 0)).map
      (fun info => info.element) = [1, 2, 3] ∧
    ∃ s' used, onPointerPressed exampleWorldDestroyed exampleManager (leftButtonAt 0 0) =
        Except.ok (s', used) ∧
      s'.activeElements.map (fun x => x.element) = [1, 2] ∧
      receivers EventTag.mouseDown (sentSince exampleManager s') = [2] ∧
      s'.activeElements.map (fun x => x.element) ≠
        receivers EventTag.mouseDown (sentSince exampleManager s') :=
  ⟨rfl, by decide, _, _, rfl, by decide, by decide, by decide⟩

/-- C4 (amended). A press handled with an empty active set addresses mouse-down to the
hovered elements front to back up to and including the first one that is not destroyed and
whose handler consumes it (to all when there is none); the event is delivered, in that
order, to those of them that are not destroyed and to nothing else, and the active set
afterwards is exactly that front part of the hovered list. When no hovered element is
destroyed the active set is the list of elements that received mouse-down. -/
theorem onPointerPressed_dispatch_order (w : World) (s : GUIManager) (event : PointerEvent)
    (guiButton : GUIMouseButton) (hu : event.used = false)
    (hb : buttonToGUIButton event.button = Except.ok guiButton)
    (hactive : s.activeElements = []) :
    ∃ s' used, onPointerPressed w s event = Except.ok (s', used) ∧
      receivers EventTag.mouseDown (sentSince s s') =
        ((pressVisited w s event guiButton).filter fun info => !w.isDestroyed info.element).map
          (fun info => info.element) ∧
      s'.activeElements =
        (pressVisited w s event guiButton).map ElementInfoUnderPointer.toElementInfo ∧
      ((∀ info ∈ hoveredList w s event, w.isDestroyed info.element = false) →
        s'.activeElements.map (fun x => x.element) =
          receivers EventTag.mouseDown (sentSince s s')) := by
  obtain ⟨s', used, hpress, out⟩ := onPointerPressed_spec w s event guiButton hu hb
  have hrecv := out.mouseDown_receivers
  have hact := out.active_eq
  rw [if_pos hactive] at hrecv hact
  refine ⟨s', used, hpress, hrecv, hact, ?_⟩
  intro halive
  rw [hrecv, hact, List.map_map]
  have hsub : ∀ info ∈ pressVisited w s event guiButton, w.isDestroyed info.element = false := by
    intro info hinfo
    obtain ⟨k, hk, -⟩ := takeThrough_eq_take
      (consumesMouseDown w (baseEvent event) event guiButton) (hoveredList w s event)
    apply halive
    unfold pressVisited at hinfo
    rw [hk] at hinfo
    exact List.mem_of_mem_take hinfo
  rw [List.filter_eq_self.2 (fun info hinfo => by simp [hsub info hinfo])]
  rfl

/-- Witness for `onPointerPressed_dispatch_order`: a left press in `exampleWorld`. -/
theorem onPointerPressed_dispatch_order_witness :
    ∃ s' used, onPointerPressed exampleWorld exampleManager (leftButtonAt 0 0) =
        Except.ok (s', used) ∧
      receivers EventTag.mouseDown (sentSince exampleManager s') =
        ((pressVisited exampleWorld exampleManager (leftButtonAt 0 0) GUIMouseButton.Left).filter
          fun info => !exampleWorld.isDestroyed info.element).map (fun info => info.element) ∧
      s'.activeElements =
        (pressVisited exampleWorld exampleManager (leftButtonAt 0 0) GUIMouseButton.Left).map
          ElementInfoUnderPointer.toElementInfo ∧
      ((∀ info ∈ hoveredList exampleWorld exampleManager (leftButtonAt 0 0),
          exampleWorld.isDestroyed info.element = false) →
        s'.activeElements.map (fun x => x.element) =
          receivers EventTag.mouseDown (sentSince exampleManager s')) :=
  onPointerPressed_dispatch_order exampleWorld exampleManager (leftButtonAt 0 0)
    GUIMouseButton.Left rfl rfl rfl

/-! ## Press edge of the drag state machine -/

/-- C5, counterexample. A left press that is not marked used, arriving in state `NoDrag`
while nothing is under the pointer, leaves the drag state `NoDrag`. -/
theorem onPointerPressed_press_edge_counterexample :
    (leftButtonAt 0 0).used = false ∧ (leftButtonAt 0 0).button = PointerEventButton.Left ∧
    ({} : GUIManager).dragState = DragState.NoDrag ∧
    ∃ s' used, onPointerPressed {} {} (leftButtonAt 0 0) = Except.ok (s', used) ∧
      s'.dragState = DragState.NoDrag ∧ s'.dragState ≠ DragState.HeldWithoutDrag :=
  ⟨rfl, rfl, rfl, _, _, rfl, rfl, by decide⟩

/-- C5 (amended). A left press that is not marked used and arrives in state `NoDrag` while
the active set is empty and at least one element is under the pointer leaves the drag state
`HeldWithoutDrag`. -/
theorem onPointerPressed_press_edge (w : World) (s : GUIManager) (event : PointerEvent)
    (hu : event.used = false) (hb : event.button = PointerEventButton.Left)
    (_hdrag : s.dragState = DragState.NoDrag) (hactive : s.activeElements = [])
    (hhover : hoveredList w s event ≠ []) :
    ∃ s' used, onPointerPressed w s event = Except.ok (s', used) ∧
      s'.dragState = DragState.HeldWithoutDrag := by
  obtain ⟨s', used, hpress, out⟩ :=
    onPointerPressed_spec w s event GUIMouseButton.Left hu (by rw [hb]; rfl)
  refine ⟨s', used, hpress, ?_⟩
  rw [out.dragState_eq, if_pos ⟨hactive, hhover, rfl⟩]

/-- Witness for `onPointerPressed_press_edge`: a left press in `exampleWorld`. -/
theorem onPointerPressed_press_edge_witness :
    ∃ s' used, onPointerPressed exampleWorld exampleManager (leftButtonAt 0 0) =
        Except.ok (s', used) ∧ s'.dragState = DragState.HeldWithoutDrag :=
  onPointerPressed_press_edge exampleWorld exampleManager (leftButtonAt 0 0) rfl rfl rfl rfl
    (by decide)

/-! ## The drag threshold example -/

/-- C6, counterexample. After a left press at (0,0) on the elements of `exampleWorld` the
move to (1,1) leaves the drag state `HeldWithoutDrag`, but the move to (2,2) already makes it
`Dragging`: the state is not `HeldWithoutDrag` after the two moves. -/
theorem drag_threshold_example_counterexample :
    ∃ s1 used, onPointerPressed exampleWorld exampleManager (leftButtonAt 0 0) =
        Except.ok (s1, used) ∧
      s1.dragState = DragState.HeldWithoutDrag ∧
      (onPointerMoved exampleWorld s1 (moveTo 1 1)).1.dragState = DragState.HeldWithoutDrag ∧
      (onPointerMoved exampleWorld (onPointerMoved exampleWorld s1 (moveTo 1 1)).1
        (moveTo 2 2)).1.dragState = DragState.Dragging ∧
      (onPointerMoved exampleWorld (onPointerMoved exampleWorld s1 (moveTo 1 1)).1
        (moveTo 2 2)).1.dragState ≠ DragState.HeldWithoutDrag :=
  ⟨_, _, rfl, by decide, by decide, by decide, by decide⟩

/-- C6 (amended). After an unused left press at screen position (0,0) with an empty active
set and an element under the pointer, an unused pointer move to (1,1) leaves the drag state
`HeldWithoutDrag`, the following move to (2,2) changes it to `Dragging`, and a following move
to (4,4) leaves it `Dragging`. -/
theorem drag_threshold_example (w : World) (s : GUIManager) (press m1 m2 m3 : PointerEvent)
    (hpu : press.used = false) (hpb : press.button = PointerEventButton.Left)
    (hpp : press.screenPos = { x := 0, y := 0 }) (hactive : s.activeElements = [])
    (hhover : hoveredList w s press ≠ [])
    (hu1 : m1.used = false) (hp1 : m1.screenPos = { x := 1, y := 1 })
    (hu2 : m2.used = false) (hp2 : m2.screenPos = { x := 2, y := 2 })
    (hu3 : m3.used = false) (_hp3 : m3.screenPos = { x := 4, y := 4 }) :
    ∃ s1 used, onPointerPressed w s press = Except.ok (s1, used) ∧
      s1.dragState = DragState.HeldWithoutDrag ∧
      (onPointerMoved w s1 m1).1.dragState = DragState.HeldWithoutDrag ∧
      (onPointerMoved w (onPointerMoved w s1 m1).1 m2).1.dragState = DragState.Dragging ∧
      (onPointerMoved w (onPointerMoved w (onPointerMoved w s1 m1).1 m2).1 m3).1.dragState =
        DragState.Dragging := by
  obtain ⟨s1, used, hpress, out⟩ :=
    onPointerPressed_spec w s press GUIMouseButton.Left hpu (by rw [hpb]; rfl)
  have hd1 : s1.dragState = DragState.HeldWithoutDrag := by
    rw [out.dragState_eq, if_pos ⟨hactive, hhover, rfl⟩]
  have hc1 : s1.lastPointerClickPos = { x := 0, y := 0 } := by
    rw [out.clickPos_eq, if_pos ⟨hactive, hhover, rfl⟩, hpp]
  have o1 := onPointerMoved_spec w s1 m1 hu1
  have hn1 : ¬ startsDrag s1 m1 := by
    unfold startsDrag
    rw [hc1, hp1]
    simp [Vector2I.manhattanDist, DRAG_DISTANCE]
  have hd2 : (onPointerMoved w s1 m1).1.dragState = DragState.HeldWithoutDrag := by
    rw [o1.dragState_eq, if_neg hn1, hd1]
  have hc2 : (onPointerMoved w s1 m1).1.lastPointerClickPos = { x := 0, y := 0 } := by
    rw [o1.clickPos_eq, hc1]
  have o2 := onPointerMoved_spec w (onPointerMoved w s1 m1).1 m2 hu2
  have hs2 : startsDrag (onPointerMoved w s1 m1).1 m2 := by
    unfold startsDrag
    rw [hc2, hp2]
    simp [Vector2I.manhattanDist, DRAG_DISTANCE, hd2]
  have hd3 : (onPointerMoved w (onPointerMoved w s1 m1).1 m2).1.dragState =
      DragState.Dragging := by
    rw [o2.dragState_eq, if_pos hs2]
  have o3 := onPointerMoved_spec w (onPointerMoved w (onPointerMoved w s1 m1).1 m2).1 m3 hu3
  have hn3 : ¬ startsDrag (onPointerMoved w (onPointerMoved w s1 m1).1 m2).1 m3 := by
    unfold startsDrag
    rw [hd3]
    simp
  refine ⟨s1, used, hpress, hd1, hd2, hd3, ?_⟩
  rw [o3.dragState_eq, if_neg hn3, hd3]

/-- Witness for `drag_threshold_example` in `exampleWorld`. -/
theorem drag_threshold_example_witness :
    ∃ s1 used, onPointerPressed exampleWorld exampleManager (leftButtonAt 0 0) =
        Except.ok (s1, used) ∧
      s1.dragState = DragState.HeldWithoutDrag ∧
      (onPointerMoved exampleWorld s1 (moveTo 1 1)).1.dragState = DragState.HeldWithoutDrag ∧
      (onPointerMoved exampleWorld (onPointerMoved exampleWorld s1 (moveTo 1 1)).1
        (moveTo 2 2)).1.dragState = DragState.Dragging ∧
      (onPointerMoved exampleWorld (onPointerMoved exampleWorld
        (onPointerMoved exampleWorld s1 (moveTo 1 1)).1 (moveTo 2 2)).1
        (moveTo 4 4)).1.dragState = DragState.Dragging :=
  drag_threshold_example exampleWorld exampleManager (leftButtonAt 0 0) (moveTo 1 1)
    (moveTo 2 2) (moveTo 4 4) rfl rfl rfl rfl (by decide) rfl rfl rfl rfl rfl rfl

/-! ## The drag threshold -/

/-- C7. Drag threshold: an unused pointer move received in `HeldWithoutDrag` makes the drag
state `Dragging` exactly when the Manhattan distance between the press position and the new
position is strictly greater than `DRAG_DISTANCE = 3`; otherwise the state stays
`HeldWithoutDrag`. -/
theorem onPointerMoved_drag_threshold (w : World) (s : GUIManager) (event : PointerEvent)
    (hu : event.used = false) (hheld : s.dragState = DragState.HeldWithoutDrag) :
    DRAG_DISTANCE = 3 ∧
    ((onPointerMoved w s event).1.dragState = DragState.Dragging ↔
      |event.screenPos.x - s.lastPointerClickPos.x| +
        |event.screenPos.y - s.lastPointerClickPos.y| > 3) ∧
    (¬ (|event.screenPos.x - s.lastPointerClickPos.x| +
        |event.screenPos.y - s.lastPointerClickPos.y| > 3) →
      (onPointerMoved w s event).1.dragState = DragState.HeldWithoutDrag) := by
  have out := onPointerMoved_spec w s event hu
  have hiff : startsDrag s event ↔
      |event.screenPos.x - s.lastPointerClickPos.x| +
        |event.screenPos.y - s.lastPointerClickPos.y| > 3 := by
    unfold startsDrag
    rw [manhattanDist_gt_iff]
    simp [hheld, DRAG_DISTANCE]
  refine ⟨rfl, ?_, ?_⟩
  · rw [out.dragState_eq, ← hiff]
    by_cases hst : startsDrag s event
    · simp [hst]
    · simp [hst, hheld]
  · intro hn
    rw [out.dragState_eq, if_neg (fun h => hn (hiff.1 h)), hheld]

/-- Witness for `onPointerMoved_drag_threshold`: a manager in state `HeldWithoutDrag` with
press position (0,0) and a move to (1,1). -/
theorem onPointerMoved_drag_threshold_witness :
    DRAG_DISTANCE = 3 ∧
    ((onPointerMoved exampleWorld { exampleManager with dragState := DragState.HeldWithoutDrag }
        (moveTo 1 1)).1.dragState = DragState.Dragging ↔
      |(moveTo 1 1).screenPos.x -
          ({ exampleManager with dragState := DragState.HeldWithoutDrag } :
            GUIManager).lastPointerClickPos.x| +
        |(moveTo 1 1).screenPos.y -
          ({ exampleManager with dragState := DragState.HeldWithoutDrag } :
            GUIManager).lastPointerClickPos.y| > 3) ∧
    (¬ (|(moveTo 1 1).screenPos.x -
          ({ exampleManager with dragState := DragState.HeldWithoutDrag } :
            GUIManager).lastPointerClickPos.x| +
        |(moveTo 1 1).screenPos.y -
          ({ exampleManager with dragState := DragState.HeldWithoutDrag } :
            GUIManager).lastPointerClickPos.y| > 3) →
      (onPointerMoved exampleWorld { exampleManager with dragState := DragState.HeldWithoutDrag }
        (moveTo 1 1)).1.dragState = DragState.HeldWithoutDrag) :=
  onPointerMoved_drag_threshold exampleWorld
    { exampleManager with dragState := DragState.HeldWithoutDrag } (moveTo 1 1) rfl rfl

/-! ## Drag-start is sent once -/

/-- C8, counterexample. Widget 1 of `exampleRegisterWorld` is registered twice and the left
button is pressed over it: the active set holds each of the elements 1, 2, 3 twice, and the
move to (2,2) that enters `Dragging` sends each of them two drag-start events. -/
theorem drag_start_twice_counterexample :
    ∃ st, applyCalls exampleRegisterWorld 1 {}
        [ManagerCall.registerWidget 1, ManagerCall.registerWidget 1,
         ManagerCall.pointer (PointerInput.pressed (leftButtonAt 0 0))] = some st ∧
      st.gui.dragState = DragState.HeldWithoutDrag ∧
      st.gui.activeElements.map (fun a => a.element) = [1, 1, 2, 2, 3, 3] ∧
      (onPointerMoved exampleRegisterWorld st.gui (moveTo 2 2)).1.dragState =
        DragState.Dragging ∧
      receivers EventTag.mouseDragStart
        (sentSince st.gui (onPointerMoved exampleRegisterWorld st.gui (moveTo 2 2)).1) =
        [1, 1, 2, 2, 3, 3] :=
  ⟨_, rfl, rfl, rfl, by decide, by decide⟩

/-- C8 (amended). Drag-start exactly once: on the unused pointer move that changes the drag
state from `HeldWithoutDrag` to `Dragging`, every element that is not destroyed receives one
drag-start event for each record it has in the active set, and a destroyed element receives
none; that is exactly one for every live element of the active set when the active set holds
it once, as it does in every state reached by pointer events from a manager in which no
widget is registered twice (every element belonging to one widget). Afterwards no run of
pointer moves, releases and double clicks without a press delivers a drag-start event. -/
theorem onPointerMoved_drag_start_once (w : World) (s : GUIManager) (event : PointerEvent)
    (hu : event.used = false) (hheld : s.dragState = DragState.HeldWithoutDrag)
    (hdragging : (onPointerMoved w s event).1.dragState = DragState.Dragging) :
    (∀ e : Nat, w.isDestroyed e = false →
      (receivers EventTag.mouseDragStart (sentSince s (onPointerMoved w s event).1)).count e =
        (s.activeElements.map fun x => x.element).count e) ∧
    (∀ e : Nat, w.isDestroyed e = false →
      (s.activeElements.map fun x => x.element).count e = 1 →
      (receivers EventTag.mouseDragStart (sentSince s (onPointerMoved w s event).1)).count e =
        1) ∧
    (∀ (widgets : List Nat) (inputs : List PointerInput), OwnsElements w → widgets.Nodup →
      handleInputs w { widgets := widgets } inputs = Except.ok s →
      ∀ a ∈ s.activeElements, w.isDestroyed a.element = false →
        (receivers EventTag.mouseDragStart
          (sentSince s (onPointerMoved w s event).1)).count a.element = 1) ∧
    (∀ e : Nat, w.isDestroyed e = true →
      e ∉ receivers EventTag.mouseDragStart (sentSince s (onPointerMoved w s event).1)) ∧
    (∀ inputs : List PointerInput,
      (∀ input ∈ inputs, input.isPress = false ∧ input.supported) →
      ∃ s', handleInputs w (onPointerMoved w s event).1 inputs = Except.ok s' ∧
        receivers EventTag.mouseDragStart (sentSince (onPointerMoved w s event).1 s') = []) := by
  have out := onPointerMoved_spec w s event hu
  have hst : startsDrag s event := by
    by_contra hn
    have := out.dragState_eq
    rw [if_neg hn, hheld] at this
    rw [this] at hdragging
    cases hdragging
  have hr := out.dragStart_receivers
  rw [if_pos hst] at hr
  have hcount : ∀ e : Nat, w.isDestroyed e = false →
      (receivers EventTag.mouseDragStart (sentSince s (onPointerMoved w s event).1)).count e =
        (s.activeElements.map fun x => x.element).count e := by
    intro e he
    rw [hr]
    exact count_alive_targets w s.activeElements _ e he
  refine ⟨hcount, fun e he h1 => (hcount e he).trans h1, ?_, ?_, ?_⟩
  · intro widgets inputs ho hw hreach a ha hlive
    have hinv := handleInputs_activeInv w ho inputs { widgets := widgets } s hreach
      ⟨hw, List.nodup_nil⟩
    rw [hcount a.element hlive]
    exact List.count_eq_one_of_mem hinv.2 (List.mem_map.mpr ⟨a, ha, rfl⟩)
  · intro e he hmem
    rw [hr] at hmem
    simp only [List.mem_map, List.mem_filter] at hmem
    obtain ⟨p, ⟨-, hp⟩, rfl⟩ := hmem
    rw [he] at hp
    cases hp
  · intro inputs hall
    obtain ⟨s', extra, h1, h2, h3⟩ := handleInputs_no_dragStart w inputs
      (onPointerMoved w s event).1 (by rw [hdragging]; decide) hall
    exact ⟨s', h1, by rw [sentSince_of_sent h2]; exact h3⟩

/-- Witness for `onPointerMoved_drag_start_once`: widget 1 of `exampleRegisterWorld` is
registered once, the left button is pressed at (0,0) and the pointer moves to (2,2); each of
the elements 1, 2, 3 gets one drag-start event. -/
theorem onPointerMoved_drag_start_once_witness :
    ∃ s, handleInputs exampleRegisterWorld { widgets := [1] }
        [PointerInput.pressed (leftButtonAt 0 0)] = Except.ok s ∧
      s.dragState = DragState.HeldWithoutDrag ∧
      (onPointerMoved exampleRegisterWorld s (moveTo 2 2)).1.dragState = DragState.Dragging ∧
      receivers EventTag.mouseDragStart
        (sentSince s (onPointerMoved exampleRegisterWorld s (moveTo 2 2)).1) = [1, 2, 3] ∧
      ∀ a ∈ s.activeElements, exampleRegisterWorld.isDestroyed a.element = false →
        (receivers EventTag.mouseDragStart
          (sentSince s (onPointerMoved exampleRegisterWorld s (moveTo 2 2)).1)).count
            a.element = 1 :=
  ⟨_, rfl, rfl, by decide, by decide,
    (onPointerMoved_drag_start_once exampleRegisterWorld _ (moveTo 2 2) rfl rfl
      (by decide)).2.2.1 [1] [PointerInput.pressed (leftButtonAt 0 0)]
      exampleRegisterWorld_owns (by decide) rfl⟩

/-! ## Release edge of the drag state machine -/

/-- C9. Release edge: an unused release of the left button while left is the active button
leaves the drag state `NoDrag`. When the state before was `Dragging`, every element that is
not destroyed receives as many drag-end events as it has entries in the active set, hence
every such element of the active set receives one; when the state before was
`HeldWithoutDrag`, no drag-end and no drag-start event is delivered. -/
theorem onPointerReleased_release_edge (w : World) (s : GUIManager) (event : PointerEvent)
    (hu : event.used = false) (hb : event.button = PointerEventButton.Left)
    (hactive : s.activeMouseButton = GUIMouseButton.Left) :
    ∃ s' used, onPointerReleased w s event = Except.ok (s', used) ∧
      s'.dragState = DragState.NoDrag ∧
      (s.dragState = DragState.Dragging →
        (∀ e : Nat, w.isDestroyed e = false →
          (receivers EventTag.mouseDragEnd (sentSince s s')).count e =
            (s.activeElements.map fun x => x.element).count e) ∧
        (∀ x ∈ s.activeElements, w.isDestroyed x.element = false →
          x.element ∈ receivers EventTag.mouseDragEnd (sentSince s s'))) ∧
      (s.dragState = DragState.HeldWithoutDrag →
        receivers EventTag.mouseDragEnd (sentSince s s') = [] ∧
        receivers EventTag.mouseDragStart (sentSince s s') = []) := by
  obtain ⟨s', used, hrel, out⟩ :=
    onPointerReleased_spec w s event GUIMouseButton.Left hu (by rw [hb]; rfl)
  refine ⟨s', used, hrel, ?_, ?_, ?_⟩
  · rw [out.dragState_eq]
    by_cases hends : endsDrag s GUIMouseButton.Left
    · rw [if_pos hends]
    · rw [if_neg hends]
      unfold endsDrag at hends
      cases hd : s.dragState with
      | NoDrag => rfl
      | HeldWithoutDrag => exact absurd ⟨Or.inr hd, hactive, rfl⟩ hends
      | Dragging => exact absurd ⟨Or.inl hd, hactive, rfl⟩ hends
  · intro hdrag
    have hr := out.dragEnd_receivers
    rw [if_pos ⟨hdrag, Or.inl hdrag, hactive, rfl⟩] at hr
    have hcount : ∀ e : Nat, w.isDestroyed e = false →
        (receivers EventTag.mouseDragEnd (sentSince s s')).count e =
          (s.activeElements.map fun x => x.element).count e := by
      intro e he
      rw [hr]
      exact count_alive_targets w s.activeElements _ e he
    refine ⟨hcount, ?_⟩
    intro x hx halive
    rw [← List.count_pos_iff, hcount x.element halive, List.count_pos_iff]
    exact List.mem_map_of_mem _ hx
  · intro hheld
    refine ⟨?_, out.release_dragStart_receivers⟩
    rw [out.dragEnd_receivers, if_neg]
    rintro ⟨hd, -⟩
    rw [hheld] at hd
    cases hd

/-- Witness for `onPointerReleased_release_edge`: the release of the left button in
`exampleDraggingManager`. -/
theorem onPointerReleased_release_edge_witness :
    ∃ s' used, onPointerReleased exampleWorld exampleDraggingManager (leftButtonAt 5 5) =
        Except.ok (s', used) ∧
      s'.dragState = DragState.NoDrag ∧
      (exampleDraggingManager.dragState = DragState.Dragging →
        (∀ e : Nat, exampleWorld.isDestroyed e = false →
          (receivers EventTag.mouseDragEnd (sentSince exampleDraggingManager s')).count e =
            (exampleDraggingManager.activeElements.map fun x => x.element).count e) ∧
        (∀ x ∈ exampleDraggingManager.activeElements,
          exampleWorld.isDestroyed x.element = false →
          x.element ∈ receivers EventTag.mouseDragEnd (sentSince exampleDraggingManager s'))) ∧
      (exampleDraggingManager.dragState = DragState.HeldWithoutDrag →
        receivers EventTag.mouseDragEnd (sentSince exampleDraggingManager s') = [] ∧
        receivers EventTag.mouseDragStart (sentSince exampleDraggingManager s') = []) :=
  onPointerReleased_release_edge exampleWorld exampleDraggingManager (leftButtonAt 5 5)
    rfl rfl rfl

/-! ## Focus exclusivity -/

/-- C10. Focus exclusivity: when the hovered element at position `i` (front to back) has no
focus yet, is not destroyed and its focus-gained handler answers "consumed", then the new
focus set and the receivers of focus-gained of this press both lie within the hovered
positions `0..i`: the new focus set is the hovered list cut after at most `i + 1` entries
and the receivers are a sublist of that front part, so no element behind position `i` gets
the event or enters the focus set. -/
theorem onPointerPressed_focus_exclusive (w : World) (s : GUIManager) (event : PointerEvent)
    (guiButton : GUIMouseButton) (hu : event.used = false)
    (hb : buttonToGUIButton event.button = Except.ok guiButton) (i : Nat)
    (info : ElementInfoUnderPointer) (hi : (hoveredList w s event)[i]? = some info)
    (hfresh : getsFocusGained w s.elementsInFocus info = true)
    (hcons : w.commandEvent info.element GUICommandEventType.FocusGained = true) :
    ∃ s' used, onPointerPressed w s event = Except.ok (s', used) ∧
      ∃ k, k ≤ i + 1 ∧
        s'.elementsInFocus.map (fun x => x.element) =
          ((hoveredList w s event).take k).map (fun x => x.element) ∧
        (receivers EventTag.focusGained (sentSince s s')).Sublist
          (((hoveredList w s event).take k).map fun x => x.element) := by
  obtain ⟨s', used, hpress, out⟩ := onPointerPressed_spec w s event guiButton hu hb
  obtain ⟨k, hk, hle⟩ := takeThrough_eq_take
    (fun info => (focusRecord w s.elementsInFocus info).usesFocus) (hoveredList w s event)
  have hstop : (focusRecord w s.elementsInFocus info).usesFocus = true := by
    simp only [getsFocusGained, Bool.and_eq_true, Option.isNone_iff_eq_none,
      Bool.not_eq_true'] at hfresh
    unfold focusRecord
    rw [hfresh.1]
    simp [hfresh.2, hcons]
  refine ⟨s', used, hpress, k, hle i info hi hstop, ?_, ?_⟩
  · rw [out.focus_eq, focusVisited, hk, List.map_map]
    apply List.map_congr_left
    intro x _
    exact focusRecord_element w s.elementsInFocus x
  · rw [out.focusGained_receivers, focusVisited, hk]
    exact (List.filter_sublist _).map _

/-- Witness for `onPointerPressed_focus_exclusive`: in `exampleWorld` element 2 at hovered
position 1 consumes focus-gained. -/
theorem onPointerPressed_focus_exclusive_witness :
    ∃ s' used, onPointerPressed exampleWorld exampleManager (leftButtonAt 0 0) =
        Except.ok (s', used) ∧
      ∃ k, k ≤ 1 + 1 ∧
        s'.elementsInFocus.map (fun x => x.element) =
          ((hoveredList exampleWorld exampleManager (leftButtonAt 0 0)).take k).map
            (fun x => x.element) ∧
        (receivers EventTag.focusGained (sentSince exampleManager s')).Sublist
          (((hoveredList exampleWorld exampleManager (leftButtonAt 0 0)).take k).map
            fun x => x.element) :=
  onPointerPressed_focus_exclusive exampleWorld exampleManager (leftButtonAt 0 0)
    GUIMouseButton.Left rfl rfl 1
    { element := 2, widget := 1, receivedMouseOver := true, isHovering := true,
      usesMouseOver := true }
    (by decide) (by decide) (by decide)

/-! ## Focus transition of a press -/

/-- C11. Focus transition on press: after an unused press with a supported button the focus
set is the newly computed one, namely the records of the hovered elements visited by the
focus-gained loop (an old record is reused for an element that has focus already). The
receivers of focus-lost are exactly the old focus records whose element is absent from the
new set and not destroyed, so every such element is sent focus-lost; an element that is in
the old and in the new set is sent neither focus-gained nor focus-lost. -/
theorem onPointerPressed_focus_transition (w : World) (s : GUIManager) (event : PointerEvent)
    (guiButton : GUIMouseButton) (hu : event.used = false)
    (hb : buttonToGUIButton event.button = Except.ok guiButton) :
    ∃ s' used, onPointerPressed w s event = Except.ok (s', used) ∧
      s'.elementsInFocus = (focusVisited w s event).map (focusRecord w s.elementsInFocus) ∧
      receivers EventTag.focusLost (sentSince s s') =
        focusLostTargets w s.elementsInFocus s'.elementsInFocus ∧
      (∀ info ∈ s.elementsInFocus, w.isDestroyed info.element = false →
        (∀ x ∈ s'.elementsInFocus, x.element ≠ info.element) →
        info.element ∈ receivers EventTag.focusLost (sentSince s s')) ∧
      (∀ info ∈ s.elementsInFocus, (∃ x ∈ s'.elementsInFocus, x.element = info.element) →
        info.element ∉ receivers EventTag.focusGained (sentSince s s') ∧
        info.element ∉ receivers EventTag.focusLost (sentSince s s')) := by
  obtain ⟨s', used, hpress, out⟩ := onPointerPressed_spec w s event guiButton hu hb
  refine ⟨s', used, hpress, out.focus_eq, out.lost_eq, ?_, ?_⟩
  · intro info hinfo halive hnot
    rw [out.lost_eq]
    unfold focusLostTargets
    refine List.mem_map.2 ⟨info, List.mem_filter.2 ⟨hinfo, ?_⟩, rfl⟩
    simp only [Bool.and_eq_true, Bool.not_eq_true', halive, and_true]
    rw [List.any_eq_false]
    intro x hx
    simpa using hnot x hx
  · rintro info hinfo ⟨x, hx, hxe⟩
    constructor
    · rw [out.focusGained_receivers]
      intro hmem
      obtain ⟨y, hy, hye⟩ := List.mem_map.1 hmem
      have hg := (List.mem_filter.1 hy).2
      simp only [getsFocusGained, Bool.and_eq_true, Option.isNone_iff_eq_none,
        List.find?_eq_none] at hg
      have := hg.1 info hinfo
      simp [hye] at this
    · rw [out.lost_eq]
      intro hmem
      obtain ⟨y, hy, hye⟩ := List.mem_map.1 hmem
      have hg := (List.mem_filter.1 hy).2
      simp only [Bool.and_eq_true, Bool.not_eq_true', List.any_eq_false] at hg
      have := hg.1 x hx
      simp [hye, hxe] at this

example : ∃ s' used, onPointerPressed exampleWorld exampleFocusManager (leftButtonAt 0 0) =
        Except.ok (s', used) ∧ s'.elementsInFocus.map (fun x => x.element) = [1, 2] ∧
        receivers EventTag.focusLost (sentSince exampleFocusManager s') = [3] ∧
        receivers EventTag.focusGained (sentSince exampleFocusManager s') = [2] :=
  ⟨_, _, rfl, by decide, by decide, by decide⟩

/-- Witness for `onPointerPressed_focus_transition`: a press in `exampleWorld` while the
elements 3 and 1 have focus. -/
theorem onPointerPressed_focus_transition_witness :
    ∃ s' used, onPointerPressed exampleWorld exampleFocusManager (leftButtonAt 0 0) =
        Except.ok (s', used) ∧
      s'.elementsInFocus =
        (focusVisited exampleWorld exampleFocusManager (leftButtonAt 0 0)).map
          (focusRecord exampleWorld exampleFocusManager.elementsInFocus) ∧
      receivers EventTag.focusLost (sentSince exampleFocusManager s') =
        focusLostTargets exampleWorld exampleFocusManager.elementsInFocus s'.elementsInFocus ∧
      (∀ info ∈ exampleFocusManager.elementsInFocus,
        exampleWorld.isDestroyed info.element = false →
        (∀ x ∈ s'.elementsInFocus, x.element ≠ info.element) →
        info.element ∈ receivers EventTag.focusLost (sentSince exampleFocusManager s')) ∧
      (∀ info ∈ exampleFocusManager.elementsInFocus,
        (∃ x ∈ s'.elementsInFocus, x.element = info.element) →
        info.element ∉ receivers EventTag.focusGained (sentSince exampleFocusManager s') ∧
        info.element ∉ receivers EventTag.focusLost (sentSince exampleFocusManager s')) :=
  onPointerPressed_focus_transition exampleWorld exampleFocusManager (leftButtonAt 0 0)
    GUIMouseButton.Left rfl rfl

/-! ## Active set after a press -/

/-- C12, counterexample. In `exampleWorld` the hovered list is 1, 2, 3 and only element 2
consumes mouse-down. After a left press with an empty active set the active set is 1, 2: it
also holds element 1, which is in front of the consumer and did not consume the event. In
`exampleWorldQuiet` no hovered element consumes the event and the active set is 1, 2, 3,
not empty. -/
theorem onPointerPressed_active_counterexample :
    exampleManager.activeElements = [] ∧
    (hoveredList exampleWorld exampleManager (leftButtonAt 0 0)).map
      (fun info => info.element) = [1, 2, 3] ∧
    (hoveredList exampleWorld exampleManager (leftButtonAt 0 0)).map
      (consumesMouseDown exampleWorld (baseEvent (leftButtonAt 0 0)) (leftButtonAt 0 0)
        GUIMouseButton.Left) = [false, true, false] ∧
    (∃ s' used, onPointerPressed exampleWorld exampleManager (leftButtonAt 0 0) =
        Except.ok (s', used) ∧
      s'.activeElements.map (fun x => x.element) = [1, 2] ∧
      s'.activeElements.map (fun x => x.element) ≠ [2]) ∧
    (hoveredList exampleWorldQuiet exampleManager (leftButtonAt 0 0)).map
      (consumesMouseDown exampleWorldQuiet (baseEvent (leftButtonAt 0 0)) (leftButtonAt 0 0)
        GUIMouseButton.Left) = [false, false, false] ∧
    ∃ s' used, onPointerPressed exampleWorldQuiet exampleManager (leftButtonAt 0 0) =
        Except.ok (s', used) ∧
      s'.activeElements.map (fun x => x.element) = [1, 2, 3] ∧
      s'.activeElements ≠ [] :=
  ⟨rfl, by decide, by decide, ⟨_, _, rfl, by decide, by decide⟩, by decide,
    _, _, rfl, by decide, by decide⟩

/-- C12 (amended). After an unused press handled with an empty active set, the active set is
the front part of the hovered list that ends with the front-most hovered element whose
mouse-down handler consumed the event: the elements in front of the consumer, in hovered
order, followed by the consumer. When no hovered element consumed the event, the active set
is the whole hovered list. -/
theorem onPointerPressed_active_front (w : World) (s : GUIManager) (event : PointerEvent)
    (guiButton : GUIMouseButton) (hu : event.used = false)
    (hb : buttonToGUIButton event.button = Except.ok guiButton)
    (hactive : s.activeElements = []) :
    ∃ s' used, onPointerPressed w s event = Except.ok (s', used) ∧
      (∀ (front : List ElementInfoUnderPointer) (c : ElementInfoUnderPointer)
          (back : List ElementInfoUnderPointer),
        hoveredList w s event = front ++ c :: back →
        (∀ x ∈ front, consumesMouseDown w (baseEvent event) event guiButton x = false) →
        consumesMouseDown w (baseEvent event) event guiButton c = true →
        s'.activeElements = (front ++ [c]).map ElementInfoUnderPointer.toElementInfo) ∧
      ((∀ x ∈ hoveredList w s event,
          consumesMouseDown w (baseEvent event) event guiButton x = false) →
        s'.activeElements =
          (hoveredList w s event).map ElementInfoUnderPointer.toElementInfo) := by
  obtain ⟨s', used, hpress, out⟩ := onPointerPressed_spec w s event guiButton hu hb
  have hact := out.active_eq
  rw [if_pos hactive] at hact
  refine ⟨s', used, hpress, ?_, ?_⟩
  · intro front c back hsplit hfront hc
    rw [hact, pressVisited, hsplit, takeThrough_append_first _ _ _ _ hfront hc]
  · intro hnone
    rw [hact, pressVisited, takeThrough_eq_self _ _ hnone]

/-- Witness for `onPointerPressed_active_front`: a left press in `exampleWorld`. -/
theorem onPointerPressed_active_front_witness :
    ∃ s' used, onPointerPressed exampleWorld exampleManager (leftButtonAt 0 0) =
        Except.ok (s', used) ∧
      (∀ (front : List ElementInfoUnderPointer) (c : ElementInfoUnderPointer)
          (back : List ElementInfoUnderPointer),
        hoveredList exampleWorld exampleManager (leftButtonAt 0 0) = front ++ c :: back →
        (∀ x ∈ front, consumesMouseDown exampleWorld (baseEvent (leftButtonAt 0 0))
          (leftButtonAt 0 0) GUIMouseButton.Left x = false) →
        consumesMouseDown exampleWorld (baseEvent (leftButtonAt 0 0)) (leftButtonAt 0 0)
          GUIMouseButton.Left c = true →
        s'.activeElements = (front ++ [c]).map ElementInfoUnderPointer.toElementInfo) ∧
      ((∀ x ∈ hoveredList exampleWorld exampleManager (leftButtonAt 0 0),
          consumesMouseDown exampleWorld (baseEvent (leftButtonAt 0 0)) (leftButtonAt 0 0)
            GUIMouseButton.Left x = false) →
        s'.activeElements =
          (hoveredList exampleWorld exampleManager (leftButtonAt 0 0)).map
            ElementInfoUnderPointer.toElementInfo) :=
  onPointerPressed_active_front exampleWorld exampleManager (leftButtonAt 0 0)
    GUIMouseButton.Left rfl rfl rfl

/-! ## Press exclusivity -/

/-- C13. Press exclusivity: a press with a supported button that arrives while the active
set is non-empty, whether marked used or not, delivers no mouse-down event and leaves the
active set, the active mouse button and the drag state as they were. -/
theorem onPointerPressed_press_exclusive (w : World) (s : GUIManager) (event : PointerEvent)
    (guiButton : GUIMouseButton)
    (hb : buttonToGUIButton event.button = Except.ok guiButton)
    (hactive : s.activeElements ≠ []) :
    ∃ s' used, onPointerPressed w s event = Except.ok (s', used) ∧
      receivers EventTag.mouseDown (sentSince s s') = [] ∧
      s'.activeElements = s.activeElements ∧
      s'.activeMouseButton = s.activeMouseButton ∧
      s'.dragState = s.dragState := by
  by_cases hu : event.used = true
  · refine ⟨s, true, ?_, ?_, rfl, rfl, rfl⟩
    · unfold onPointerPressed
      rw [if_pos hu]
    · simp [sentSince, receivers]
  · obtain ⟨s', used, hpress, out⟩ :=
      onPointerPressed_spec w s event guiButton (by simpa using hu) hb
    refine ⟨s', used, hpress, ?_, ?_, ?_, ?_⟩
    · rw [out.mouseDown_receivers, if_neg hactive]
    · rw [out.active_eq, if_neg hactive]
    · rw [out.button_eq, if_neg (fun h => hactive h.1)]
    · rw [out.dragState_eq, if_neg (fun h => hactive h.1)]

/-- Witness for `onPointerPressed_press_exclusive`: a right press while the left button
holds the elements 1 and 2 of `exampleWorld`. -/
theorem onPointerPressed_press_exclusive_witness :
    ∃ s' used, onPointerPressed exampleWorld exampleHeldManager (rightButtonAt 0 0) =
        Except.ok (s', used) ∧
      receivers EventTag.mouseDown (sentSince exampleHeldManager s') = [] ∧
      s'.activeElements = exampleHeldManager.activeElements ∧
      s'.activeMouseButton = exampleHeldManager.activeMouseButton ∧
      s'.dragState = exampleHeldManager.dragState :=
  onPointerPressed_press_exclusive exampleWorld exampleHeldManager (rightButtonAt 0 0)
    GUIMouseButton.Right rfl (by decide)

/-! ## Release of the active button -/

/-- C14. Same-button release: after an unused release of the button `guiButton`, the active
set is empty when `guiButton` is the active mouse button; when it is another button, the
active set, the active mouse button and the drag state are as before and neither a mouse-up
nor a drag-end event is delivered. -/
theorem onPointerReleased_same_button (w : World) (s : GUIManager) (event : PointerEvent)
    (guiButton : GUIMouseButton) (hu : event.used = false)
    (hb : buttonToGUIButton event.button = Except.ok guiButton) :
    ∃ s' used, onPointerReleased w s event = Except.ok (s', used) ∧
      (s.activeMouseButton = guiButton → s'.activeElements = []) ∧
      (s.activeMouseButton ≠ guiButton →
        s'.activeElements = s.activeElements ∧
        s'.activeMouseButton = s.activeMouseButton ∧
        s'.dragState = s.dragState ∧
        receivers EventTag.mouseUp (sentSince s s') = [] ∧
        receivers EventTag.mouseDragEnd (sentSince s s') = []) := by
  obtain ⟨s', used, hrel, out⟩ := onPointerReleased_spec w s event guiButton hu hb
  refine ⟨s', used, hrel, ?_, ?_⟩
  · intro hsame
    rw [out.active_eq, if_pos hsame]
  · intro hne
    refine ⟨?_, ?_, ?_, out.mouseUp_receivers_of_ne hne, ?_⟩
    · rw [out.active_eq, if_neg hne]
    · rw [out.button_eq, if_neg hne]
    · rw [out.dragState_eq, if_neg (fun h => hne h.2.1)]
    · rw [out.dragEnd_receivers, if_neg (fun h => hne h.2.2.1)]

/-- Witness for `onPointerReleased_same_button`: the release of the right button while the
left button holds the elements 1 and 2 of `exampleWorld`. -/
theorem onPointerReleased_same_button_witness :
    ∃ s' used, onPointerReleased exampleWorld exampleHeldManager (rightButtonAt 0 0) =
        Except.ok (s', used) ∧
      (exampleHeldManager.activeMouseButton = GUIMouseButton.Right → s'.activeElements = []) ∧
      (exampleHeldManager.activeMouseButton ≠ GUIMouseButton.Right →
        s'.activeElements = exampleHeldManager.activeElements ∧
        s'.activeMouseButton = exampleHeldManager.activeMouseButton ∧
        s'.dragState = exampleHeldManager.dragState ∧
        receivers EventTag.mouseUp (sentSince exampleHeldManager s') = [] ∧
        receivers EventTag.mouseDragEnd (sentSince exampleHeldManager s') = []) :=
  onPointerReleased_same_button exampleWorld exampleHeldManager (rightButtonAt 0 0)
    GUIMouseButton.Right rfl rfl

/-! ## Batching is a partition -/

/-- C15. Batching is a partition: every render element (element, index) of a visible element
of a widget of the render target lies in the element list of exactly one group, at one
position of the list of groups only, and occurs exactly once in that element list. Every
member of a group is such a render element; in particular no render element of an invisible
element is in any group. -/
theorem updateMeshes_partition (w : World) (separateMeshesByWidget : Bool) (widgets : List Nat) :
    (∀ p ∈ visibleRenderElements w widgets,
      ∃ (k : Nat) (g : GUIMaterialGroup),
        (materialGroups w separateMeshesByWidget widgets)[k]? = some g ∧
        g.elements.count p = 1 ∧
        ∀ (j : Nat) (g' : GUIMaterialGroup),
          (materialGroups w separateMeshesByWidget widgets)[j]? = some g' →
          p ∈ g'.elements → j = k) ∧
    (∀ g ∈ materialGroups w separateMeshesByWidget widgets, ∀ p ∈ g.elements,
      p ∈ visibleRenderElements w widgets) ∧
    (∀ p : GUIGroupElement, w.isVisible p.element = false →
      ∀ g ∈ materialGroups w separateMeshesByWidget widgets, p ∉ g.elements) := by
  have hperm := groupedElements_materialGroups w separateMeshesByWidget widgets
  have hnd : (groupedElements (materialGroups w separateMeshesByWidget widgets)).Nodup :=
    hperm.nodup_iff.2 (nodup_of_pairwise_elemComp w (allElements_strict w widgets))
  have hin : ∀ g ∈ materialGroups w separateMeshesByWidget widgets, ∀ p ∈ g.elements,
      p ∈ visibleRenderElements w widgets := by
    intro g hg p hp
    rw [← mem_allElements_iff, ← hperm.mem_iff]
    exact List.mem_flatMap.2 ⟨g, hg, hp⟩
  refine ⟨?_, hin, ?_⟩
  · intro p hp
    have hmem : p ∈ groupedElements (materialGroups w separateMeshesByWidget widgets) :=
      hperm.mem_iff.2 (mem_allElements w widgets p hp)
    obtain ⟨g, hg, hpg⟩ := List.mem_flatMap.1 hmem
    obtain ⟨k, hk⟩ := List.getElem?_of_mem hg
    refine ⟨k, g, hk, ?_, ?_⟩
    · exact List.count_eq_one_of_mem ((List.nodup_flatMap.1 hnd).1 g hg) hpg
    · intro j g' hj hpj
      exact unique_group_of_nodup hnd hj hk hpj hpg
  · intro p hinv g hg hp
    have := (isVisible_of_mem_visibleRenderElements w widgets p (hin g hg p hp)).1
    rw [hinv] at this
    cases this

/-! ## Invariant of the material groups -/

/-- C16. Material group invariant: after every number `n` of passes of the grouping loop,
every group satisfies: all members have the material key of the group, `depth` is the
greatest depth among the members, `minDepth` is the least depth among the members, and
`numQuads` is the sum of the quad counts of the members. -/
theorem updateMeshes_group_invariant (w : World) (separateMeshesByWidget : Bool)
    (widgets : List Nat) (n : Nat) :
    ∀ g ∈ groupsAfter w separateMeshesByWidget widgets n,
      (∀ e ∈ g.elements, w.material e.element e.renderElement = g.matInfo) ∧
      ((∀ e ∈ g.elements, elemDepth w e ≤ g.depth) ∧
        ∃ e ∈ g.elements, elemDepth w e = g.depth) ∧
      ((∀ e ∈ g.elements, g.minDepth ≤ elemDepth w e) ∧
        ∃ e ∈ g.elements, elemDepth w e = g.minDepth) ∧
      g.numQuads = (g.elements.map fun e => w.numQuads e.element e.renderElement).sum := by
  intro g hg
  obtain ⟨inv, -⟩ := materialGroupInv_groupsAfter w separateMeshesByWidget widgets n g hg
  exact ⟨inv.material_eq, ⟨inv.depth_ge, inv.depth_attained⟩,
    ⟨inv.minDepth_le, inv.minDepth_attained⟩, inv.numQuads_eq⟩

/-- Witness for `updateMeshes_group_invariant`: the three groups of `exampleBatchWorld`
after all four passes. -/
theorem updateMeshes_group_invariant_witness :
    (groupsAfter exampleBatchWorld true [1, 2] 4).length = 3 ∧
    ∀ g ∈ groupsAfter exampleBatchWorld true [1, 2] 4,
      (∀ e ∈ g.elements, exampleBatchWorld.material e.element e.renderElement = g.matInfo) ∧
      ((∀ e ∈ g.elements, elemDepth exampleBatchWorld e ≤ g.depth) ∧
        ∃ e ∈ g.elements, elemDepth exampleBatchWorld e = g.depth) ∧
      ((∀ e ∈ g.elements, g.minDepth ≤ elemDepth exampleBatchWorld e) ∧
        ∃ e ∈ g.elements, elemDepth exampleBatchWorld e = g.minDepth) ∧
      g.numQuads =
        (g.elements.map fun e => exampleBatchWorld.numQuads e.element e.renderElement).sum :=
  ⟨by decide, updateMeshes_group_invariant exampleBatchWorld true [1, 2] 4⟩

/-! ## Eligibility of a candidate group -/

/-- C17, counterexample. In `exampleEligibilityWorld` the render elements are processed in
the order 2, 1, 3. When element 3 (depth 5) is processed there are the groups of element 2
(other material, depth 9) and of element 1 (same material and widget as element 3, depth 9).
No group has a depth strictly between 5 and 9, so with the window read as open the group of
element 1 is eligible. The code rejects it, because the group of element 2 lies at depth 9,
the end of the closed window, and its bounds meet the bounding box of elements 1 and 3;
element 3 opens a third group. -/
theorem group_eligibility_counterexample :
    groupsAfter exampleEligibilityWorld true [1] 2 =
      [newGroup exampleEligibilityWorld ⟨2, 0⟩, newGroup exampleEligibilityWorld ⟨1, 0⟩] ∧
    (allElements exampleEligibilityWorld [1])[2]? = some ⟨3, 0⟩ ∧
    (newGroup exampleEligibilityWorld ⟨1, 0⟩).matInfo = exampleEligibilityWorld.material 3 0 ∧
    otherWidget exampleEligibilityWorld true (newGroup exampleEligibilityWorld ⟨1, 0⟩) 3 =
      false ∧
    (newGroup exampleEligibilityWorld ⟨1, 0⟩).depth ≠ elemDepth exampleEligibilityWorld ⟨3, 0⟩ ∧
    eligibleStrictlyBetween exampleEligibilityWorld
      (groupsAfter exampleEligibilityWorld true [1] 2) ⟨3, 0⟩ 1
      (newGroup exampleEligibilityWorld ⟨1, 0⟩) = true ∧
    groupFits exampleEligibilityWorld true (groupsAfter exampleEligibilityWorld true [1] 2)
      ⟨3, 0⟩ 1 (newGroup exampleEligibilityWorld ⟨1, 0⟩) = false ∧
    groupsAfter exampleEligibilityWorld true [1] 3 =
      [newGroup exampleEligibilityWorld ⟨2, 0⟩, newGroup exampleEligibilityWorld ⟨1, 0⟩,
        newGroup exampleEligibilityWorld ⟨3, 0⟩] := by
  refine ⟨by decide, by decide, by decide, by decide, by decide, by decide, by decide,
    by decide⟩

/-- C17 (amended). Group eligibility: for a render element `elem` and a candidate group
`group` (at position `gi`) of the same material and widget whose depth differs from the
depth of `elem`, the candidate is eligible exactly when no other group of any material whose
`minDepth` or `depth` lies in the closed range from the depth of `elem` to the depth of the
candidate has bounds overlapping the bounding box of the bounds of the candidate and of
`elem`. The candidate is chosen exactly when it is eligible and no newer group of the
material fits, and `elem` is then merged into it. -/
theorem updateMeshes_group_eligibility (w : World) (separateMeshesByWidget : Bool)
    (groups : List GUIMaterialGroup) (elem : GUIGroupElement) (gi : Nat) (group : GUIMaterialGroup)
    (hgi : groups[gi]? = some group)
    (hmat : group.matInfo = w.material elem.element elem.renderElement)
    (hwidget : otherWidget w separateMeshesByWidget group elem.element = false)
    (hdepth : group.depth ≠ elemDepth w elem) :
    (groupFits w separateMeshesByWidget groups elem gi group = true ↔
      ∀ (j : Nat) (other : GUIMaterialGroup), groups[j]? = some other → j ≠ gi →
        ((elemDepth w elem ≤ other.minDepth ∧ other.minDepth ≤ group.depth) ∨
          (elemDepth w elem ≤ other.depth ∧ other.depth ≤ group.depth)) →
        other.bounds.overlaps (group.bounds.encapsulate (tfrmedBounds w elem.element)) =
          false) ∧
    (findGroup w separateMeshesByWidget groups elem = some gi ↔
      groupFits w separateMeshesByWidget groups elem gi group = true ∧
      ∀ (j : Nat) (other : GUIMaterialGroup), groups[j]? = some other → gi < j →
        other.matInfo = w.material elem.element elem.renderElement →
        groupFits w separateMeshesByWidget groups elem j other = false) ∧
    (findGroup w separateMeshesByWidget groups elem = some gi →
      insertElement w separateMeshesByWidget groups elem =
        List.modify (addToGroup w elem) gi groups) := by
  refine ⟨groupFits_iff w separateMeshesByWidget groups elem gi group hwidget hdepth, ?_, ?_⟩
  · rw [findGroup_eq_some_iff w separateMeshesByWidget groups elem gi group hgi]
    exact ⟨fun h => h.2, fun h => ⟨hmat, h⟩⟩
  · intro h
    unfold insertElement
    rw [h]

/-- Witness for `updateMeshes_group_eligibility`: element 3 of `exampleEligibilityWorld`
and the group of element 1. -/
theorem updateMeshes_group_eligibility_witness :
    (groupFits exampleEligibilityWorld true
        [newGroup exampleEligibilityWorld ⟨2, 0⟩, newGroup exampleEligibilityWorld ⟨1, 0⟩]
        ⟨3, 0⟩ 1 (newGroup exampleEligibilityWorld ⟨1, 0⟩) = true ↔
      ∀ (j : Nat) (other : GUIMaterialGroup),
        [newGroup exampleEligibilityWorld ⟨2, 0⟩,
          newGroup exampleEligibilityWorld ⟨1, 0⟩][j]? = some other → j ≠ 1 →
        ((elemDepth exampleEligibilityWorld ⟨3, 0⟩ ≤ other.minDepth ∧
            other.minDepth ≤ (newGroup exampleEligibilityWorld ⟨1, 0⟩).depth) ∨
          (elemDepth exampleEligibilityWorld ⟨3, 0⟩ ≤ other.depth ∧
            other.depth ≤ (newGroup exampleEligibilityWorld ⟨1, 0⟩).depth)) →
        other.bounds.overlaps ((newGroup exampleEligibilityWorld ⟨1, 0⟩).bounds.encapsulate
          (tfrmedBounds exampleEligibilityWorld 3)) = false) ∧
    (findGroup exampleEligibilityWorld true
        [newGroup exampleEligibilityWorld ⟨2, 0⟩, newGroup exampleEligibilityWorld ⟨1, 0⟩]
        ⟨3, 0⟩ = some 1 ↔
      groupFits exampleEligibilityWorld true
        [newGroup exampleEligibilityWorld ⟨2, 0⟩, newGroup exampleEligibilityWorld ⟨1, 0⟩]
        ⟨3, 0⟩ 1 (newGroup exampleEligibilityWorld ⟨1, 0⟩) = true ∧
      ∀ (j : Nat) (other : GUIMaterialGroup),
        [newGroup exampleEligibilityWorld ⟨2, 0⟩,
          newGroup exampleEligibilityWorld ⟨1, 0⟩][j]? = some other → 1 < j →
        other.matInfo = exampleEligibilityWorld.material 3 0 →
        groupFits exampleEligibilityWorld true
          [newGroup exampleEligibilityWorld ⟨2, 0⟩, newGroup exampleEligibilityWorld ⟨1, 0⟩]
          ⟨3, 0⟩ j other = false) ∧
    (findGroup exampleEligibilityWorld true
        [newGroup exampleEligibilityWorld ⟨2, 0⟩, newGroup exampleEligibilityWorld ⟨1, 0⟩]
        ⟨3, 0⟩ = some 1 →
      insertElement exampleEligibilityWorld true
        [newGroup exampleEligibilityWorld ⟨2, 0⟩, newGroup exampleEligibilityWorld ⟨1, 0⟩]
        ⟨3, 0⟩ =
        List.modify (addToGroup exampleEligibilityWorld ⟨3, 0⟩) 1
          [newGroup exampleEligibilityWorld ⟨2, 0⟩,
            newGroup exampleEligibilityWorld ⟨1, 0⟩]) :=
  updateMeshes_group_eligibility exampleEligibilityWorld true
    [newGroup exampleEligibilityWorld ⟨2, 0⟩, newGroup exampleEligibilityWorld ⟨1, 0⟩]
    ⟨3, 0⟩ 1 (newGroup exampleEligibilityWorld ⟨1, 0⟩) rfl (by decide) (by decide) (by decide)

/-! ## Number of batches -/

/-- C18, counterexample. For `exampleBatchWorld` the grouping loop ends with three groups.
The two groups holding the elements 1, 3, 2 and the element 4 form a grouping that puts
only same-material elements in a group and draws every pair of overlapping elements back to
front (no two of the four elements overlap), so three is not the minimum. -/
theorem batching_minimality_counterexample :
    (materialGroups exampleBatchWorld true [1, 2]).length = 3 ∧
    ValidGrouping exampleBatchWorld [1, 2] [[⟨1, 0⟩, ⟨3, 0⟩, ⟨2, 0⟩], [⟨4, 0⟩]] ∧
    ¬ ∀ G : List (List GUIGroupElement), ValidGrouping exampleBatchWorld [1, 2] G →
      (materialGroups exampleBatchWorld true [1, 2]).length ≤ G.length := by
  have hvalid : ValidGrouping exampleBatchWorld [1, 2] [[⟨1, 0⟩, ⟨3, 0⟩, ⟨2, 0⟩], [⟨4, 0⟩]] :=
    { partition := by decide
      sameMaterial := by decide
      backToFront := by
        have hnone : ∀ p ∈ allElements exampleBatchWorld [1, 2],
            ∀ q ∈ allElements exampleBatchWorld [1, 2],
            ¬ ((tfrmedBounds exampleBatchWorld p.element).overlaps
                (tfrmedBounds exampleBatchWorld q.element) = true ∧
              elemDepth exampleBatchWorld q < elemDepth exampleBatchWorld p) := by decide
        intro p hp q hq hov hdepth
        exact absurd ⟨hov, hdepth⟩ (hnone p hp q hq) }
  refine ⟨by decide, hvalid, ?_⟩
  intro hmin
  have := hmin _ hvalid
  revert this
  decide

/-- C18 (amended). The groups produced by `updateMeshes`, in draw order, form a grouping of
the visible render elements that puts only same-material elements in a group and draws
every pair of overlapping elements in back-to-front depth order; there are as many of them
as the grouping loop made, at most one per visible render element. Distinct groups have
distinct addresses (`addr` is injective). -/
theorem updateMeshes_valid_grouping (w : World) (separateMeshesByWidget : Bool)
    (addr : Nat → Nat) (haddr : Function.Injective addr) (widgets : List Nat) :
    ValidGrouping w widgets (drawnGroups w separateMeshesByWidget addr widgets) ∧
    (drawnGroups w separateMeshesByWidget addr widgets).length =
      (materialGroups w separateMeshesByWidget widgets).length ∧
    (materialGroups w separateMeshesByWidget widgets).length ≤
      (allElements w widgets).length := by
  refine ⟨⟨drawnGroups_perm w separateMeshesByWidget addr haddr widgets, ?_, ?_⟩, ?_, ?_⟩
  · intro g hg p hp q hq
    obtain ⟨⟨k, mg⟩, hmem, rfl⟩ := List.mem_map.1 hg
    have hk := (mem_sortedGroups_iff addr haddr _ k mg).1 hmem
    have inv := materialGroupInv_materialGroups w separateMeshesByWidget widgets mg
      (List.getElem?_mem hk)
    rw [inv.material_eq p hp, inv.material_eq q hq]
  · intro p hp q hq hov hdepth
    exact drawnGroups_drawnBefore w separateMeshesByWidget addr haddr widgets p q hp hq hov
      hdepth
  · simp [drawnGroups, drawOrder, (sortedGroups_perm addr haddr _).length_eq]
  · rw [← (groupedElements_materialGroups w separateMeshesByWidget widgets).length_eq]
    apply length_le_groupedElements
    intro g hg hnil
    obtain ⟨e, he, -⟩ :=
      (materialGroupInv_materialGroups w separateMeshesByWidget widgets g hg).depth_attained
    rw [hnil] at he
    cases he

/-- Witness for `updateMeshes_valid_grouping`: the draw order of `exampleBatchWorld`. -/
theorem updateMeshes_valid_grouping_witness :
    ValidGrouping exampleBatchWorld [1, 2] (drawnGroups exampleBatchWorld true id [1, 2]) ∧
    (drawnGroups exampleBatchWorld true id [1, 2]).length =
      (materialGroups exampleBatchWorld true [1, 2]).length ∧
    (materialGroups exampleBatchWorld true [1, 2]).length ≤
      (allElements exampleBatchWorld [1, 2]).length :=
  updateMeshes_valid_grouping exampleBatchWorld true id Function.injective_id [1, 2]

/-! ## Purge of destroyed elements -/

/-- C20. Deferred destruction chain: let element 1 be the only member of the destruction
queue, let the destructor of element `k` ask for the destruction of element `k + 1` for
`1 ≤ k < N` and that of element `N` for nothing, let the elements `2..N` be unflagged and
no focus request be pending. Then the loop `do ... while (processDestroyQueue())` ends, for
every bound of at least `N` passes, after exactly `N` calls of `processDestroyQueue`; the
elements deleted are `1, 2, ..., N` in this order, and the destruction queue is empty. -/
theorem destroyLoop_chain (w : World) (N : Nat) (st : FrameState) (fuel : Nat) (hN : 1 ≤ N)
    (hqueue : st.scheduledForDestruction = [1])
    (hfocus : st.forcedFocusElements = [])
    (hchain : ∀ k, 1 ≤ k → k < N → w.destructorDestroys k = [k + 1])
    (hlast : w.destructorDestroys N = [])
    (hfresh : ∀ k, 2 ≤ k → k ≤ N → st.isDestroyed w k = false)
    (hfuel : N ≤ fuel) :
    ∃ st', destroyLoop w fuel st = some (st', N) ∧
      st'.deleted = st.deleted ++ List.range' 1 N ∧
      (∀ k, 1 ≤ k → k ≤ N → k ∈ st'.deleted) ∧
      st'.scheduledForDestruction = [] := by
  obtain ⟨st', hrun, hdel, hq⟩ := destroyLoop_from_element w N hchain hlast (N - 1) 1 st fuel
    (by omega) (le_refl 1) hqueue hfocus (fun j hj hjN => hfresh j (by omega) hjN) (by omega)
  have hN1 : N - 1 + 1 = N := by omega
  rw [hN1] at hrun hdel
  refine ⟨st', hrun, hdel, ?_, hq⟩
  intro k hk1 hkN
  rw [hdel]
  apply List.mem_append_right
  rw [List.mem_range']
  exact ⟨k - 1, by omega, by omega⟩

/-- Witness for `destroyLoop_chain`: the chain of three elements of `exampleChainWorld`. -/
theorem destroyLoop_chain_witness :
    ∃ st', destroyLoop exampleChainWorld 5 exampleChainState = some (st', 3) ∧
      st'.deleted = exampleChainState.deleted ++ List.range' 1 3 ∧
      (∀ k, 1 ≤ k → k ≤ 3 → k ∈ st'.deleted) ∧
      st'.scheduledForDestruction = [] :=
  destroyLoop_chain exampleChainWorld 3 exampleChainState 5 (by decide) rfl rfl
    (by intro k h1 h2; interval_cases k <;> rfl) rfl
    (by intro k h1 h2; interval_cases k <;> rfl) (by decide)

/-! ## The destroyed-flag guard of the send functions -/

/-- C21. Destroyed-flag guard: each of `sendMouseEvent`, `sendTextInputEvent`,
`sendCommandEvent` and `sendVirtualButtonEvent` answers false and leaves the manager, the
record of handler invocations included, as it is when the destroyed flag of the element is
set. Otherwise the record grows by exactly one invocation, that of the handler of the
element with the event given, and the answer is the answer of that handler. -/
theorem send_destroyed_guard (w : World) (s : GUIManager) (element : Nat)
    (mouse : GUIMouseEvent) (char : Nat) (type : GUICommandEventType) (button : Nat) :
    (w.isDestroyed element = true →
      sendMouseEvent w s element mouse = (s, false) ∧
      sendTextInputEvent w s element char = (s, false) ∧
      sendCommandEvent w s element type = (s, false) ∧
      sendVirtualButtonEvent w s element button = (s, false)) ∧
    (w.isDestroyed element = false →
      sendMouseEvent w s element mouse =
        ({ s with sent := s.sent ++ [{ element := element, event := GUIEvent.mouse mouse }] },
          w.mouseEvent element mouse) ∧
      sendTextInputEvent w s element char =
        ({ s with sent := s.sent ++ [{ element := element, event := GUIEvent.textInput char }] },
          w.textInputEvent element char) ∧
      sendCommandEvent w s element type =
        ({ s with
            sent := s.sent ++ [{ element := element, event := GUIEvent.command type }] },
          w.commandEvent element type) ∧
      sendVirtualButtonEvent w s element button =
        ({ s with
            sent := s.sent ++ [{ element := element, event := GUIEvent.virtualButton button }] },
          w.virtualButtonEvent element button)) := by
  constructor
  · intro h
    simp [sendMouseEvent, sendTextInputEvent, sendCommandEvent, sendVirtualButtonEvent, h]
  · intro h
    simp [sendMouseEvent, sendTextInputEvent, sendCommandEvent, sendVirtualButtonEvent, h]

/-! ## No retention after unregister -/

/-- C22, counterexample. In `exampleRegisterWorld` widget 1 is registered, a left press puts
its elements 1, 2, 3 into the under-pointer, active and focus sets, and the widget is
unregistered. After the update that follows no widget is registered, and the three sets
still hold the elements 1, 2, 3 of widget 1. -/
theorem unregister_retention_counterexample :
    ∃ st, applyCalls exampleRegisterWorld 1 {}
        [ManagerCall.registerWidget 1, ManagerCall.pointer (PointerInput.pressed (leftButtonAt 0 0)),
         ManagerCall.unregisterWidget 1, ManagerCall.update false false] = some st ∧
      st.gui.widgets = [] ∧
      st.gui.elementsUnderPointer.map (fun r => r.element) = [1, 2, 3] ∧
      st.gui.activeElements.map (fun r => r.element) = [1, 2, 3] ∧
      st.gui.elementsInFocus.map (fun r => r.element) = [1, 2, 3] ∧
      ∀ e ∈ [1, 2, 3], e ∈ exampleRegisterWorld.widgetElements 1 :=
  ⟨_, rfl, rfl, rfl, rfl, rfl, by decide⟩

/-- C22 (amended). No reference after unregister: let `x` be a widget that is registered at
most once, and let no focus request be queued. After `unregisterWidget x`, and after every
sequence of registerWidget/unregisterWidget calls, pointer events and updates that follows
it and does not register `x` again, so in particular after the first update that follows,
no record of the under-pointer, active and focus sets has `x` as its widget. The elements of
`x` are not taken out of the sets: `unregisterWidget` leaves the elements of the three sets
as they are. -/
theorem unregister_no_record (w : World) (fuel : Nat) (x : Nat) (calls : List ManagerCall)
    (st st' : FrameState) (hx : x ≠ 0) (hreq : st.forcedFocusElements = [])
    (hone : x ∉ st.gui.widgets.erase x)
    (hcalls : ∀ c ∈ calls, c ≠ ManagerCall.registerWidget x)
    (h : applyCalls w fuel (unregisterWidget w x st) calls = some st') :
    NoRecordOf x st'.gui ∧
    trackedElements (unregisterWidget w x st).gui = trackedElements st.gui := by
  constructor
  · refine (applyCalls_noRecordOf w fuel x hx calls (unregisterWidget w x st) st' hcalls h
      ⟨?_, ?_, ?_⟩).2.2
    · rw [unregisterWidget_widgets]; exact hone
    · exact (unregisterWidget_gui w x st).2.trans hreq
    · exact unregisterWidget_noRecordOf w x x st hx (Or.inl rfl)
  · obtain ⟨h1, h2, h3⟩ := unregisterWidget_elements w x st
    unfold trackedElements
    rw [h1, h2, h3]

/-- Witness for `unregister_no_record`: widget 1 of `exampleRegisterWorld` is registered,
pressed on, unregistered, and the manager is updated. -/
theorem unregister_no_record_witness :
    ∃ st st', applyCalls exampleRegisterWorld 1 {}
        [ManagerCall.registerWidget 1,
         ManagerCall.pointer (PointerInput.pressed (leftButtonAt 0 0))] = some st ∧
      applyCalls exampleRegisterWorld 1 (unregisterWidget exampleRegisterWorld 1 st)
        [ManagerCall.update false false] = some st' ∧
      NoRecordOf 1 st'.gui ∧
      trackedElements (unregisterWidget exampleRegisterWorld 1 st).gui = trackedElements st.gui :=
  ⟨_, _, rfl, rfl,
    unregister_no_record exampleRegisterWorld 1 1 [ManagerCall.update false false] _ _
      (by decide) rfl (by decide)
      (by intro c hc; rw [List.mem_singleton] at hc; rw [hc]; exact fun h => by cases h) rfl⟩
/-! ## Render-data lifecycle -/

/-- C23. Render-data lifecycle: after every sequence of registerWidget/unregisterWidget
calls on widgets with non-null render targets, starting from the manager as constructed,
the registered widgets are those registered and not yet unregistered, and the render cache
has an entry for the target `t` if and only if one of them is bound to `t`. A registration
on a target without entry creates the entry, dirty and with the widget as its only widget; a
registration on a target with an entry adds the widget to it. The unregistration that
empties the widget list of an entry erases the entry and sets the core-dirty flag; any other
unregistration keeps the entry. -/
theorem renderData_lifecycle (w : World) (fuel : Nat) (calls : List ManagerCall)
    (hcalls : ∀ c ∈ calls, ∃ x, w.getTarget x ≠ 0 ∧
      (c = ManagerCall.registerWidget x ∨ c = ManagerCall.unregisterWidget x)) :
    ∃ st, applyCalls w fuel {} calls = some st ∧
      st.gui.widgets = registeredWidgets [] calls ∧
      (∀ t, (cacheFind st.cachedGUIData t).isSome = true ↔
        ∃ x ∈ registeredWidgets [] calls, w.getTarget x = t) ∧
      (∀ x, w.getTarget x ≠ 0 → cacheFind st.cachedGUIData (w.getTarget x) = none →
        cacheFind (registerWidget w x st).cachedGUIData (w.getTarget x) =
          some { widgets := [x], isDirty := true }) ∧
      (∀ x rd, w.getTarget x ≠ 0 → cacheFind st.cachedGUIData (w.getTarget x) = some rd →
        cacheFind (registerWidget w x st).cachedGUIData (w.getTarget x) =
          some { rd with widgets := rd.widgets ++ [x], isDirty := true }) ∧
      (∀ x rd, cacheFind st.cachedGUIData (w.getTarget x) = some rd →
        rd.widgets.erase x = [] →
        cacheFind (unregisterWidget w x st).cachedGUIData (w.getTarget x) = none ∧
        (unregisterWidget w x st).coreDirty = true) ∧
      (∀ x rd, cacheFind st.cachedGUIData (w.getTarget x) = some rd →
        rd.widgets.erase x ≠ [] →
        cacheFind (unregisterWidget w x st).cachedGUIData (w.getTarget x) =
          some { rd with widgets := rd.widgets.erase x, isDirty := true }) := by
  obtain ⟨st, h1, h2, h3⟩ := applyCalls_registration w fuel calls {} (cacheInv_initial w) hcalls
  have h3' : st.gui.widgets = registeredWidgets [] calls := h3
  refine ⟨st, h1, h3', ?_, ?_, ?_, ?_, ?_⟩
  · intro t
    rw [← h3']
    exact h2.isSome_iff t
  · intro x hx hn
    rw [registerWidget_find w x st hx, if_pos rfl]
    unfold entryOrFresh
    rw [hn]
    rfl
  · intro x rd hx hs
    rw [registerWidget_find w x st hx, if_pos rfl]
    unfold entryOrFresh
    rw [hs]
  · intro x rd hs he
    have hfresh : entryOrFresh st.cachedGUIData (w.getTarget x) = rd := by
      unfold entryOrFresh; rw [hs]
    constructor
    · rw [unregisterWidget_find, if_pos rfl, hfresh, if_pos he]
    · unfold unregisterWidget
      simp only
      rw [hfresh, if_pos he]
  · intro x rd hs he
    have hfresh : entryOrFresh st.cachedGUIData (w.getTarget x) = rd := by
      unfold entryOrFresh; rw [hs]
    rw [unregisterWidget_find, if_pos rfl, hfresh, if_neg he, hs]
    rfl

/-- Witness for `renderData_lifecycle`: the widgets 1 and 2 of `exampleTargetWorld` are
registered and widget 1 is unregistered again; the cache is left with the entry of the
target of widget 2. -/
theorem renderData_lifecycle_witness :
    ∃ st, applyCalls exampleTargetWorld 0 {}
        [ManagerCall.registerWidget 1, ManagerCall.registerWidget 2,
         ManagerCall.unregisterWidget 1] = some st ∧
      st.gui.widgets = [2] ∧ (cacheFind st.cachedGUIData 12).isSome = true ∧
      ¬ (cacheFind st.cachedGUIData 11).isSome = true := by
  obtain ⟨st, h1, h2, h3, -⟩ := renderData_lifecycle exampleTargetWorld 0
    [ManagerCall.registerWidget 1, ManagerCall.registerWidget 2, ManagerCall.unregisterWidget 1]
    (by
      intro c hc
      simp only [List.mem_cons, List.mem_singleton, List.not_mem_nil, or_false] at hc
      rcases hc with rfl | rfl | rfl
      · exact ⟨1, by decide, Or.inl rfl⟩
      · exact ⟨2, by decide, Or.inl rfl⟩
      · exact ⟨1, by decide, Or.inr rfl⟩)
  refine ⟨st, h1, h2, (h3 12).mpr ⟨2, by decide, rfl⟩, fun h => ?_⟩
  obtain ⟨x, hx, hx2⟩ := (h3 11).mp h
  have hx3 : x = 2 := by simpa [registeredWidgets] using hx
  rw [hx3] at hx2
  exact absurd hx2 (by decide)
/-! ## Update idempotence -/

/-- C24, counterexample. In `exampleCaretState` element 1 has focus; no request is queued,
no widget is registered or dirty. Two updates follow each other with nothing in between and
the caret blink interval has passed at both: the second update sends a redraw command to
element 1. -/
theorem caret_blink_counterexample :
    ∃ st1 st2, update {} 1 false true exampleCaretState = some st1 ∧
      st1.forcedFocusElements = [] ∧ st1.scheduledForDestruction = [] ∧
      st1.dirtyWidgets = [] ∧
      update {} 1 false true st1 = some st2 ∧
      sentSince st1.gui st2.gui =
        [{ element := 1, event := GUIEvent.command GUICommandEventType.Redraw }] :=
  ⟨_, _, rfl, rfl, rfl, rfl, rfl, by decide⟩

/-- C24 (amended). Update idempotence: if `update` is called twice in a row with no input
event, no register/unregister call, no queued focus or destruction request and no widget
becoming dirty in between, and the caret blink interval has not passed at the second call,
then the second call returns, dispatches no event to any element and leaves the render
cache (the cached meshes, materials and widgets of every render target), the mesh heap and
the record of snapshots unchanged. No focus request is queued after the first call in any
case. -/
theorem update_twice_idempotent (w : World) (fuel : Nat) (tooltipDue caretDue tooltipDue2 : Bool)
    (st st1 : FrameState) (h1 : update w fuel tooltipDue caretDue st = some st1)
    (hq : st1.scheduledForDestruction = []) :
    st1.forcedFocusElements = [] ∧
    ∃ st2, update w fuel tooltipDue2 false st1 = some st2 ∧
      st2.gui.sent = st1.gui.sent ∧ st2.cachedGUIData = st1.cachedGUIData ∧
      st2.meshHeap = st1.meshHeap ∧ st2.coreData = st1.coreData := by
  obtain ⟨-, -, -, hr, -⟩ := update_step w fuel tooltipDue caretDue st st1 h1
  have hclean := update_cleanCache w fuel tooltipDue caretDue st st1 h1
  refine ⟨hr, ?_⟩
  have hfuel : ∃ k, fuel = k + 1 := by
    cases fuel with
    | zero =>
      obtain ⟨st2, h2, -⟩ := update_eq_some w 0 tooltipDue caretDue st st1 h1
      unfold updateElements at h2
      simp only [destroyLoop] at h2
      cases h2
    | succ k => exact ⟨k, rfl⟩
  obtain ⟨k, hk⟩ := hfuel
  obtain ⟨st0, hst0⟩ : ∃ st0 : FrameState, st0 =
      (if (st1.gui.showTooltip && tooltipDue2) = true then
        { st1 with gui := { st1.gui with showTooltip := false } }
      else st1) := ⟨_, rfl⟩
  have h0 : st0.forcedFocusElements = [] ∧ st0.scheduledForDestruction = [] := by
    rw [hst0]
    split_ifs
    · exact ⟨hr, hq⟩
    · exact ⟨hr, hq⟩
  obtain ⟨st2, hloop, -⟩ := destroyLoop_idle w k st0 h0.1 h0.2
  have he : updateElements w fuel tooltipDue2 false st1 = some st2 := by
    unfold updateElements
    simp only
    rw [← hst0, hk, hloop]
    rfl
  obtain ⟨e1, -, e3⟩ := updateElements_step w fuel tooltipDue2 false st1 st2 he
  have hclean2 : CleanCache st2 := by
    obtain ⟨c1, c2, -, c4, -⟩ := e1.cache
    unfold CleanCache
    rw [c1, c2, c4]
    exact hclean
  have hu : update w fuel tooltipDue2 false st1 = some st2 := by
    unfold update
    rw [he]
    simp only
    rw [updateMeshes_clean w st2 hclean2]
    exact sendCoreData_clean w st2 hclean2
  obtain ⟨c1, -, c3, -, c5⟩ := e1.cache
  exact ⟨st2, hu, e3 hr rfl, c1, c3, c5⟩

/-- Witness for `update_twice_idempotent`: two updates of `exampleCaretState`, the caret
blinking at the first only. -/
theorem update_twice_idempotent_witness :
    ∃ st1, update {} 1 false true exampleCaretState = some st1 ∧
      st1.scheduledForDestruction = [] ∧ st1.forcedFocusElements = [] ∧
      ∃ st2, update {} 1 true false st1 = some st2 ∧
        st2.gui.sent = st1.gui.sent ∧ st2.cachedGUIData = st1.cachedGUIData ∧
        st2.meshHeap = st1.meshHeap ∧ st2.coreData = st1.coreData :=
  ⟨_, rfl, rfl, update_twice_idempotent {} 1 false true true exampleCaretState _ rfl rfl⟩
/-! ## Button conversion -/

/-- C25. Button conversion: `buttonToGUIButton` answers `Left`, `Middle` and `Right` for the
pointer buttons `Left`, `Middle` and `Right`; for every other pointer button it raises the
invalid-parameters exception (an error here, with the message of the source) and answers no
button. -/
theorem buttonToGUIButton_conversion :
    buttonToGUIButton PointerEventButton.Left = Except.ok GUIMouseButton.Left ∧
    buttonToGUIButton PointerEventButton.Middle = Except.ok GUIMouseButton.Middle ∧
    buttonToGUIButton PointerEventButton.Right = Except.ok GUIMouseButton.Right ∧
    (∀ raw : Nat, buttonToGUIButton (PointerEventButton.Other raw) =
      Except.error "Provided button is not a GUI supported mouse button.") ∧
    ∀ (b : PointerEventButton) (g : GUIMouseButton), buttonToGUIButton b = Except.ok g →
      (b = PointerEventButton.Left ∧ g = GUIMouseButton.Left) ∨
      (b = PointerEventButton.Middle ∧ g = GUIMouseButton.Middle) ∨
      (b = PointerEventButton.Right ∧ g = GUIMouseButton.Right) := by
  refine ⟨rfl, rfl, rfl, fun _ => rfl, ?_⟩
  intro b g h
  cases b with
  | Left => cases h; exact Or.inl ⟨rfl, rfl⟩
  | Middle => cases h; exact Or.inr (Or.inl ⟨rfl, rfl⟩)
  | Right => cases h; exact Or.inr (Or.inr ⟨rfl, rfl⟩)
  | Other raw => cases h

/-! ## Hover-set uniqueness -/

/-- C26, counterexample. From the manager as constructed, widget 1 of
`exampleRegisterWorld` is registered twice and the pointer moves over it: the under-pointer
set produced by the hit test holds each of the elements 1, 2, 3 twice. -/
theorem hover_duplicate_counterexample :
    ∃ st, applyCalls exampleRegisterWorld 1 {}
        [ManagerCall.registerWidget 1, ManagerCall.registerWidget 1,
         ManagerCall.pointer (PointerInput.moved (moveTo 0 0))] = some st ∧
      st.gui.elementsUnderPointer.map (fun r => r.element) = [1, 1, 2, 2, 3, 3] :=
  ⟨_, rfl, rfl⟩

/-- C26 (amended). Hover-set uniqueness: in every state reachable from the manager as
constructed by registerWidget/unregisterWidget calls, pointer events and updates in which
`registerWidget` is never called for a widget that is registered at that moment, no element
occurs more than once in the under-pointer set. Every element is taken to belong to one
widget (`OwnsElements`). -/
theorem hover_set_unique (w : World) (fuel : Nat) (calls : List ManagerCall) (st : FrameState)
    (ho : OwnsElements w)
    (hreg : ∀ pre x post stp, calls = pre ++ ManagerCall.registerWidget x :: post →
      applyCalls w fuel {} pre = some stp → x ∉ stp.gui.widgets)
    (h : applyCalls w fuel {} calls = some st) :
    (st.gui.elementsUnderPointer.map fun info => info.element).Nodup :=
  (applyCalls_hoverInv w fuel ho calls {} st hreg h ⟨List.nodup_nil, List.nodup_nil⟩).2

/-- Witness for `hover_set_unique`: widget 1 of `exampleRegisterWorld` is registered once
and the pointer moves over it. -/
theorem hover_set_unique_witness :
    ∃ st, applyCalls exampleRegisterWorld 1 {}
        [ManagerCall.registerWidget 1,
         ManagerCall.pointer (PointerInput.moved (moveTo 0 0))] = some st ∧
      st.gui.elementsUnderPointer.map (fun r => r.element) = [1, 2, 3] ∧
      (st.gui.elementsUnderPointer.map fun info => info.element).Nodup :=
  ⟨_, rfl, rfl,
    hover_set_unique exampleRegisterWorld 1 _ _ exampleRegisterWorld_owns
      exampleCalls_registerOnce rfl⟩
/-! ## Delivery of mouse-out -/

/-- C27, counterexample. In `exampleMouseOutWorld` a pointer move to (0,0) puts the
elements 1, 2, 3 under the pointer; each of them receives mouse-over and the active set stays
empty. The hit test at (200,0), off the window, finds nothing. Mouse-out is delivered to
element 1 only: its handler consumes the event and the loop stops, so the elements 2 and 3,
which had received mouse-over, are not destroyed and are absent from the new under-pointer
set, get no mouse-out. -/
theorem mouse_out_counterexample :
    exampleMouseOutManager.activeElements = [] ∧
    exampleMouseOutManager.elementsUnderPointer.map
      (fun x => (x.element, x.receivedMouseOver)) = [(1, true), (2, true), (3, true)] ∧
    (findElementUnderPointer exampleMouseOutWorld exampleMouseOutManager exampleOffWindow
      (false, false, false) false false false).1.elementsUnderPointer = [] ∧
    receivers EventTag.mouseOut
      (sentSince exampleMouseOutManager
        (findElementUnderPointer exampleMouseOutWorld exampleMouseOutManager exampleOffWindow
          (false, false, false) false false false).1) = [1] := by
  refine ⟨by decide, by decide, by decide, by decide⟩

/-- C27 (amended). Mouse-out delivery: in a hit test performed while the active set is
empty, mouse-out is delivered, in the order of the previous under-pointer set, to the
elements that had received mouse-over and are absent from the new under-pointer set (or not
hovering there any more), up to and including the first one that is not destroyed and whose
handler consumes the event; destroyed elements get nothing. When no handler consumes
mouse-out, every element of the previous set that is not destroyed, had received mouse-over
and is absent from the new set is sent mouse-out. -/
theorem findElementUnderPointer_mouse_out (w : World) (s : GUIManager) (pos : Vector2I)
    (bs : Bool × Bool × Bool) (sh c a : Bool) (hactive : s.activeElements = []) :
    (∃ base : GUIMouseEvent,
      receivers EventTag.mouseOut
          (sentSince s (findElementUnderPointer w s pos bs sh c a).1) =
        ((takeThrough (consumesData w base)
            (mouseOutTargets w s pos s.elementsUnderPointer
              (findElementUnderPointer w s pos bs sh c a).1.elementsUnderPointer)).filter
          fun p => !w.isDestroyed p.1).map Prod.fst) ∧
    ((∀ (e : Nat) (ev : GUIMouseEvent), ev.data.tag = EventTag.mouseOut →
        w.mouseEvent e ev = false) →
      ∀ info ∈ s.elementsUnderPointer, info.receivedMouseOver = true →
        w.isDestroyed info.element = false →
        (∀ x ∈ (findElementUnderPointer w s pos bs sh c a).1.elementsUnderPointer,
          x.element ≠ info.element) →
        info.element ∈ receivers EventTag.mouseOut
          (sentSince s (findElementUnderPointer w s pos bs sh c a).1)) := by
  obtain ⟨base, hbase⟩ := findElementUnderPointer_mouseOut w s pos bs sh c a
  refine ⟨⟨base, hbase⟩, ?_⟩
  intro hquiet info hinfo hrecv halive habsent
  rw [hbase, takeThrough_eq_self]
  · refine List.mem_map.2 ⟨(info.element, GUIMouseEventData.MouseOut
      (getWidgetRelativePos w info.widget pos)), List.mem_filter.2 ⟨?_, by simp [halive]⟩, rfl⟩
    unfold mouseOutTargets
    refine List.mem_map.2 ⟨info, List.mem_filter.2 ⟨hinfo, ?_⟩, rfl⟩
    have hfind : List.find? (fun x => x.element == info.element)
        (findElementUnderPointer w s pos bs sh c a).1.elementsUnderPointer = none := by
      rw [List.find?_eq_none]
      intro x hx
      simpa using habsent x hx
    simp [hrecv, hfind, activeOrNoneActive, hactive]
  · intro p hp
    have htag := mouseOutTargets_tag w s pos _ _ p hp
    unfold consumesData
    rw [hquiet p.1 _ (by simpa using htag)]
    simp

/-- Witness for `findElementUnderPointer_mouse_out`: the hit test off the window in
`exampleMouseOutWorld`. -/
theorem findElementUnderPointer_mouse_out_witness :
    (∃ base : GUIMouseEvent,
      receivers EventTag.mouseOut
          (sentSince exampleMouseOutManager
            (findElementUnderPointer exampleMouseOutWorld exampleMouseOutManager
              exampleOffWindow (false, false, false) false false false).1) =
        ((takeThrough (consumesData exampleMouseOutWorld base)
            (mouseOutTargets exampleMouseOutWorld exampleMouseOutManager exampleOffWindow
              exampleMouseOutManager.elementsUnderPointer
              (findElementUnderPointer exampleMouseOutWorld exampleMouseOutManager
                exampleOffWindow (false, false, false) false false
                false).1.elementsUnderPointer)).filter
          fun p => !exampleMouseOutWorld.isDestroyed p.1).map Prod.fst) ∧
    ((∀ (e : Nat) (ev : GUIMouseEvent), ev.data.tag = EventTag.mouseOut →
        exampleMouseOutWorld.mouseEvent e ev = false) →
      ∀ info ∈ exampleMouseOutManager.elementsUnderPointer, info.receivedMouseOver = true →
        exampleMouseOutWorld.isDestroyed info.element = false →
        (∀ x ∈ (findElementUnderPointer exampleMouseOutWorld exampleMouseOutManager
            exampleOffWindow (false, false, false) false false false).1.elementsUnderPointer,
          x.element ≠ info.element) →
        info.element ∈ receivers EventTag.mouseOut
          (sentSince exampleMouseOutManager
            (findElementUnderPointer exampleMouseOutWorld exampleMouseOutManager
              exampleOffWindow (false, false, false) false false false).1)) :=
  findElementUnderPointer_mouse_out exampleMouseOutWorld exampleMouseOutManager
    exampleOffWindow (false, false, false) false false false (by decide)

/-! ## Focus events at most once -/

/-- C28, counterexample. In `exampleDoubleManager` widget 1 is registered twice; the
under-pointer set and the focus set are empty, so neither has a repeated element. The hit
test of a press in `exampleWorldQuiet` finds every element of the widget twice, the
focus-gained loop sends focus-gained to each of the six records, and the new focus set holds
every element twice. -/
theorem focus_once_counterexample :
    (exampleDoubleManager.elementsUnderPointer.map fun x => x.element).Nodup ∧
    (exampleDoubleManager.elementsInFocus.map fun x => x.element).Nodup ∧
    ∃ s' used, onPointerPressed exampleWorldQuiet exampleDoubleManager (leftButtonAt 0 0) =
        Except.ok (s', used) ∧
      receivers EventTag.focusGained (sentSince exampleDoubleManager s') = [1, 1, 2, 2, 3, 3] ∧
      s'.elementsInFocus.map (fun x => x.element) = [1, 1, 2, 2, 3, 3] ∧
      ¬ (receivers EventTag.focusGained (sentSince exampleDoubleManager s')).Nodup :=
  ⟨by decide, by decide, _, _, rfl, by decide, by decide, by decide⟩

/-- C28 (amended). Focus events at most once: for every unused press with a supported
button such that the under-pointer set computed by the hit test of the press and the focus
set before the press contain no repeated element, no element is sent more than one
focus-gained event, no element is sent more than one focus-lost event, and the focus set
after the press contains no repeated element. -/
theorem onPointerPressed_focus_once (w : World) (s : GUIManager) (event : PointerEvent)
    (guiButton : GUIMouseButton) (hu : event.used = false)
    (hb : buttonToGUIButton event.button = Except.ok guiButton)
    (hhov : ((hoveredList w s event).map fun x => x.element).Nodup)
    (hfoc : (s.elementsInFocus.map fun x => x.element).Nodup) :
    ∃ s' used, onPointerPressed w s event = Except.ok (s', used) ∧
      (receivers EventTag.focusGained (sentSince s s')).Nodup ∧
      (receivers EventTag.focusLost (sentSince s s')).Nodup ∧
      (s'.elementsInFocus.map fun x => x.element).Nodup := by
  obtain ⟨s', used, hpress, out⟩ := onPointerPressed_spec w s event guiButton hu hb
  have hvis : ((focusVisited w s event).map fun x => x.element).Nodup :=
    hhov.sublist ((takeThrough_sublist _ _).map _)
  refine ⟨s', used, hpress, ?_, ?_, ?_⟩
  · rw [out.focusGained_receivers]
    exact hvis.sublist ((List.filter_sublist _).map _)
  · rw [out.lost_eq]
    exact hfoc.sublist ((List.filter_sublist _).map _)
  · rw [out.focus_eq, List.map_map]
    have : ((fun x : ElementFocusInfo => x.element) ∘ focusRecord w s.elementsInFocus) =
        fun x : ElementInfoUnderPointer => x.element :=
      funext fun x => focusRecord_element w s.elementsInFocus x
    rw [this]
    exact hvis

/-- Witness for `onPointerPressed_focus_once`: a press in `exampleWorld` while the elements 3
and 1 have focus. -/
theorem onPointerPressed_focus_once_witness :
    ∃ s' used, onPointerPressed exampleWorld exampleFocusManager (leftButtonAt 0 0) =
        Except.ok (s', used) ∧
      (receivers EventTag.focusGained (sentSince exampleFocusManager s')).Nodup ∧
      (receivers EventTag.focusLost (sentSince exampleFocusManager s')).Nodup ∧
      (s'.elementsInFocus.map fun x => x.element).Nodup :=
  onPointerPressed_focus_once exampleWorld exampleFocusManager (leftButtonAt 0 0)
    GUIMouseButton.Left rfl rfl (by decide) (by decide)

/-! ## Forced focus gain -/

/-- C29. Forced focus gain: when the loop of `update` over the queued focus requests applies
a request `setFocus(e, true)` for an element `e` that is not destroyed, then, if `e` is in
the focus set already, the manager is left as it is (the focus set is unchanged and nothing
is sent); otherwise the record of `e`, with its parent widget and `usesFocus` cleared, is
appended to the focus set and exactly one event, a focus-gained command to `e`, is sent.
`setFocus` itself leaves the routing state (focus set and record of sent events included)
as it is and appends the request to the queue. The queue is empty after the pass over the
requests and after `update`. -/
theorem forced_focus_gain (w : World) (st : FrameState) (e : Nat)
    (he : st.isDestroyed w e = false) :
    ((∃ r ∈ st.gui.elementsInFocus, r.element = e) →
      applyForcedFocus w st { element := e, focus := true } = st) ∧
    ((∀ r ∈ st.gui.elementsInFocus, r.element ≠ e) →
      (applyForcedFocus w st { element := e, focus := true }).gui.elementsInFocus =
        st.gui.elementsInFocus ++
          [{ element := e, widget := w.parentWidget e, usesFocus := false }] ∧
      (applyForcedFocus w st { element := e, focus := true }).gui.sent =
        st.gui.sent ++
          [{ element := e, event := GUIEvent.command GUICommandEventType.FocusGained }]) ∧
    (∀ focus : Bool, (setFocus e focus st).gui = st.gui ∧
      (setFocus e focus st).forcedFocusElements =
        st.forcedFocusElements ++ [{ element := e, focus := focus }]) ∧
    (forcedFocusPass w st).forcedFocusElements = [] ∧
    ∀ (fuel : Nat) (tooltipDue caretDue : Bool) (st' : FrameState),
      update w fuel tooltipDue caretDue st = some st' → st'.forcedFocusElements = [] := by
  refine ⟨?_, ?_, fun focus => ⟨rfl, rfl⟩, rfl, ?_⟩
  · rintro ⟨r, hr, hre⟩
    unfold applyForcedFocus
    simp only
    rw [if_neg (by rw [he]; simp), if_pos trivial, if_pos]
    rw [List.any_eq_true]
    exact ⟨r, hr, by simpa using hre⟩
  · intro hnot
    have hany : ¬ (st.gui.elementsInFocus.any fun x => x.element == e) = true := by
      rw [List.any_eq_true]
      rintro ⟨r, hr, hre⟩
      exact hnot r hr (by simpa using hre)
    unfold applyForcedFocus
    simp only
    rw [if_neg (by rw [he]; simp), if_pos trivial, if_neg hany]
    obtain ⟨st1, hst1⟩ : ∃ st1 : FrameState, st1 =
        { st with
          gui :=
            { st.gui with
              elementsInFocus := st.gui.elementsInFocus ++
                [{ element := e, widget := w.parentWidget e, usesFocus := false }] } } :=
      ⟨_, rfl⟩
    rw [← hst1]
    obtain ⟨⟨m, hm⟩, -, -⟩ := frameSendCommandEvent_fields w st1 e
      GUICommandEventType.FocusGained
    have he1 : st1.isDestroyed w e = false := by rw [hst1]; exact he
    rw [he1] at hm
    rw [hm, hst1]
    exact ⟨rfl, rfl⟩
  · intro fuel tooltipDue caretDue st' h
    exact (update_step w fuel tooltipDue caretDue st st' h).2.2.2.1

/-- Witness for `forced_focus_gain`: in `exampleCaretState` element 1 has focus and focus is
requested for element 2; the update that follows returns with the queue empty and element 2
appended to the focus set. -/
theorem forced_focus_gain_witness :
    (applyForcedFocus {} exampleCaretState { element := 2, focus := true }).gui.elementsInFocus =
      [{ element := 1, widget := 1, usesFocus := false },
       { element := 2, widget := 0, usesFocus := false }] ∧
    ∃ st', update {} 1 false false (setFocus 2 true exampleCaretState) = some st' ∧
      st'.forcedFocusElements = [] ∧
      st'.gui.elementsInFocus.map (fun r => r.element) = [1, 2] :=
  ⟨((forced_focus_gain {} exampleCaretState 2 rfl).2.1 (by decide)).1, _, rfl,
    (forced_focus_gain {} (setFocus 2 true exampleCaretState) 2 rfl).2.2.2.2 1 false false _ rfl,
    rfl⟩
/-! ## Routing of a drop -/

/-- C30, counterexample. In `exampleDropWorld` a payload drag that needs a valid drop target
is in progress and the elements 1, 2, 3 are under the pointer. Every element accepts the
drop and no handler consumes the drop event. When the drag ends with the left button,
element 1 is the first acceptor, yet the elements 2 and 3 behind it are asked as well and
are sent a drop event. -/
theorem drop_routing_counterexample :
    exampleDropWorld.isDragInProgress = true ∧
    exampleHoverManager.elementsUnderPointer.map (fun x => x.element) = [1, 2, 3] ∧
    exampleHoverManager.elementsUnderPointer.map (acceptsDrop exampleDropWorld { x := 0, y := 0 }) =
      [true, true, true] ∧
    ∃ s' processed, onMouseDragEnded exampleDropWorld exampleHoverManager (leftButtonAt 0 0) =
        Except.ok (s', processed, [1, 2, 3]) ∧
      receivers EventTag.dragAndDropDropped (sentSince exampleHoverManager s') = [1, 2, 3] :=
  ⟨rfl, by decide, by decide, _, _, rfl, by decide⟩

/-- C30 (amended). Drop routing: in `onMouseDragEnded` with a payload drag in progress and
the left button, the hovered elements are visited front to back up to and including the
first one that accepts the drop, is not destroyed and whose handler consumes the drop event.
The elements asked whether they accept are the visited ones (none is asked when the drag
needs no valid target), the drop event is delivered to the visited ones that accept and are
not destroyed, and the drag counts as processed exactly when the scan was stopped. No
element behind the one that stopped the scan is asked or sent a drop event. -/
theorem onMouseDragEnded_drop_routing (w : World) (s : GUIManager) (event : PointerEvent)
    (hdrag : w.isDragInProgress = true) (hb : event.button = PointerEventButton.Left) :
    ∃ s' processed queried,
      onMouseDragEnded w s event = Except.ok (s', processed, queried) ∧
      queried =
        (if w.needsValidDropTarget then
          (takeThrough (consumesDrop w s.mouseEvent event.screenPos) s.elementsUnderPointer).map
            fun info => info.element
        else []) ∧
      receivers EventTag.dragAndDropDropped (sentSince s s') =
        ((takeThrough (consumesDrop w s.mouseEvent event.screenPos)
            s.elementsUnderPointer).filter fun info =>
          acceptsDrop w event.screenPos info && !w.isDestroyed info.element).map
          (fun info => info.element) ∧
      processed = s.elementsUnderPointer.any (consumesDrop w s.mouseEvent event.screenPos) ∧
      ∀ (front : List ElementInfoUnderPointer) (c : ElementInfoUnderPointer)
          (back : List ElementInfoUnderPointer),
        s.elementsUnderPointer = front ++ c :: back →
        (∀ x ∈ front, consumesDrop w s.mouseEvent event.screenPos x = false) →
        consumesDrop w s.mouseEvent event.screenPos c = true →
        (∀ e ∈ queried, e ∈ (front ++ [c]).map fun info => info.element) ∧
        (receivers EventTag.dragAndDropDropped (sentSince s s')).Sublist
          ((front ++ [c]).map fun info => info.element) := by
  obtain ⟨extra, hd, hsig, hproc, hq⟩ := dropLoop_spec w event.screenPos s.elementsUnderPointer s
  have hrecv : receivers EventTag.dragAndDropDropped
      (sentSince s (dropLoop w event.screenPos s.elementsUnderPointer s).1) =
      ((takeThrough (consumesDrop w s.mouseEvent event.screenPos)
          s.elementsUnderPointer).filter fun info =>
        acceptsDrop w event.screenPos info && !w.isDestroyed info.element).map
        (fun info => info.element) := by
    rw [hd.sentSince]
    exact receivers_of_sigs _ _ _ _ hsig
  refine ⟨(dropLoop w event.screenPos s.elementsUnderPointer s).1,
    (dropLoop w event.screenPos s.elementsUnderPointer s).2.1,
    (dropLoop w event.screenPos s.elementsUnderPointer s).2.2, ?_, hq, hrecv, hproc, ?_⟩
  · unfold onMouseDragEnded
    rw [hb]
    simp [buttonToGUIButton, hdrag]
  · intro front c back hsplit hfront hc
    rw [hq, hrecv, hsplit, takeThrough_append_first _ _ _ _ hfront hc]
    constructor
    · intro e he
      split_ifs at he
      · exact he
      · cases he
    · exact (List.filter_sublist _).map _

/-- Witness for `onMouseDragEnded_drop_routing`: the end of the drag in `exampleDropWorld`. -/
theorem onMouseDragEnded_drop_routing_witness :
    ∃ s' processed queried,
      onMouseDragEnded exampleDropWorld exampleHoverManager (leftButtonAt 0 0) = Except.ok (s', processed, queried) ∧
      queried =
        (if exampleDropWorld.needsValidDropTarget then
          (takeThrough (consumesDrop exampleDropWorld exampleHoverManager.mouseEvent (leftButtonAt 0 0).screenPos) exampleHoverManager.elementsUnderPointer).map
            fun info => info.element
        else []) ∧
      receivers EventTag.dragAndDropDropped (sentSince exampleHoverManager s') =
        ((takeThrough (consumesDrop exampleDropWorld exampleHoverManager.mouseEvent (leftButtonAt 0 0).screenPos)
            exampleHoverManager.elementsUnderPointer).filter fun info =>
          acceptsDrop exampleDropWorld (leftButtonAt 0 0).screenPos info && !exampleDropWorld.isDestroyed info.element).map
          (fun info => info.element) ∧
      processed = exampleHoverManager.elementsUnderPointer.any (consumesDrop exampleDropWorld exampleHoverManager.mouseEvent (leftButtonAt 0 0).screenPos) ∧
      ∀ (front : List ElementInfoUnderPointer) (c : ElementInfoUnderPointer)
          (back : List ElementInfoUnderPointer),
        exampleHoverManager.elementsUnderPointer = front ++ c :: back →
        (∀ x ∈ front, consumesDrop exampleDropWorld exampleHoverManager.mouseEvent (leftButtonAt 0 0).screenPos x = false) →
        consumesDrop exampleDropWorld exampleHoverManager.mouseEvent (leftButtonAt 0 0).screenPos c = true →
        (∀ e ∈ queried, e ∈ (front ++ [c]).map fun info => info.element) ∧
        (receivers EventTag.dragAndDropDropped (sentSince exampleHoverManager s')).Sublist
          ((front ++ [c]).map fun info => info.element) :=
  onMouseDragEnded_drop_routing exampleDropWorld exampleHoverManager (leftButtonAt 0 0) rfl rfl

/-! ## Drag cursor -/

/-- C31, counterexample. During a payload drag that needs a valid drop target the pointer
moves over the elements 1, 2, 3 (front to back) of which only element 1 accepts the payload
and nobody consumes the dragged event: the cursor becomes `Deny` although a hovered element
accepts. And with nothing under the pointer the cursor becomes `ArrowDrag` although no
hovered element accepts. -/
theorem drag_cursor_counterexample :
    (hoveredList exampleDragCursorWorld exampleDraggingManager (moveTo 5 0)).map
        (fun info => info.element) = [1, 2, 3] ∧
    (hoveredList exampleDragCursorWorld exampleDraggingManager (moveTo 5 0)).map
        (acceptsDragged exampleDragCursorWorld { x := 5, y := 0 }) = [true, false, false] ∧
    (onPointerMoved exampleDragCursorWorld exampleDraggingManager (moveTo 5 0)).1.activeCursor =
      CursorType.Deny ∧
    hoveredList exampleDragOffWorld exampleDraggingManager (moveTo 5 0) = [] ∧
    (onPointerMoved exampleDragOffWorld exampleDraggingManager (moveTo 5 0)).1.activeCursor =
      CursorType.ArrowDrag :=
  ⟨by decide, by decide, by decide, by decide, by decide⟩

/-- C31 (amended). Drag cursor: after an unused pointer move handled while `Dragging` (or
entering it) with a payload drag in progress, the active cursor follows the answer of the
last hovered element the drag-and-drop loop visited, front to back up to the first element
that accepts and consumes the dragged event: `ArrowDrag` if that element accepts the payload
or no element is hovered, `Deny` if it does not accept. So the cursor is `ArrowDrag` when
every hovered element accepts or some hovered element accepts and consumes the event, and
`Deny` when the hovered list is not empty and no hovered element accepts. -/
theorem onPointerMoved_drag_cursor (w : World) (s : GUIManager) (event : PointerEvent)
    (hu : event.used = false)
    (hdrag : s.dragState = DragState.Dragging ∨ startsDrag s event)
    (hprog : w.isDragInProgress = true) :
    ∃ base : GUIMouseEvent,
      (onPointerMoved w s event).1.activeCursor =
        (match (takeThrough (consumesDragged w base event.screenPos)
            (hoveredList w s event)).getLast? with
          | none => CursorType.ArrowDrag
          | some info =>
            if acceptsDragged w event.screenPos info then CursorType.ArrowDrag
            else CursorType.Deny) ∧
      (hoveredList w s event = [] →
        (onPointerMoved w s event).1.activeCursor = CursorType.ArrowDrag) ∧
      ((∀ info ∈ hoveredList w s event, acceptsDragged w event.screenPos info = true) →
        (onPointerMoved w s event).1.activeCursor = CursorType.ArrowDrag) ∧
      (hoveredList w s event ≠ [] →
        (∀ info ∈ hoveredList w s event, acceptsDragged w event.screenPos info = false) →
        (onPointerMoved w s event).1.activeCursor = CursorType.Deny) ∧
      ((∃ info ∈ hoveredList w s event,
          consumesDragged w base event.screenPos info = true) →
        (onPointerMoved w s event).1.activeCursor = CursorType.ArrowDrag) := by
  obtain ⟨base, eHit, eStart, eDnd, -, -, -, -, hc⟩ := onPointerMoved_dragging w s event hu hdrag
  have hcur := hc hprog
  obtain ⟨c1, c2, c3, c4⟩ := lastAccepts_cases w base event.screenPos (hoveredList w s event)
  refine ⟨base, ?_, ?_, ?_, ?_, ?_⟩
  · rw [hcur]
    unfold lastAccepts
    cases (takeThrough (consumesDragged w base event.screenPos)
      (hoveredList w s event)).getLast? with
    | none => rfl
    | some info => rfl
  · intro h; rw [hcur, c1 h]; rfl
  · intro h; rw [hcur, c2 h]; rfl
  · intro h1 h2; rw [hcur, c3 h1 h2]; rfl
  · intro h; rw [hcur, c4 h]; rfl

/-- Witness for `onPointerMoved_drag_cursor`: in `exampleDropWorld` every hovered element
accepts the payload and the cursor becomes `ArrowDrag`. -/
theorem onPointerMoved_drag_cursor_witness :
    (hoveredList exampleDropWorld exampleDraggingManager (moveTo 5 0)).map
        (fun info => info.element) = [1, 2, 3] ∧
    (onPointerMoved exampleDropWorld exampleDraggingManager (moveTo 5 0)).1.activeCursor =
      CursorType.ArrowDrag := by
  obtain ⟨base, -, -, h, -⟩ := onPointerMoved_drag_cursor exampleDropWorld
    exampleDraggingManager (moveTo 5 0) rfl (Or.inl rfl) rfl
  exact ⟨by decide, h (by decide)⟩

/-! ## Final draw order -/

/-- C32. Final draw order: after the rebuild of a render target by `updateMeshes`, batch `i`
of the cache holds the material and the mesh data of group `i` of the sorted groups, and the
groups are in non-increasing order of depth: for `i < j` the depth of the group stored at
`i` is greater than or equal to the depth of the group stored at `j`. The heap is taken to
have handed out every live and every cached mesh. -/
theorem rebuildMeshes_draw_order (w : World) (separateMeshesByWidget : Bool)
    (rd : GUIRenderData) (heap : MeshHeap) (hheap : heap.WellFormed)
    (hfresh : ∀ m ∈ rd.cachedMeshes, m < heap.nextHandle) :
    ∃ groups : List GUIMaterialGroup,
      groups = (drawOrder w separateMeshesByWidget w.groupAddress rd.widgets).map Prod.snd ∧
      (rebuildMeshes w separateMeshesByWidget rd heap).1.cachedMeshes.length = groups.length ∧
      (∀ (i : Nat) (g : GUIMaterialGroup), groups[i]? = some g →
        (rebuildMeshes w separateMeshesByWidget rd heap).1.cachedMaterials[i]? =
          some g.matInfo ∧
        ∃ mesh, (rebuildMeshes w separateMeshesByWidget rd heap).1.cachedMeshes[i]? =
            some mesh ∧
          (rebuildMeshes w separateMeshesByWidget rd heap).2.meshData mesh =
            some (groupMeshData w g)) ∧
      ∀ (i j : Nat) (gi gj : GUIMaterialGroup), i < j → groups[i]? = some gi →
        groups[j]? = some gj → gj.depth ≤ gi.depth := by
  obtain ⟨s1, s2, -, -, -, -⟩ := rebuildMeshes_spec w separateMeshesByWidget rd heap
  refine ⟨_, rfl, by rw [s1]; simp, ?_, ?_⟩
  · intro i g hg
    rw [List.getElem?_map] at hg
    cases hi : (drawOrder w separateMeshesByWidget w.groupAddress rd.widgets)[i]? with
    | none => rw [hi] at hg; cases hg
    | some ig =>
      rw [hi] at hg
      simp only [Option.map_some', Option.some.injEq] at hg
      subst hg
      obtain ⟨m1, m2⟩ := rebuildMeshes_meshData w separateMeshesByWidget rd heap hheap hfresh
        i ig hi
      refine ⟨?_, _, m1, m2⟩
      rw [s2, List.getElem?_map, hi]
      rfl
  · intro i j gi gj hij hi hj
    have hs := sortedGroups_sorted w.groupAddress
      (materialGroups w separateMeshesByWidget rd.widgets)
    have hs2 : ((drawOrder w separateMeshesByWidget w.groupAddress rd.widgets).map
        Prod.snd).Pairwise fun a b => b.depth ≤ a.depth := by
      rw [List.pairwise_map]
      exact hs
    rw [List.pairwise_iff_getElem] at hs2
    obtain ⟨hi1, hi2⟩ := List.getElem?_eq_some_iff.mp hi
    obtain ⟨hj1, hj2⟩ := List.getElem?_eq_some_iff.mp hj
    rw [← hi2, ← hj2]
    exact hs2 i j hi1 hj1 hij

/-- Witness for `rebuildMeshes_draw_order`: the first rebuild of a render target with the
widgets 1 and 2 of `exampleBatchWorld` on an empty heap. -/
theorem rebuildMeshes_draw_order_witness :
    ∃ groups : List GUIMaterialGroup,
      groups = (drawOrder exampleBatchWorld true exampleBatchWorld.groupAddress
        [1, 2]).map Prod.snd ∧
      (rebuildMeshes exampleBatchWorld true { widgets := [1, 2] } {}).1.cachedMeshes.length =
        groups.length ∧
      (∀ (i : Nat) (g : GUIMaterialGroup), groups[i]? = some g →
        (rebuildMeshes exampleBatchWorld true { widgets := [1, 2] } {}).1.cachedMaterials[i]? =
          some g.matInfo ∧
        ∃ mesh, (rebuildMeshes exampleBatchWorld true { widgets := [1, 2] }
            {}).1.cachedMeshes[i]? = some mesh ∧
          (rebuildMeshes exampleBatchWorld true { widgets := [1, 2] } {}).2.meshData mesh =
            some (groupMeshData exampleBatchWorld g)) ∧
      ∀ (i j : Nat) (gi gj : GUIMaterialGroup), i < j → groups[i]? = some gi →
        groups[j]? = some gj → gj.depth ≤ gi.depth :=
  rebuildMeshes_draw_order exampleBatchWorld true { widgets := [1, 2] } {}
    (fun p hp => by cases hp) (fun m hm => by cases hm)

/-! ## Render-side snapshot -/

/-- C33. Render-side snapshot: after `GUIManagerCore::updateData` the stored per-camera map
answers every camera lookup like the new map (so it has exactly the cameras of the new map,
each with the entry list of the new map, once), a render callback is registered exactly
once for each camera present in the new map and absent before, and unregistered exactly
once for each camera present before and absent from the new map. The maps are lists of
entries with distinct cameras, as the keys of an unordered map are. -/
theorem updateData_snapshot (newPerCameraData : List (Nat × List GUICoreRenderData))
    (core : GUIManagerCore) (hnew : (newPerCameraData.map Prod.fst).Nodup)
    (hold : (core.perCameraData.map Prod.fst).Nodup) :
    (∀ camera, cameraFind (updateData newPerCameraData core).perCameraData camera =
      cameraFind newPerCameraData camera) ∧
    ((updateData newPerCameraData core).perCameraData.map Prod.fst).Nodup ∧
    (∃ added, (updateData newPerCameraData core).registered = core.registered ++ added ∧
      added.Nodup ∧
      ∀ camera, camera ∈ added ↔
        camera ∈ newPerCameraData.map Prod.fst ∧ camera ∉ core.perCameraData.map Prod.fst) ∧
    ∃ removed, (updateData newPerCameraData core).unregistered = core.unregistered ++ removed ∧
      removed.Nodup ∧
      ∀ camera, camera ∈ removed ↔
        camera ∈ core.perCameraData.map Prod.fst ∧ camera ∉ newPerCameraData.map Prod.fst := by
  obtain ⟨l1, l2, l3, l4, l5⟩ := updateDataLoop_spec newPerCameraData core [] hnew
  rw [List.nil_append] at l1
  obtain ⟨r, hr⟩ : ∃ r, r = updateDataLoop newPerCameraData core [] := ⟨_, rfl⟩
  rw [← hr] at l1 l2 l3 l4 l5
  obtain ⟨rm, hrm⟩ : ∃ rm : List Nat, rm =
      (r.1.perCameraData.filter fun cameraData => decide (cameraData.1 ∉ r.2)).map Prod.fst :=
    ⟨_, rfl⟩
  have hupd : updateData newPerCameraData core = removeCameras rm r.1 := by
    rw [hrm, hr]; rfl
  obtain ⟨m1, m2, m3⟩ := removeCameras_spec rm r.1
  have hkeysNodup : (r.1.perCameraData.map Prod.fst).Nodup := by
    rw [l4, List.nodup_append]
    refine ⟨hold, hnew.filter _, ?_⟩
    intro c hc1 hc2
    have := (List.mem_filter.mp hc2).2
    simp only [decide_eq_true_eq] at this
    exact this hc1
  have hrmmem : ∀ c, c ∈ rm ↔
      c ∈ core.perCameraData.map Prod.fst ∧ c ∉ newPerCameraData.map Prod.fst := by
    intro c
    rw [hrm, List.mem_map]
    constructor
    · rintro ⟨p, hp, rfl⟩
      obtain ⟨hp1, hp2⟩ := List.mem_filter.mp hp
      simp only [decide_eq_true_eq] at hp2
      rw [l1] at hp2
      have hk : p.1 ∈ r.1.perCameraData.map Prod.fst := List.mem_map.mpr ⟨p, hp1, rfl⟩
      rw [l4] at hk
      rcases List.mem_append.mp hk with hk | hk
      · exact ⟨hk, hp2⟩
      · exact absurd (List.mem_filter.mp hk).1 hp2
    · rintro ⟨h1, h2⟩
      have hk : c ∈ r.1.perCameraData.map Prod.fst := by
        rw [l4]; exact List.mem_append_left _ h1
      obtain ⟨p, hp, rfl⟩ := List.mem_map.mp hk
      refine ⟨p, List.mem_filter.mpr ⟨hp, ?_⟩, rfl⟩
      simp only [decide_eq_true_eq]
      rw [l1]
      exact h2
  have hrmNodup : rm.Nodup := by
    rw [hrm]
    have hsub : ((r.1.perCameraData.filter fun cameraData =>
        decide (cameraData.1 ∉ r.2)).map Prod.fst).Sublist (r.1.perCameraData.map Prod.fst) :=
      (List.filter_sublist _).map _
    exact hkeysNodup.sublist hsub
  rw [hupd]
  refine ⟨?_, ?_, ⟨_, m2.trans l2, hnew.filter _, ?_⟩, ⟨rm, m1.trans (by rw [l3]), hrmNodup,
    hrmmem⟩⟩
  · intro c
    rw [m3, cameraFind_filter (fun k => decide (k ∉ rm)) r.1.perCameraData c, l5]
    by_cases hc : c ∈ newPerCameraData.map Prod.fst
    · have h1 : c ∉ rm := fun h => ((hrmmem c).1 h).2 hc
      rw [if_pos (by simpa using h1)]
      cases hf : cameraFind newPerCameraData c with
      | some e => rfl
      | none => exact absurd hc ((cameraFind_eq_none_iff _ _).1 hf)
    · have hn : cameraFind newPerCameraData c = none := (cameraFind_eq_none_iff _ _).2 hc
      rw [hn]
      by_cases h1 : c ∈ rm
      · rw [if_neg (by simpa using h1)]
      · rw [if_pos (by simpa using h1)]
        simp only
        rw [cameraFind_eq_none_iff]
        intro hk
        exact h1 ((hrmmem c).2 ⟨hk, hc⟩)
  · rw [m3]
    exact hkeysNodup.sublist ((List.filter_sublist _).map _)
  · intro c
    rw [List.mem_filter]
    simp

/-- Witness for `updateData_snapshot`: the cameras 1 and 2 are stored and the snapshot holds
the cameras 2 and 3, so the callback of camera 3 is registered and that of camera 1
unregistered. -/
theorem updateData_snapshot_witness :
    (updateData exampleSnapshot exampleCore).registered = [3] ∧
    (updateData exampleSnapshot exampleCore).unregistered = [1] ∧
    ∀ camera, cameraFind (updateData exampleSnapshot exampleCore).perCameraData camera =
      cameraFind exampleSnapshot camera :=
  ⟨rfl, rfl, (updateData_snapshot exampleSnapshot exampleCore (by decide) (by decide)).1⟩

/-! ## Running quad offset -/

/-- C34. Running quad offset: when the mesh of a group of the draw order is filled, the mesh
has 4 vertices and 6 indices per quad of the group, the fill callback of the `k`-th member
gets as quad offset the sum of the quad counts of the members before it, its index range
`[6 * offset, 6 * (offset + quads))` lies within the indices of the mesh, the vertex offset
added is `4 * offset`, and the offset after the last member equals the `numQuads` of the
group. -/
theorem fill_running_offset (w : World) (separateMeshesByWidget : Bool) (widgets : List Nat) :
    ∀ ig ∈ drawOrder w separateMeshesByWidget w.groupAddress widgets,
      (groupMeshData w ig.2).numVertices = 4 * ig.2.numQuads ∧
      (groupMeshData w ig.2).numIndices = 6 * ig.2.numQuads ∧
      (groupMeshData w ig.2).fills.length = ig.2.elements.length ∧
      (fillLoop w ig.2.numQuads ig.2.elements 0).2 = ig.2.numQuads ∧
      ∀ (k : Nat) (e : GUIGroupElement), ig.2.elements[k]? = some e →
        ∃ r : FillRecord, (groupMeshData w ig.2).fills[k]? = some r ∧
          r.element = e.element ∧ r.renderElement = e.renderElement ∧
          r.maxNumQuads = ig.2.numQuads ∧
          r.quadOffset = ((ig.2.elements.take k).map (memberQuads w)).sum ∧
          r.indexStart = 6 * r.quadOffset ∧
          r.indexEnd = 6 * (r.quadOffset + memberQuads w e) ∧
          r.indexEnd ≤ (groupMeshData w ig.2).numIndices ∧
          r.vertOffset = 4 * r.quadOffset := by
  intro ig hig
  have inv := materialGroupInv_materialGroups w separateMeshesByWidget widgets ig.2
    (mem_materialGroups_of_mem_drawOrder w separateMeshesByWidget w.groupAddress widgets ig hig)
  have hq : ig.2.numQuads = (ig.2.elements.map (memberQuads w)).sum := inv.numQuads_eq
  obtain ⟨f1, f2, f3⟩ := fillLoop_spec w ig.2.numQuads ig.2.elements 0
  refine ⟨Nat.mul_comm _ _, Nat.mul_comm _ _, f2, ?_, ?_⟩
  · rw [f1, Nat.zero_add, ← hq]
  · intro k e hk
    refine ⟨_, f3 k e hk, rfl, rfl, rfl, by simp, by simp, by simp, ?_, by simp⟩
    show 6 * (0 + ((ig.2.elements.take k).map (memberQuads w)).sum + memberQuads w e) ≤
      ig.2.numQuads * 6
    have hle := sum_take_add_le (ig.2.elements.map (memberQuads w)) k (memberQuads w e)
      (by rw [List.getElem?_map, hk]; rfl)
    rw [← List.map_take] at hle
    rw [hq]
    omega

/-- Witness for `fill_running_offset`: the three groups of the widgets 1 and 2 of
`exampleBatchWorld`. -/
theorem fill_running_offset_witness :
    (drawOrder exampleBatchWorld true exampleBatchWorld.groupAddress [1, 2]).length = 3 ∧
    ∀ ig ∈ drawOrder exampleBatchWorld true exampleBatchWorld.groupAddress [1, 2],
      (groupMeshData exampleBatchWorld ig.2).numVertices = 4 * ig.2.numQuads ∧
      (groupMeshData exampleBatchWorld ig.2).numIndices = 6 * ig.2.numQuads ∧
      (groupMeshData exampleBatchWorld ig.2).fills.length = ig.2.elements.length ∧
      (fillLoop exampleBatchWorld ig.2.numQuads ig.2.elements 0).2 = ig.2.numQuads ∧
      ∀ (k : Nat) (e : GUIGroupElement), ig.2.elements[k]? = some e →
        ∃ r : FillRecord, (groupMeshData exampleBatchWorld ig.2).fills[k]? = some r ∧
          r.element = e.element ∧ r.renderElement = e.renderElement ∧
          r.maxNumQuads = ig.2.numQuads ∧
          r.quadOffset = ((ig.2.elements.take k).map (memberQuads exampleBatchWorld)).sum ∧
          r.indexStart = 6 * r.quadOffset ∧
          r.indexEnd = 6 * (r.quadOffset + memberQuads exampleBatchWorld e) ∧
          r.indexEnd ≤ (groupMeshData exampleBatchWorld ig.2).numIndices ∧
          r.vertOffset = 4 * r.quadOffset :=
  ⟨by decide, fill_running_offset exampleBatchWorld true [1, 2]⟩

/-! ## Cache sizing -/

/-- C35. Cache sizing: after the rebuild of a render target with `G` groups by
`updateMeshes`, `cachedMeshes` and `cachedMaterials` have exactly `G` entries whatever the
previous number of cached meshes, and so has `cachedWidgetsPerMesh` with
`mSeparateMeshesByWidget` set, the only value the manager ever gives it; every index used by
`update` into `cachedMaterials` and `cachedWidgetsPerMesh` while it iterates `cachedMeshes`
is then in range (`meshEntries` succeeds), and the meshes released are exactly the
previously cached ones. -/
theorem rebuildMeshes_cache_sizing (w : World) (separateMeshesByWidget : Bool)
    (rd : GUIRenderData) (heap : MeshHeap) :
    (rebuildMeshes w separateMeshesByWidget rd heap).1.cachedMeshes.length =
      (drawOrder w separateMeshesByWidget w.groupAddress rd.widgets).length ∧
    (rebuildMeshes w separateMeshesByWidget rd heap).1.cachedMaterials.length =
      (drawOrder w separateMeshesByWidget w.groupAddress rd.widgets).length ∧
    (rebuildMeshes w true rd heap).1.cachedWidgetsPerMesh.length =
      (drawOrder w true w.groupAddress rd.widgets).length ∧
    (meshEntries w (rebuildMeshes w true rd heap).1
      (rebuildMeshes w true rd heap).1.cachedMeshes 0).isSome = true ∧
    ∃ released,
      (rebuildMeshes w separateMeshesByWidget rd heap).2.released = heap.released ++ released ∧
      released.Perm rd.cachedMeshes := by
  obtain ⟨s1, s2, -, -, s5, -⟩ := rebuildMeshes_spec w separateMeshesByWidget rd heap
  obtain ⟨t1, t2, t3, -, -, -⟩ := rebuildMeshes_spec w true rd heap
  rw [if_pos rfl] at t3
  refine ⟨by rw [s1]; simp, by rw [s2]; simp, by rw [t3]; simp, ?_, _, s5, ?_⟩
  · apply meshEntries_isSome
    · rw [t1, t2]; simp
    · rw [t1, t3]; simp
  · have h : (rd.cachedMeshes.drop
          (drawOrder w separateMeshesByWidget w.groupAddress rd.widgets).length ++
        rd.cachedMeshes.take
          (drawOrder w separateMeshesByWidget w.groupAddress rd.widgets).length).Perm
        (rd.cachedMeshes.take
          (drawOrder w separateMeshesByWidget w.groupAddress rd.widgets).length ++
        rd.cachedMeshes.drop
          (drawOrder w separateMeshesByWidget w.groupAddress rd.widgets).length) :=
      List.perm_append_comm
    rw [List.take_append_drop] at h
    exact h

/-! ## Drag-continue delta -/

/-- C36, counterexample. Widget 1 of `exampleRegisterWorld` is registered twice, the left
button is pressed over it and the pointer moves to (2,2): the manager is `Dragging` with
each of the elements 1, 2, 3 twice in the active set, and the move to (5,5) sends each of
them two drag events. -/
theorem drag_twice_counterexample :
    ∃ st, applyCalls exampleRegisterWorld 1 {}
        [ManagerCall.registerWidget 1, ManagerCall.registerWidget 1,
         ManagerCall.pointer (PointerInput.pressed (leftButtonAt 0 0)),
         ManagerCall.pointer (PointerInput.moved (moveTo 2 2))] = some st ∧
      st.gui.dragState = DragState.Dragging ∧
      st.gui.activeElements.map (fun a => a.element) = [1, 1, 2, 2, 3, 3] ∧
      st.gui.lastPointerScreenPos ≠ (moveTo 5 5).screenPos ∧
      receivers EventTag.mouseDrag
        (sentSince st.gui (onPointerMoved exampleRegisterWorld st.gui (moveTo 5 5)).1) =
        [1, 1, 2, 2, 3, 3] :=
  ⟨_, rfl, by decide, by decide, by decide, by decide⟩

/-- C36 (amended). Drag-continue delta: for an unused pointer move handled while `Dragging`
(or entering it), if the screen position `p` differs from the previous pointer position, the
drag events sent are one for every record of the active set whose element is not destroyed,
in order, each with delta `p` minus the drag start position; that is exactly one for every
live active element when the active set holds it once, as it does in every state reached by
pointer events from a manager in which no widget is registered twice (every element
belonging to one widget). If `p` equals the previous pointer position no drag event is sent.
The drag start position is the screen position of the move on which `Dragging` was entered:
that move sets it, no other pointer event changes it, and `Dragging` is entered by such a
move only. -/
theorem onPointerMoved_drag_delta (w : World) (s : GUIManager) (event : PointerEvent)
    (hu : event.used = false)
    (hdrag : s.dragState = DragState.Dragging ∨ startsDrag s event) :
    (((sentSince s (onPointerMoved w s event).1).filter fun e =>
        decide (e.event.tag = EventTag.mouseDrag)).map fun e => (e.element, e.mouseData)) =
      (if s.lastPointerScreenPos ≠ event.screenPos then
        (s.activeElements.filter fun a => !w.isDestroyed a.element).map fun a =>
          (a.element,
            some (GUIMouseEventData.MouseDrag (getWidgetRelativePos w a.widget event.screenPos)
              (event.screenPos.sub (onPointerMoved w s event).1.dragStartPos)))
      else []) ∧
    ((s.activeElements.map fun a => a.element).Nodup →
      s.lastPointerScreenPos ≠ event.screenPos →
      ∀ a ∈ s.activeElements, w.isDestroyed a.element = false →
        (((sentSince s (onPointerMoved w s event).1).filter fun e =>
          decide (e.event.tag = EventTag.mouseDrag)).filter fun e =>
            decide (e.element = a.element)).length = 1) ∧
    (∀ (widgets : List Nat) (inputs : List PointerInput), OwnsElements w → widgets.Nodup →
      handleInputs w { widgets := widgets } inputs = Except.ok s →
      s.lastPointerScreenPos ≠ event.screenPos →
      ∀ a ∈ s.activeElements, w.isDestroyed a.element = false →
        (((sentSince s (onPointerMoved w s event).1).filter fun e =>
          decide (e.event.tag = EventTag.mouseDrag)).filter fun e =>
            decide (e.element = a.element)).length = 1) ∧
    (onPointerMoved w s event).1.dragStartPos =
      (if startsDrag s event then event.screenPos else s.dragStartPos) ∧
    ∀ (input : PointerInput) (s' : GUIManager), handleInput w s input = Except.ok s' →
      (input.entersDrag s → s'.dragStartPos = input.event.screenPos) ∧
      (¬ input.entersDrag s → s'.dragStartPos = s.dragStartPos) ∧
      (s'.dragState = DragState.Dragging →
        s.dragState = DragState.Dragging ∨ input.entersDrag s) := by
  obtain ⟨base, eHit, eStart, eDnd, hsent, tHit, tStart, tDnd, -⟩ :=
    onPointerMoved_dragging w s event hu hdrag
  have hpos := (onPointerMoved_spec w s event hu).dragStartPos_eq
  have hlist : (((sentSince s (onPointerMoved w s event).1).filter fun e =>
        decide (e.event.tag = EventTag.mouseDrag)).map fun e => (e.element, e.mouseData)) =
      (if s.lastPointerScreenPos ≠ event.screenPos then
        (s.activeElements.filter fun a => !w.isDestroyed a.element).map fun a =>
          (a.element,
            some (GUIMouseEventData.MouseDrag (getWidgetRelativePos w a.widget event.screenPos)
              (event.screenPos.sub (onPointerMoved w s event).1.dragStartPos)))
      else []) := ?_
  have hone : (s.activeElements.map fun a => a.element).Nodup →
      s.lastPointerScreenPos ≠ event.screenPos →
      ∀ a ∈ s.activeElements, w.isDestroyed a.element = false →
        (((sentSince s (onPointerMoved w s event).1).filter fun e =>
          decide (e.event.tag = EventTag.mouseDrag)).filter fun e =>
            decide (e.element = a.element)).length = 1 := ?_
  refine ⟨hlist, hone, ?_, hpos, fun input s' h => handleInput_dragStartPos w s s' input h⟩
  · intro widgets inputs ho hw hreach
    exact hone (handleInputs_activeInv w ho inputs { widgets := widgets } s hreach
      ⟨hw, List.nodup_nil⟩).2
  · intro hnd hne a ha hlive
    rw [if_pos hne] at hlist
    have hel := congrArg (List.map Prod.fst) hlist
    simp only [List.map_map] at hel
    have hel2 : ((sentSince s (onPointerMoved w s event).1).filter fun e =>
          decide (e.event.tag = EventTag.mouseDrag)).map (fun e => e.element) =
        (s.activeElements.filter fun a => !w.isDestroyed a.element).map fun a => a.element :=
      hel
    have hcount : ∀ (l : List SentEvent) (x : Nat),
        (l.filter fun e => decide (e.element = x)).length = (l.map fun e => e.element).count x := by
      intro l x
      induction l with
      | nil => rfl
      | cons c l ih =>
        by_cases hc : c.element = x
        · rw [List.filter_cons, if_pos (by simpa using hc), List.map_cons, hc,
            List.count_cons_self, List.length_cons, ih]
        · rw [List.filter_cons, if_neg (by simpa using hc), List.map_cons,
            List.count_cons_of_ne (fun h => hc h.symm), ih]
    rw [hcount, hel2]
    apply List.count_eq_one_of_mem
    · exact (hnd.sublist (List.Sublist.map _ (List.filter_sublist _)))
    · exact List.mem_map.mpr ⟨a, List.mem_filter.mpr ⟨ha, by simp [hlive]⟩, rfl⟩
  rw [sentSince_of_sent hsent, hpos]
  simp only [List.filter_append]
  rw [filter_tag_eq_nil _ eHit (fun e he => by
      rcases tHit e he with h | h | h <;> rw [h] <;> decide),
    filter_tag_eq_nil _ eStart (fun e he => by rw [tStart e he]; decide),
    filter_tag_eq_nil _ eDnd (fun e he => by rw [tDnd e he]; decide)]
  by_cases hne : s.lastPointerScreenPos ≠ event.screenPos
  · rw [if_pos hne, if_pos hne, filter_tag_eq_self _ _ (dragEvents_tag w base _ _ _)]
    simp only [List.nil_append, List.append_nil, dragEvents, List.map_map]
    rfl
  · rw [if_neg hne, if_neg hne]
    rfl

/-- Witness for `onPointerMoved_drag_delta`: widget 1 of `exampleRegisterWorld` is registered
once, the left button is pressed at (0,0) and the pointer moves to (2,2), where the drag
starts, and on to (5,0); each of the elements 1, 2, 3 gets one drag event with delta
(3,-2). -/
theorem onPointerMoved_drag_delta_witness :
    ∃ s, handleInputs exampleRegisterWorld { widgets := [1] }
        [PointerInput.pressed (leftButtonAt 0 0), PointerInput.moved (moveTo 2 2)] =
        Except.ok s ∧
      s.dragState = DragState.Dragging ∧
      (((sentSince s (onPointerMoved exampleRegisterWorld s (moveTo 5 0)).1).filter fun e =>
          decide (e.event.tag = EventTag.mouseDrag)).map fun e => (e.element, e.mouseData)) =
        [(1, some (GUIMouseEventData.MouseDrag { x := 5, y := 0 } { x := 3, y := -2 })),
         (2, some (GUIMouseEventData.MouseDrag { x := 5, y := 0 } { x := 3, y := -2 })),
         (3, some (GUIMouseEventData.MouseDrag { x := 5, y := 0 } { x := 3, y := -2 }))] ∧
      ∀ a ∈ s.activeElements, exampleRegisterWorld.isDestroyed a.element = false →
        (((sentSince s (onPointerMoved exampleRegisterWorld s (moveTo 5 0)).1).filter fun e =>
          decide (e.event.tag = EventTag.mouseDrag)).filter fun e =>
            decide (e.element = a.element)).length = 1 :=
  ⟨_, rfl, by decide,
    (onPointerMoved_drag_delta exampleRegisterWorld _ (moveTo 5 0) rfl
      (Or.inl (by decide))).1.trans (by decide),
    (onPointerMoved_drag_delta exampleRegisterWorld _ (moveTo 5 0) rfl
      (Or.inl (by decide))).2.2.1 [1]
      [PointerInput.pressed (leftButtonAt 0 0), PointerInput.moved (moveTo 2 2)]
      exampleRegisterWorld_owns (by decide) rfl (by decide)⟩

/-! ## Drag-state invariant -/

/-- C37. Drag-state invariant: in every state reached from the manager as constructed (with
any widgets registered) through pointer press, move, release and double-click events in a
fixed world, whenever the drag state is `HeldWithoutDrag` or `Dragging` the active set is
non-empty and the active mouse button is `Left`. -/
theorem drag_state_invariant (w : World) (widgets : List Nat) (inputs : List PointerInput)
    (s : GUIManager) (h : handleInputs w { widgets := widgets } inputs = Except.ok s)
    (hd : s.dragState = DragState.HeldWithoutDrag ∨ s.dragState = DragState.Dragging) :
    s.activeElements ≠ [] ∧ s.activeMouseButton = GUIMouseButton.Left :=
  handleInputs_dragInv w inputs { widgets := widgets } s h
    (fun h0 => by rcases h0 with h0 | h0 <;> cases h0) hd

/-- Witness for `drag_state_invariant`: a left press at (0,0) followed by a move to (10,0)
in `exampleWorld` ends in `Dragging`. -/
theorem drag_state_invariant_witness :
    ∃ s, handleInputs exampleWorld { widgets := [1] }
        [PointerInput.pressed (leftButtonAt 0 0), PointerInput.moved (moveTo 10 0)] =
        Except.ok s ∧
      s.dragState = DragState.Dragging ∧
      s.activeElements ≠ [] ∧ s.activeMouseButton = GUIMouseButton.Left :=
  ⟨_, rfl, rfl,
    drag_state_invariant exampleWorld [1]
      [PointerInput.pressed (leftButtonAt 0 0), PointerInput.moved (moveTo 10 0)] _ rfl
      (Or.inr rfl)⟩

/-! ## Mouse-over and mouse-out alternation -/

/-- C38, counterexample. Three runs of hit tests with an empty active set. Element 1 consumes
its mouse-out when the pointer leaves the window, so element 2 gets no mouse-out and, back
over the window, a second mouse-over. Element 1 consumes its mouse-over when the pointer
comes over it while element 2 is hovered, so element 2 gets a mouse-out at that hit test and
another one at the next, and is marked hovering again without a new mouse-over once the
pointer has left element 1. Widget 1 is registered twice, so element 2 gets two mouse-overs
in one hit test. -/
theorem over_out_alternation_counterexample :
    (hitTests exampleMouseOutWorld exampleManager
        [moveTo 0 0, moveTo 200 0, moveTo 0 0]).activeElements = [] ∧
    overOutTags 2 (hitTests exampleMouseOutWorld exampleManager
        [moveTo 0 0, moveTo 200 0, moveTo 0 0]).sent =
      [EventTag.mouseOver, EventTag.mouseOver] ∧
    (hitTests exampleMouseOverWorld exampleManager
        [moveTo 60 0, moveTo 0 0, moveTo 0 0, moveTo 60 0]).activeElements = [] ∧
    overOutTags 2 (hitTests exampleMouseOverWorld exampleManager
        [moveTo 60 0, moveTo 0 0, moveTo 0 0]).sent =
      [EventTag.mouseOver, EventTag.mouseOut, EventTag.mouseOut] ∧
    overOutTags 2 (hitTests exampleMouseOverWorld exampleManager
        [moveTo 60 0, moveTo 0 0, moveTo 0 0, moveTo 60 0]).sent =
      [EventTag.mouseOver, EventTag.mouseOut, EventTag.mouseOut] ∧
    (hitTests exampleMouseOverWorld exampleManager
        [moveTo 60 0, moveTo 0 0, moveTo 0 0, moveTo 60 0]).elementsUnderPointer.map
        (fun r => (r.element, r.isHovering)) = [(2, true), (3, true)] ∧
    overOutTags 2 (hitTests exampleWorldQuiet exampleDoubleManager [moveTo 0 0]).sent =
      [EventTag.mouseOver, EventTag.mouseOver] ∧
    alternatesFrom true [EventTag.mouseOver, EventTag.mouseOver] = false ∧
    alternatesFrom true [EventTag.mouseOver, EventTag.mouseOut, EventTag.mouseOut] = false := by
  refine ⟨rfl, ?_, rfl, ?_, ?_, ?_, ?_, rfl, rfl⟩ <;> decide

/-- C38 (amended). Mouse-over/mouse-out alternation: for every sequence of hit tests performed
with an empty active set, starting with nothing under the pointer, in a world in which no
handler consumes a mouse-over or a mouse-out event, every widget is registered once and
every element belongs to one widget, the mouse-over and mouse-out events delivered to any
single element strictly alternate, starting with mouse-over, and the last event of a live
element that is marked hovering is a mouse-over. -/
theorem hitTests_over_out_alternate (w : World) (s : GUIManager) (events : List PointerEvent)
    (ho : OwnsElements w) (hq : QuietHover w) (hw : s.widgets.Nodup)
    (ha : s.activeElements = []) (hu : s.elementsUnderPointer = []) (hs : s.sent = []) :
    (hitTests w s events).activeElements = [] ∧
    ∀ element : Nat,
      alternatesFrom true (overOutTags element (hitTests w s events).sent) = true ∧
      ∀ r ∈ (hitTests w s events).elementsUnderPointer, r.element = element →
        r.isHovering = true → w.isDestroyed element = false →
          (overOutTags element (hitTests w s events).sent).getLast? =
            some EventTag.mouseOver := by
  have h0 : HoverTrace w s := by
    refine ⟨ha, hw, ?_, ?_, ?_⟩
    · intro r hr
      rw [hu] at hr
      cases hr
    · rw [hu]
      exact List.nodup_nil
    · intro element
      rw [hs, hu]
      rfl
  have h := hitTests_hoverTrace w ho hq events s h0
  refine ⟨h.active, fun element => ⟨?_, ?_⟩⟩
  · rw [alternatesFrom_eq_isSome, h.tags element]
    rfl
  · intro r hr hre _ hd
    have hmem : element ∈ (hitTests w s events).elementsUnderPointer.map fun r => r.element :=
      List.mem_map.mpr ⟨r, hr, hre⟩
    have ht := h.tags element
    rw [decide_eq_true hmem, hd] at ht
    rcases expectsAfter_last _ true false ht with ⟨-, hc⟩ | hlast
    · cases hc
    · exact hlast

/-- Witness for `hitTests_over_out_alternate`: in `exampleLeaveWorld` the pointer goes over
the window, off it and back; element 2 gets mouse-over, mouse-out, mouse-over. -/
theorem hitTests_over_out_alternate_witness :
    overOutTags 2 (hitTests exampleLeaveWorld exampleManager
        [moveTo 0 0, moveTo 200 0, moveTo 0 0]).sent =
      [EventTag.mouseOver, EventTag.mouseOut, EventTag.mouseOver] ∧
    alternatesFrom true (overOutTags 2 (hitTests exampleLeaveWorld exampleManager
        [moveTo 0 0, moveTo 200 0, moveTo 0 0]).sent) = true :=
  ⟨by decide,
    ((hitTests_over_out_alternate exampleLeaveWorld exampleManager
      [moveTo 0 0, moveTo 200 0, moveTo 0 0] exampleLeaveWorld_owns (fun _ _ _ => rfl)
      (by decide) rfl rfl rfl).2 2).1⟩

/-! ## Termination of the bridge lookup -/

/-- C39. The lookup loop of `getBridgeWindow` returns after finitely many passes exactly when
the render texture is not stuck (`BridgeStuck`); it then returns in the first pass. For a
bridged render texture whose bridge element has a parent widget bound to a different
non-window render target, no number of passes suffices. -/
theorem getBridgeWindow_returns_iff (w : World) (inputBridge : List (Nat × Nat))
    (target : Nat) :
    ((∃ fuel, getBridgeWindow w inputBridge fuel target ≠ none) ↔
      ¬ BridgeStuck w inputBridge target) ∧
    (¬ BridgeStuck w inputBridge target →
      ∀ fuel, getBridgeWindow w inputBridge (fuel + 1) target ≠ none) ∧
    (BridgeStuck w inputBridge target →
      ∀ fuel, getBridgeWindow w inputBridge fuel target = none) := by
  have hstuck : BridgeStuck w inputBridge target →
      ∀ fuel, getBridgeWindow w inputBridge fuel target = none := by
    intro hs fuel
    unfold getBridgeWindow
    rw [if_neg hs.1]
    exact bridgeWindowLoop_stuck w inputBridge target
      ((bridgeWindowPass_eq_none_iff w inputBridge target hs.1).2 hs) fuel
  have hfree : ¬ BridgeStuck w inputBridge target →
      ∀ fuel, getBridgeWindow w inputBridge (fuel + 1) target ≠ none := by
    intro hs fuel
    unfold getBridgeWindow
    by_cases ht : target = 0
    · rw [if_pos ht]; simp
    · rw [if_neg ht]
      unfold bridgeWindowLoop
      cases hp : bridgeWindowPass w inputBridge target with
      | none => exact absurd ((bridgeWindowPass_eq_none_iff w inputBridge target ht).1 hp) hs
      | some r => simp
  refine ⟨⟨?_, fun hs => ⟨1, hfree hs 0⟩⟩, hfree, hstuck⟩
  rintro ⟨fuel, hf⟩ hs
  exact hf (hstuck hs fuel)

/-- C39, failing input. The render texture 1 is bridged by element 5, whose parent widget
renders to the render texture 2, not a window: the loop of `getBridgeWindow` has not
returned after any number of passes. -/
theorem getBridgeWindow_loops_forever :
    BridgeStuck exampleBridgeWorld [(1, 5)] 1 ∧
    ∀ fuel, getBridgeWindow exampleBridgeWorld [(1, 5)] fuel 1 = none :=
  ⟨⟨by decide, 5, rfl, by decide, by decide, by decide, by decide, rfl⟩,
    bridgeWindowLoop_stuck exampleBridgeWorld [(1, 5)] 1 rfl⟩

end BansheeEngine
